import Mathlib

/-!
# Two-tier MLFQ process scheduler: embedding of `queue.c` and `Simulation.c`

Heap objects (`Task`, `Process`) live in two stores indexed by handles (natural
numbers standing for the C pointers).  The queues of the engine are the lists of the
handles held by their nodes, head first; the linked representation with its `tail`
field is modelled separately (`Linked`), together with the operations that read or
write that field blindly (`enqueue*`, `frontload*`, `dequeue*`), and the list
operations are shown to agree with it on every queue whose `tail` designates the last
node.  The `size` field is only read by the report printer and is not modelled.

C `int` values are modelled by `Int`.  The three quantities that a run can drive out of
the 32-bit range, the clock (`stats->runtime++`), the accumulated ready time of a
process (`p->ready++`) and the total of the ready times (a C `float`), are written
through `wrap32` and `roundFloat`; the other counters are bounded by the number of tasks
of the input or by the quanta.
-/

namespace Sched

/-! ## Entities (queue.h) -/

/-- Task object of `queue.h`; `parent` is the handle of the owning process. -/
structure Task where
  type : Char
  time : Int
  wait : Int
  completed : Int
  interrupts : Int
  parent : Nat
  deriving DecidableEq

/-- Process object of `queue.h`; `tasks` is its queue of pending task handles. -/
structure Process where
  pid : Int
  priority : Int
  arrival : Int
  runtime : Int
  tasks : List Nat
  numTasks : Int
  currentTask : Int
  completions : Int
  interrupts : Int
  ready : Int
  taskRunning : Int
  quantum : Int
  bursts : Int
  endQueue : String
  deriving DecidableEq

/-- Statistics record of `Simulation.h`.  The field `totalWait` is a C `float`; the values it
takes are integers (sums of `int`s rounded by `roundFloat`), which is what the field
holds here. -/
structure Stats where
  instructions : Int
  startTime : Int
  runtime : Int
  maxWait : Int
  minWait : Int
  totalWait : Int
  deriving DecidableEq

/-- Value of a freshly created task (`createTask`). -/
instance : Inhabited Task := ⟨⟨'x', 0, 0, 0, 0, 0⟩⟩

/-- Value of a freshly created process (`createProcess`). -/
instance : Inhabited Process := ⟨⟨0, 0, 0, 0, [], 0, 0, 0, 0, 0, 0, 0, 0, "B"⟩⟩

/-- The constant `INT_MAX` of `Simulation.h`. -/
def INT_MAX : Int := 2147483647

/-- Value stored in a 32-bit C `int` when the result of an arithmetic operation is `x`:
the representative of `x` modulo 2^32 between -2147483648 and 2147483647 (two's
complement wrap-around, which is what the compiled `++` does at `INT_MAX`). -/
def wrap32 (x : Int) : Int := (x + 2147483648) % 4294967296 - 2147483648

/-- Position of the leading binary digit of `n` (0 for `n < 2`), found by halving at most
`fuel` times. -/
def bitPos : Nat → Nat → Nat
  | 0, _ => 0
  | fuel + 1, n => if n < 2 then 0 else bitPos fuel (n / 2) + 1

/-- Value of a C `float` (24 significant binary digits) that results from rounding the
integer `x` to nearest, ties to even: the conversion of an `int` to `float`, and the
rounding step of a `float` addition whose exact sum is `x`.  Integers of magnitude up to
16777216 are kept exactly.  (Magnitudes of 2^128 and more, which a `float` replaces by
infinity, are out of reach of a sum of 32-bit values.) -/
def roundFloat (x : Int) : Int :=
  if x.natAbs < 16777216 then x
  else
    let n := x.natAbs
    let sh := bitPos n n - 23
    let q := n / 2 ^ sh
    let r := n % 2 ^ sh
    let q1 := if 2 * r > 2 ^ sh ∨ (2 * r = 2 ^ sh ∧ q % 2 = 1) then q + 1 else q
    x.sign * ((q1 * 2 ^ sh : Nat) : Int)

/-- Statistics as set up by `initializeStats`. -/
def initializeStats : Stats := ⟨0, 0, 0, 0, INT_MAX, 0⟩

/-! ## Stores -/

/-- Write cell `i` of a store; cells never written hold the freshly created object. -/
def storeSet {α : Type} [Inhabited α] : List α → Nat → α → List α
  | [], 0, v => [v]
  | [], i + 1, v => default :: storeSet [] i v
  | _ :: xs, 0, v => v :: xs
  | x :: xs, i + 1, v => x :: storeSet xs i v

/-- Read the process behind a handle. -/
def getP (procs : List Process) (i : Nat) : Process := procs.getD i default

/-- Overwrite the process behind a handle. -/
def setP (procs : List Process) (i : Nat) (p : Process) : List Process := storeSet procs i p

/-- Read the task behind a handle. -/
def getT (tasks : List Task) (i : Nat) : Task := tasks.getD i default

/-- Overwrite the task behind a handle. -/
def setT (tasks : List Task) (i : Nat) (t : Task) : List Task := storeSet tasks i t

/-- Priority of the parent process of a task: `t->parent->priority`. -/
def taskPriority (procs : List Process) (tasks : List Task) (t : Nat) : Int :=
  (getP procs (getT tasks t).parent).priority

/-! ## Task queues (queue.c) -/

/-- Function `enqueueTask`: append at the tail. -/
def enqueueTask (q : List Nat) (t : Nat) : List Nat := q ++ [t]

/-- Function `priorityEnqueueTask`: walk past the nodes whose parent priority is greater than the
new task's, and link the new node there. -/
def priorityEnqueueTask (procs : List Process) (tasks : List Task) :
    List Nat → Nat → List Nat
  | [], t => [t]
  | c :: rest, t =>
    if taskPriority procs tasks c > taskPriority procs tasks t then
      c :: priorityEnqueueTask procs tasks rest t
    else t :: c :: rest

/-- Function `dequeueTask`: the head task (if any) and the remaining queue. -/
def dequeueTask : List Nat → Option Nat × List Nat
  | [] => (none, [])
  | t :: rest => (some t, rest)

/-- Function `removeTask`: unlink the first node holding `t`. -/
def removeTask : List Nat → Nat → List Nat
  | [], _ => []
  | c :: rest, t => if c = t then rest else c :: removeTask rest t

/-- Function `peekTask`: the head task without removing it. -/
def peekTask (q : List Nat) : Option Nat := q.head?

/-- Function `isEmptyT`. -/
def isEmptyT (q : List Nat) : Bool := q.isEmpty

/-- Function `updateIOTasks`: age every in-flight task; a task found with no time left is marked
completed, its parent is released and its node is unlinked. -/
def updateIOTasks (procs : List Process) (tasks : List Task) :
    List Nat → List Process × List Task × List Nat
  | [] => (procs, tasks, [])
  | c :: rest =>
    let t := getT tasks c
    if t.time > 0 then
      let r := updateIOTasks procs (setT tasks c { t with time := t.time - 1 }) rest
      (r.1, r.2.1, c :: r.2.2)
    else
      let tasks1 := setT tasks c { t with completed := 1 }
      let p := getP procs t.parent
      let procs1 := setP procs t.parent
        { p with taskRunning := 0, currentTask := p.currentTask + 1 }
      updateIOTasks procs1 tasks1 rest

/-- The test `p->arrival <= runtime && p->taskRunning == 0 && !isEmptyT(p->tasks)`. -/
def eligible (procs : List Process) (runtime : Int) (p : Nat) : Bool :=
  decide ((getP procs p).arrival ≤ runtime) && decide ((getP procs p).taskRunning = 0)
    && !isEmptyT (getP procs p).tasks

/-- Dequeue the next pending task of process `p` and flag its parent as running:
`t = dequeueTask(p->tasks); t->parent->taskRunning = 1;`. -/
def takeTask (procs : List Process) (tasks : List Task) (p : Nat) :
    Option Nat × List Process :=
  match dequeueTask (getP procs p).tasks with
  | (none, _) => (none, procs)
  | (some t, rest) =>
    let procs1 := setP procs p { getP procs p with tasks := rest }
    let par := (getT tasks t).parent
    (some t, setP procs1 par { getP procs1 par with taskRunning := 1 })

/-- Flag the parent of a task as running: `t->parent->taskRunning = 1`. -/
def markRunning (procs : List Process) (tasks : List Task) (t : Nat) : List Process :=
  let par := (getT tasks t).parent
  setP procs par { getP procs par with taskRunning := 1 }

/-- Process-queue scan of `getNextTask`. -/
def scanNext (procs : List Process) (tasks : List Task) (runtime : Int) :
    List Nat → Option Nat × List Process
  | [] => (none, procs)
  | p :: rest =>
    if eligible procs runtime p then
      match takeTask procs tasks p with
      | (some t, procs1) => (some t, procs1)
      | (none, _) => scanNext procs tasks runtime rest
    else scanNext procs tasks runtime rest

/-- Function `getNextTask`: result task, process store and ready queue after the call. -/
def getNextTask (procs : List Process) (tasks : List Task) (q ready : List Nat)
    (runtime : Int) : Option Nat × List Process × List Nat :=
  if !isEmptyT ready then
    match dequeueTask ready with
    | (some nextTask, ready1) => (some nextTask, markRunning procs tasks nextTask, ready1)
    | (none, ready1) =>
      let r := scanNext procs tasks runtime q
      (r.1, r.2, ready1)
  else
    let r := scanNext procs tasks runtime q
    (r.1, r.2, ready)

/-- Function `preemptionCheck`. -/
def preemptionCheck (procs : List Process) (tasks : List Task) (ready : List Nat) (t : Nat)
    (runtime : Int) : List Nat → Bool
  | [] => false
  | p :: rest =>
    if eligible procs runtime p then
      match peekTask ready with
      | some nextTask =>
        if taskPriority procs tasks nextTask > taskPriority procs tasks t then true
        else preemptionCheck procs tasks ready t runtime rest
      | none => preemptionCheck procs tasks ready t runtime rest
    else preemptionCheck procs tasks ready t runtime rest

/-- Process-queue scan of `getNextTaskPreemptive`: `p` is compared with the process of
the next node only. -/
def scanNextPreemptive (procs : List Process) (tasks : List Task) (runtime : Int) :
    List Nat → Option Nat × List Process
  | [] => (none, procs)
  | p :: rest =>
    if eligible procs runtime p then
      let chosen :=
        match rest.head? with
        | some nextProcess =>
          if eligible procs runtime nextProcess then
            if (getP procs p).priority < (getP procs nextProcess).priority then p
            else nextProcess
          else p
        | none => p
      match takeTask procs tasks chosen with
      | (some t, procs1) => (some t, procs1)
      | (none, _) => scanNextPreemptive procs tasks runtime rest
    else scanNextPreemptive procs tasks runtime rest

/-- Function `getNextTaskPreemptive`: result task, process store and ready queue after the call. -/
def getNextTaskPreemptive (procs : List Process) (tasks : List Task) (q ready : List Nat)
    (runtime : Int) : Option Nat × List Process × List Nat :=
  if !isEmptyT ready then
    match dequeueTask ready with
    | (some currentTask, ready1) =>
      match peekTask ready1 with
      | none => (some currentTask, markRunning procs tasks currentTask, ready1)
      | some nextTask =>
        if taskPriority procs tasks currentTask < taskPriority procs tasks nextTask then
          match dequeueTask (priorityEnqueueTask procs tasks ready1 currentTask) with
          | (some cur, ready2) => (some cur, markRunning procs tasks cur, ready2)
          | (none, ready2) =>
            let r := scanNextPreemptive procs tasks runtime q
            (r.1, r.2, ready2)
        else
          let r := scanNextPreemptive procs tasks runtime q
          (r.1, r.2, ready1)
    | (none, ready1) =>
      let r := scanNextPreemptive procs tasks runtime q
      (r.1, r.2, ready1)
  else
    let r := scanNextPreemptive procs tasks runtime q
    (r.1, r.2, ready)

/-! ## Process queues (queue.c) -/

/-- Function `enqueueProcess`: append at the tail. -/
def enqueueProcess (q : List Nat) (p : Nat) : List Nat := q ++ [p]

/-- Function `priorityEnqueueProcess`: walk past the nodes whose priority is greater than the new
process's, and link the new node there. -/
def priorityEnqueueProcess (procs : List Process) : List Nat → Nat → List Nat
  | [], p => [p]
  | c :: rest, p =>
    if (getP procs c).priority > (getP procs p).priority then
      c :: priorityEnqueueProcess procs rest p
    else p :: c :: rest

/-- Function `dequeueProcess`: the head process (if any) and the remaining queue. -/
def dequeueProcess : List Nat → Option Nat × List Nat
  | [] => (none, [])
  | p :: rest => (some p, rest)

/-- The locate-and-unlink loop shared by `promoteProcess` and `endProcess`: the queue
without its first node holding `p`, or `none` when no node holds `p`. -/
def detachProcess : List Nat → Nat → Option (List Nat)
  | [], _ => none
  | c :: rest, p =>
    if c = p then some rest
    else
      match detachProcess rest p with
      | some rest1 => some (c :: rest1)
      | none => none

/-- Function `promoteProcess`: process store, source queue and destination queue after the call. -/
def promoteProcess (procs : List Process) (queueB queueA : List Nat) (p : Nat) :
    List Process × List Nat × List Nat :=
  match detachProcess queueB p with
  | some queueB1 =>
    (setP procs p { getP procs p with endQueue := "A" }, queueB1,
      priorityEnqueueProcess procs queueA p)
  | none => (procs, queueB, queueA)

/-- Function `endProcess`: source queue and exit queue after the call. -/
def endProcess (q exit : List Nat) (p : Nat) : List Nat × List Nat :=
  match detachProcess q p with
  | some q1 => (q1, enqueueProcess exit p)
  | none => (q, exit)

/-- Function `peekProcess`: the head process without removing it. -/
def peekProcess (q : List Nat) : Option Nat := q.head?

/-- Function `isEmptyP`. -/
def isEmptyP (q : List Nat) : Bool := q.isEmpty

/-- Function `updateProcessQueue`: one more tick of ready time (`p->ready++` on a C `int`) for
each node whose process is not running and has `arrival < runtime`. -/
def updateProcessQueue (procs : List Process) (runtime : Int) : List Nat → List Process
  | [] => procs
  | p :: rest =>
    if (getP procs p).taskRunning = 0 ∧ (getP procs p).arrival < runtime then
      updateProcessQueue
        (setP procs p { getP procs p with ready := wrap32 ((getP procs p).ready + 1) })
        runtime rest
    else updateProcessQueue procs runtime rest

/-! ## Simulation state (Simulation.c) -/

/-- Variables of `runNonPreemption` / `runPreemption` together with the two stores. -/
structure Sim where
  procs : List Process
  tasks : List Task
  queueA : List Nat
  queueB : List Nat
  exitQueue : List Nat
  ioQueue : List Nat
  readyQueueA : List Nat
  readyQueueB : List Nat
  stats : Stats
  t : Option Nat
  cpu : Int
  deriving DecidableEq

/-- Assignment to fields of the process behind handle `i`. -/
def updP (s : Sim) (i : Nat) (f : Process → Process) : Sim :=
  { s with procs := setP s.procs i (f (getP s.procs i)) }

/-- Assignment to fields of the task behind handle `i`. -/
def updT (s : Sim) (i : Nat) (f : Task → Task) : Sim :=
  { s with tasks := setT s.tasks i (f (getT s.tasks i)) }

/-- Assignment to fields of the statistics record. -/
def updStats (s : Sim) (f : Stats → Stats) : Sim := { s with stats := f s.stats }

/-- Function `allQueuesEmpty`. -/
def allQueuesEmpty (s : Sim) : Bool :=
  isEmptyP s.queueB && isEmptyP s.queueA && isEmptyT s.readyQueueA
    && isEmptyT s.readyQueueB && isEmptyT s.ioQueue

/-- The statements of the `'t'` case executed while the process has quantum left, up to
the call of `endProcess` on the serviced tier queue: `stats->runtime++` on a C `int`, and
`stats->totalWait += p->ready`, which converts the `int` to `float` and rounds the sum. -/
def finalize (s : Sim) (p : Nat) : Sim :=
  let s := updP s p fun x => { x with quantum := x.quantum - 1 }
  let s := updStats s fun st => { st with instructions := st.instructions + 1 }
  let s := updStats s fun st => { st with runtime := wrap32 (st.runtime + 1) }
  let s := updP s p fun x => { x with taskRunning := 0 }
  let s := updP s p fun x => { x with runtime := s.stats.runtime }
  let s := updStats s fun st =>
    { st with minWait := if st.minWait < (getP s.procs p).ready then st.minWait
                         else (getP s.procs p).ready }
  let s := updStats s fun st =>
    { st with maxWait := if st.maxWait > (getP s.procs p).ready then st.maxWait
                         else (getP s.procs p).ready }
  updStats s fun st =>
    { st with totalWait := roundFloat (st.totalWait + roundFloat (getP s.procs p).ready) }

/-- The `switch (t->type)` statement of the tier-A loop (identical in both engines). -/
def switchA (quantumA : Int) (s : Sim) (t : Nat) : Sim :=
  let p := (getT s.tasks t).parent
  if (getT s.tasks t).type = 'i' then
    let s :=
      if (getP s.procs p).quantum > 0 then
        let s := updP s p fun x => { x with quantum := x.quantum - 1 }
        let s :=
          if (getP s.procs p).quantum > 0 then
            updP s p fun x => { x with completions := x.completions + 1 }
          else updP s p fun x => { x with completions := 0 }
        let s := updStats s fun st => { st with instructions := st.instructions + 1 }
        { s with ioQueue := enqueueTask s.ioQueue t }
      else
        let s := updT s t fun x => { x with interrupts := x.interrupts + 1 }
        let s := updP s p fun x => { x with taskRunning := 0 }
        let s := updP s p fun x => { x with quantum := quantumA }
        { s with readyQueueA := priorityEnqueueTask s.procs s.tasks s.readyQueueA t }
    { s with cpu := 0 }
  else if (getT s.tasks t).type = 'e' then
    if (getT s.tasks t).time = 0 then
      let s := updT s t fun x => { x with completed := 1 }
      let s := updP s p fun x => { x with taskRunning := 0 }
      let s := updP s p fun x => { x with currentTask := x.currentTask + 1 }
      let s := updStats s fun st => { st with instructions := st.instructions + 1 }
      { s with cpu := 0 }
    else if (getP s.procs p).quantum ≤ 0 then
      let s := updP s p fun x => { x with completions := 0 }
      let s := updT s t fun x => { x with interrupts := x.interrupts + 1 }
      let s := updP s p fun x => { x with taskRunning := 0 }
      let s := updP s p fun x => { x with quantum := quantumA }
      let s := { s with readyQueueA := priorityEnqueueTask s.procs s.tasks s.readyQueueA t }
      { s with cpu := 0 }
    else
      let s := updT s t fun x => { x with time := x.time - 1 }
      updP s p fun x => { x with quantum := x.quantum - 1 }
  else
    let s :=
      if (getP s.procs p).quantum > 0 then
        let s := finalize s p
        let r := endProcess s.queueA s.exitQueue p
        { s with queueA := r.1, exitQueue := r.2 }
      else
        let s := updP s p fun x => { x with completions := 0 }
        let s := updT s t fun x => { x with interrupts := x.interrupts + 1 }
        let s := updP s p fun x => { x with taskRunning := 0 }
        let s := updP s p fun x => { x with quantum := quantumA }
        { s with readyQueueA := priorityEnqueueTask s.procs s.tasks s.readyQueueA t }
    { s with cpu := 0 }

/-- Call `promoteProcess(queueB, queueA, p)` on the simulation state. -/
def doPromote (s : Sim) (p : Nat) : Sim :=
  let r := promoteProcess s.procs s.queueB s.queueA p
  { s with procs := r.1, queueB := r.2.1, queueA := r.2.2 }

/-- The `switch (t->type)` statement of the tier-B loop (identical in both engines). -/
def switchB (quantumA quantumB : Int) (s : Sim) (t : Nat) : Sim :=
  let p := (getT s.tasks t).parent
  if (getT s.tasks t).type = 'i' then
    let s :=
      if (getP s.procs p).quantum > 0 then
        let s := updP s p fun x => { x with quantum := x.quantum - 1 }
        let s :=
          if (getP s.procs p).quantum > 0 then
            let s := updP s p fun x => { x with completions := x.completions + 1 }
            if (getP s.procs p).completions = 3 then
              let s := updP s p fun x => { x with quantum := quantumA }
              let s := { s with queueA := priorityEnqueueProcess s.procs s.queueA p }
              updP s p fun x => { x with endQueue := "A" }
            else s
          else updP s p fun x => { x with completions := 0 }
        let s := updStats s fun st => { st with instructions := st.instructions + 1 }
        { s with ioQueue := enqueueTask s.ioQueue t }
      else
        let s := updT s t fun x => { x with interrupts := x.interrupts + 1 }
        let s := updP s p fun x => { x with taskRunning := 0 }
        if (getT s.tasks t).interrupts = 3 then
          let s := updP s p fun x => { x with quantum := quantumA }
          let s := doPromote s p
          { s with readyQueueA := priorityEnqueueTask s.procs s.tasks s.readyQueueA t }
        else
          let s := updP s p fun x => { x with quantum := quantumB }
          let s := updP s p fun x => { x with completions := 0 }
          { s with readyQueueB := priorityEnqueueTask s.procs s.tasks s.readyQueueB t }
    { s with cpu := 0 }
  else if (getT s.tasks t).type = 'e' then
    if (getT s.tasks t).time = 0 then
      let s := updT s t fun x => { x with completed := 1 }
      let s := updP s p fun x => { x with taskRunning := 0 }
      let s := updP s p fun x => { x with currentTask := x.currentTask + 1 }
      let s := updStats s fun st => { st with instructions := st.instructions + 1 }
      let s :=
        if (getP s.procs p).quantum > 0 then
          let s := updP s p fun x => { x with completions := x.completions + 1 }
          if (getP s.procs p).completions = 3 then
            let s := updP s p fun x => { x with quantum := quantumA }
            doPromote s p
          else s
        else updP s p fun x => { x with completions := 0 }
      { s with cpu := 0 }
    else if (getP s.procs p).quantum = 0 then
      let s := updP s p fun x => { x with completions := 0 }
      let s := updT s t fun x => { x with interrupts := x.interrupts + 1 }
      let s := updP s p fun x => { x with taskRunning := 0 }
      let s :=
        if (getT s.tasks t).interrupts = 3 then
          let s := updP s p fun x => { x with quantum := quantumA }
          let s := doPromote s p
          let s := { s with readyQueueA := priorityEnqueueTask s.procs s.tasks s.readyQueueA t }
          { s with cpu := 0 }
        else
          let s := updP s p fun x => { x with quantum := quantumB }
          let s := { s with readyQueueB := priorityEnqueueTask s.procs s.tasks s.readyQueueB t }
          { s with cpu := 0 }
      { s with cpu := 0 }
    else
      let s := updT s t fun x => { x with time := x.time - 1 }
      updP s p fun x => { x with quantum := x.quantum - 1 }
  else
    let s :=
      if (getP s.procs p).quantum > 0 then
        let s := finalize s p
        let r := endProcess s.queueB s.exitQueue p
        let s := { s with queueB := r.1, exitQueue := r.2 }
        { s with cpu := 0 }
      else
        let s := updP s p fun x => { x with completions := 0 }
        let s := updT s t fun x => { x with interrupts := x.interrupts + 1 }
        let s := updP s p fun x => { x with taskRunning := 0 }
        let s := updP s p fun x => { x with quantum := quantumB }
        let s := { s with readyQueueB := priorityEnqueueTask s.procs s.tasks s.readyQueueB t }
        { s with cpu := 0 }
    { s with cpu := 0 }

/-! ## The tick engine (Simulation.c) -/

/-- The preempting branch of the tier-A loop of `runPreemption`. -/
def preemptA (s : Sim) (t : Nat) : Sim :=
  let p := (getT s.tasks t).parent
  let s := updT s t fun x => { x with interrupts := x.interrupts + 1 }
  let s := updP s p fun x => { x with taskRunning := 0 }
  let s := { s with readyQueueB := priorityEnqueueTask s.procs s.tasks s.readyQueueB t }
  let r := getNextTaskPreemptive s.procs s.tasks s.queueB s.readyQueueB s.stats.runtime
  { s with t := r.1, procs := r.2.1, readyQueueB := r.2.2 }

/-- The preempting branch of the tier-B loop of `runPreemption`. -/
def preemptB (quantumA : Int) (s : Sim) (t : Nat) : Sim :=
  let p := (getT s.tasks t).parent
  let s := updT s t fun x => { x with interrupts := x.interrupts + 1 }
  let s := updP s p fun x => { x with taskRunning := 0 }
  let s :=
    if (getT s.tasks t).interrupts = 3 then
      let s := doPromote s p
      updP s p fun x => { x with quantum := quantumA }
    else
      { s with readyQueueB := priorityEnqueueTask s.procs s.tasks s.readyQueueB t }
  let r := getNextTaskPreemptive s.procs s.tasks s.queueB s.readyQueueB s.stats.runtime
  { s with t := r.1, procs := r.2.1, readyQueueB := r.2.2 }

/-- The `else` branch of `if (cpu == 0)` in the tier-A loop: one step of the running task.
`none` stands for the dereference of a null `t`. -/
def execA (preemption : Bool) (quantumA : Int) (s : Sim) : Option Sim :=
  match s.t with
  | none => none
  | some t =>
    if preemption && preemptionCheck s.procs s.tasks s.readyQueueB t s.stats.runtime s.queueB
    then some (preemptA s t)
    else some (switchA quantumA s t)

/-- The `else` branch of `if (cpu == 0)` in the tier-B loop: one step of the running task.
`none` stands for the dereference of a null `t`. -/
def execB (preemption : Bool) (quantumA quantumB : Int) (s : Sim) : Option Sim :=
  match s.t with
  | none => none
  | some t =>
    if preemption && preemptionCheck s.procs s.tasks s.readyQueueB t s.stats.runtime s.queueB
    then some (preemptB quantumA s t)
    else some (switchB quantumA quantumB s t)

/-- The `if (cpu == 0)` branch: fetch the next task of the tier and set the CPU flag. -/
def dispatch (preemption : Bool) (tierA : Bool) (s : Sim) : Sim :=
  let q := if tierA then s.queueA else s.queueB
  let ready := if tierA then s.readyQueueA else s.readyQueueB
  let r :=
    if preemption then getNextTaskPreemptive s.procs s.tasks q ready s.stats.runtime
    else getNextTask s.procs s.tasks q ready s.stats.runtime
  let s := { s with t := r.1, procs := r.2.1 }
  let s := if tierA then { s with readyQueueA := r.2.2 } else { s with readyQueueB := r.2.2 }
  match r.1 with
  | some t => { s with cpu := 1, procs := markRunning s.procs s.tasks t }
  | none => s

/-- The call `updateIOTasks(ioQueue)` guarded by `!isEmptyT(ioQueue)`. -/
def ageTasks (s : Sim) : Sim :=
  if !isEmptyT s.ioQueue then
    let r := updateIOTasks s.procs s.tasks s.ioQueue
    { s with procs := r.1, tasks := r.2.1, ioQueue := r.2.2 }
  else s

/-- End of a tier-A iteration: ready-time update of both tier queues, then `runtime++` on
the C `int`. -/
def tailA (s : Sim) : Sim :=
  let s := if !isEmptyP s.queueA then
      { s with procs := updateProcessQueue s.procs s.stats.runtime s.queueA } else s
  let s := if !isEmptyP s.queueB then
      { s with procs := updateProcessQueue s.procs s.stats.runtime s.queueB } else s
  updStats s fun st => { st with runtime := wrap32 (st.runtime + 1) }

/-- End of a tier-B iteration: ready-time update of the tier-B queue, then `runtime++` on
the C `int`. -/
def tailB (s : Sim) : Sim :=
  let s := if !isEmptyP s.queueB then
      { s with procs := updateProcessQueue s.procs s.stats.runtime s.queueB } else s
  updStats s fun st => { st with runtime := wrap32 (st.runtime + 1) }

/-- Condition of the inner tier-A loop. -/
def condA (s : Sim) : Bool := !isEmptyP s.queueA || !isEmptyT s.readyQueueA

/-- Condition of the inner tier-B loop. -/
def condB (s : Sim) : Bool :=
  !isEmptyP s.queueB || !isEmptyT s.ioQueue || !isEmptyT s.readyQueueB

/-- Control points of `runNonPreemption` / `runPreemption`: the test of the outer loop,
the test of an inner tier loop, the point of an iteration after the I/O ageing, and the
end of the loops. -/
inductive Loc where
  | outer
  | inA
  | midA
  | inB
  | midB
  | done
  deriving DecidableEq

/-- Control point together with the simulation state. -/
structure Machine where
  loc : Loc
  sim : Sim
  deriving DecidableEq

/-- One move of the engine from a control point to the following one; `none` stands for
the dereference of a null pointer. -/
def next (preemption : Bool) (quantumA quantumB : Int) (m : Machine) : Option Machine :=
  match m.loc with
  | Loc.outer =>
    if allQueuesEmpty m.sim then some { m with loc := Loc.done }
    else if condA m.sim then some { m with loc := Loc.inA }
    else some { m with loc := Loc.inB }
  | Loc.inA =>
    if condA m.sim then some { loc := Loc.midA, sim := ageTasks m.sim }
    else some { m with loc := Loc.outer }
  | Loc.midA =>
    if m.sim.cpu = 0 then some { loc := Loc.outer, sim := dispatch preemption true m.sim }
    else
      match execA preemption quantumA m.sim with
      | some s => some { loc := Loc.inA, sim := tailA s }
      | none => none
  | Loc.inB =>
    if condB m.sim then some { loc := Loc.midB, sim := ageTasks m.sim }
    else some { m with loc := Loc.outer }
  | Loc.midB =>
    if m.sim.cpu = 0 then some { loc := Loc.outer, sim := dispatch preemption false m.sim }
    else
      match execB preemption quantumA quantumB m.sim with
      | some s => some { loc := Loc.inB, sim := tailB s }
      | none => none
  | Loc.done => some m

/-- State at the first test of the outer loop, for the parsed stores and initial tier-B
queue; `none` when the queue is empty (`peekProcess` returns null and is dereferenced). -/
def start (procs : List Process) (tasks : List Task) (queueB : List Nat) : Option Machine :=
  match peekProcess queueB with
  | none => none
  | some p =>
    some { loc := Loc.outer,
           sim := { procs := procs, tasks := tasks, queueA := [], queueB := queueB,
                    exitQueue := [], ioQueue := [], readyQueueA := [], readyQueueB := [],
                    stats := { initializeStats with runtime := (getP procs p).arrival,
                                                    startTime := (getP procs p).arrival },
                    t := none, cpu := 0 } }

/-- The engine after `n` moves from `m`. -/
def runFrom (preemption : Bool) (quantumA quantumB : Int) : Nat → Machine → Option Machine
  | 0, m => some m
  | n + 1, m =>
    match next preemption quantumA quantumB m with
    | some m1 => runFrom preemption quantumA quantumB n m1
    | none => none

/-- States the engine passes through from the first test of the outer loop. -/
def Reachable (preemption : Bool) (quantumA quantumB : Int) (procs : List Process)
    (tasks : List Task) (queueB : List Nat) (m : Machine) : Prop :=
  ∃ m0 n, start procs tasks queueB = some m0 ∧
    runFrom preemption quantumA quantumB n m0 = some m

/-! ## Example inputs -/

/-- Process as `ParseFile` leaves it: created, then pid, priority, arrival time, task
queue, `quantum = quantumB` and `endQueue = "B"` assigned. -/
def parsedProcess (pid priority arrival : Int) (tasks : List Nat) (quantumB : Int) :
    Process :=
  { (default : Process) with pid := pid, priority := priority, arrival := arrival,
                             tasks := tasks, quantum := quantumB, endQueue := "B" }

/-- Task as `ParseFile` leaves it: created, then type, time and parent assigned. -/
def parsedTask (type : Char) (time : Int) (parent : Nat) : Task :=
  { (default : Task) with type := type, time := time, parent := parent }

/-- Ready queue obtained from the empty queue by `priorityEnqueueTask` insertions of the
tasks `ts`, in that order. -/
def insertAll (procs : List Process) (tasks : List Task) (ts : List Nat) : List Nat :=
  ts.foldl (priorityEnqueueTask procs tasks) []

/-- Two processes of priorities 5 and 1 (both arrived at tick 0), a compute task and the
terminate task for each. -/
def pairProcs : List Process :=
  [parsedProcess 1 5 0 [0, 1] 4, parsedProcess 2 1 0 [2, 3] 4]

/-- Tasks of `pairProcs`. -/
def pairTasks : List Task :=
  [parsedTask 'e' 3 0, parsedTask 't' 0 0, parsedTask 'e' 3 1, parsedTask 't' 0 1]

/-- Two processes of equal priority 2, one compute task and the terminate task each. -/
def tieProcs : List Process :=
  [parsedProcess 1 2 0 [0, 1] 4, parsedProcess 2 2 0 [2, 3] 4]

/-- Tasks of `tieProcs`. -/
def tieTasks : List Task :=
  [parsedTask 'e' 3 0, parsedTask 't' 0 0, parsedTask 'e' 3 1, parsedTask 't' 0 1]

/-- The processes of `pairProcs` after their compute tasks have been taken: each has only
its terminate task pending and is not running. -/
def pairProcsReady : List Process :=
  [parsedProcess 1 5 0 [1] 4, parsedProcess 2 1 0 [3] 4]

/-- Three processes of priorities 3, 2 and 1, all arrived at tick 0, one compute task and
the terminate task each. -/
def trioProcs : List Process :=
  [parsedProcess 1 3 0 [0, 1] 4, parsedProcess 2 2 0 [2, 3] 4, parsedProcess 3 1 0 [4, 5] 4]

/-- Tasks of `trioProcs`. -/
def trioTasks : List Task :=
  [parsedTask 'e' 3 0, parsedTask 't' 0 0, parsedTask 'e' 3 1, parsedTask 't' 0 1,
   parsedTask 'e' 3 2, parsedTask 't' 0 2]

/-- Outcome `r` of a dispatch call is the dispatch of the front pending task of process
`c`: that task is returned and removed from `c`'s pending sequence, its owner is flagged
as running, and the ready queue is left empty. -/
def DispatchesFrom (procs : List Process) (tasks : List Task) (c : Nat)
    (r : Option Nat × List Process × List Nat) : Prop :=
  ∃ t rest, (getP procs c).tasks = t :: rest ∧ r.1 = some t ∧
    (getP r.2.1 c).tasks = rest ∧ (getP r.2.1 (getT tasks t).parent).taskRunning = 1 ∧
    (∀ j, j ≠ c → j ≠ (getT tasks t).parent → getP r.2.1 j = getP procs j) ∧ r.2.2 = []

/-- Input `P1:1`, `arrival_t:0`, `io:1`, `io:1`, `io:1`, `t`, parsed with `quantumB = 5`. -/
def ioProcs : List Process := [parsedProcess 1 1 0 [0, 1, 2, 3] 5]

/-- Tasks of `ioProcs`. -/
def ioTasks : List Task :=
  [parsedTask 'i' 1 0, parsedTask 'i' 1 0, parsedTask 'i' 1 0, parsedTask 't' 0 0]

/-- Input of two processes arriving at tick 0, parsed with `quantumB = 5`: `P1:1` with
`exe:1`, `exe:1`, `exe:1`, `t` and `P2:1` with `exe:1`, `t`. -/
def duoProcs : List Process :=
  [parsedProcess 1 1 0 [0, 1, 2, 3] 5, parsedProcess 2 1 0 [4, 5] 5]

/-- Tasks of `duoProcs`. -/
def duoTasks : List Task :=
  [parsedTask 'e' 1 0, parsedTask 'e' 1 0, parsedTask 'e' 1 0, parsedTask 't' 0 0,
   parsedTask 'e' 1 1, parsedTask 't' 0 1]

/-- The engine after `n` moves on the parsed input `procs`, `tasks`, `queueB`. -/
def runInput (preemption : Bool) (quantumA quantumB : Int) (procs : List Process)
    (tasks : List Task) (queueB : List Nat) (n : Nat) : Option Machine :=
  match start procs tasks queueB with
  | some m0 => runFrom preemption quantumA quantumB n m0
  | none => none

/-- Invariant of both engines on the tier-B ready queue: it is empty, except between a
tier-B step that re-queued the interrupted task (which released the CPU) and the dispatch
of the next tier-B iteration, where it holds that single task. -/
def ReadyInv (m : Machine) : Prop :=
  m.sim.readyQueueB = [] ∨
    (m.sim.cpu = 0 ∧ (∃ x, m.sim.readyQueueB = [x]) ∧ (m.loc = Loc.inB ∨ m.loc = Loc.midB))

/-- State `s1` is the outcome of completing the running compute task `t` from state `s`:
the task is marked completed, its owner is released and moves to its next task, one more
instruction is counted, the CPU is free, and the task went into no ready queue and kept its
interrupt counter. -/
def CompletedStep (s s1 : Sim) (t : Nat) : Prop :=
  (getT s1.tasks t).completed = 1 ∧
  (getP s1.procs (getT s.tasks t).parent).taskRunning = 0 ∧
  (getP s1.procs (getT s.tasks t).parent).currentTask =
    (getP s.procs (getT s.tasks t).parent).currentTask + 1 ∧
  s1.stats.instructions = s.stats.instructions + 1 ∧
  s1.cpu = 0 ∧
  s1.readyQueueA = s.readyQueueA ∧ s1.readyQueueB = s.readyQueueB ∧
  (getT s1.tasks t).interrupts = (getT s.tasks t).interrupts

/-- Process `p` stands promoted in state `s`: it is in the tier-A queue, its quantum is the
tier-A quantum, its exit-tier tag is `"A"` and its completions counter reads 3. -/
def Promoted (quantumA : Int) (s : Sim) (p : Nat) : Prop :=
  p ∈ s.queueA ∧ (getP s.procs p).quantum = quantumA ∧ (getP s.procs p).endQueue = "A" ∧
    (getP s.procs p).completions = 3

/-- State of the engine after `n` moves on a parsed input (the state at the end of the
loops when the run has no `n`-th state). -/
def stateAt (preemption : Bool) (quantumA quantumB : Int) (procs : List Process)
    (tasks : List Task) (queueB : List Nat) (n : Nat) : Machine :=
  match runInput preemption quantumA quantumB procs tasks queueB n with
  | some m => m
  | none => { loc := Loc.done,
              sim := { procs := procs, tasks := tasks, queueA := [], queueB := [],
                       exitQueue := [], ioQueue := [], readyQueueA := [], readyQueueB := [],
                       stats := initializeStats, t := none, cpu := 0 } }

/-- Input `P1:1`, `arrival_t:0`, `exe:2`, `t`, parsed with `quantumB = 2`: the compute
task runs out of time in the tick in which the quantum runs out. -/
def edgeProcs : List Process := [parsedProcess 1 1 0 [0, 1] 2]

/-- Tasks of `edgeProcs`. -/
def edgeTasks : List Task := [parsedTask 'e' 2 0, parsedTask 't' 0 0]

/-- Between states `s` and `s1` the clock has not gone back and no process has lost
accumulated ready time. -/
def NoDecrease (s s1 : Sim) : Prop :=
  s.stats.runtime ≤ s1.stats.runtime ∧
    ∀ j, (getP s.procs j).ready ≤ (getP s1.procs j).ready

/-- Two processes, the second one arriving earlier than the head of the queue. -/
def lateHeadProcs : List Process :=
  [parsedProcess 1 1 7 [0, 1] 4, parsedProcess 2 1 2 [2, 3] 4]

/-- Tasks of `lateHeadProcs`. -/
def lateHeadTasks : List Task :=
  [parsedTask 'e' 3 0, parsedTask 't' 0 0, parsedTask 'e' 3 1, parsedTask 't' 0 1]

/-- Input of two processes parsed with `quantumB = 8`: `P1:5` arriving at tick 0 with
`exe:10`, `t`, and `P2:1` arriving at tick 3 with `exe:2`, `t`. -/
def arriveProcs : List Process :=
  [parsedProcess 1 5 0 [0, 1] 8, parsedProcess 2 1 3 [2, 3] 8]

/-- Tasks of `arriveProcs`. -/
def arriveTasks : List Task :=
  [parsedTask 'e' 10 0, parsedTask 't' 0 0, parsedTask 'e' 2 1, parsedTask 't' 0 1]

/-- State `s1` is the outcome of issuing the running I/O task `t` from state `s`, the owning
process being left with quantum `quantum1`: its completions counter is one more than before
when the decremented quantum is still positive and 0 otherwise, the task has been appended
to the I/O queue and gone into no ready queue, its interrupt counter is as before and the
CPU is free. -/
def IssuedStep (s s1 : Sim) (t : Nat) (quantum1 : Int) : Prop :=
  (getP s1.procs (getT s.tasks t).parent).quantum = quantum1 ∧
  (getP s1.procs (getT s.tasks t).parent).completions =
    (if (getP s.procs (getT s.tasks t).parent).quantum - 1 > 0 then
      (getP s.procs (getT s.tasks t).parent).completions + 1
     else 0) ∧
  s1.ioQueue = s.ioQueue ++ [t] ∧
  s1.readyQueueA = s.readyQueueA ∧ s1.readyQueueB = s.readyQueueB ∧
  (getT s1.tasks t).interrupts = (getT s.tasks t).interrupts ∧
  s1.cpu = 0

/-- Input `P1:1`, `arrival_t:0`, `exe:5`, `t`, parsed with the given `quantumB`. -/
def soloProcs (quantumB : Int) : List Process := [parsedProcess 1 1 0 [0, 1] quantumB]

/-- Tasks of `soloProcs`. -/
def soloTasks : List Task := [parsedTask 'e' 5 0, parsedTask 't' 0 0]

/-- Number of tasks of the queue `q` that have no time left and are owned by process `j`. -/
def doneIn (tasks : List Task) (q : List Nat) (j : Nat) : Nat :=
  (q.filter fun x => decide (¬ (getT tasks x).time > 0) && decide ((getT tasks x).parent = j)).length

/-- Stores and I/O queue after `k` successive calls of `updateIOTasks`. -/
def ageTimes : Nat → List Process → List Task → List Nat →
    List Process × List Task × List Nat
  | 0, procs, tasks, q => (procs, tasks, q)
  | k + 1, procs, tasks, q =>
    ageTimes k (updateIOTasks procs tasks q).1 (updateIOTasks procs tasks q).2.1
      (updateIOTasks procs tasks q).2.2

/-- Number of occurrences of task `y` in the pending-task sequences of all processes. -/
def pendingCount (procs : List Process) (y : Nat) : Nat :=
  (procs.map fun p => p.tasks.count y).sum

/-- Task `y` occupies the CPU slot: the CPU flag is set and `y` is the current task. -/
def slotCount (s : Sim) (y : Nat) : Nat := if s.cpu ≠ 0 ∧ s.t = some y then 1 else 0

/-- Task `y` is marked completed. -/
def completedCount (tasks : List Task) (y : Nat) : Nat :=
  if (getT tasks y).completed = 1 then 1 else 0

/-- Number of places holding task `y`: pending-task sequences, the two ready queues, the
I/O queue, the CPU slot, and the completed mark. -/
def places (s : Sim) (y : Nat) : Nat :=
  pendingCount s.procs y + s.readyQueueA.count y + s.readyQueueB.count y + s.ioQueue.count y
    + slotCount s y + completedCount s.tasks y

/-- Input of two processes arriving at tick 0, parsed with `quantumB = 2`: `P1:1` with
`exe:7`, `t` and `P2:5` with `exe:9`, `t`. -/
def dropProcs : List Process :=
  [parsedProcess 1 1 0 [0, 1] 2, parsedProcess 2 5 0 [2, 3] 2]

/-- Tasks of `dropProcs`. -/
def dropTasks : List Task :=
  [parsedTask 'e' 7 0, parsedTask 't' 0 0, parsedTask 'e' 9 1, parsedTask 't' 0 1]

/-- State `s1` is the outcome of finalizing the owner of the running Terminate task `t`
from state `s`, `q` and `q1` being the serviced tier queue before and after: the quantum of
the owner is one less, the first node holding the owner has left the tier queue, whose
other members keep their order, the owner has been appended to the exit queue, the CPU is
free, and the ready time the owner had in `s` has been folded into the minimum, the
maximum and the total. -/
def FinalizedStep (s s1 : Sim) (t : Nat) (q q1 : List Nat) : Prop :=
  (getP s1.procs (getT s.tasks t).parent).quantum =
    (getP s.procs (getT s.tasks t).parent).quantum - 1 ∧
  (∃ pre post, q = pre ++ (getT s.tasks t).parent :: post ∧
    (getT s.tasks t).parent ∉ pre ∧ q1 = pre ++ post) ∧
  s1.exitQueue = s.exitQueue ++ [(getT s.tasks t).parent] ∧
  s1.cpu = 0 ∧
  s1.stats.minWait = min s.stats.minWait (getP s.procs (getT s.tasks t).parent).ready ∧
  s1.stats.maxWait = max s.stats.maxWait (getP s.procs (getT s.tasks t).parent).ready ∧
  s1.stats.totalWait =
    roundFloat (s.stats.totalWait + roundFloat (getP s.procs (getT s.tasks t).parent).ready)

/-- State `s1` is the outcome of interrupting the running task `t` of state `s`: its
interrupt counter is one more, the running flag of its owner is cleared and the CPU is
free. -/
def InterruptedStep (s s1 : Sim) (t : Nat) : Prop :=
  (getT s1.tasks t).interrupts = (getT s.tasks t).interrupts + 1 ∧
  (getP s1.procs (getT s.tasks t).parent).taskRunning = 0 ∧
  s1.cpu = 0

/-- State `s1` re-queues the task `t` of state `s`, `ready` and `ready1` being the ready
queue of the tier before and after: the owner of `t` has quantum `quantum1` and `t` has
been inserted by priority into the ready queue. -/
def Requeued (s s1 : Sim) (t : Nat) (quantum1 : Int) (ready ready1 : List Nat) : Prop :=
  (getP s1.procs (getT s.tasks t).parent).quantum = quantum1 ∧
  ready1 = priorityEnqueueTask s.procs s.tasks ready t

/-- The owner of task `t` has not been finalized between `s` and `s1`: both tier queues
and the exit queue are as before, and so are the completion time of the owner and the
minimum, maximum and total of the ready times. -/
def NotFinalized (s s1 : Sim) (t : Nat) : Prop :=
  s1.queueA = s.queueA ∧ s1.queueB = s.queueB ∧ s1.exitQueue = s.exitQueue ∧
  (getP s1.procs (getT s.tasks t).parent).runtime =
    (getP s.procs (getT s.tasks t).parent).runtime ∧
  s1.stats.minWait = s.stats.minWait ∧ s1.stats.maxWait = s.stats.maxWait ∧
  s1.stats.totalWait = s.stats.totalWait

/-- Process `p` has been moved from the queue `src` to the queue `dst`, which became `src1`
and `dst1`: the first node holding `p` has left `src`, and `p` stands in `dst1` behind the
leading members of `dst` whose priority number is greater than its own. -/
def MovedByPriority (procs : List Process) (p : Nat) (src dst src1 dst1 : List Nat) : Prop :=
  ∃ pre post l r, src = pre ++ p :: post ∧ p ∉ pre ∧ src1 = pre ++ post ∧
    dst = l ++ r ∧ dst1 = l ++ p :: r ∧
    (∀ c ∈ l, (getP procs c).priority > (getP procs p).priority) ∧
    (∀ c, r.head? = some c → (getP procs c).priority ≤ (getP procs p).priority)

/-- State `s2` differs from `s1` by the end of a loop iteration only: ready times of
processes and the clock. -/
def TailOf (s1 s2 : Sim) : Prop :=
  s2.readyQueueA = s1.readyQueueA ∧ s2.readyQueueB = s1.readyQueueB ∧ s2.cpu = s1.cpu ∧
  s2.queueA = s1.queueA ∧ s2.queueB = s1.queueB ∧ s2.exitQueue = s1.exitQueue ∧
  s2.tasks = s1.tasks ∧
  s2.stats = { s1.stats with runtime := wrap32 (s1.stats.runtime + 1) } ∧
  ∀ j, ∃ r, getP s2.procs j = { getP s1.procs j with ready := r }

/-! ## Program entry (Simulation.c) -/

/-- What `main` does with the input after its argument checks, in the order of the calls:
`fopen` on the input file, `ParseFile` with the tier-B quantum, and `Simulate` with both
quanta and the preemption flag. -/
inductive Action where
  | openInput (path : String)
  | parseInput (quantumB : Int)
  | simulate (quantumA quantumB preemption : Int)
  deriving DecidableEq

/-- Function `main` on the argument vector `argv` (program name first): exit status and
the actions taken.  The C library conversion `atoi` and the success of `fopen` are
parameters; a run that reaches the end of `main` has status 0. -/
def main (atoi : String → Int) (canOpen : String → Bool) (argv : List String) :
    Int × List Action :=
  if argv.length ≠ 5 then (1, [])
  else if atoi (argv.getD 2 "") < 2 ∨ atoi (argv.getD 3 "") < 2 then (1, [])
  else
    let quantumA := atoi (argv.getD 2 "")
    let quantumB := atoi (argv.getD 3 "")
    let preemption := atoi (argv.getD 4 "")
    if canOpen (argv.getD 1 "") then
      (0, [Action.openInput (argv.getD 1 ""), Action.parseInput quantumB,
        Action.simulate quantumA quantumB preemption])
    else (1, [Action.openInput (argv.getD 1 "")])

/-- Conversion of the decimal numerals used in the examples, standing for `atoi` there. -/
def atoiSample (s : String) : Int :=
  if s = "0" then 0 else if s = "1" then 1 else if s = "2" then 2 else if s = "5" then 5
  else 0

/-- Six I/O tasks with remaining times 0, 0, 2, 0, 1, 0, all of process 0. -/
def mixTasks : List Task :=
  [parsedTask 'i' 0 0, parsedTask 'i' 0 0, parsedTask 'i' 2 0, parsedTask 'i' 0 0,
   parsedTask 'i' 1 0, parsedTask 'i' 0 0]

/-- Bounds on the stores of state `s`: every process has a quantum between 0 and `qmax`,
and every task has a remaining time of at least 0. -/
def QuantumInv (qmax : Int) (s : Sim) : Prop :=
  (∀ j, 0 ≤ (getP s.procs j).quantum ∧ (getP s.procs j).quantum ≤ qmax) ∧
  ∀ y, 0 ≤ (getT s.tasks y).time

/-- Invariant of the runs on a single process (handle 0): the tier-B ready queue obeys
`ReadyInv`, every task belongs to process 0, the tier queues hold nothing but process 0,
the tier-B queue at most once, the tier-A ready queue is empty or, the CPU being free,
holds a single task, and while the tier-B loop is serviced with a task in the tier-A
ready queue, the tier-B process queue and the tier-B ready queue are empty. -/
def SoloInv (m : Machine) : Prop :=
  ReadyInv m ∧
  (∀ y, (getT m.sim.tasks y).parent = 0) ∧
  (∀ x ∈ m.sim.queueA, x = 0) ∧
  (m.sim.queueB = [] ∨ m.sim.queueB = [0]) ∧
  (m.sim.readyQueueA = [] ∨ (m.sim.cpu = 0 ∧ ∃ x, m.sim.readyQueueA = [x])) ∧
  ((m.loc = Loc.inB ∨ m.loc = Loc.midB) → m.sim.readyQueueA ≠ [] →
    m.sim.queueB = [] ∧ m.sim.readyQueueB = [])

/-! ## Linked representation of the queues (queue.c) -/

/-- Where the `tail` field of a queue points: nowhere (`NULL`), at the node in position
`i` of the chain that starts at `head` (position 0 is the head node), or at a node that
has been freed. -/
inductive TailPtr where
  | null
  | node (i : Nat)
  | freed
  deriving DecidableEq

/-- A `tQueue` or `pQueue` as its functions see it: the handles held by the chain of
nodes that starts at `head`, and the `tail` field. -/
structure Linked where
  items : List Nat
  tail : TailPtr
  deriving DecidableEq

namespace Linked

/-- The `tail` field designates the last node of the chain; on an empty chain the field
is not read by any function before it is written. -/
def TailValid (q : Linked) : Prop :=
  q.items = [] ∨ q.tail = TailPtr.node (q.items.length - 1)

/-- The branch `q->tail->next = newNode; q->tail = newNode` of the enqueue functions: the
new node is linked behind the node `tail` points at, which cuts the chain there; `none`
when `tail` is `NULL` or points at a freed node or at no node of the chain (the write has
no defined effect). -/
def linkBehindTail (q : Linked) (x : Nat) : Option Linked :=
  match q.tail with
  | TailPtr.node i =>
    if i < q.items.length then
      some { items := q.items.take (i + 1) ++ [x], tail := TailPtr.node (i + 1) }
    else none
  | TailPtr.null => none
  | TailPtr.freed => none

/-- Function `enqueueTask`: on `head == NULL` the new node becomes head and tail, otherwise
it is linked behind `tail`. -/
def enqueueTask (q : Linked) (t : Nat) : Option Linked :=
  if q.items = [] then some { items := [t], tail := TailPtr.node 0 }
  else linkBehindTail q t

/-- Function `dequeueTask`: the head node is unlinked and freed and its task returned;
`tail` is not written, so it points at a freed node once its node has been removed. -/
def dequeueTask (q : Linked) : Option Nat × Linked :=
  match q.items with
  | [] => (none, q)
  | t :: rest =>
    (some t,
      { items := rest,
        tail := match q.tail with
          | TailPtr.node 0 => TailPtr.freed
          | TailPtr.node (i + 1) => TailPtr.node i
          | TailPtr.null => TailPtr.null
          | TailPtr.freed => TailPtr.freed })

/-- Function `peekTask`: the task of the head node; nothing is written. -/
def peekTask (q : Linked) : Option Nat := q.items.head?

/-- Function `enqueueProcess`: on `head == NULL` the new node becomes head and tail,
otherwise it is linked behind `tail`. -/
def enqueueProcess (q : Linked) (p : Nat) : Option Linked :=
  if q.items = [] then some { items := [p], tail := TailPtr.node 0 }
  else linkBehindTail q p

/-- Function `dequeueProcess`: the head node is unlinked and freed and its process
returned; `tail` is not written. -/
def dequeueProcess (q : Linked) : Option Nat × Linked :=
  match q.items with
  | [] => (none, q)
  | p :: rest =>
    (some p,
      { items := rest,
        tail := match q.tail with
          | TailPtr.node 0 => TailPtr.freed
          | TailPtr.node (i + 1) => TailPtr.node i
          | TailPtr.null => TailPtr.null
          | TailPtr.freed => TailPtr.freed })

/-- Function `peekProcess`: the process of the head node; nothing is written. -/
def peekProcess (q : Linked) : Option Nat := q.items.head?

end Linked

/-- No 32-bit counter of state `s` is about to wrap: the clock, a value of the C type
`int`, can take the two increments of an iteration, and every accumulated ready time, a
value of the C type `int`, can take one increment for each node of the two tier queues
and for one node more (a step links at most one new node). -/
def NoWrap (s : Sim) : Prop :=
  -2147483648 ≤ s.stats.runtime ∧ s.stats.runtime < 2147483646 ∧
  ((s.queueA.length + s.queueB.length : Nat) : Int) < 2147483647 ∧
  ∀ p ∈ s.procs, -2147483648 ≤ p.ready ∧
    p.ready + ((s.queueA.length + s.queueB.length : Nat) : Int) < 2147483647

instance (s : Sim) : Decidable (NoWrap s) := by
  unfold NoWrap
  infer_instance

/-- Input `P1:1`, `arrival_t:2147483647`, `exe:1`, `t`, parsed with `quantumB = 5`: the
process arrives at the last tick a C `int` can hold. -/
def lastTickProcs : List Process := [parsedProcess 1 1 2147483647 [0, 1] 5]

/-- Tasks of `lastTickProcs`. -/
def lastTickTasks : List Task := [parsedTask 'e' 1 0, parsedTask 't' 0 0]

/-- Input `P1:1`, `arrival_t:2147483647`, `t`, parsed with `quantumB = 5`. -/
def lastExitProcs : List Process := [parsedProcess 1 1 2147483647 [0] 5]

/-- Task of `lastExitProcs`. -/
def lastExitTasks : List Task := [parsedTask 't' 0 0]

/-- State of a non-preemptive run on two processes that arrived at tick `a`, at the test of
the tier-B loop `k` ticks after the dispatch of the first compute task (task 0, of `n`
units) of the first process, whose quantum was `q` at the dispatch: the task has `n - k`
units left, the process `q - k` of its quantum, the clock reads `a + k`, and the second
process, which waits in the tier-B queue, has accumulated `k - 1` ticks of ready time.
`pend` and `pend2` are the pending tasks of the two processes, `others` the tasks behind
task 0 in the store. -/
def computingAt (a n q : Int) (pend : List Nat) (others : List Task) (pend2 : List Nat)
    (k : Int) : Machine :=
  { loc := Loc.inB,
    sim := { procs := [{ parsedProcess 1 1 a pend (q - k) with taskRunning := 1 },
                       { parsedProcess 2 1 a pend2 q with ready := k - 1 }],
             tasks := parsedTask 'e' (n - k) 0 :: others,
             queueA := [], queueB := [0, 1], exitQueue := [], ioQueue := [],
             readyQueueA := [], readyQueueB := [],
             stats := { initializeStats with runtime := a + k, startTime := a },
             t := some 0, cpu := 1 } }

/-- Input `P1:1`, `arrival_t:0`, `exe:16777215`, `t` and `P2:1`, `arrival_t:0`, `t`, parsed
with `quantumB = 20000000`: the second process waits while the first one computes. -/
def longRunProcs : List Process :=
  [parsedProcess 1 1 0 [0, 1] 20000000, parsedProcess 2 1 0 [2] 20000000]

/-- Tasks of `longRunProcs`. -/
def longRunTasks : List Task :=
  [parsedTask 'e' 16777215 0, parsedTask 't' 0 0, parsedTask 't' 0 1]

/-- State of the run on `longRunProcs` at the execution point of the tier-B loop with the
Terminate task 2 of the second process on the CPU: the first process has been finalized
with a ready time of 1, the second one has accumulated 16777216 ticks of ready time. -/
def longWaitSim : Sim :=
  { procs := [{ parsedProcess 1 1 0 [] 3222784 with
                  ready := 1, currentTask := 1, completions := 1, runtime := 16777217 },
              { parsedProcess 2 1 0 [] 20000000 with ready := 16777216, taskRunning := 1 }],
    tasks := [{ parsedTask 'e' 0 0 with completed := 1 }, parsedTask 't' 0 0,
              parsedTask 't' 0 1],
    queueA := [], queueB := [1], exitQueue := [0], ioQueue := [],
    readyQueueA := [], readyQueueB := [],
    stats := { instructions := 2, startTime := 0, runtime := 16777218, maxWait := 1,
               minWait := 1, totalWait := 1 },
    t := some 2, cpu := 1 }

/-- Input `P1:1`, `arrival_t:-2147483648`, `exe:2147483640`, `exe:20`, `t` and `P2:1`,
`arrival_t:-2147483648`, `t`, parsed with `quantumB = 2147483643`: the second process
waits for more than 2147483647 ticks while the first one computes. -/
def overdueProcs : List Process :=
  [parsedProcess 1 1 (-2147483648) [0, 1, 2] 2147483643,
   parsedProcess 2 1 (-2147483648) [3] 2147483643]

/-- Tasks of `overdueProcs`. -/
def overdueTasks : List Task :=
  [parsedTask 'e' 2147483640 0, parsedTask 'e' 20 0, parsedTask 't' 0 0, parsedTask 't' 0 1]

/-- State of the run on `overdueProcs` at the execution point of the tier-B loop at tick 0:
the second compute task of the first process is on the CPU with 14 units left, the second
process has accumulated 2147483647 ticks of ready time. -/
def overdueSim : Sim :=
  { procs := [{ parsedProcess 1 1 (-2147483648) [2] 2147483640 with
                  ready := 2, currentTask := 1, taskRunning := 1 },
              { parsedProcess 2 1 (-2147483648) [3] 2147483643 with ready := 2147483647 }],
    tasks := [{ parsedTask 'e' 0 0 with completed := 1 },
              { parsedTask 'e' 14 0 with interrupts := 1 }, parsedTask 't' 0 0,
              parsedTask 't' 0 1],
    queueA := [], queueB := [0, 1], exitQueue := [], ioQueue := [],
    readyQueueA := [], readyQueueB := [],
    stats := { instructions := 1, startTime := -2147483648, runtime := 0, maxWait := 0,
               minWait := 2147483647, totalWait := 0 },
    t := some 1, cpu := 1 }

/-- The engine is at the execution point of a tier loop with task `y` on the CPU and
quantum above 0 for its process: the step that comes next executes `y`, which for a
Terminate task is the finalization of its process. -/
def ExecutedNext (m : Machine) (y : Nat) : Prop :=
  (m.loc = Loc.midA ∨ m.loc = Loc.midB) ∧ m.sim.cpu ≠ 0 ∧ m.sim.t = some y ∧
    0 < (getP m.sim.procs (getT m.sim.tasks y).parent).quantum

instance (m : Machine) (y : Nat) : Decidable (ExecutedNext m y) := by
  unfold ExecutedNext
  infer_instance

/-- State `s1` is the outcome of one more tick of the running compute task `t` from state
`s`: CPU flag and current task are as before; `t` has one unit of time less and is
otherwise as before, like every other task; the owner of `t` has one unit of quantum less
and, ready time apart, is otherwise as before (running flag, pending tasks, counters of
completions and of interrupts included), like every other process; the tier queues, the
exit queue, the I/O queue and both ready queues are as before, and so is the count of
instructions. -/
def ContinuedStep (s s1 : Sim) (t : Nat) : Prop :=
  s1.cpu = s.cpu ∧ s1.t = s.t ∧
  getT s1.tasks t = { getT s.tasks t with time := (getT s.tasks t).time - 1 } ∧
  (∀ y, y ≠ t → getT s1.tasks y = getT s.tasks y) ∧
  (∃ r, getP s1.procs (getT s.tasks t).parent =
    { getP s.procs (getT s.tasks t).parent with
      quantum := (getP s.procs (getT s.tasks t).parent).quantum - 1, ready := r }) ∧
  (∀ j, j ≠ (getT s.tasks t).parent → ∃ r, getP s1.procs j = { getP s.procs j with ready := r }) ∧
  s1.queueA = s.queueA ∧ s1.queueB = s.queueB ∧ s1.exitQueue = s.exitQueue ∧
  s1.ioQueue = s.ioQueue ∧ s1.readyQueueA = s.readyQueueA ∧
  s1.readyQueueB = s.readyQueueB ∧ s1.stats.instructions = s.stats.instructions

/-- Input of two processes arriving at tick 0, parsed with `quantumB = 3`: `P1:5` with
`exe:10`, `t` and `P2:1` with `exe:10`, `io:1`, `t`. -/
def flagProcs : List Process :=
  [parsedProcess 1 5 0 [0, 1] 3, parsedProcess 2 1 0 [2, 3, 4] 3]

/-- Tasks of `flagProcs`. -/
def flagTasks : List Task :=
  [parsedTask 'e' 10 0, parsedTask 't' 0 0, parsedTask 'e' 10 1, parsedTask 'i' 1 1,
   parsedTask 't' 0 1]

/-! ## Tasks in flight -/

/-- Number of tasks of the queue `q` that are owned by process `p`. -/
def ownedIn (tasks : List Task) (q : List Nat) (p : Nat) : Nat :=
  q.countP fun x => decide ((getT tasks x).parent = p)

/-- Process `p` owns the task on the CPU: 1 if the CPU flag is set and the current task
belongs to `p`, otherwise 0. -/
def onCpu (s : Sim) (p : Nat) : Nat :=
  if s.cpu ≠ 0 ∧ s.t.map (fun x => (getT s.tasks x).parent) = some p then 1 else 0

/-- Invariant of the non-preemptive engine on the tasks in flight: of each process at
most one task is on the CPU, in the I/O queue or in a ready queue; a process with a task
on the CPU or in the I/O queue has its running flag set; the tier-B queue holds no process
twice; and every pending task is owned by the process on whose sequence it is. -/
def FlagSim (s : Sim) : Prop :=
  (∀ p, onCpu s p + ownedIn s.tasks s.ioQueue p + ownedIn s.tasks s.readyQueueA p +
    ownedIn s.tasks s.readyQueueB p ≤ 1) ∧
  (∀ p, 0 < onCpu s p + ownedIn s.tasks s.ioQueue p → (getP s.procs p).taskRunning = 1) ∧
  s.queueB.Nodup ∧
  (∀ p y, y ∈ (getP s.procs p).tasks → (getT s.tasks y).parent = p)

/-- Invariant `FlagSim` together with its part that depends on the control point: inside
the tier-B loop no task of the tier-A ready queue belongs to a process of the tier-B
queue. -/
def FlagInv (m : Machine) : Prop :=
  FlagSim m.sim ∧
  ((m.loc = Loc.inB ∨ m.loc = Loc.midB) →
    ∀ x ∈ m.sim.readyQueueA, (getT m.sim.tasks x).parent ∉ m.sim.queueB)

/-! ## Theorems -/

/-! ### 32-bit values -/

theorem wrap32_eq {x : Int} (h1 : -2147483648 ≤ x) (h2 : x ≤ 2147483647) : wrap32 x = x := by
  unfold wrap32
  omega

theorem wrap32_range (x : Int) : -2147483648 ≤ wrap32 x ∧ wrap32 x ≤ 2147483647 := by
  unfold wrap32
  omega

theorem wrap32_max : wrap32 (2147483647 + 1) = -2147483648 := by
  decide

theorem roundFloat_eq {x : Int} (h : x.natAbs ≤ 16777216) : roundFloat x = x := by
  unfold roundFloat
  split_ifs with h1
  · rfl
  · have h2 : x = 16777216 ∨ x = -16777216 := by omega
    rcases h2 with rfl | rfl <;> decide

/-! ### Stores -/

theorem getD_storeSet_eq {α : Type} [Inhabited α] (i : Nat) :
    ∀ (h : List α) (v : α), (storeSet h i v).getD i default = v := by
  induction i with
  | zero => intro h v; cases h <;> rfl
  | succ i ih =>
    intro h v
    cases h with
    | nil => exact ih [] v
    | cons x xs => exact ih xs v

theorem getD_storeSet_ne {α : Type} [Inhabited α] (i : Nat) :
    ∀ (h : List α) (j : Nat) (v : α), j ≠ i →
      (storeSet h i v).getD j default = h.getD j default := by
  induction i with
  | zero =>
    intro h j v hne
    cases j with
    | zero => exact absurd rfl hne
    | succ j => cases h <;> rfl
  | succ i ih =>
    intro h j v hne
    cases j with
    | zero => cases h <;> rfl
    | succ j =>
      have hji : j ≠ i := fun e => hne (by rw [e])
      cases h with
      | nil => exact ih [] j v hji
      | cons x xs => exact ih xs j v hji

@[simp] theorem getP_setP_eq (procs : List Process) (i : Nat) (p : Process) :
    getP (setP procs i p) i = p := getD_storeSet_eq i procs p

theorem getP_setP_ne (procs : List Process) (i j : Nat) (p : Process) (h : j ≠ i) :
    getP (setP procs i p) j = getP procs j := getD_storeSet_ne i procs j p h

@[simp] theorem getT_setT_eq (tasks : List Task) (i : Nat) (t : Task) :
    getT (setT tasks i t) i = t := getD_storeSet_eq i tasks t

theorem getT_setT_ne (tasks : List Task) (i j : Nat) (t : Task) (h : j ≠ i) :
    getT (setT tasks i t) j = getT tasks j := getD_storeSet_ne i tasks j t h

theorem getP_setP (procs : List Process) (i j : Nat) (p : Process) :
    getP (setP procs i p) j = if j = i then p else getP procs j := by
  by_cases h : j = i
  · subst h; simp
  · simp [h, getP_setP_ne]

theorem getT_setT (tasks : List Task) (i j : Nat) (t : Task) :
    getT (setT tasks i t) j = if j = i then t else getT tasks j := by
  by_cases h : j = i
  · subst h; simp
  · simp [h, getT_setT_ne]

/-! ### Ready-queue insertion -/

/-- Insertion splits the queue at the first node whose parent priority is not greater than
the new task's. -/
theorem priorityEnqueueTask_split (procs : List Process) (tasks : List Task) (t : Nat) :
    ∀ q : List Nat, ∃ pre post, q = pre ++ post ∧
      priorityEnqueueTask procs tasks q t = pre ++ t :: post ∧
      (∀ u ∈ pre, taskPriority procs tasks u > taskPriority procs tasks t) ∧
      (∀ u, post.head? = some u → taskPriority procs tasks u ≤ taskPriority procs tasks t) := by
  intro q
  induction q with
  | nil => exact ⟨[], [], rfl, rfl, by simp, by simp⟩
  | cons c rest ih =>
    by_cases h : taskPriority procs tasks c > taskPriority procs tasks t
    · obtain ⟨pre, post, h1, h2, h3, h4⟩ := ih
      refine ⟨c :: pre, post, by simp [h1], by simp [priorityEnqueueTask, h, h2], ?_, h4⟩
      intro u hu
      rcases List.mem_cons.1 hu with rfl | hu
      · exact h
      · exact h3 u hu
    · refine ⟨[], c :: rest, rfl, by simp [priorityEnqueueTask, h], by simp, ?_⟩
      intro u hu
      simp at hu
      subst hu
      exact not_lt.1 h

theorem priorityEnqueueTask_perm (procs : List Process) (tasks : List Task) (t : Nat)
    (q : List Nat) : List.Perm (priorityEnqueueTask procs tasks q t) (t :: q) := by
  obtain ⟨pre, post, h1, h2, -, -⟩ := priorityEnqueueTask_split procs tasks t q
  rw [h2, h1]
  exact List.perm_middle

/-- Insertion keeps a queue in non-increasing order of parent priority. -/
theorem priorityEnqueueTask_pairwise (procs : List Process) (tasks : List Task) (t : Nat) :
    ∀ q : List Nat,
      List.Pairwise (fun a b => taskPriority procs tasks b ≤ taskPriority procs tasks a) q →
      List.Pairwise (fun a b => taskPriority procs tasks b ≤ taskPriority procs tasks a)
        (priorityEnqueueTask procs tasks q t) := by
  intro q
  induction q with
  | nil => intro _; simp [priorityEnqueueTask]
  | cons c rest ih =>
    intro hq
    rw [List.pairwise_cons] at hq
    by_cases h : taskPriority procs tasks c > taskPriority procs tasks t
    · simp only [priorityEnqueueTask, h, if_true]
      rw [List.pairwise_cons]
      refine ⟨?_, ih hq.2⟩
      intro u hu
      rcases List.mem_cons.1 ((priorityEnqueueTask_perm procs tasks t rest).mem_iff.1 hu) with
        rfl | hu
      · exact le_of_lt h
      · exact hq.1 u hu
    · simp only [priorityEnqueueTask, h, if_false]
      have hc : taskPriority procs tasks c ≤ taskPriority procs tasks t := not_lt.1 h
      rw [List.pairwise_cons]
      refine ⟨?_, List.pairwise_cons.2 hq⟩
      intro u hu
      rcases List.mem_cons.1 hu with rfl | hu
      · exact hc
      · exact le_trans (hq.1 u hu) hc

theorem insertAll_pairwise (procs : List Process) (tasks : List Task) (ts : List Nat) :
    List.Pairwise (fun a b => taskPriority procs tasks b ≤ taskPriority procs tasks a)
      (insertAll procs tasks ts) := by
  unfold insertAll
  induction ts using List.reverseRecOn with
  | nil => simp
  | append_singleton ts t ih =>
    rw [List.foldl_append]
    exact priorityEnqueueTask_pairwise procs tasks t _ ih

/-- C5 (as stated, refuted): inserting a task of a priority-5 process and then a task of a
priority-1 process into the empty ready queue leaves the priority-5 task at the head; the
priority numbers read 5, 1 from head to tail, which is not non-decreasing, and the head
does not carry the numerically lowest priority. -/
theorem C5_counterexample :
    insertAll pairProcs pairTasks [0, 2] = [0, 2] ∧
    (insertAll pairProcs pairTasks [0, 2]).map (taskPriority pairProcs pairTasks) = [5, 1] ∧
    ¬ List.Pairwise (fun a b => taskPriority pairProcs pairTasks a ≤
        taskPriority pairProcs pairTasks b) (insertAll pairProcs pairTasks [0, 2]) := by
  decide

/-- C5 (amended): every ready queue built from the empty queue by `priorityEnqueueTask`
insertions alone has its parent priority numbers non-increasing from head to tail, so the
task at the head belongs to a process with the numerically greatest priority in the
queue. -/
theorem C5_insertAll_nonincreasing (procs : List Process) (tasks : List Task)
    (ts : List Nat) :
    List.Pairwise (fun a b => taskPriority procs tasks b ≤ taskPriority procs tasks a)
      (insertAll procs tasks ts) ∧
    ∀ h, (insertAll procs tasks ts).head? = some h →
      ∀ u ∈ insertAll procs tasks ts, taskPriority procs tasks u ≤ taskPriority procs tasks h := by
  refine ⟨insertAll_pairwise procs tasks ts, ?_⟩
  intro h hh u hu
  have hp := insertAll_pairwise procs tasks ts
  cases hq : insertAll procs tasks ts with
  | nil => rw [hq] at hu; simp at hu
  | cons c rest =>
    rw [hq] at hh hu hp
    simp at hh
    subst hh
    rcases List.mem_cons.1 hu with rfl | hu
    · exact le_refl _
    · exact (List.pairwise_cons.1 hp).1 u hu

/-- Instance of the amended C5: tasks of priorities 1, 5, 5 inserted in that order leave
task 0, of priority 5, at the head, and no task of the queue has a greater priority number. -/
theorem C5_insertAll_nonincreasing_witness :
    (insertAll pairProcs pairTasks [2, 0, 3]).head? = some 0 ∧
    ∀ u ∈ insertAll pairProcs pairTasks [2, 0, 3],
      taskPriority pairProcs pairTasks u ≤ taskPriority pairProcs pairTasks 0 :=
  ⟨by decide, (C5_insertAll_nonincreasing pairProcs pairTasks [2, 0, 3]).2 0 (by decide)⟩

/-- C6: after `priorityEnqueueTask(q, t)` the queue is `pre ++ t :: post` with
`q = pre ++ post`, and no task of `pre` has the parent priority of `t`: every task that was
already in `q` with the same parent priority as `t` sits behind `t`.  In particular two
tasks of equal parent priority inserted into the empty queue end up with the second
insertion ahead of the first. -/
theorem C6_equal_priority_behind (procs : List Process) (tasks : List Task) (q : List Nat)
    (t : Nat) :
    (∃ pre post, q = pre ++ post ∧ priorityEnqueueTask procs tasks q t = pre ++ t :: post ∧
      ∀ u ∈ pre, taskPriority procs tasks u ≠ taskPriority procs tasks t) ∧
    ∀ a, taskPriority procs tasks a = taskPriority procs tasks t →
      priorityEnqueueTask procs tasks (priorityEnqueueTask procs tasks [] a) t = [t, a] := by
  constructor
  · obtain ⟨pre, post, h1, h2, h3, -⟩ := priorityEnqueueTask_split procs tasks t q
    exact ⟨pre, post, h1, h2, fun u hu => ne_of_gt (h3 u hu)⟩
  · intro a ha
    simp [priorityEnqueueTask, ha]

/-- Instance of C6: tasks 0 and 2 belong to two processes of equal priority 2; inserted in
that order into the empty queue they end up as `[2, 0]`. -/
theorem C6_equal_priority_behind_witness :
    taskPriority tieProcs tieTasks 0 = taskPriority tieProcs tieTasks 2 ∧
    priorityEnqueueTask tieProcs tieTasks (priorityEnqueueTask tieProcs tieTasks [] 0) 2
      = [2, 0] :=
  ⟨by decide, (C6_equal_priority_behind tieProcs tieTasks [] 2).2 0 (by decide)⟩

/-! ### Dispatch from a tier -/

theorem eligible_tasks_ne_nil {procs : List Process} {runtime : Int} {p : Nat}
    (h : eligible procs runtime p = true) : (getP procs p).tasks ≠ [] := by
  intro hnil
  simp [eligible, isEmptyT, hnil] at h

theorem takeTask_cons (procs : List Process) (tasks : List Task) (p t : Nat)
    (rest : List Nat) (h : (getP procs p).tasks = t :: rest) :
    takeTask procs tasks p =
      (some t, markRunning (setP procs p { getP procs p with tasks := rest }) tasks t) := by
  simp [takeTask, h, dequeueTask, markRunning]

theorem markRunning_tasks (procs : List Process) (tasks : List Task) (t j : Nat) :
    (getP (markRunning procs tasks t) j).tasks = (getP procs j).tasks := by
  unfold markRunning
  by_cases h : j = (getT tasks t).parent
  · subst h; simp
  · simp [getP_setP_ne _ _ _ _ h]

theorem markRunning_parent (procs : List Process) (tasks : List Task) (t : Nat) :
    getP (markRunning procs tasks t) (getT tasks t).parent =
      { getP procs (getT tasks t).parent with taskRunning := 1 } := by
  simp [markRunning]

theorem markRunning_other (procs : List Process) (tasks : List Task) (t j : Nat)
    (h : j ≠ (getT tasks t).parent) : getP (markRunning procs tasks t) j = getP procs j := by
  simp [markRunning, getP_setP_ne _ _ _ _ h]

theorem scanNext_skip (procs : List Process) (tasks : List Task) (runtime : Int)
    (pre l : List Nat) (h : ∀ x ∈ pre, eligible procs runtime x = false) :
    scanNext procs tasks runtime (pre ++ l) = scanNext procs tasks runtime l := by
  induction pre with
  | nil => rfl
  | cons c pre ih =>
    have hc : eligible procs runtime c = false := h c (List.mem_cons_self _ _)
    simp only [List.cons_append, scanNext, hc]
    exact ih (fun x hx => h x (List.mem_cons_of_mem _ hx))

theorem scanNext_none (procs : List Process) (tasks : List Task) (runtime : Int)
    (q : List Nat) (h : ∀ x ∈ q, eligible procs runtime x = false) :
    scanNext procs tasks runtime q = (none, procs) := by
  have := scanNext_skip procs tasks runtime q [] h
  simpa [scanNext] using this

theorem scanNext_hit (procs : List Process) (tasks : List Task) (runtime : Int)
    (p : Nat) (post : List Nat) (h : eligible procs runtime p = true) :
    scanNext procs tasks runtime (p :: post) = takeTask procs tasks p ∧
      ∃ t rest, (getP procs p).tasks = t :: rest := by
  obtain ⟨t, rest, ht⟩ := List.exists_cons_of_ne_nil (eligible_tasks_ne_nil h)
  refine ⟨?_, t, rest, ht⟩
  simp [scanNext, h, takeTask_cons procs tasks p t rest ht]

/-- A list either holds no eligible process or splits at its first eligible one. -/
theorem first_eligible (procs : List Process) (runtime : Int) (q : List Nat) :
    (∀ x ∈ q, eligible procs runtime x = false) ∨
    ∃ pre p post, q = pre ++ p :: post ∧ (∀ x ∈ pre, eligible procs runtime x = false) ∧
      eligible procs runtime p = true := by
  induction q with
  | nil => left; simp
  | cons c rest ih =>
    by_cases hc : eligible procs runtime c = true
    · exact Or.inr ⟨[], c, rest, rfl, by simp, hc⟩
    · have hc' : eligible procs runtime c = false := by simpa using hc
      rcases ih with h | ⟨pre, p, post, h1, h2, h3⟩
      · left
        intro x hx
        rcases List.mem_cons.1 hx with rfl | hx
        · exact hc'
        · exact h x hx
      · refine Or.inr ⟨c :: pre, p, post, by simp [h1], ?_, h3⟩
        intro x hx
        rcases List.mem_cons.1 hx with rfl | hx
        · exact hc'
        · exact h2 x hx

/-- C7: for every non-empty ready queue `t :: rest`, `getNextTask` returns the front task
`t`, leaves `rest` as the ready queue (exactly the front removed, order kept), sets the
running flag of the process owning `t`, changes nothing else in any process (in
particular no pending-task sequence), and the process queue, which it only reads, is
untouched. -/
theorem C7_getNextTask_front (procs : List Process) (tasks : List Task) (q : List Nat)
    (t : Nat) (rest : List Nat) (runtime : Int) :
    (getNextTask procs tasks q (t :: rest) runtime).1 = some t ∧
    (getNextTask procs tasks q (t :: rest) runtime).2.2 = rest ∧
    getP (getNextTask procs tasks q (t :: rest) runtime).2.1 (getT tasks t).parent =
      { getP procs (getT tasks t).parent with taskRunning := 1 } ∧
    (∀ j, j ≠ (getT tasks t).parent →
      getP (getNextTask procs tasks q (t :: rest) runtime).2.1 j = getP procs j) ∧
    ∀ j, (getP (getNextTask procs tasks q (t :: rest) runtime).2.1 j).tasks =
      (getP procs j).tasks := by
  have h : getNextTask procs tasks q (t :: rest) runtime =
      (some t, markRunning procs tasks t, rest) := by
    simp [getNextTask, isEmptyT, dequeueTask]
  rw [h]
  exact ⟨rfl, rfl, markRunning_parent procs tasks t,
    fun j hj => markRunning_other procs tasks t j hj,
    fun j => markRunning_tasks procs tasks t j⟩

/-- Instance of C7: from the ready queue `[0, 2]` task 0 is returned, `[2]` is left, process 0
is flagged as running and process 1 is untouched. -/
theorem C7_getNextTask_front_witness :
    (getNextTask pairProcsReady pairTasks [0, 1] [0, 2] 0).1 = some 0 ∧
    (getNextTask pairProcsReady pairTasks [0, 1] [0, 2] 0).2.2 = [2] ∧
    (getP (getNextTask pairProcsReady pairTasks [0, 1] [0, 2] 0).2.1 0).taskRunning = 1 ∧
    getP (getNextTask pairProcsReady pairTasks [0, 1] [0, 2] 0).2.1 1 = getP pairProcsReady 1 :=
  ⟨(C7_getNextTask_front pairProcsReady pairTasks [0, 1] 0 [2] 0).1,
    (C7_getNextTask_front pairProcsReady pairTasks [0, 1] 0 [2] 0).2.1,
    congrArg Process.taskRunning
      (C7_getNextTask_front pairProcsReady pairTasks [0, 1] 0 [2] 0).2.2.1,
    (C7_getNextTask_front pairProcsReady pairTasks [0, 1] 0 [2] 0).2.2.2.1 1 (by decide)⟩

/-- C8: with an empty ready queue, if `p` is the first process of `q` in queue order that
has `arrival ≤ tick`, is not running and has a pending task, `getNextTask` returns the
front task `t` of `p`'s pending sequence whatever the priorities, leaves `p` with the rest
of that sequence, flags the owner of `t` as running (so `p` itself, with nothing else
changed in it, when `t` is owned by `p`) and touches no other process; it returns none
exactly when no process of `q` is eligible, and then the state is unchanged. -/
theorem C8_getNextTask_scan (procs : List Process) (tasks : List Task) (q : List Nat)
    (runtime : Int) :
    (∀ pre p post, q = pre ++ p :: post →
      (∀ x ∈ pre, eligible procs runtime x = false) → eligible procs runtime p = true →
      ∃ t rest, (getP procs p).tasks = t :: rest ∧
        (getNextTask procs tasks q [] runtime).1 = some t ∧
        (getNextTask procs tasks q [] runtime).2.2 = [] ∧
        (getP (getNextTask procs tasks q [] runtime).2.1 p).tasks = rest ∧
        (getP (getNextTask procs tasks q [] runtime).2.1 (getT tasks t).parent).taskRunning
          = 1 ∧
        (∀ j, j ≠ p → j ≠ (getT tasks t).parent →
          getP (getNextTask procs tasks q [] runtime).2.1 j = getP procs j) ∧
        ((getT tasks t).parent = p →
          getP (getNextTask procs tasks q [] runtime).2.1 p =
            { getP procs p with tasks := rest, taskRunning := 1 })) ∧
    ((getNextTask procs tasks q [] runtime).1 = none ↔
      ∀ x ∈ q, eligible procs runtime x = false) ∧
    ((∀ x ∈ q, eligible procs runtime x = false) →
      getNextTask procs tasks q [] runtime = (none, procs, [])) := by
  have hdef : getNextTask procs tasks q [] runtime =
      ((scanNext procs tasks runtime q).1, (scanNext procs tasks runtime q).2, []) := by
    simp [getNextTask, isEmptyT]
  have hfound : ∀ pre p post, q = pre ++ p :: post →
      (∀ x ∈ pre, eligible procs runtime x = false) → eligible procs runtime p = true →
      ∃ t rest, (getP procs p).tasks = t :: rest ∧
        scanNext procs tasks runtime q =
          (some t, markRunning (setP procs p { getP procs p with tasks := rest }) tasks t) := by
    intro pre p post hq hpre hp
    obtain ⟨h1, t, rest, ht⟩ := scanNext_hit procs tasks runtime p post hp
    refine ⟨t, rest, ht, ?_⟩
    rw [hq, scanNext_skip procs tasks runtime pre _ hpre, h1,
      takeTask_cons procs tasks p t rest ht]
  refine ⟨?_, ?_, ?_⟩
  · intro pre p post hq hpre hp
    obtain ⟨t, rest, ht, hs⟩ := hfound pre p post hq hpre hp
    refine ⟨t, rest, ht, ?_⟩
    rw [hdef, hs]
    refine ⟨rfl, rfl, ?_, ?_, ?_, ?_⟩
    · simp [markRunning_tasks]
    · simp [markRunning_parent]
    · intro j hj1 hj2
      simp [markRunning_other _ _ _ _ hj2, getP_setP_ne _ _ _ _ hj1]
    · intro hpar
      have := markRunning_parent (setP procs p { getP procs p with tasks := rest }) tasks t
      rw [hpar] at this
      simpa using this
  · constructor
    · intro hnone
      rcases first_eligible procs runtime q with h | ⟨pre, p, post, h1, h2, h3⟩
      · exact h
      · obtain ⟨t, rest, _, hs⟩ := hfound pre p post h1 h2 h3
        rw [hdef, hs] at hnone
        simp at hnone
    · intro h
      rw [hdef, scanNext_none procs tasks runtime q h]
  · intro h
    rw [hdef, scanNext_none procs tasks runtime q h]

/-- Instance of C8: processes of priorities 5 and 1, both arrived at tick 0, enqueued in that
order; the scan dispatches from process 0, the one enqueued first. -/
theorem C8_getNextTask_scan_witness :
    eligible pairProcs 0 0 = true ∧
    ∃ t rest, (getP pairProcs 0).tasks = t :: rest ∧
      (getNextTask pairProcs pairTasks [0, 1] [] 0).1 = some t ∧
      (getNextTask pairProcs pairTasks [0, 1] [] 0).2.2 = [] ∧
      (getP (getNextTask pairProcs pairTasks [0, 1] [] 0).2.1 0).tasks = rest ∧
      (getP (getNextTask pairProcs pairTasks [0, 1] [] 0).2.1
        (getT pairTasks t).parent).taskRunning = 1 ∧
      (∀ j, j ≠ 0 → j ≠ (getT pairTasks t).parent →
        getP (getNextTask pairProcs pairTasks [0, 1] [] 0).2.1 j = getP pairProcs j) ∧
      ((getT pairTasks t).parent = 0 →
        getP (getNextTask pairProcs pairTasks [0, 1] [] 0).2.1 0 =
          { getP pairProcs 0 with tasks := rest, taskRunning := 1 }) :=
  ⟨by decide,
    (C8_getNextTask_scan pairProcs pairTasks [0, 1] 0).1 [] 0 [1] rfl (by simp) (by decide)⟩

/-! ### Preemptive dispatch -/

theorem scanNextPreemptive_skip (procs : List Process) (tasks : List Task) (runtime : Int)
    (pre l : List Nat) (h : ∀ x ∈ pre, eligible procs runtime x = false) :
    scanNextPreemptive procs tasks runtime (pre ++ l) =
      scanNextPreemptive procs tasks runtime l := by
  induction pre with
  | nil => rfl
  | cons c pre ih =>
    have hc : eligible procs runtime c = false := h c (List.mem_cons_self _ _)
    simp only [List.cons_append, scanNextPreemptive, hc]
    exact ih (fun x hx => h x (List.mem_cons_of_mem _ hx))

theorem takeTask_dispatches (procs : List Process) (tasks : List Task) (runtime : Int)
    (c : Nat) (h : eligible procs runtime c = true) :
    ∃ t procs1, takeTask procs tasks c = (some t, procs1) ∧
      DispatchesFrom procs tasks c (some t, procs1, []) := by
  obtain ⟨t, rest, ht⟩ := List.exists_cons_of_ne_nil (eligible_tasks_ne_nil h)
  refine ⟨t, _, takeTask_cons procs tasks c t rest ht, t, rest, ht, rfl, ?_, ?_, ?_, rfl⟩
  · simp [markRunning_tasks]
  · simp [markRunning_parent]
  · intro j hj1 hj2
    simp [markRunning_other _ _ _ _ hj2, getP_setP_ne _ _ _ _ hj1]

theorem getNextTaskPreemptive_nil (procs : List Process) (tasks : List Task) (q : List Nat)
    (runtime : Int) :
    getNextTaskPreemptive procs tasks q [] runtime =
      ((scanNextPreemptive procs tasks runtime q).1,
       (scanNextPreemptive procs tasks runtime q).2, []) := by
  simp [getNextTaskPreemptive, isEmptyT]

/-- C9 (the code at the failing input): in the preemptive run on `P1:1` (`exe:7`, `t`) and
`P2:5` (`exe:9`, `t`) with quantumA = quantumB = 2 the tier-A dispatch of the 38th state
calls `getNextTaskPreemptive` with the ready queue `[2, 0]`, whose front task 2 has the
numerically greater priority (5 against 1).  Re-inserting the front task by priority
would put it back at the front (`priorityEnqueueTask` on `[0]` and task 2 gives `[2, 0]`),
and `getNextTask` returns it; `getNextTaskPreemptive` neither re-inserts nor returns it:
it returns task 1, taken from the process queue, and the ready queue is left as `[0]`,
task 2 having left it without being returned.  The same on the stores `pairProcsReady`,
`pairTasks` with the ready queue `[0, 2]` built by `priorityEnqueueTask`. -/
theorem C9_worse_front_dropped :
    runInput true 2 2 dropProcs dropTasks [0, 1] 38 =
      some (stateAt true 2 2 dropProcs dropTasks [0, 1] 38) ∧
    (stateAt true 2 2 dropProcs dropTasks [0, 1] 38).loc = Loc.midA ∧
    (stateAt true 2 2 dropProcs dropTasks [0, 1] 38).sim.cpu = 0 ∧
    (stateAt true 2 2 dropProcs dropTasks [0, 1] 38).sim.readyQueueA = [2, 0] ∧
    taskPriority (stateAt true 2 2 dropProcs dropTasks [0, 1] 38).sim.procs
      (stateAt true 2 2 dropProcs dropTasks [0, 1] 38).sim.tasks 2 >
    taskPriority (stateAt true 2 2 dropProcs dropTasks [0, 1] 38).sim.procs
      (stateAt true 2 2 dropProcs dropTasks [0, 1] 38).sim.tasks 0 ∧
    priorityEnqueueTask (stateAt true 2 2 dropProcs dropTasks [0, 1] 38).sim.procs
      (stateAt true 2 2 dropProcs dropTasks [0, 1] 38).sim.tasks [0] 2 = [2, 0] ∧
    (getNextTask (stateAt true 2 2 dropProcs dropTasks [0, 1] 38).sim.procs
      (stateAt true 2 2 dropProcs dropTasks [0, 1] 38).sim.tasks
      (stateAt true 2 2 dropProcs dropTasks [0, 1] 38).sim.queueA [2, 0]
      (stateAt true 2 2 dropProcs dropTasks [0, 1] 38).sim.stats.runtime).1 = some 2 ∧
    (getNextTaskPreemptive (stateAt true 2 2 dropProcs dropTasks [0, 1] 38).sim.procs
      (stateAt true 2 2 dropProcs dropTasks [0, 1] 38).sim.tasks
      (stateAt true 2 2 dropProcs dropTasks [0, 1] 38).sim.queueA [2, 0]
      (stateAt true 2 2 dropProcs dropTasks [0, 1] 38).sim.stats.runtime).1 = some 1 ∧
    (getNextTaskPreemptive (stateAt true 2 2 dropProcs dropTasks [0, 1] 38).sim.procs
      (stateAt true 2 2 dropProcs dropTasks [0, 1] 38).sim.tasks
      (stateAt true 2 2 dropProcs dropTasks [0, 1] 38).sim.queueA [2, 0]
      (stateAt true 2 2 dropProcs dropTasks [0, 1] 38).sim.stats.runtime).2.2 = [0] ∧
    insertAll pairProcsReady pairTasks [2, 0] = [0, 2] ∧
    taskPriority pairProcsReady pairTasks 0 > taskPriority pairProcsReady pairTasks 2 ∧
    (priorityEnqueueTask pairProcsReady pairTasks [2] 0).head? = some 0 ∧
    (getNextTask pairProcsReady pairTasks [0, 1] [0, 2] 0).1 = some 0 ∧
    (getNextTask pairProcsReady pairTasks [0, 1] [0, 2] 0).2.2 = [2] ∧
    (getNextTaskPreemptive pairProcsReady pairTasks [0, 1] [0, 2] 0).1 = some 3 ∧
    (getNextTaskPreemptive pairProcsReady pairTasks [0, 1] [0, 2] 0).2.2 = [2] := by
  decide

/-- The re-insertion branch of `getNextTaskPreemptive`: when the front task `c` of the ready
queue has a parent priority numerically lower than that of the second entry `n`, `c` is
re-inserted by priority and `n`, then at the front, is returned. -/
theorem getNextTaskPreemptive_reinsert (procs : List Process) (tasks : List Task)
    (q : List Nat) (c n : Nat) (rest : List Nat) (runtime : Int)
    (h : taskPriority procs tasks c < taskPriority procs tasks n) :
    (getNextTaskPreemptive procs tasks q (c :: n :: rest) runtime).1 =
      (priorityEnqueueTask procs tasks (n :: rest) c).head? ∧
    (getNextTaskPreemptive procs tasks q (c :: n :: rest) runtime).1 = some n ∧
    (getNextTaskPreemptive procs tasks q (c :: n :: rest) runtime).2.2 =
      (priorityEnqueueTask procs tasks (n :: rest) c).tail ∧
    (getNextTaskPreemptive procs tasks q (c :: n :: rest) runtime).2.2 =
      priorityEnqueueTask procs tasks rest c ∧
    List.Perm (n :: (getNextTaskPreemptive procs tasks q (c :: n :: rest) runtime).2.2)
      (c :: n :: rest) ∧
    (getP (getNextTaskPreemptive procs tasks q (c :: n :: rest) runtime).2.1
      (getT tasks n).parent).taskRunning = 1 := by
  have hins : priorityEnqueueTask procs tasks (n :: rest) c =
      n :: priorityEnqueueTask procs tasks rest c := by
    simp [priorityEnqueueTask, h]
  have hr : getNextTaskPreemptive procs tasks q (c :: n :: rest) runtime =
      (some n, markRunning procs tasks n, priorityEnqueueTask procs tasks rest c) := by
    simp [getNextTaskPreemptive, isEmptyT, dequeueTask, peekTask, h, hins]
  rw [hr, hins]
  refine ⟨rfl, rfl, rfl, rfl, ?_, ?_⟩
  · exact ((priorityEnqueueTask_perm procs tasks c rest).cons n).trans (List.Perm.swap c n rest)
  · simp [markRunning_parent]

/-- C10: with an empty ready queue, let `p` be the first eligible process of the queue
(`arrival ≤ tick`, not running, pending task present).  If its immediate successor `n` is
eligible too, `getNextTaskPreemptive` dispatches the front pending task of `p` when `p`
has the strictly lower priority number and of `n` otherwise (so `n` on equal priorities);
if `n` is absent or not eligible it dispatches from `p`.  Processes behind the pair are
not compared: in the queue of three eligible processes of priorities 3, 2, 1 the
dispatched task 2 belongs to the process of priority 2, not to the one of priority 1. -/
theorem C10_adjacent_pair (procs : List Process) (tasks : List Task) (runtime : Int)
    (pre : List Nat) (p : Nat) (hpre : ∀ x ∈ pre, eligible procs runtime x = false)
    (hp : eligible procs runtime p = true) :
    (∀ n post, eligible procs runtime n = true →
      (getP procs p).priority < (getP procs n).priority →
      DispatchesFrom procs tasks p
        (getNextTaskPreemptive procs tasks (pre ++ p :: n :: post) [] runtime)) ∧
    (∀ n post, eligible procs runtime n = true →
      ¬ (getP procs p).priority < (getP procs n).priority →
      DispatchesFrom procs tasks n
        (getNextTaskPreemptive procs tasks (pre ++ p :: n :: post) [] runtime)) ∧
    (∀ n post, eligible procs runtime n = false →
      DispatchesFrom procs tasks p
        (getNextTaskPreemptive procs tasks (pre ++ p :: n :: post) [] runtime)) ∧
    DispatchesFrom procs tasks p
      (getNextTaskPreemptive procs tasks (pre ++ [p]) [] runtime) ∧
    (getNextTaskPreemptive trioProcs trioTasks [0, 1, 2] [] 0).1 = some 2 ∧
    (getT trioTasks 2).parent = 1 ∧
    (getP trioProcs 1).priority = 2 ∧ (getP trioProcs 2).priority = 1 ∧
    eligible trioProcs 0 0 = true ∧ eligible trioProcs 0 1 = true ∧
    eligible trioProcs 0 2 = true := by
  have key : ∀ (l : List Nat) (c : Nat), eligible procs runtime c = true →
      (∃ t procs1, takeTask procs tasks c = (some t, procs1) ∧
        scanNextPreemptive procs tasks runtime (p :: l) = (some t, procs1)) →
      DispatchesFrom procs tasks c
        (getNextTaskPreemptive procs tasks (pre ++ p :: l) [] runtime) := by
    intro l c hc ⟨t, procs1, h1, h2⟩
    obtain ⟨t', procs1', h3, h4⟩ := takeTask_dispatches procs tasks runtime c hc
    rw [h1] at h3
    cases h3
    rw [getNextTaskPreemptive_nil, scanNextPreemptive_skip procs tasks runtime pre _ hpre, h2]
    exact h4
  refine ⟨?_, ?_, ?_, ?_, by decide, by decide, by decide, by decide, by decide, by decide,
    by decide⟩
  · intro n post hn hlt
    obtain ⟨t, procs1, h1, _⟩ := takeTask_dispatches procs tasks runtime p hp
    exact key _ p hp ⟨t, procs1, h1, by simp [scanNextPreemptive, hp, hn, hlt, h1]⟩
  · intro n post hn hlt
    obtain ⟨t, procs1, h1, _⟩ := takeTask_dispatches procs tasks runtime n hn
    exact key _ n hn ⟨t, procs1, h1, by simp [scanNextPreemptive, hp, hn, hlt, h1]⟩
  · intro n post hn
    obtain ⟨t, procs1, h1, _⟩ := takeTask_dispatches procs tasks runtime p hp
    exact key _ p hp ⟨t, procs1, h1, by simp [scanNextPreemptive, hp, hn, h1]⟩
  · obtain ⟨t, procs1, h1, _⟩ := takeTask_dispatches procs tasks runtime p hp
    exact key _ p hp ⟨t, procs1, h1, by simp [scanNextPreemptive, hp, h1]⟩

/-- Instance of C10: two eligible processes of equal priority 2; the successor is dispatched. -/
theorem C10_adjacent_pair_witness :
    eligible tieProcs 0 0 = true ∧ eligible tieProcs 0 1 = true ∧
    ¬ (getP tieProcs 0).priority < (getP tieProcs 1).priority ∧
    DispatchesFrom tieProcs tieTasks 1
      (getNextTaskPreemptive tieProcs tieTasks ([] ++ 0 :: 1 :: []) [] 0) :=
  ⟨by decide, by decide, by decide,
    (C10_adjacent_pair tieProcs tieTasks 0 [] 0 (by simp) (by decide)).2.1 1 []
      (by decide) (by decide)⟩

/-! ### The tier-B ready queue along a run -/

theorem preemptionCheck_nil (procs : List Process) (tasks : List Task) (t : Nat)
    (runtime : Int) (q : List Nat) : preemptionCheck procs tasks [] t runtime q = false := by
  induction q with
  | nil => rfl
  | cons c rest ih => simp [preemptionCheck, peekTask, ih]

theorem ageTasks_frame (s : Sim) :
    (ageTasks s).readyQueueB = s.readyQueueB ∧ (ageTasks s).readyQueueA = s.readyQueueA ∧
    (ageTasks s).cpu = s.cpu ∧ (ageTasks s).t = s.t ∧ (ageTasks s).queueA = s.queueA ∧
    (ageTasks s).queueB = s.queueB ∧ (ageTasks s).exitQueue = s.exitQueue ∧
    (ageTasks s).stats = s.stats := by
  unfold ageTasks
  split <;> simp

theorem tailA_frame (s : Sim) :
    (tailA s).readyQueueB = s.readyQueueB ∧ (tailA s).readyQueueA = s.readyQueueA ∧
    (tailA s).cpu = s.cpu ∧ (tailA s).t = s.t ∧ (tailA s).queueA = s.queueA ∧
    (tailA s).queueB = s.queueB ∧ (tailA s).exitQueue = s.exitQueue ∧
    (tailA s).tasks = s.tasks ∧ (tailA s).ioQueue = s.ioQueue := by
  cases hA : isEmptyP s.queueA <;> cases hB : isEmptyP s.queueB <;>
    simp [tailA, updStats, hA, hB]

theorem tailB_frame (s : Sim) :
    (tailB s).readyQueueB = s.readyQueueB ∧ (tailB s).readyQueueA = s.readyQueueA ∧
    (tailB s).cpu = s.cpu ∧ (tailB s).t = s.t ∧ (tailB s).queueA = s.queueA ∧
    (tailB s).queueB = s.queueB ∧ (tailB s).exitQueue = s.exitQueue ∧
    (tailB s).tasks = s.tasks ∧ (tailB s).ioQueue = s.ioQueue := by
  cases hB : isEmptyP s.queueB <;> simp [tailB, updStats, hB]

theorem switchA_readyQueueB (quantumA : Int) (s : Sim) (t : Nat) :
    (switchA quantumA s t).readyQueueB = s.readyQueueB := by
  unfold switchA finalize updP updT updStats
  simp only []
  split_ifs <;> simp

theorem switchB_readyQueueB (quantumA quantumB : Int) (s : Sim) (t : Nat)
    (h : s.readyQueueB = []) :
    (switchB quantumA quantumB s t).readyQueueB = [] ∨
      ((switchB quantumA quantumB s t).cpu = 0 ∧
        (switchB quantumA quantumB s t).readyQueueB = [t]) := by
  unfold switchB finalize doPromote updP updT updStats
  simp only []
  split_ifs <;> simp [h, priorityEnqueueTask]

theorem dispatch_tierA_readyQueueB (preemption : Bool) (s : Sim) :
    (dispatch preemption true s).readyQueueB = s.readyQueueB := by
  unfold dispatch
  simp only []
  split <;> simp

theorem getNextTask_short (procs : List Process) (tasks : List Task) (q ready : List Nat)
    (runtime : Int) (h : ready = [] ∨ ∃ x, ready = [x]) :
    (getNextTask procs tasks q ready runtime).2.2 = [] := by
  rcases h with rfl | ⟨x, rfl⟩ <;> simp [getNextTask, isEmptyT, dequeueTask]

theorem getNextTaskPreemptive_short (procs : List Process) (tasks : List Task)
    (q ready : List Nat) (runtime : Int) (h : ready = [] ∨ ∃ x, ready = [x]) :
    (getNextTaskPreemptive procs tasks q ready runtime).2.2 = [] := by
  rcases h with rfl | ⟨x, rfl⟩ <;> simp [getNextTaskPreemptive, isEmptyT, dequeueTask, peekTask]

theorem dispatch_tierB_readyQueueB (preemption : Bool) (s : Sim)
    (h : s.readyQueueB = [] ∨ ∃ x, s.readyQueueB = [x]) :
    (dispatch preemption false s).readyQueueB = [] := by
  have h1 := getNextTask_short s.procs s.tasks s.queueB s.readyQueueB s.stats.runtime h
  have h2 := getNextTaskPreemptive_short s.procs s.tasks s.queueB s.readyQueueB
    s.stats.runtime h
  unfold dispatch
  cases preemption <;> simp only [] <;> split <;> simp [h1, h2]

theorem next_ReadyInv (preemption : Bool) (quantumA quantumB : Int) (m m1 : Machine)
    (hinv : ReadyInv m) (h : next preemption quantumA quantumB m = some m1) :
    ReadyInv m1 := by
  obtain ⟨loc, s⟩ := m
  cases loc with
  | outer =>
    have hB : s.readyQueueB = [] := by
      rcases hinv with h1 | ⟨_, _, h3 | h3⟩
      · exact h1
      · cases h3
      · cases h3
    simp only [next] at h
    split_ifs at h <;> (cases h; exact Or.inl hB)
  | inA =>
    have hB : s.readyQueueB = [] := by
      rcases hinv with h1 | ⟨_, _, h3 | h3⟩
      · exact h1
      · cases h3
      · cases h3
    simp only [next] at h
    split_ifs at h
    · cases h; exact Or.inl (by simp [(ageTasks_frame s).1, hB])
    · cases h; exact Or.inl hB
  | midA =>
    have hB : s.readyQueueB = [] := by
      rcases hinv with h1 | ⟨_, _, h3 | h3⟩
      · exact h1
      · cases h3
      · cases h3
    simp only [next] at h
    split_ifs at h with hc
    · cases h; exact Or.inl (by simp [dispatch_tierA_readyQueueB, hB])
    · cases ht : s.t with
      | none => simp [execA, ht] at h
      | some t =>
        simp [execA, ht, hB, preemptionCheck_nil] at h
        cases h
        exact Or.inl (by simp [(tailA_frame _).1, switchA_readyQueueB, hB])
  | inB =>
    simp only [next] at h
    split_ifs at h with hc
    · cases h
      rcases hinv with h1 | ⟨h1, h2, _⟩
      · exact Or.inl (by simpa [(ageTasks_frame s).1] using h1)
      · refine Or.inr ⟨?_, ?_, Or.inr rfl⟩
        · simpa [(ageTasks_frame s).2.2.1] using h1
        · simpa [(ageTasks_frame s).1] using h2
    · cases h
      have : s.readyQueueB = [] := by
        simp [condB, isEmptyT, isEmptyP] at hc
        exact hc.2
      exact Or.inl this
  | midB =>
    simp only [next] at h
    split_ifs at h with hc
    · cases h
      have hs : s.readyQueueB = [] ∨ ∃ x, s.readyQueueB = [x] := by
        rcases hinv with h1 | ⟨_, h2, _⟩
        · exact Or.inl h1
        · exact Or.inr h2
      exact Or.inl (dispatch_tierB_readyQueueB preemption s hs)
    · have hB : s.readyQueueB = [] := by
        rcases hinv with h1 | ⟨h1, _, _⟩
        · exact h1
        · exact absurd h1 hc
      cases ht : s.t with
      | none => simp [execB, ht] at h
      | some t =>
        simp [execB, ht, hB, preemptionCheck_nil] at h
        cases h
        rcases switchB_readyQueueB quantumA quantumB s t hB with h1 | ⟨h1, h2⟩
        · exact Or.inl (by simp [(tailB_frame _).1, h1])
        · refine Or.inr ⟨?_, ⟨t, ?_⟩, Or.inl rfl⟩
          · simpa [(tailB_frame _).2.2.1] using h1
          · simpa [(tailB_frame _).1] using h2
  | done =>
    simp only [next] at h
    cases h
    exact hinv

theorem runFrom_ReadyInv (preemption : Bool) (quantumA quantumB : Int) (n : Nat) :
    ∀ m m1 : Machine, ReadyInv m → runFrom preemption quantumA quantumB n m = some m1 →
      ReadyInv m1 := by
  induction n with
  | zero =>
    intro m m1 hinv h
    simp [runFrom] at h
    subst h
    exact hinv
  | succ n ih =>
    intro m m1 hinv h
    simp only [runFrom] at h
    cases hn : next preemption quantumA quantumB m with
    | none => simp [hn] at h
    | some m2 =>
      simp only [hn] at h
      exact ih m2 m1 (next_ReadyInv preemption quantumA quantumB m m2 hinv hn) h

theorem Reachable_ReadyInv {preemption : Bool} {quantumA quantumB : Int}
    {procs : List Process} {tasks : List Task} {queueB : List Nat} {m : Machine}
    (h : Reachable preemption quantumA quantumB procs tasks queueB m) : ReadyInv m := by
  obtain ⟨m0, n, h0, hn⟩ := h
  refine runFrom_ReadyInv preemption quantumA quantumB n m0 m ?_ hn
  unfold start at h0
  cases hp : peekProcess queueB with
  | none => simp [hp] at h0
  | some p =>
    simp only [hp] at h0
    cases h0
    exact Or.inl rfl

/-- While a task occupies the CPU at the execution point of a tier loop, the preemption
check cannot fire in a reachable state: the tier-B ready queue is empty there. -/
theorem Reachable_no_preemption {preemption : Bool} {quantumA quantumB : Int}
    {procs : List Process} {tasks : List Task} {queueB : List Nat} {m : Machine}
    (h : Reachable preemption quantumA quantumB procs tasks queueB m)
    (hcpu : m.sim.cpu ≠ 0) (t : Nat) :
    (preemption &&
      preemptionCheck m.sim.procs m.sim.tasks m.sim.readyQueueB t m.sim.stats.runtime
        m.sim.queueB) = false := by
  have hB : m.sim.readyQueueB = [] := by
    rcases Reachable_ReadyInv h with h1 | ⟨h1, _, _⟩
    · exact h1
    · exact absurd h1 hcpu
  rw [hB, preemptionCheck_nil]
  simp

theorem runInput_Reachable {preemption : Bool} {quantumA quantumB : Int}
    {procs : List Process} {tasks : List Task} {queueB : List Nat} {n : Nat} {m : Machine}
    (h : runInput preemption quantumA quantumB procs tasks queueB n = some m) :
    Reachable preemption quantumA quantumB procs tasks queueB m := by
  unfold runInput at h
  cases h0 : start procs tasks queueB with
  | none => simp [h0] at h
  | some m0 =>
    simp only [h0] at h
    exact ⟨m0, n, h0, h⟩

/-! ### Completion of a compute task -/

theorem promoteProcess_frame (procs : List Process) (queueB queueA : List Nat) (p j : Nat) :
    (getP (promoteProcess procs queueB queueA p).1 j).taskRunning = (getP procs j).taskRunning ∧
    (getP (promoteProcess procs queueB queueA p).1 j).currentTask = (getP procs j).currentTask ∧
    (getP (promoteProcess procs queueB queueA p).1 j).quantum = (getP procs j).quantum ∧
    (getP (promoteProcess procs queueB queueA p).1 j).completions = (getP procs j).completions ∧
    (getP (promoteProcess procs queueB queueA p).1 j).priority = (getP procs j).priority := by
  unfold promoteProcess
  split
  · by_cases h : j = p
    · subst h; simp
    · simp [getP_setP_ne _ _ _ _ h]
  · simp

theorem switchA_completed (quantumA : Int) (s : Sim) (t : Nat)
    (h1 : (getT s.tasks t).type = 'e') (h2 : (getT s.tasks t).time = 0) :
    CompletedStep s (switchA quantumA s t) t := by
  simp [switchA, h1, h2, updP, updT, updStats, CompletedStep]

theorem switchB_completed (quantumA quantumB : Int) (s : Sim) (t : Nat)
    (h1 : (getT s.tasks t).type = 'e') (h2 : (getT s.tasks t).time = 0) :
    CompletedStep s (switchB quantumA quantumB s t) t := by
  simp only [switchB, h1, h2, updP, updT, updStats, CompletedStep, doPromote]
  simp
  split_ifs <;> simp [promoteProcess_frame]

theorem updateProcessQueue_frame (runtime : Int) (q : List Nat) :
    ∀ (procs : List Process) (j : Nat),
      ∃ r, getP (updateProcessQueue procs runtime q) j = { getP procs j with ready := r } := by
  induction q with
  | nil => intro procs j; exact ⟨(getP procs j).ready, rfl⟩
  | cons c rest ih =>
    intro procs j
    simp only [updateProcessQueue]
    split_ifs with hc
    · obtain ⟨r, hr⟩ :=
        ih (setP procs c { getP procs c with ready := wrap32 ((getP procs c).ready + 1) }) j
      refine ⟨r, ?_⟩
      rw [hr]
      by_cases h : j = c
      · subst h; simp
      · simp [getP_setP_ne _ _ _ _ h]
    · exact ih procs j

theorem tailB_procs (s : Sim) (j : Nat) :
    ∃ r, getP (tailB s).procs j = { getP s.procs j with ready := r } := by
  cases hB : isEmptyP s.queueB
  · obtain ⟨r, hr⟩ := updateProcessQueue_frame s.stats.runtime s.queueB s.procs j
    exact ⟨r, by simpa [tailB, updStats, hB] using hr⟩
  · exact ⟨(getP s.procs j).ready, by simp [tailB, updStats, hB]⟩

theorem tailA_procs (s : Sim) (j : Nat) :
    ∃ r, getP (tailA s).procs j = { getP s.procs j with ready := r } := by
  cases hA : isEmptyP s.queueA <;> cases hB : isEmptyP s.queueB
  · obtain ⟨r1, h1⟩ := updateProcessQueue_frame s.stats.runtime s.queueA s.procs j
    obtain ⟨r2, h2⟩ := updateProcessQueue_frame s.stats.runtime s.queueB
      (updateProcessQueue s.procs s.stats.runtime s.queueA) j
    refine ⟨r2, ?_⟩
    rw [h1] at h2
    simpa [tailA, updStats, hA, hB] using h2
  · obtain ⟨r1, h1⟩ := updateProcessQueue_frame s.stats.runtime s.queueA s.procs j
    exact ⟨r1, by simpa [tailA, updStats, hA, hB] using h1⟩
  · obtain ⟨r1, h1⟩ := updateProcessQueue_frame s.stats.runtime s.queueB s.procs j
    exact ⟨r1, by simpa [tailA, updStats, hA, hB] using h1⟩
  · exact ⟨(getP s.procs j).ready, by simp [tailA, updStats, hA, hB]⟩

theorem tailA_stats (s : Sim) : (tailA s).stats.instructions = s.stats.instructions := by
  cases hA : isEmptyP s.queueA <;> cases hB : isEmptyP s.queueB <;>
    simp [tailA, updStats, hA, hB]

theorem tailB_stats (s : Sim) : (tailB s).stats.instructions = s.stats.instructions := by
  cases hB : isEmptyP s.queueB <;> simp [tailB, updStats, hB]

theorem CompletedStep_tailA {s s1 : Sim} {t : Nat} (h : CompletedStep s s1 t) :
    CompletedStep s (tailA s1) t := by
  obtain ⟨h1, h2, h3, h4, h5, h6, h7, h8⟩ := h
  have hf := tailA_frame s1
  obtain ⟨r, hp⟩ := tailA_procs s1 (getT s.tasks t).parent
  refine ⟨?_, ?_, ?_, ?_, ?_, ?_, ?_, ?_⟩
  · rw [hf.2.2.2.2.2.2.2.1]; exact h1
  · rw [hp]; exact h2
  · rw [hp]; exact h3
  · rw [tailA_stats]; exact h4
  · rw [hf.2.2.1]; exact h5
  · rw [hf.2.1]; exact h6
  · rw [hf.1]; exact h7
  · rw [hf.2.2.2.2.2.2.2.1]; exact h8

theorem CompletedStep_tailB {s s1 : Sim} {t : Nat} (h : CompletedStep s s1 t) :
    CompletedStep s (tailB s1) t := by
  obtain ⟨h1, h2, h3, h4, h5, h6, h7, h8⟩ := h
  have hf := tailB_frame s1
  obtain ⟨r, hp⟩ := tailB_procs s1 (getT s.tasks t).parent
  refine ⟨?_, ?_, ?_, ?_, ?_, ?_, ?_, ?_⟩
  · rw [hf.2.2.2.2.2.2.2.1]; exact h1
  · rw [hp]; exact h2
  · rw [hp]; exact h3
  · rw [tailB_stats]; exact h4
  · rw [hf.2.2.1]; exact h5
  · rw [hf.2.1]; exact h6
  · rw [hf.1]; exact h7
  · rw [hf.2.2.2.2.2.2.2.1]; exact h8

/-- C3: in every state reachable by either engine (any quanta, any parsed input) in which
a compute task `t` occupies the CPU with remaining time 0 at the execution point of a tier
loop, whatever the quantum of its process, the step of tier A as well as the step of
tier B is defined and marks `t` completed, clears the running flag of the owning process,
advances its current-task index by one, counts one instruction and releases the CPU,
leaving both ready queues and the interrupt counter of `t` as they were; this holds for
the state-machine step itself and for the whole remainder of the iteration. -/
theorem C3_completion_wins (preemption : Bool) (quantumA quantumB : Int)
    (procs : List Process) (tasks : List Task) (queueB : List Nat) (m : Machine) (t : Nat)
    (hr : Reachable preemption quantumA quantumB procs tasks queueB m)
    (hcpu : m.sim.cpu ≠ 0) (ht : m.sim.t = some t)
    (htype : (getT m.sim.tasks t).type = 'e') (htime : (getT m.sim.tasks t).time = 0) :
    (m.loc = Loc.midA →
      ∃ s1, execA preemption quantumA m.sim = some s1 ∧ CompletedStep m.sim s1 t ∧
        next preemption quantumA quantumB m = some { loc := Loc.inA, sim := tailA s1 } ∧
        CompletedStep m.sim (tailA s1) t) ∧
    (m.loc = Loc.midB →
      ∃ s1, execB preemption quantumA quantumB m.sim = some s1 ∧ CompletedStep m.sim s1 t ∧
        next preemption quantumA quantumB m = some { loc := Loc.inB, sim := tailB s1 } ∧
        CompletedStep m.sim (tailB s1) t) := by
  have hno := Reachable_no_preemption hr hcpu t
  obtain ⟨loc, s⟩ := m
  simp only at hcpu ht htype htime hno
  constructor
  · intro hloc
    simp only at hloc
    subst hloc
    have hA := switchA_completed quantumA s t htype htime
    have he : execA preemption quantumA s = some (switchA quantumA s t) := by
      simp [execA, ht, hno]
    exact ⟨_, he, hA, by simp [next, hcpu, he], CompletedStep_tailA hA⟩
  · intro hloc
    simp only at hloc
    subst hloc
    have hB := switchB_completed quantumA quantumB s t htype htime
    have he : execB preemption quantumA quantumB s = some (switchB quantumA quantumB s t) := by
      simp [execB, ht, hno]
    exact ⟨_, he, hB, by simp [next, hcpu, he], CompletedStep_tailB hB⟩

/-- Instance of C3: input `exe:2`, `t` with both quanta 2 in preemptive mode; after 9 moves
the compute task has time 0 and its process quantum 0, and the step completes the task. -/
theorem C3_completion_wins_witness :
    runInput true 2 2 edgeProcs edgeTasks [0] 9 = some (stateAt true 2 2 edgeProcs edgeTasks [0] 9) ∧
    (stateAt true 2 2 edgeProcs edgeTasks [0] 9).loc = Loc.midB ∧
    (stateAt true 2 2 edgeProcs edgeTasks [0] 9).sim.cpu ≠ 0 ∧
    (stateAt true 2 2 edgeProcs edgeTasks [0] 9).sim.t = some 0 ∧
    (getT (stateAt true 2 2 edgeProcs edgeTasks [0] 9).sim.tasks 0).type = 'e' ∧
    (getT (stateAt true 2 2 edgeProcs edgeTasks [0] 9).sim.tasks 0).time = 0 ∧
    (getP (stateAt true 2 2 edgeProcs edgeTasks [0] 9).sim.procs 0).quantum = 0 ∧
    ∃ s1, execB true 2 2 (stateAt true 2 2 edgeProcs edgeTasks [0] 9).sim = some s1 ∧
      CompletedStep (stateAt true 2 2 edgeProcs edgeTasks [0] 9).sim s1 0 ∧
      next true 2 2 (stateAt true 2 2 edgeProcs edgeTasks [0] 9) =
        some { loc := Loc.inB, sim := tailB s1 } ∧
      CompletedStep (stateAt true 2 2 edgeProcs edgeTasks [0] 9).sim (tailB s1) 0 :=
  ⟨by decide, by decide, by decide, by decide, by decide, by decide, by decide,
    (C3_completion_wins true 2 2 edgeProcs edgeTasks [0]
      (stateAt true 2 2 edgeProcs edgeTasks [0] 9) 0
      (runInput_Reachable (n := 9) (by decide)) (by decide) (by decide) (by decide)
      (by decide)).2 (by decide)⟩

/-! ### Promotion on three completions -/

theorem mem_priorityEnqueueProcess (procs : List Process) (p : Nat) :
    ∀ q : List Nat, p ∈ priorityEnqueueProcess procs q p := by
  intro q
  induction q with
  | nil => simp [priorityEnqueueProcess]
  | cons c rest ih =>
    simp only [priorityEnqueueProcess]
    split_ifs
    · exact List.mem_cons_of_mem _ ih
    · exact List.mem_cons_self _ _

theorem detachProcess_of_mem (p : Nat) :
    ∀ q : List Nat, p ∈ q → ∃ q1, detachProcess q p = some q1 := by
  intro q
  induction q with
  | nil => intro h; simp at h
  | cons c rest ih =>
    intro h
    by_cases hc : c = p
    · exact ⟨rest, by simp [detachProcess, hc]⟩
    · rcases List.mem_cons.1 h with h1 | h1
      · exact absurd h1.symm hc
      · obtain ⟨q1, hq1⟩ := ih h1
        exact ⟨c :: q1, by simp [detachProcess, hc, hq1]⟩

theorem Promoted_tailB {quantumA : Int} {s : Sim} {p : Nat} (h : Promoted quantumA s p) :
    Promoted quantumA (tailB s) p := by
  obtain ⟨h1, h2, h3, h4⟩ := h
  obtain ⟨r, hp⟩ := tailB_procs s p
  refine ⟨?_, ?_, ?_, ?_⟩
  · rw [(tailB_frame s).2.2.2.2.1]; exact h1
  · rw [hp]; exact h2
  · rw [hp]; exact h3
  · rw [hp]; exact h4

theorem switchB_promoted_issue (quantumA quantumB : Int) (s : Sim) (t : Nat)
    (h1 : (getT s.tasks t).type = 'i')
    (h2 : (getP s.procs (getT s.tasks t).parent).quantum - 1 > 0)
    (h3 : (getP s.procs (getT s.tasks t).parent).completions + 1 = 3) :
    Promoted quantumA (switchB quantumA quantumB s t) (getT s.tasks t).parent := by
  have h0 : (getP s.procs (getT s.tasks t).parent).quantum > 0 := by omega
  simp [switchB, h1, h2, h3, h0, updP, updT, updStats, Promoted, mem_priorityEnqueueProcess]

theorem switchB_promoted_exe (quantumA quantumB : Int) (s : Sim) (t : Nat)
    (h1 : (getT s.tasks t).type = 'e') (h2 : (getT s.tasks t).time = 0)
    (h3 : (getP s.procs (getT s.tasks t).parent).quantum > 0)
    (h4 : (getP s.procs (getT s.tasks t).parent).completions + 1 = 3)
    (h5 : (getT s.tasks t).parent ∈ s.queueB) :
    Promoted quantumA (switchB quantumA quantumB s t) (getT s.tasks t).parent := by
  obtain ⟨q1, hq1⟩ := detachProcess_of_mem _ _ h5
  simp [switchB, h1, h2, h3, h4, updP, updT, updStats, Promoted, doPromote, promoteProcess,
    hq1, mem_priorityEnqueueProcess]

/-- C2: in every state reachable by either engine in which the tier-B loop is about to
execute the running task `t` of process `p` and that step brings `p`'s completions counter
to 3 — `t` is an I/O task whose issue leaves `p`'s quantum above 0, or `t` is a compute
task with no time left, `p` has quantum above 0 and is a member of the tier-B queue — the
step is defined, and immediately after it (after the state-machine step, and still at
the end of the loop iteration) `p` is in the tier-A process queue, its quantum equals the
tier-A quantum and its exit-tier tag is `"A"`. -/
theorem C2_three_completions_promote (preemption : Bool) (quantumA quantumB : Int)
    (procs : List Process) (tasks : List Task) (queueB : List Nat) (m : Machine) (t : Nat)
    (hr : Reachable preemption quantumA quantumB procs tasks queueB m)
    (hloc : m.loc = Loc.midB) (hcpu : m.sim.cpu ≠ 0) (ht : m.sim.t = some t)
    (hcount : (getP m.sim.procs (getT m.sim.tasks t).parent).completions + 1 = 3)
    (hcase :
      ((getT m.sim.tasks t).type = 'i' ∧
        (getP m.sim.procs (getT m.sim.tasks t).parent).quantum - 1 > 0) ∨
      ((getT m.sim.tasks t).type = 'e' ∧ (getT m.sim.tasks t).time = 0 ∧
        (getP m.sim.procs (getT m.sim.tasks t).parent).quantum > 0 ∧
        (getT m.sim.tasks t).parent ∈ m.sim.queueB)) :
    ∃ s1, execB preemption quantumA quantumB m.sim = some s1 ∧
      next preemption quantumA quantumB m = some { loc := Loc.inB, sim := tailB s1 } ∧
      Promoted quantumA s1 (getT m.sim.tasks t).parent ∧
      Promoted quantumA (tailB s1) (getT m.sim.tasks t).parent := by
  have hno := Reachable_no_preemption hr hcpu t
  obtain ⟨loc, s⟩ := m
  simp only at hloc hcpu ht hcount hcase hno
  subst hloc
  have he : execB preemption quantumA quantumB s = some (switchB quantumA quantumB s t) := by
    simp [execB, ht, hno]
  have hP : Promoted quantumA (switchB quantumA quantumB s t) (getT s.tasks t).parent := by
    rcases hcase with ⟨h1, h2⟩ | ⟨h1, h2, h3, h4⟩
    · exact switchB_promoted_issue quantumA quantumB s t h1 h2 hcount
    · exact switchB_promoted_exe quantumA quantumB s t h1 h2 h3 hcount h4
  exact ⟨_, he, by simp [next, hcpu, he], hP, Promoted_tailB hP⟩

/-- Instance of C2: after 21 moves on the two-process input the third compute completion of
process 0 is about to be executed; the step leaves it promoted. -/
theorem C2_three_completions_promote_witness :
    runInput false 2 5 duoProcs duoTasks [0, 1] 21 =
      some (stateAt false 2 5 duoProcs duoTasks [0, 1] 21) ∧
    (stateAt false 2 5 duoProcs duoTasks [0, 1] 21).loc = Loc.midB ∧
    (stateAt false 2 5 duoProcs duoTasks [0, 1] 21).sim.cpu ≠ 0 ∧
    (stateAt false 2 5 duoProcs duoTasks [0, 1] 21).sim.t = some 2 ∧
    (getT (stateAt false 2 5 duoProcs duoTasks [0, 1] 21).sim.tasks 2).parent = 0 ∧
    (getP (stateAt false 2 5 duoProcs duoTasks [0, 1] 21).sim.procs 0).completions + 1 = 3 ∧
    ∃ s1, execB false 2 5 (stateAt false 2 5 duoProcs duoTasks [0, 1] 21).sim = some s1 ∧
      next false 2 5 (stateAt false 2 5 duoProcs duoTasks [0, 1] 21) =
        some { loc := Loc.inB, sim := tailB s1 } ∧
      Promoted 2 s1 (getT (stateAt false 2 5 duoProcs duoTasks [0, 1] 21).sim.tasks 2).parent ∧
      Promoted 2 (tailB s1)
        (getT (stateAt false 2 5 duoProcs duoTasks [0, 1] 21).sim.tasks 2).parent :=
  ⟨by decide, by decide, by decide, by decide, by decide, by decide,
    C2_three_completions_promote false 2 5 duoProcs duoTasks [0, 1]
      (stateAt false 2 5 duoProcs duoTasks [0, 1] 21) 2
      (runInput_Reachable (n := 21) (by decide)) (by decide) (by decide) (by decide)
      (by decide) (Or.inr ⟨by decide, by decide, by decide, by decide⟩)⟩

/-! ### Runs that break the queue discipline -/

/-- C1 (the code at the failing input): on the input `P1:1`, `arrival_t:0`, `io:1`, `io:1`,
`io:1`, `t` with quantumA = 2 and quantumB = 5, the third I/O issue brings the completions
counter to 3 and the non-preemptive and the preemptive engine both reach a state in which
process 0 is in the tier-A queue and still in the tier-B queue; after it has terminated out
of tier A it is in the tier-B queue and in the exit queue. -/
theorem C1_io_promotion_keeps_tierB_node :
    (runInput false 2 5 ioProcs ioTasks [0] 22).map
      (fun m => (m.sim.queueA, m.sim.queueB, m.sim.exitQueue)) = some ([0], [0], []) ∧
    (runInput true 2 5 ioProcs ioTasks [0] 22).map
      (fun m => (m.sim.queueA, m.sim.queueB, m.sim.exitQueue)) = some ([0], [0], []) ∧
    (runInput false 2 5 ioProcs ioTasks [0] 30).map
      (fun m => (m.sim.queueA, m.sim.queueB, m.sim.exitQueue)) = some ([], [0], [0]) ∧
    (runInput true 2 5 ioProcs ioTasks [0] 30).map
      (fun m => (m.sim.queueA, m.sim.queueB, m.sim.exitQueue)) = some ([], [0], [0]) := by
  decide

/-- C4 (the code at the failing input): on the input of two processes `P1:1` (`exe:1`,
`exe:1`, `exe:1`, `t`) and `P2:1` (`exe:1`, `t`), both arriving at tick 0, with
quantumA = 2 and quantumB = 5, the non-preemptive engine is at the dispatch point of the
tier-B loop with a free CPU after its 23rd move, while the promoted process 0 sits in the
tier-A queue; its next move dispatches task 4, the front pending task of process 1, from
the tier-B process queue. -/
theorem C4_tierB_dispatch_while_tierA_waits :
    runInput false 2 5 duoProcs duoTasks [0, 1] 23 =
      some (stateAt false 2 5 duoProcs duoTasks [0, 1] 23) ∧
    (stateAt false 2 5 duoProcs duoTasks [0, 1] 23).loc = Loc.midB ∧
    (stateAt false 2 5 duoProcs duoTasks [0, 1] 23).sim.cpu = 0 ∧
    (stateAt false 2 5 duoProcs duoTasks [0, 1] 23).sim.queueA = [0] ∧
    (stateAt false 2 5 duoProcs duoTasks [0, 1] 23).sim.queueB = [1] ∧
    (getP (stateAt false 2 5 duoProcs duoTasks [0, 1] 23).sim.procs 1).tasks = [4, 5] ∧
    next false 2 5 (stateAt false 2 5 duoProcs duoTasks [0, 1] 23) =
      some (stateAt false 2 5 duoProcs duoTasks [0, 1] 24) ∧
    (stateAt false 2 5 duoProcs duoTasks [0, 1] 24).sim.cpu = 1 ∧
    (stateAt false 2 5 duoProcs duoTasks [0, 1] 24).sim.t = some 4 ∧
    (stateAt false 2 5 duoProcs duoTasks [0, 1] 24).sim.queueA = [0] ∧
    (getP (stateAt false 2 5 duoProcs duoTasks [0, 1] 24).sim.procs 1).tasks = [5] := by
  decide

/-! ### Frame of the engine operations on ready times and on the clock -/

theorem getP_setP_ready (procs : List Process) (i j : Nat) (p : Process)
    (h : p.ready = (getP procs i).ready) :
    (getP (setP procs i p) j).ready = (getP procs j).ready := by
  by_cases hj : j = i
  · subst hj; simp [h]
  · rw [getP_setP_ne _ _ _ _ hj]

theorem promoteProcess_ready (procs : List Process) (queueB queueA : List Nat) (p j : Nat) :
    (getP (promoteProcess procs queueB queueA p).1 j).ready = (getP procs j).ready := by
  unfold promoteProcess
  split
  · exact getP_setP_ready _ _ _ _ rfl
  · rfl

theorem switchB_ready (quantumA quantumB : Int) (s : Sim) (t j : Nat) :
    (getP (switchB quantumA quantumB s t).procs j).ready = (getP s.procs j).ready := by
  simp only [switchB, finalize, doPromote, updP, updT, updStats]
  split_ifs <;> simp [getP_setP_ready, promoteProcess_ready]

theorem switchA_ready (quantumA : Int) (s : Sim) (t j : Nat) :
    (getP (switchA quantumA s t).procs j).ready = (getP s.procs j).ready := by
  simp only [switchA, finalize, updP, updT, updStats]
  split_ifs <;> simp [getP_setP_ready]

theorem switchB_runtime (quantumA quantumB : Int) (s : Sim) (t : Nat) :
    (switchB quantumA quantumB s t).stats.runtime =
      (if (getT s.tasks t).type ≠ 'i' ∧ (getT s.tasks t).type ≠ 'e' ∧
          (getP s.procs (getT s.tasks t).parent).quantum > 0 then wrap32 (s.stats.runtime + 1)
       else s.stats.runtime) := by
  simp only [switchB, finalize, doPromote, updP, updT, updStats]
  split_ifs <;> simp_all

theorem switchA_runtime (quantumA : Int) (s : Sim) (t : Nat) :
    (switchA quantumA s t).stats.runtime =
      (if (getT s.tasks t).type ≠ 'i' ∧ (getT s.tasks t).type ≠ 'e' ∧
          (getP s.procs (getT s.tasks t).parent).quantum > 0 then wrap32 (s.stats.runtime + 1)
       else s.stats.runtime) := by
  simp only [switchA, finalize, updP, updT, updStats]
  split_ifs <;> simp_all

theorem updateIOTasks_ready (q : List Nat) :
    ∀ (procs : List Process) (tasks : List Task) (j : Nat),
      (getP (updateIOTasks procs tasks q).1 j).ready = (getP procs j).ready := by
  induction q with
  | nil => intro procs tasks j; rfl
  | cons c rest ih =>
    intro procs tasks j
    simp only [updateIOTasks]
    split_ifs
    · exact ih _ _ j
    · rw [ih]
      exact getP_setP_ready _ _ _ _ rfl

theorem markRunning_ready (procs : List Process) (tasks : List Task) (t j : Nat) :
    (getP (markRunning procs tasks t) j).ready = (getP procs j).ready :=
  getP_setP_ready _ _ _ _ rfl

theorem takeTask_ready (procs : List Process) (tasks : List Task) (p j : Nat) :
    (getP (takeTask procs tasks p).2 j).ready = (getP procs j).ready := by
  unfold takeTask
  cases h : (getP procs p).tasks with
  | nil => simp [dequeueTask]
  | cons t rest =>
    simp only [dequeueTask]
    refine Eq.trans (getP_setP_ready _ _ _ _ ?_) (getP_setP_ready _ _ _ _ ?_) <;> rfl

theorem takeTask_ready_of_eq {procs procs1 : List Process} {tasks : List Task} {p : Nat}
    {o : Option Nat} (h : takeTask procs tasks p = (o, procs1)) (j : Nat) :
    (getP procs1 j).ready = (getP procs j).ready := by
  have := takeTask_ready procs tasks p j
  rw [h] at this
  exact this

theorem scanNext_ready (procs : List Process) (tasks : List Task) (runtime : Int) (j : Nat) :
    ∀ q : List Nat, (getP (scanNext procs tasks runtime q).2 j).ready = (getP procs j).ready := by
  intro q
  induction q with
  | nil => rfl
  | cons c rest ih =>
    simp only [scanNext]
    split_ifs
    · split
      · rename_i t procs1 heq
        exact takeTask_ready_of_eq heq j
      · exact ih
    · exact ih

theorem scanNextPreemptive_ready (procs : List Process) (tasks : List Task) (runtime : Int)
    (j : Nat) :
    ∀ q : List Nat,
      (getP (scanNextPreemptive procs tasks runtime q).2 j).ready = (getP procs j).ready := by
  intro q
  induction q with
  | nil => rfl
  | cons c rest ih =>
    simp only [scanNextPreemptive]
    split_ifs
    · split
      · rename_i t procs1 heq
        exact takeTask_ready_of_eq heq j
      · exact ih
    · exact ih

theorem getNextTask_ready (procs : List Process) (tasks : List Task) (q ready : List Nat)
    (runtime : Int) (j : Nat) :
    (getP (getNextTask procs tasks q ready runtime).2.1 j).ready = (getP procs j).ready := by
  unfold getNextTask
  split_ifs
  · cases ready with
    | nil => simp [dequeueTask, scanNext_ready]
    | cons t rest => simp [dequeueTask, markRunning_ready]
  · simp [scanNext_ready]

theorem getNextTaskPreemptive_ready (procs : List Process) (tasks : List Task)
    (q ready : List Nat) (runtime : Int) (j : Nat) :
    (getP (getNextTaskPreemptive procs tasks q ready runtime).2.1 j).ready =
      (getP procs j).ready := by
  unfold getNextTaskPreemptive
  split_ifs
  · cases ready with
    | nil => simp [dequeueTask, scanNextPreemptive_ready]
    | cons c rest =>
      cases rest with
      | nil => simp [dequeueTask, peekTask, markRunning_ready]
      | cons n rest1 =>
        simp only [dequeueTask, peekTask, List.head?]
        split_ifs
        · cases hq : priorityEnqueueTask procs tasks (n :: rest1) c with
          | nil => simp [scanNextPreemptive_ready]
          | cons a b => simp [markRunning_ready]
        · simp [scanNextPreemptive_ready]
  · simp [scanNextPreemptive_ready]

theorem dispatch_ready (preemption tierA : Bool) (s : Sim) (j : Nat) :
    (getP (dispatch preemption tierA s).procs j).ready = (getP s.procs j).ready := by
  unfold dispatch
  cases preemption <;> cases tierA <;> simp only [] <;> split <;>
    simp [markRunning_ready, getNextTask_ready, getNextTaskPreemptive_ready]

theorem dispatch_runtime (preemption tierA : Bool) (s : Sim) :
    (dispatch preemption tierA s).stats = s.stats := by
  unfold dispatch
  cases preemption <;> cases tierA <;> simp only [] <;> split <;> simp

theorem ageTasks_ready (s : Sim) (j : Nat) :
    (getP (ageTasks s).procs j).ready = (getP s.procs j).ready := by
  unfold ageTasks
  split_ifs
  · simp [updateIOTasks_ready]
  · rfl

theorem preemptA_ready (s : Sim) (t j : Nat) :
    (getP (preemptA s t).procs j).ready = (getP s.procs j).ready := by
  simp [preemptA, updP, updT, getNextTaskPreemptive_ready, getP_setP_ready]

theorem preemptA_stats (s : Sim) (t : Nat) : (preemptA s t).stats = s.stats := by
  simp [preemptA, updP, updT]

theorem preemptB_ready (quantumA : Int) (s : Sim) (t j : Nat) :
    (getP (preemptB quantumA s t).procs j).ready = (getP s.procs j).ready := by
  simp only [preemptB, doPromote, updP, updT]
  split_ifs <;>
    simp [getNextTaskPreemptive_ready, getP_setP_ready, promoteProcess_ready]

theorem preemptB_stats (quantumA : Int) (s : Sim) (t : Nat) :
    (preemptB quantumA s t).stats = s.stats := by
  simp only [preemptB, doPromote, updP, updT]
  split_ifs <;> simp

/-! ### Clock and ready times along a run -/

theorem tailB_procs_eq (s : Sim) :
    (tailB s).procs =
      if isEmptyP s.queueB then s.procs
      else updateProcessQueue s.procs s.stats.runtime s.queueB := by
  cases hB : isEmptyP s.queueB <;> simp [tailB, updStats, hB]

theorem tailA_procs_eq (s : Sim) :
    (tailA s).procs =
      if isEmptyP s.queueB then
        (if isEmptyP s.queueA then s.procs
         else updateProcessQueue s.procs s.stats.runtime s.queueA)
      else
        updateProcessQueue
          (if isEmptyP s.queueA then s.procs
           else updateProcessQueue s.procs s.stats.runtime s.queueA)
          s.stats.runtime s.queueB := by
  cases hA : isEmptyP s.queueA <;> cases hB : isEmptyP s.queueB <;>
    simp [tailA, updStats, hA, hB]

theorem tailA_runtime (s : Sim) :
    (tailA s).stats.runtime = wrap32 (s.stats.runtime + 1) := by
  cases hA : isEmptyP s.queueA <;> cases hB : isEmptyP s.queueB <;>
    simp [tailA, updStats, hA, hB]

theorem tailB_runtime (s : Sim) :
    (tailB s).stats.runtime = wrap32 (s.stats.runtime + 1) := by
  cases hB : isEmptyP s.queueB <;> simp [tailB, updStats, hB]

/-- C16: for every non-empty initial tier-B queue `p :: rest` the engine, in either mode and
for any quanta, starts at the test of the outer loop with the start tick and the clock both
equal to the arrival time of the head process `p`, whatever the arrival times in `rest`;
with arrival times 7 (head) and 2 the clock starts at 7. -/
theorem C16_clock_starts_at_head_arrival (preemption : Bool) (quantumA quantumB : Int)
    (procs : List Process) (tasks : List Task) (p : Nat) (rest : List Nat) :
    (∃ m0, start procs tasks (p :: rest) = some m0 ∧
      runInput preemption quantumA quantumB procs tasks (p :: rest) 0 = some m0 ∧
      m0.loc = Loc.outer ∧
      m0.sim.stats.startTime = (getP procs p).arrival ∧
      m0.sim.stats.runtime = (getP procs p).arrival) ∧
    (stateAt preemption quantumA quantumB lateHeadProcs lateHeadTasks [0, 1] 0).sim.stats.startTime
      = 7 ∧
    (stateAt preemption quantumA quantumB lateHeadProcs lateHeadTasks [0, 1] 0).sim.stats.runtime
      = 7 ∧
    (getP lateHeadProcs 1).arrival = 2 := by
  refine ⟨⟨_, rfl, rfl, rfl, rfl, rfl⟩, rfl, rfl, rfl⟩

/-! ### Runs without preemption and without end -/

/-- C11 (the code at the failing inputs): in the preemptive run on `P1:5` (arrival 0,
`exe:10`) and `P2:1` (arrival 3, `exe:2`) with quantumA = 4 and quantumB = 8, the engine
is at the execution point of the tier-B loop at tick 3 with task 0 of the priority-5
process running; process 1 of the tier-B queue has arrived, is not running, has a pending
task and has the strictly lower priority number 1, yet `preemptionCheck` answers 0, the
ready queue being empty.  Conversely, with the task of a priority-5 process at the head of
the ready queue and task 2 of the priority-1 process running, `preemptionCheck` answers 1
although the only process of the queue has the greater priority number 5. -/
theorem C11_preemptionCheck_reads_ready_head :
    runInput true 4 8 arriveProcs arriveTasks [0, 1] 11 =
      some (stateAt true 4 8 arriveProcs arriveTasks [0, 1] 11) ∧
    (stateAt true 4 8 arriveProcs arriveTasks [0, 1] 11).loc = Loc.midB ∧
    (stateAt true 4 8 arriveProcs arriveTasks [0, 1] 11).sim.stats.runtime = 3 ∧
    (stateAt true 4 8 arriveProcs arriveTasks [0, 1] 11).sim.t = some 0 ∧
    (stateAt true 4 8 arriveProcs arriveTasks [0, 1] 11).sim.queueB = [0, 1] ∧
    (stateAt true 4 8 arriveProcs arriveTasks [0, 1] 11).sim.readyQueueB = [] ∧
    eligible (stateAt true 4 8 arriveProcs arriveTasks [0, 1] 11).sim.procs 3 1 = true ∧
    (getP (stateAt true 4 8 arriveProcs arriveTasks [0, 1] 11).sim.procs 1).priority <
      taskPriority (stateAt true 4 8 arriveProcs arriveTasks [0, 1] 11).sim.procs
        (stateAt true 4 8 arriveProcs arriveTasks [0, 1] 11).sim.tasks 0 ∧
    preemptionCheck (stateAt true 4 8 arriveProcs arriveTasks [0, 1] 11).sim.procs
      (stateAt true 4 8 arriveProcs arriveTasks [0, 1] 11).sim.tasks [] 0 3 [0, 1] = false ∧
    preemptionCheck pairProcsReady pairTasks [0] 2 0 [0] = true ∧
    eligible pairProcsReady 0 0 = true ∧
    ¬ (getP pairProcsReady 0).priority < taskPriority pairProcsReady pairTasks 2 := by
  decide

/-- C12 (the code at the failing input): in the preemptive run on `P1:5` (arrival 0,
`exe:10`) and `P2:1` (arrival 3, `exe:2`) with quantumA = 4 and quantumB = 8, at tick 3
the priority-5 task 0 is running with 7 units left and quantum 5, and the priority-1
process 1 has arrived with its tasks pending; the step of tick 3 does not interrupt:
afterwards task 0 is still the running task with interrupt counter 0, one more unit of
time and of quantum consumed, and process 1 is still not running with all its tasks
pending. -/
theorem C12_no_preemption_at_arrival :
    runInput true 4 8 arriveProcs arriveTasks [0, 1] 11 =
      some (stateAt true 4 8 arriveProcs arriveTasks [0, 1] 11) ∧
    (stateAt true 4 8 arriveProcs arriveTasks [0, 1] 11).loc = Loc.midB ∧
    (stateAt true 4 8 arriveProcs arriveTasks [0, 1] 11).sim.stats.runtime = 3 ∧
    (stateAt true 4 8 arriveProcs arriveTasks [0, 1] 11).sim.cpu = 1 ∧
    (stateAt true 4 8 arriveProcs arriveTasks [0, 1] 11).sim.t = some 0 ∧
    (getT (stateAt true 4 8 arriveProcs arriveTasks [0, 1] 11).sim.tasks 0).time = 7 ∧
    (getP (stateAt true 4 8 arriveProcs arriveTasks [0, 1] 11).sim.procs 0).quantum = 5 ∧
    eligible (stateAt true 4 8 arriveProcs arriveTasks [0, 1] 11).sim.procs 3 1 = true ∧
    next true 4 8 (stateAt true 4 8 arriveProcs arriveTasks [0, 1] 11) =
      some (stateAt true 4 8 arriveProcs arriveTasks [0, 1] 12) ∧
    (stateAt true 4 8 arriveProcs arriveTasks [0, 1] 12).sim.cpu = 1 ∧
    (stateAt true 4 8 arriveProcs arriveTasks [0, 1] 12).sim.t = some 0 ∧
    (getT (stateAt true 4 8 arriveProcs arriveTasks [0, 1] 12).sim.tasks 0).interrupts = 0 ∧
    (getT (stateAt true 4 8 arriveProcs arriveTasks [0, 1] 12).sim.tasks 0).time = 6 ∧
    (getP (stateAt true 4 8 arriveProcs arriveTasks [0, 1] 12).sim.procs 0).quantum = 4 ∧
    (getP (stateAt true 4 8 arriveProcs arriveTasks [0, 1] 12).sim.procs 1).taskRunning = 0 ∧
    (getP (stateAt true 4 8 arriveProcs arriveTasks [0, 1] 12).sim.procs 1).tasks = [2, 3] ∧
    (stateAt true 4 8 arriveProcs arriveTasks [0, 1] 12).sim.readyQueueB = [] := by
  decide

theorem runFrom_add (preemption : Bool) (quantumA quantumB : Int) (a b : Nat) :
    ∀ m : Machine,
      runFrom preemption quantumA quantumB (a + b) m =
        (runFrom preemption quantumA quantumB a m).bind
          (runFrom preemption quantumA quantumB b) := by
  induction a with
  | zero => intro m; simp [runFrom]
  | succ a ih =>
    intro m
    rw [Nat.succ_add]
    simp only [runFrom]
    cases next preemption quantumA quantumB m with
    | none => rfl
    | some m1 => exact ih m1

theorem runInput_add (preemption : Bool) (quantumA quantumB : Int) (procs : List Process)
    (tasks : List Task) (queueB : List Nat) (a b : Nat) :
    runInput preemption quantumA quantumB procs tasks queueB (a + b) =
      (runInput preemption quantumA quantumB procs tasks queueB a).bind
        (runFrom preemption quantumA quantumB b) := by
  unfold runInput
  cases start procs tasks queueB with
  | none => rfl
  | some m0 => exact runFrom_add preemption quantumA quantumB a b m0

theorem runFrom_cycle (preemption : Bool) (quantumA quantumB : Int) (c : Nat) (m : Machine)
    (h : runFrom preemption quantumA quantumB c m = some m) (k : Nat) :
    runFrom preemption quantumA quantumB (c * k) m = some m := by
  induction k with
  | zero => rfl
  | succ k ih =>
    rw [Nat.mul_succ, runFrom_add, ih]
    exact h

/-- C15 (the code at the failing input): on the well-formed input `P1:1`, `arrival_t:0`,
`io:1`, `io:1`, `io:1`, `t` with quantumA = 2 and quantumB = 5 the loop of the
non-preemptive engine never ends: the run is defined at every number of moves and never
stands at the end of the loops, because after 34 moves it repeats the same state every
3 moves, with process 0 left in the tier-B queue (and in the exit queue). -/
theorem C15_run_never_ends :
    (∀ n, ∃ m, runInput false 2 5 ioProcs ioTasks [0] n = some m ∧ m.loc ≠ Loc.done) ∧
    runFrom false 2 5 3 (stateAt false 2 5 ioProcs ioTasks [0] 34) =
      some (stateAt false 2 5 ioProcs ioTasks [0] 34) ∧
    (stateAt false 2 5 ioProcs ioTasks [0] 34).sim.queueB = [0] ∧
    (stateAt false 2 5 ioProcs ioTasks [0] 34).sim.exitQueue = [0] := by
  have hcyc : runFrom false 2 5 3 (stateAt false 2 5 ioProcs ioTasks [0] 34) =
      some (stateAt false 2 5 ioProcs ioTasks [0] 34) := by decide
  have h34 : runInput false 2 5 ioProcs ioTasks [0] 34 =
      some (stateAt false 2 5 ioProcs ioTasks [0] 34) := by decide
  have hsmall : ∀ n, n < 37 →
      runInput false 2 5 ioProcs ioTasks [0] n =
        some (stateAt false 2 5 ioProcs ioTasks [0] n) ∧
      (stateAt false 2 5 ioProcs ioTasks [0] n).loc ≠ Loc.done := by decide
  refine ⟨?_, hcyc, by decide, by decide⟩
  intro n
  by_cases hn : n < 37
  · exact ⟨_, hsmall n hn⟩
  · obtain ⟨k, r, hr, hsplit⟩ : ∃ k r, r < 3 ∧ n = 34 + (3 * k + r) :=
      ⟨(n - 34) / 3, (n - 34) % 3, Nat.mod_lt _ (by decide), by omega⟩
    subst hsplit
    have h1 : runInput false 2 5 ioProcs ioTasks [0] (34 + (3 * k + r)) =
        runFrom false 2 5 r (stateAt false 2 5 ioProcs ioTasks [0] 34) := by
      rw [runInput_add, h34]
      simp only [Option.bind]
      rw [runFrom_add, runFrom_cycle false 2 5 3 _ hcyc]
      rfl
    have h2 : runInput false 2 5 ioProcs ioTasks [0] (34 + r) =
        runFrom false 2 5 r (stateAt false 2 5 ioProcs ioTasks [0] 34) := by
      rw [runInput_add, h34]
      rfl
    have h3 := hsmall (34 + r) (by omega)
    rw [h2] at h3
    exact ⟨_, h1.trans h3.1, h3.2⟩

/-! ### Issue of an I/O task -/

theorem switchA_issued (quantumA : Int) (s : Sim) (t : Nat)
    (h1 : (getT s.tasks t).type = 'i')
    (h2 : (getP s.procs (getT s.tasks t).parent).quantum > 0) :
    IssuedStep s (switchA quantumA s t) t
      ((getP s.procs (getT s.tasks t).parent).quantum - 1) := by
  simp only [switchA, h1, updP, updT, updStats, IssuedStep, enqueueTask]
  simp [h2]
  split_ifs <;> simp

theorem switchB_issued (quantumA quantumB : Int) (s : Sim) (t : Nat)
    (h1 : (getT s.tasks t).type = 'i')
    (h2 : (getP s.procs (getT s.tasks t).parent).quantum > 0) :
    IssuedStep s (switchB quantumA quantumB s t) t
      (if (getP s.procs (getT s.tasks t).parent).quantum - 1 > 0 ∧
          (getP s.procs (getT s.tasks t).parent).completions + 1 = 3 then quantumA
       else (getP s.procs (getT s.tasks t).parent).quantum - 1) := by
  simp only [switchB, h1, updP, updT, updStats, IssuedStep, enqueueTask]
  simp [h2]
  split_ifs <;> simp_all

theorem IssuedStep_tailA {s s1 : Sim} {t : Nat} {q1 : Int} (h : IssuedStep s s1 t q1) :
    IssuedStep s (tailA s1) t q1 := by
  obtain ⟨h1, h2, h3, h4, h5, h6, h7⟩ := h
  have hf := tailA_frame s1
  obtain ⟨r, hp⟩ := tailA_procs s1 (getT s.tasks t).parent
  refine ⟨?_, ?_, ?_, ?_, ?_, ?_, ?_⟩
  · rw [hp]; exact h1
  · rw [hp]; exact h2
  · rw [hf.2.2.2.2.2.2.2.2]; exact h3
  · rw [hf.2.1]; exact h4
  · rw [hf.1]; exact h5
  · rw [hf.2.2.2.2.2.2.2.1]; exact h6
  · rw [hf.2.2.1]; exact h7

theorem IssuedStep_tailB {s s1 : Sim} {t : Nat} {q1 : Int} (h : IssuedStep s s1 t q1) :
    IssuedStep s (tailB s1) t q1 := by
  obtain ⟨h1, h2, h3, h4, h5, h6, h7⟩ := h
  have hf := tailB_frame s1
  obtain ⟨r, hp⟩ := tailB_procs s1 (getT s.tasks t).parent
  refine ⟨?_, ?_, ?_, ?_, ?_, ?_, ?_⟩
  · rw [hp]; exact h1
  · rw [hp]; exact h2
  · rw [hf.2.2.2.2.2.2.2.2]; exact h3
  · rw [hf.2.1]; exact h4
  · rw [hf.1]; exact h5
  · rw [hf.2.2.2.2.2.2.2.1]; exact h6
  · rw [hf.2.2.1]; exact h7

/-- C20 (as stated, refuted): in the non-preemptive run on `P1:1`, `arrival_t:0`, `io:1`,
`io:1`, `io:1`, `t` with quantumA = 4 and quantumB = 5, the third I/O task is running in
tier B with quantum 3 > 0; the step leaves the process with quantum 4, not with the
quantum decremented once (2). -/
theorem C20_counterexample :
    runInput false 4 5 ioProcs ioTasks [0] 21 =
      some (stateAt false 4 5 ioProcs ioTasks [0] 21) ∧
    (stateAt false 4 5 ioProcs ioTasks [0] 21).loc = Loc.midB ∧
    (stateAt false 4 5 ioProcs ioTasks [0] 21).sim.cpu = 1 ∧
    (stateAt false 4 5 ioProcs ioTasks [0] 21).sim.t = some 2 ∧
    (getT (stateAt false 4 5 ioProcs ioTasks [0] 21).sim.tasks 2).type = 'i' ∧
    (getT (stateAt false 4 5 ioProcs ioTasks [0] 21).sim.tasks 2).parent = 0 ∧
    (getP (stateAt false 4 5 ioProcs ioTasks [0] 21).sim.procs 0).quantum = 3 ∧
    (execB false 4 5 (stateAt false 4 5 ioProcs ioTasks [0] 21).sim).map
      (fun s1 => (getP s1.procs 0).quantum) = some 4 := by
  decide

/-- C20 (amended): in every state reachable by either engine in which an I/O task `t`
occupies the CPU at the execution point of a tier loop and its process has quantum above 0,
the step is defined; the quantum is decremented once, and in tier B, when the decremented
quantum is still above 0 and the completions counter thereby reaches 3, it is then set to
the tier-A quantum; completions is incremented by one when the decremented quantum is
still above 0 and reset to 0 otherwise; the task is appended to the I/O queue, inserted
into no ready queue, keeps its interrupt counter, and the CPU is released.  This holds
after the state-machine step and at the end of the loop iteration. -/
theorem C20_issue_step (preemption : Bool) (quantumA quantumB : Int)
    (procs : List Process) (tasks : List Task) (queueB : List Nat) (m : Machine) (t : Nat)
    (hr : Reachable preemption quantumA quantumB procs tasks queueB m)
    (hcpu : m.sim.cpu ≠ 0) (ht : m.sim.t = some t)
    (htype : (getT m.sim.tasks t).type = 'i')
    (hq : (getP m.sim.procs (getT m.sim.tasks t).parent).quantum > 0) :
    (m.loc = Loc.midA →
      ∃ s1, execA preemption quantumA m.sim = some s1 ∧
        next preemption quantumA quantumB m = some { loc := Loc.inA, sim := tailA s1 } ∧
        IssuedStep m.sim s1 t ((getP m.sim.procs (getT m.sim.tasks t).parent).quantum - 1) ∧
        IssuedStep m.sim (tailA s1) t
          ((getP m.sim.procs (getT m.sim.tasks t).parent).quantum - 1)) ∧
    (m.loc = Loc.midB →
      ∃ s1, execB preemption quantumA quantumB m.sim = some s1 ∧
        next preemption quantumA quantumB m = some { loc := Loc.inB, sim := tailB s1 } ∧
        IssuedStep m.sim s1 t
          (if (getP m.sim.procs (getT m.sim.tasks t).parent).quantum - 1 > 0 ∧
              (getP m.sim.procs (getT m.sim.tasks t).parent).completions + 1 = 3
           then quantumA
           else (getP m.sim.procs (getT m.sim.tasks t).parent).quantum - 1) ∧
        IssuedStep m.sim (tailB s1) t
          (if (getP m.sim.procs (getT m.sim.tasks t).parent).quantum - 1 > 0 ∧
              (getP m.sim.procs (getT m.sim.tasks t).parent).completions + 1 = 3
           then quantumA
           else (getP m.sim.procs (getT m.sim.tasks t).parent).quantum - 1)) := by
  have hno := Reachable_no_preemption hr hcpu t
  obtain ⟨loc, s⟩ := m
  simp only at hcpu ht htype hq hno
  constructor
  · intro hloc
    simp only at hloc
    subst hloc
    have hA := switchA_issued quantumA s t htype hq
    have he : execA preemption quantumA s = some (switchA quantumA s t) := by
      simp [execA, ht, hno]
    exact ⟨_, he, by simp [next, hcpu, he], hA, IssuedStep_tailA hA⟩
  · intro hloc
    simp only at hloc
    subst hloc
    have hB := switchB_issued quantumA quantumB s t htype hq
    have he : execB preemption quantumA quantumB s = some (switchB quantumA quantumB s t) := by
      simp [execB, ht, hno]
    exact ⟨_, he, by simp [next, hcpu, he], hB, IssuedStep_tailB hB⟩

/-- Instance of the amended C20: the first I/O issue of the run on `io:1`, `io:1`, `io:1`,
`t` in preemptive mode, quantum 5 before the step and 4 after it. -/
theorem C20_issue_step_witness :
    runInput true 4 5 ioProcs ioTasks [0] 5 = some (stateAt true 4 5 ioProcs ioTasks [0] 5) ∧
    (stateAt true 4 5 ioProcs ioTasks [0] 5).loc = Loc.midB ∧
    (stateAt true 4 5 ioProcs ioTasks [0] 5).sim.t = some 0 ∧
    (getP (stateAt true 4 5 ioProcs ioTasks [0] 5).sim.procs
      (getT (stateAt true 4 5 ioProcs ioTasks [0] 5).sim.tasks 0).parent).quantum = 5 ∧
    ∃ s1, execB true 4 5 (stateAt true 4 5 ioProcs ioTasks [0] 5).sim = some s1 ∧
      next true 4 5 (stateAt true 4 5 ioProcs ioTasks [0] 5) =
        some { loc := Loc.inB, sim := tailB s1 } ∧
      IssuedStep (stateAt true 4 5 ioProcs ioTasks [0] 5).sim s1 0
        (if (getP (stateAt true 4 5 ioProcs ioTasks [0] 5).sim.procs
              (getT (stateAt true 4 5 ioProcs ioTasks [0] 5).sim.tasks 0).parent).quantum - 1 > 0 ∧
            (getP (stateAt true 4 5 ioProcs ioTasks [0] 5).sim.procs
              (getT (stateAt true 4 5 ioProcs ioTasks [0] 5).sim.tasks 0).parent).completions + 1
              = 3
         then 4
         else (getP (stateAt true 4 5 ioProcs ioTasks [0] 5).sim.procs
              (getT (stateAt true 4 5 ioProcs ioTasks [0] 5).sim.tasks 0).parent).quantum - 1) ∧
      IssuedStep (stateAt true 4 5 ioProcs ioTasks [0] 5).sim (tailB s1) 0
        (if (getP (stateAt true 4 5 ioProcs ioTasks [0] 5).sim.procs
              (getT (stateAt true 4 5 ioProcs ioTasks [0] 5).sim.tasks 0).parent).quantum - 1 > 0 ∧
            (getP (stateAt true 4 5 ioProcs ioTasks [0] 5).sim.procs
              (getT (stateAt true 4 5 ioProcs ioTasks [0] 5).sim.tasks 0).parent).completions + 1
              = 3
         then 4
         else (getP (stateAt true 4 5 ioProcs ioTasks [0] 5).sim.procs
              (getT (stateAt true 4 5 ioProcs ioTasks [0] 5).sim.tasks 0).parent).quantum - 1) :=
  ⟨by decide, by decide, by decide, by decide,
    (C20_issue_step true 4 5 ioProcs ioTasks [0] (stateAt true 4 5 ioProcs ioTasks [0] 5) 0
      (runInput_Reachable (n := 5) (by decide)) (by decide) (by decide) (by decide)
      (by decide)).2 (by decide)⟩

/-! ### Ageing of the I/O queue -/

theorem updateIOTasks_cons_pos (procs : List Process) (tasks : List Task) (c : Nat)
    (rest : List Nat) (h : (getT tasks c).time > 0) :
    updateIOTasks procs tasks (c :: rest) =
      ((updateIOTasks procs
          (setT tasks c { getT tasks c with time := (getT tasks c).time - 1 }) rest).1,
       (updateIOTasks procs
          (setT tasks c { getT tasks c with time := (getT tasks c).time - 1 }) rest).2.1,
       c :: (updateIOTasks procs
          (setT tasks c { getT tasks c with time := (getT tasks c).time - 1 }) rest).2.2) := by
  simp [updateIOTasks, h]

theorem updateIOTasks_cons_neg (procs : List Process) (tasks : List Task) (c : Nat)
    (rest : List Nat) (h : ¬ (getT tasks c).time > 0) :
    updateIOTasks procs tasks (c :: rest) =
      updateIOTasks
        (setP procs (getT tasks c).parent
          { getP procs (getT tasks c).parent with
              taskRunning := 0,
              currentTask := (getP procs (getT tasks c).parent).currentTask + 1 })
        (setT tasks c { getT tasks c with completed := 1 }) rest := by
  simp [updateIOTasks, h]

theorem updateIOTasks_tasks_notMem (q : List Nat) :
    ∀ (procs : List Process) (tasks : List Task) (x : Nat), x ∉ q →
      getT (updateIOTasks procs tasks q).2.1 x = getT tasks x := by
  induction q with
  | nil => intro procs tasks x _; rfl
  | cons c rest ih =>
    intro procs tasks x hx
    have hxc : x ≠ c := fun e => hx (e ▸ List.mem_cons_self _ _)
    have hxr : x ∉ rest := fun e => hx (List.mem_cons_of_mem _ e)
    by_cases ht : (getT tasks c).time > 0
    · rw [updateIOTasks_cons_pos _ _ _ _ ht]
      simp only []
      rw [ih _ _ x hxr, getT_setT_ne _ _ _ _ hxc]
    · rw [updateIOTasks_cons_neg _ _ _ _ ht, ih _ _ x hxr, getT_setT_ne _ _ _ _ hxc]

theorem filter_time_congr (tasks tasks1 : List Task) (rest : List Nat)
    (h : ∀ x ∈ rest, getT tasks1 x = getT tasks x) :
    (rest.filter fun c => decide ((getT tasks1 c).time > 0)) =
      rest.filter fun c => decide ((getT tasks c).time > 0) := by
  apply List.filter_congr
  intro x hx
  rw [h x hx]

theorem updateIOTasks_queue (q : List Nat) :
    ∀ (procs : List Process) (tasks : List Task), q.Nodup →
      (updateIOTasks procs tasks q).2.2 =
        q.filter fun c => decide ((getT tasks c).time > 0) := by
  induction q with
  | nil => intro procs tasks _; rfl
  | cons c rest ih =>
    intro procs tasks hnd
    have hc : c ∉ rest := (List.nodup_cons.1 hnd).1
    have hr : rest.Nodup := (List.nodup_cons.1 hnd).2
    have hsame : ∀ (v : Task), ∀ x ∈ rest, getT (setT tasks c v) x = getT tasks x :=
      fun v x hx => getT_setT_ne _ _ _ _ (fun e => hc (e ▸ hx))
    by_cases ht : (getT tasks c).time > 0
    · rw [updateIOTasks_cons_pos _ _ _ _ ht]
      simp only []
      rw [ih _ _ hr, filter_time_congr _ _ _ (hsame _)]
      simp [List.filter_cons, ht]
    · rw [updateIOTasks_cons_neg _ _ _ _ ht, ih _ _ hr, filter_time_congr _ _ _ (hsame _)]
      simp [List.filter_cons, ht]

theorem updateIOTasks_tasks_mem (q : List Nat) :
    ∀ (procs : List Process) (tasks : List Task) (x : Nat), q.Nodup → x ∈ q →
      getT (updateIOTasks procs tasks q).2.1 x =
        if (getT tasks x).time > 0 then { getT tasks x with time := (getT tasks x).time - 1 }
        else { getT tasks x with completed := 1 } := by
  induction q with
  | nil => intro procs tasks x _ hx; simp at hx
  | cons c rest ih =>
    intro procs tasks x hnd hx
    have hc : c ∉ rest := (List.nodup_cons.1 hnd).1
    have hr : rest.Nodup := (List.nodup_cons.1 hnd).2
    rcases List.mem_cons.1 hx with rfl | hxr
    · by_cases ht : (getT tasks x).time > 0
      · rw [updateIOTasks_cons_pos _ _ _ _ ht]
        simp only []
        rw [updateIOTasks_tasks_notMem rest _ _ x hc, getT_setT_eq, if_pos ht]
      · rw [updateIOTasks_cons_neg _ _ _ _ ht, updateIOTasks_tasks_notMem rest _ _ x hc,
          getT_setT_eq, if_neg ht]
    · have hxc : x ≠ c := fun e => hc (e ▸ hxr)
      by_cases ht : (getT tasks c).time > 0
      · rw [updateIOTasks_cons_pos _ _ _ _ ht]
        simp only []
        rw [ih _ _ x hr hxr, getT_setT_ne _ _ _ _ hxc]
      · rw [updateIOTasks_cons_neg _ _ _ _ ht, ih _ _ x hr hxr, getT_setT_ne _ _ _ _ hxc]

theorem doneIn_congr (tasks tasks1 : List Task) (rest : List Nat) (j : Nat)
    (h : ∀ x ∈ rest, getT tasks1 x = getT tasks x) :
    doneIn tasks1 rest j = doneIn tasks rest j := by
  unfold doneIn
  congr 1
  apply List.filter_congr
  intro x hx
  rw [h x hx]

theorem updateIOTasks_procs (q : List Nat) :
    ∀ (procs : List Process) (tasks : List Task) (j : Nat), q.Nodup →
      getP (updateIOTasks procs tasks q).1 j =
        if doneIn tasks q j = 0 then getP procs j
        else { getP procs j with
                 taskRunning := 0,
                 currentTask := (getP procs j).currentTask + (doneIn tasks q j : Int) } := by
  induction q with
  | nil => intro procs tasks j _; simp [updateIOTasks, doneIn]
  | cons c rest ih =>
    intro procs tasks j hnd
    have hc : c ∉ rest := (List.nodup_cons.1 hnd).1
    have hr : rest.Nodup := (List.nodup_cons.1 hnd).2
    have hsame : ∀ (v : Task), ∀ x ∈ rest, getT (setT tasks c v) x = getT tasks x :=
      fun v x hx => getT_setT_ne _ _ _ _ (fun e => hc (e ▸ hx))
    by_cases ht : (getT tasks c).time > 0
    · rw [updateIOTasks_cons_pos _ _ _ _ ht]
      simp only []
      rw [ih _ _ j hr, doneIn_congr _ _ _ _ (hsame _)]
      have hd : doneIn tasks (c :: rest) j = doneIn tasks rest j := by
        simp [doneIn, List.filter_cons, ht]
      rw [hd]
    · rw [updateIOTasks_cons_neg _ _ _ _ ht, ih _ _ j hr, doneIn_congr _ _ _ _ (hsame _)]
      by_cases hj : (getT tasks c).parent = j
      · have ht1 : (getT tasks c).time ≤ 0 := not_lt.1 ht
        have hd : doneIn tasks (c :: rest) j = doneIn tasks rest j + 1 := by
          simp [doneIn, List.filter_cons, ht1, hj]
        rw [hd, ← hj]
        simp only [getP_setP_eq]
        by_cases h0 : doneIn tasks rest (getT tasks c).parent = 0
        · simp [h0]
        · simp only [h0, if_false, Nat.succ_ne_zero, Nat.cast_add, Nat.cast_one]
          congr 1
          omega
      · have hd : doneIn tasks (c :: rest) j = doneIn tasks rest j := by
          simp [doneIn, List.filter_cons, ht, hj]
        rw [hd, getP_setP_ne _ _ _ _ (fun e => hj e.symm)]

theorem ageTimes_succ (n : Nat) :
    ∀ (procs : List Process) (tasks : List Task) (q : List Nat),
      ageTimes (n + 1) procs tasks q =
        updateIOTasks (ageTimes n procs tasks q).1 (ageTimes n procs tasks q).2.1
          (ageTimes n procs tasks q).2.2 := by
  induction n with
  | zero => intro procs tasks q; rfl
  | succ n ih =>
    intro procs tasks q
    rw [ageTimes, ih]
    rfl

theorem ageTimes_pending (n : Nat) :
    ∀ (procs : List Process) (tasks : List Task) (q : List Nat) (x : Nat),
      q.Nodup → x ∈ q → (getT tasks x).time = (n : Int) →
      (ageTimes n procs tasks q).2.2.Nodup ∧ x ∈ (ageTimes n procs tasks q).2.2 ∧
      (getT (ageTimes n procs tasks q).2.1 x).time = 0 ∧
      (getT (ageTimes n procs tasks q).2.1 x).completed = (getT tasks x).completed := by
  induction n with
  | zero =>
    intro procs tasks q x hnd hx ht
    exact ⟨hnd, hx, by simpa using ht, rfl⟩
  | succ n ih =>
    intro procs tasks q x hnd hx ht
    have hpos : (getT tasks x).time > 0 := by rw [ht]; push_cast; omega
    have hq := updateIOTasks_queue q procs tasks hnd
    have hx1 := updateIOTasks_tasks_mem q procs tasks x hnd hx
    rw [if_pos hpos] at hx1
    have hnd1 : (updateIOTasks procs tasks q).2.2.Nodup := by
      rw [hq]; exact hnd.filter _
    have hmem1 : x ∈ (updateIOTasks procs tasks q).2.2 := by
      rw [hq]; exact List.mem_filter.2 ⟨hx, by simpa using hpos⟩
    have ht1 : (getT (updateIOTasks procs tasks q).2.1 x).time = (n : Int) := by
      rw [hx1]; simp only []; rw [ht]; push_cast; omega
    obtain ⟨h1, h2, h3, h4⟩ := ih (updateIOTasks procs tasks q).1
      (updateIOTasks procs tasks q).2.1 (updateIOTasks procs tasks q).2.2 x hnd1 hmem1 ht1
    refine ⟨h1, h2, h3, ?_⟩
    rw [ageTimes, h4, hx1]

/-- C19 (as stated, refuted): in the state reached after 6 moves of the run on `io:1`,
`io:1`, `io:1`, `t` the I/O queue holds task 0 with remaining time 1; the call of
`updateIOTasks` brings its time to 0 but leaves it in the queue, not marked completed, with
its process still flagged as running and the current-task index not advanced; the task is
completed by the second ageing, not by the first. -/
theorem C19_counterexample :
    (stateAt false 2 5 ioProcs ioTasks [0] 6).sim.ioQueue = [0] ∧
    (getT (stateAt false 2 5 ioProcs ioTasks [0] 6).sim.tasks 0).time = 1 ∧
    (getP (stateAt false 2 5 ioProcs ioTasks [0] 6).sim.procs 0).taskRunning = 1 ∧
    (getP (stateAt false 2 5 ioProcs ioTasks [0] 6).sim.procs 0).currentTask = 0 ∧
    (updateIOTasks (stateAt false 2 5 ioProcs ioTasks [0] 6).sim.procs
      (stateAt false 2 5 ioProcs ioTasks [0] 6).sim.tasks [0]).2.2 = [0] ∧
    (getT (updateIOTasks (stateAt false 2 5 ioProcs ioTasks [0] 6).sim.procs
      (stateAt false 2 5 ioProcs ioTasks [0] 6).sim.tasks [0]).2.1 0).time = 0 ∧
    (getT (updateIOTasks (stateAt false 2 5 ioProcs ioTasks [0] 6).sim.procs
      (stateAt false 2 5 ioProcs ioTasks [0] 6).sim.tasks [0]).2.1 0).completed = 0 ∧
    (getP (updateIOTasks (stateAt false 2 5 ioProcs ioTasks [0] 6).sim.procs
      (stateAt false 2 5 ioProcs ioTasks [0] 6).sim.tasks [0]).1 0).taskRunning = 1 ∧
    (getP (updateIOTasks (stateAt false 2 5 ioProcs ioTasks [0] 6).sim.procs
      (stateAt false 2 5 ioProcs ioTasks [0] 6).sim.tasks [0]).1 0).currentTask = 0 ∧
    (getT (ageTimes 1 (stateAt false 2 5 ioProcs ioTasks [0] 6).sim.procs
      (stateAt false 2 5 ioProcs ioTasks [0] 6).sim.tasks [0]).2.1 0).completed = 0 ∧
    (getT (ageTimes 2 (stateAt false 2 5 ioProcs ioTasks [0] 6).sim.procs
      (stateAt false 2 5 ioProcs ioTasks [0] 6).sim.tasks [0]).2.1 0).completed = 1 := by
  decide

/-- C19 (amended): for every I/O queue `q` holding each in-flight task once, a call of
`updateIOTasks` keeps exactly the tasks found with remaining time above 0, in their order,
each with its time decremented by one; every task found with no time left is, in that
call, marked completed and removed from the queue, with its process's running flag
cleared; the current-task index of a process advances by the number of its tasks so
completed (by one per task) and nothing else changes in the stores.  Hence an I/O task of
`n` units is still in the queue with time 0, not yet completed, after `n` ageings and is
completed and removed by the ageing number `n + 1`. -/
theorem C19_ageing (procs : List Process) (tasks : List Task) (q : List Nat)
    (hnd : q.Nodup) :
    (updateIOTasks procs tasks q).2.2 = (q.filter fun c => decide ((getT tasks c).time > 0)) ∧
    (∀ x ∈ q, (getT tasks x).time > 0 →
      getT (updateIOTasks procs tasks q).2.1 x =
        { getT tasks x with time := (getT tasks x).time - 1 }) ∧
    (∀ x ∈ q, ¬ (getT tasks x).time > 0 →
      getT (updateIOTasks procs tasks q).2.1 x = { getT tasks x with completed := 1 } ∧
      x ∉ (updateIOTasks procs tasks q).2.2 ∧
      (getP (updateIOTasks procs tasks q).1 (getT tasks x).parent).taskRunning = 0) ∧
    (∀ x, x ∉ q → getT (updateIOTasks procs tasks q).2.1 x = getT tasks x) ∧
    (∀ j, getP (updateIOTasks procs tasks q).1 j =
      if doneIn tasks q j = 0 then getP procs j
      else { getP procs j with
               taskRunning := 0,
               currentTask := (getP procs j).currentTask + (doneIn tasks q j : Int) }) ∧
    (∀ x ∈ q, ∀ n : Nat, (getT tasks x).time = (n : Int) →
      x ∈ (ageTimes n procs tasks q).2.2 ∧
      (getT (ageTimes n procs tasks q).2.1 x).time = 0 ∧
      (getT (ageTimes n procs tasks q).2.1 x).completed = (getT tasks x).completed ∧
      x ∉ (ageTimes (n + 1) procs tasks q).2.2 ∧
      (getT (ageTimes (n + 1) procs tasks q).2.1 x).completed = 1) := by
  refine ⟨updateIOTasks_queue q procs tasks hnd, ?_, ?_,
    fun x hx => updateIOTasks_tasks_notMem q procs tasks x hx,
    fun j => updateIOTasks_procs q procs tasks j hnd, ?_⟩
  · intro x hx hpos
    rw [updateIOTasks_tasks_mem q procs tasks x hnd hx, if_pos hpos]
  · intro x hx hneg
    refine ⟨by rw [updateIOTasks_tasks_mem q procs tasks x hnd hx, if_neg hneg], ?_, ?_⟩
    · rw [updateIOTasks_queue q procs tasks hnd]
      intro hmem
      exact hneg (by simpa using (List.mem_filter.1 hmem).2)
    · rw [updateIOTasks_procs q procs tasks _ hnd]
      have hne : doneIn tasks q (getT tasks x).parent ≠ 0 := by
        unfold doneIn
        intro h0
        have hmem : x ∈ q.filter fun y =>
            decide (¬ (getT tasks y).time > 0) && decide ((getT tasks y).parent =
              (getT tasks x).parent) :=
          List.mem_filter.2 ⟨hx, by simp [hneg]⟩
        rw [List.length_eq_zero.1 h0] at hmem
        simp at hmem
      rw [if_neg hne]
  · intro x hx n hn
    obtain ⟨h1, h2, h3, h4⟩ := ageTimes_pending n procs tasks q x hnd hx hn
    refine ⟨h2, h3, h4, ?_, ?_⟩
    · rw [ageTimes_succ, updateIOTasks_queue _ _ _ h1]
      intro hmem
      have := (List.mem_filter.1 hmem).2
      rw [h3] at this
      simp at this
    · rw [ageTimes_succ, updateIOTasks_tasks_mem _ _ _ x h1 h2, h3]
      simp

/-- Instance of the amended C19: the queue `[0]` of the state after 6 moves of the run on
`io:1`, `io:1`, `io:1`, `t`; task 0 has one unit left, is still queued after one ageing and
is completed by the second. -/
theorem C19_ageing_witness :
    (getT (stateAt false 2 5 ioProcs ioTasks [0] 6).sim.tasks 0).time = ((1 : Nat) : Int) ∧
    (0 ∈ (ageTimes 1 (stateAt false 2 5 ioProcs ioTasks [0] 6).sim.procs
      (stateAt false 2 5 ioProcs ioTasks [0] 6).sim.tasks [0]).2.2 ∧
    (getT (ageTimes 1 (stateAt false 2 5 ioProcs ioTasks [0] 6).sim.procs
      (stateAt false 2 5 ioProcs ioTasks [0] 6).sim.tasks [0]).2.1 0).time = 0 ∧
    (getT (ageTimes 1 (stateAt false 2 5 ioProcs ioTasks [0] 6).sim.procs
      (stateAt false 2 5 ioProcs ioTasks [0] 6).sim.tasks [0]).2.1 0).completed =
      (getT (stateAt false 2 5 ioProcs ioTasks [0] 6).sim.tasks 0).completed ∧
    0 ∉ (ageTimes (1 + 1) (stateAt false 2 5 ioProcs ioTasks [0] 6).sim.procs
      (stateAt false 2 5 ioProcs ioTasks [0] 6).sim.tasks [0]).2.2 ∧
    (getT (ageTimes (1 + 1) (stateAt false 2 5 ioProcs ioTasks [0] 6).sim.procs
      (stateAt false 2 5 ioProcs ioTasks [0] 6).sim.tasks [0]).2.1 0).completed = 1) :=
  ⟨by decide,
    (C19_ageing (stateAt false 2 5 ioProcs ioTasks [0] 6).sim.procs
      (stateAt false 2 5 ioProcs ioTasks [0] 6).sim.tasks [0] (by decide)).2.2.2.2.2 0
      (by decide) 1 (by decide)⟩

/-! ### The single-process scenario -/

theorem default_process :
    (default : Process) = ⟨0, 0, 0, 0, [], 0, 0, 0, 0, 0, 0, 0, 0, "B"⟩ := rfl

theorem default_task : (default : Task) = ⟨'x', 0, 0, 0, 0, 0⟩ := rfl

/-- C13 (as stated, refuted): on the input `P1:1`, `arrival_t:0`, `exe:5`, `t` with
quantumA = 2 and quantumB = 6 the non-preemptive run is at the end of the loops after
23 moves, with process 0 in the exit queue and tagged `"B"`, but its recorded completion
time is 7, not start tick + 5 = 5, and its accumulated ready time is 1, not 0. -/
theorem C13_counterexample :
    runInput false 2 6 (soloProcs 6) soloTasks [0] 23 =
      some (stateAt false 2 6 (soloProcs 6) soloTasks [0] 23) ∧
    (stateAt false 2 6 (soloProcs 6) soloTasks [0] 23).loc = Loc.done ∧
    (stateAt false 2 6 (soloProcs 6) soloTasks [0] 23).sim.exitQueue = [0] ∧
    (stateAt false 2 6 (soloProcs 6) soloTasks [0] 23).sim.stats.startTime = 0 ∧
    (getP (stateAt false 2 6 (soloProcs 6) soloTasks [0] 23).sim.procs 0).runtime = 7 ∧
    (getP (stateAt false 2 6 (soloProcs 6) soloTasks [0] 23).sim.procs 0).ready = 1 ∧
    (getP (stateAt false 2 6 (soloProcs 6) soloTasks [0] 23).sim.procs 0).endQueue = "B" := by
  decide

set_option maxHeartbeats 4000000 in
/-- C13 (amended): on the input of the single process `P1:1`, `arrival_t:0`, `exe:5`, `t`,
in either mode and for every quantumA, the run reaches the end of the loops with the
process in the exit queue, both tier queues empty and the exit-tier tag `"B"`; for
quantumB > 5 this is after 23 moves, with recorded completion time start tick + 7 and
accumulated ready time 1; for quantumB = 5, where the Terminate task is interrupted once
on the exhausted quantum, it is after 28 moves, with completion time start tick + 8 and
ready time 2. -/
theorem C13_single_process_run (preemption : Bool) (quantumA quantumB : Int) :
    (5 < quantumB →
      ∃ m, runInput preemption quantumA quantumB (soloProcs quantumB) soloTasks [0] 23 = some m ∧
        m.loc = Loc.done ∧ m.sim.exitQueue = [0] ∧ m.sim.queueA = [] ∧ m.sim.queueB = [] ∧
        (getP m.sim.procs 0).runtime = m.sim.stats.startTime + 7 ∧
        (getP m.sim.procs 0).ready = 1 ∧ (getP m.sim.procs 0).endQueue = "B") ∧
    (quantumB = 5 →
      ∃ m, runInput preemption quantumA quantumB (soloProcs quantumB) soloTasks [0] 28 = some m ∧
        m.loc = Loc.done ∧ m.sim.exitQueue = [0] ∧ m.sim.queueA = [] ∧ m.sim.queueB = [] ∧
        (getP m.sim.procs 0).runtime = m.sim.stats.startTime + 8 ∧
        (getP m.sim.procs 0).ready = 2 ∧ (getP m.sim.procs 0).endQueue = "B") := by
  constructor
  · intro h
    have p0 : 0 < quantumB := by omega
    have n0 : ¬ quantumB = 0 := by omega
    have p1 : 0 < quantumB - 1 := by omega
    have n1 : ¬ quantumB - 1 = 0 := by omega
    have p2 : 0 < quantumB - 1 - 1 := by omega
    have n2 : ¬ quantumB - 1 - 1 = 0 := by omega
    have p3 : 0 < quantumB - 1 - 1 - 1 := by omega
    have n3 : ¬ quantumB - 1 - 1 - 1 = 0 := by omega
    have p4 : 0 < quantumB - 1 - 1 - 1 - 1 := by omega
    have n4 : ¬ quantumB - 1 - 1 - 1 - 1 = 0 := by omega
    have p5 : 0 < quantumB - 1 - 1 - 1 - 1 - 1 := by omega
    have n5 : ¬ quantumB - 1 - 1 - 1 - 1 - 1 = 0 := by omega
    cases preemption <;>
    simp [runInput, start, runFrom, next, soloProcs, soloTasks, parsedProcess,
      parsedTask, peekProcess, allQueuesEmpty, condA, condB, isEmptyP, isEmptyT, ageTasks,
      dispatch, getNextTask, getNextTaskPreemptive, scanNext, scanNextPreemptive, eligible,
      takeTask, dequeueTask, markRunning, getP, setP, getT, setT, storeSet, execB, execA,
      switchB, switchA, tailB, tailA, updateProcessQueue, updP, updT, updStats,
      initializeStats, preemptionCheck, peekTask, finalize, endProcess, detachProcess,
      enqueueProcess, doPromote, promoteProcess, priorityEnqueueTask,
      priorityEnqueueProcess, enqueueTask, taskPriority, default_process, default_task,
      INT_MAX, wrap32, roundFloat, p0, n0, p1, n1, p2, n2, p3, n3, p4, n4, p5, n5]
  · intro h
    subst h
    cases preemption <;>
    simp [runInput, start, runFrom, next, soloProcs, soloTasks, parsedProcess,
      parsedTask, peekProcess, allQueuesEmpty, condA, condB, isEmptyP, isEmptyT, ageTasks,
      dispatch, getNextTask, getNextTaskPreemptive, scanNext, scanNextPreemptive, eligible,
      takeTask, dequeueTask, markRunning, getP, setP, getT, setT, storeSet, execB, execA,
      switchB, switchA, tailB, tailA, updateProcessQueue, updP, updT, updStats,
      initializeStats, preemptionCheck, peekTask, finalize, endProcess, detachProcess,
      enqueueProcess, doPromote, promoteProcess, priorityEnqueueTask,
      priorityEnqueueProcess, enqueueTask, taskPriority, default_process, default_task,
      INT_MAX, wrap32, roundFloat]

/-- Instance of the amended C13: non-preemptive mode, quantumA = 2, quantumB = 6. -/
theorem C13_single_process_run_witness :
    (5 : Int) < 6 ∧
    ∃ m, runInput false 2 6 (soloProcs 6) soloTasks [0] 23 = some m ∧
      m.loc = Loc.done ∧ m.sim.exitQueue = [0] ∧ m.sim.queueA = [] ∧ m.sim.queueB = [] ∧
      (getP m.sim.procs 0).runtime = m.sim.stats.startTime + 7 ∧
      (getP m.sim.procs 0).ready = 1 ∧ (getP m.sim.procs 0).endQueue = "B" :=
  ⟨by decide, (C13_single_process_run false 2 6).1 (by decide)⟩

/-! ### Accounting of the tasks -/

theorem pendingCount_storeSet (y : Nat) (i : Nat) :
    ∀ (procs : List Process) (p : Process),
      pendingCount (storeSet procs i p) y + (getP procs i).tasks.count y =
        pendingCount procs y + p.tasks.count y := by
  induction i with
  | zero =>
    intro procs p
    cases procs with
    | nil => simp [storeSet, pendingCount, getP, default_process]
    | cons x xs => simp [storeSet, pendingCount, getP]; omega
  | succ i ih =>
    intro procs p
    cases procs with
    | nil =>
      have := ih [] p
      simp [storeSet, pendingCount, getP, default_process] at this ⊢
      omega
    | cons x xs =>
      have := ih xs p
      simp [storeSet, pendingCount, getP] at this ⊢
      omega

theorem pendingCount_setP_same (procs : List Process) (i y : Nat) (p : Process)
    (h : p.tasks = (getP procs i).tasks) :
    pendingCount (setP procs i p) y = pendingCount procs y := by
  have := pendingCount_storeSet y i procs p
  rw [h] at this
  unfold setP
  omega

theorem pendingCount_setP_tail (procs : List Process) (i t : Nat) (rest : List Nat) (y : Nat)
    (p : Process) (h : (getP procs i).tasks = t :: rest) (hp : p.tasks = rest) :
    pendingCount (setP procs i p) y + (if y = t then 1 else 0) = pendingCount procs y := by
  have := pendingCount_storeSet y i procs p
  rw [h, hp, List.count_cons] at this
  unfold setP
  by_cases hy : y = t
  · subst hy; simp at this ⊢; omega
  · have hne : ¬ (t == y) = true := by simpa using fun e => hy e.symm
    simp [hy, hne] at this ⊢
    omega

theorem count_priorityEnqueueTask (procs : List Process) (tasks : List Task) (q : List Nat)
    (t y : Nat) :
    (priorityEnqueueTask procs tasks q t).count y = q.count y + (if y = t then 1 else 0) := by
  rw [(priorityEnqueueTask_perm procs tasks t q).count_eq, List.count_cons]
  by_cases hy : y = t
  · subst hy; simp
  · have hne : ¬ (t == y) = true := by simpa using fun e => hy e.symm
    simp [hy, hne]

theorem updateIOTasks_pendingCount (q : List Nat) (y : Nat) :
    ∀ (procs : List Process) (tasks : List Task),
      pendingCount (updateIOTasks procs tasks q).1 y = pendingCount procs y := by
  induction q with
  | nil => intro procs tasks; rfl
  | cons c rest ih =>
    intro procs tasks
    by_cases ht : (getT tasks c).time > 0
    · rw [updateIOTasks_cons_pos _ _ _ _ ht]
      exact ih _ _
    · rw [updateIOTasks_cons_neg _ _ _ _ ht, ih]
      exact pendingCount_setP_same _ _ _ _ rfl

theorem updateIOTasks_type (q : List Nat) (y : Nat) :
    ∀ (procs : List Process) (tasks : List Task),
      (getT (updateIOTasks procs tasks q).2.1 y).type = (getT tasks y).type := by
  induction q with
  | nil => intro procs tasks; rfl
  | cons c rest ih =>
    intro procs tasks
    by_cases ht : (getT tasks c).time > 0
    · rw [updateIOTasks_cons_pos _ _ _ _ ht]
      simp only []
      rw [ih, getT_setT]
      split_ifs with h
      · subst h; rfl
      · rfl
    · rw [updateIOTasks_cons_neg _ _ _ _ ht, ih, getT_setT]
      split_ifs with h
      · subst h; rfl
      · rfl

theorem updateProcessQueue_pendingCount (runtime : Int) (q : List Nat) (y : Nat) :
    ∀ procs : List Process,
      pendingCount (updateProcessQueue procs runtime q) y = pendingCount procs y := by
  induction q with
  | nil => intro procs; rfl
  | cons c rest ih =>
    intro procs
    simp only [updateProcessQueue]
    split_ifs
    · rw [ih]
      exact pendingCount_setP_same _ _ _ _ rfl
    · exact ih procs

theorem tailA_places (s : Sim) (y : Nat) : places (tailA s) y = places s y := by
  have hf := tailA_frame s
  unfold places slotCount
  rw [tailA_procs_eq, hf.1, hf.2.1, hf.2.2.1, hf.2.2.2.1, hf.2.2.2.2.2.2.2.1,
    hf.2.2.2.2.2.2.2.2]
  split_ifs <;> simp [updateProcessQueue_pendingCount]

theorem tailB_places (s : Sim) (y : Nat) : places (tailB s) y = places s y := by
  have hf := tailB_frame s
  unfold places slotCount
  rw [tailB_procs_eq, hf.1, hf.2.1, hf.2.2.1, hf.2.2.2.1, hf.2.2.2.2.2.2.2.1,
    hf.2.2.2.2.2.2.2.2]
  split_ifs <;> simp [updateProcessQueue_pendingCount]

theorem places_congr {s s1 : Sim} {y : Nat}
    (h1 : pendingCount s1.procs y = pendingCount s.procs y)
    (h2 : s1.readyQueueA = s.readyQueueA) (h3 : s1.readyQueueB = s.readyQueueB)
    (h4 : s1.cpu = s.cpu) (h5 : s1.t = s.t)
    (h6 : s1.ioQueue.count y + completedCount s1.tasks y =
      s.ioQueue.count y + completedCount s.tasks y) :
    places s1 y = places s y := by
  unfold places slotCount
  rw [h1, h2, h3, h4, h5]
  omega

theorem io_count_completed {tasks : List Task} {q : List Nat} {procs : List Process}
    (hnd : q.Nodup) (y : Nat) (hc : y ∈ q → completedCount tasks y = 0) :
    (updateIOTasks procs tasks q).2.2.count y +
        completedCount (updateIOTasks procs tasks q).2.1 y =
      q.count y + completedCount tasks y := by
  rw [updateIOTasks_queue _ _ _ hnd]
  by_cases hmem : y ∈ q
  · have hc1 : q.count y = 1 := by
      have h1 := List.count_pos_iff.2 hmem
      have h2 := List.nodup_iff_count_le_one.1 hnd y
      omega
    have hcomp := hc hmem
    by_cases ht : (getT tasks y).time > 0
    · have hf : (q.filter fun c => decide ((getT tasks c).time > 0)).count y = 1 := by
        have h1 : y ∈ q.filter fun c => decide ((getT tasks c).time > 0) :=
          List.mem_filter.2 ⟨hmem, by simpa using ht⟩
        have h2 := List.count_pos_iff.2 h1
        have h3 : (q.filter fun c => decide ((getT tasks c).time > 0)).count y ≤ 1 :=
          List.nodup_iff_count_le_one.1 (hnd.filter _) y
        omega
      have hcc : completedCount (updateIOTasks procs tasks q).2.1 y = completedCount tasks y := by
        unfold completedCount
        rw [updateIOTasks_tasks_mem _ _ _ y hnd hmem, if_pos ht]
      rw [hf, hcc, hc1]
    · have hf : (q.filter fun c => decide ((getT tasks c).time > 0)).count y = 0 := by
        rw [List.count_eq_zero]
        intro h1
        exact ht (by simpa using (List.mem_filter.1 h1).2)
      have hcc : completedCount (updateIOTasks procs tasks q).2.1 y = 1 := by
        unfold completedCount
        rw [updateIOTasks_tasks_mem _ _ _ y hnd hmem, if_neg ht]
        simp
      rw [hf, hcc, hc1, hcomp]
  · have hf : (q.filter fun c => decide ((getT tasks c).time > 0)).count y = 0 := by
      rw [List.count_eq_zero]
      intro h1
      exact hmem (List.mem_filter.1 h1).1
    have hcc : completedCount (updateIOTasks procs tasks q).2.1 y = completedCount tasks y := by
      unfold completedCount
      rw [updateIOTasks_tasks_notMem _ _ _ y hmem]
    rw [hf, hcc, List.count_eq_zero.2 hmem]

theorem ageTasks_places {s : Sim} (hle : ∀ a, places s a ≤ 1) (y : Nat) :
    places (ageTasks s) y = places s y := by
  have hf := ageTasks_frame s
  refine places_congr ?_ hf.2.1 hf.1 hf.2.2.1 hf.2.2.2.1 ?_
  · unfold ageTasks
    split_ifs
    · exact updateIOTasks_pendingCount _ _ _ _
    · rfl
  · unfold ageTasks
    split_ifs
    · have hnd : s.ioQueue.Nodup := by
        rw [List.nodup_iff_count_le_one]
        intro a
        have := hle a
        unfold places at this
        omega
      refine io_count_completed hnd y ?_
      intro hmem
      have h1 := List.count_pos_iff.2 hmem
      have h2 := hle y
      unfold places at h2
      omega
    · rfl

theorem ageTasks_type (s : Sim) (y : Nat) :
    (getT (ageTasks s).tasks y).type = (getT s.tasks y).type := by
  unfold ageTasks
  split_ifs
  · exact updateIOTasks_type _ _ _ _
  · rfl

theorem pendingCount_nil_of (y : Nat) :
    ∀ l : List Process, (∀ j, (getP l j).tasks = []) → pendingCount l y = 0 := by
  intro l
  induction l with
  | nil => intro _; rfl
  | cons x xs ih =>
    intro h
    have h0 : x.tasks = [] := h 0
    have hs : pendingCount xs y = 0 := ih fun j => h (j + 1)
    simp only [pendingCount, List.map_cons, List.sum_cons] at hs ⊢
    rw [hs, h0]
    rfl

theorem pendingCount_congr (y : Nat) :
    ∀ procs procs1 : List Process,
      (∀ j, (getP procs1 j).tasks = (getP procs j).tasks) →
        pendingCount procs1 y = pendingCount procs y := by
  intro procs
  induction procs with
  | nil =>
    intro procs1 h
    rw [pendingCount_nil_of y procs1 fun j => (h j).trans (by simp [getP, default_process])]
    rfl
  | cons x xs ih =>
    intro procs1 h
    cases procs1 with
    | nil =>
      rw [pendingCount_nil_of y (x :: xs) fun j =>
        (h j).symm.trans (by simp [getP, default_process])]
      rfl
    | cons x1 xs1 =>
      have h0 : x1.tasks = x.tasks := h 0
      have hs : pendingCount xs1 y = pendingCount xs y := ih xs1 fun j => h (j + 1)
      simp only [pendingCount, List.map_cons, List.sum_cons] at hs ⊢
      rw [hs, h0]

theorem getP_setP_pending (procs : List Process) (i j : Nat) (p : Process)
    (h : p.tasks = (getP procs i).tasks) :
    (getP (setP procs i p) j).tasks = (getP procs j).tasks := by
  by_cases hj : j = i
  · subst hj; simp [h]
  · rw [getP_setP_ne _ _ _ _ hj]

theorem promoteProcess_pending (procs : List Process) (queueB queueA : List Nat) (p j : Nat) :
    (getP (promoteProcess procs queueB queueA p).1 j).tasks = (getP procs j).tasks := by
  unfold promoteProcess
  split
  · exact getP_setP_pending _ _ _ _ rfl
  · rfl

theorem switchB_pending (quantumA quantumB : Int) (s : Sim) (t j : Nat) :
    (getP (switchB quantumA quantumB s t).procs j).tasks = (getP s.procs j).tasks := by
  simp only [switchB, finalize, doPromote, updP, updT, updStats]
  split_ifs <;> simp [getP_setP_pending, promoteProcess_pending]

theorem switchA_pending (quantumA : Int) (s : Sim) (t j : Nat) :
    (getP (switchA quantumA s t).procs j).tasks = (getP s.procs j).tasks := by
  simp only [switchA, finalize, updP, updT, updStats]
  split_ifs <;> simp [getP_setP_pending]

theorem getT_setT_type (tasks : List Task) (i j : Nat) (x : Task)
    (h : x.type = (getT tasks i).type) :
    (getT (setT tasks i x) j).type = (getT tasks j).type := by
  by_cases hj : j = i
  · subst hj; simp [h]
  · rw [getT_setT_ne _ _ _ _ hj]

theorem switchA_type (quantumA : Int) (s : Sim) (t j : Nat) :
    (getT (switchA quantumA s t).tasks j).type = (getT s.tasks j).type := by
  simp only [switchA, finalize, updP, updT, updStats]
  split_ifs <;> simp [getT_setT_type]

theorem switchB_type (quantumA quantumB : Int) (s : Sim) (t j : Nat) :
    (getT (switchB quantumA quantumB s t).tasks j).type = (getT s.tasks j).type := by
  simp only [switchB, finalize, doPromote, updP, updT, updStats]
  split_ifs <;> simp [getT_setT_type]

theorem getT_setT_completed (tasks : List Task) (i j : Nat) (x : Task)
    (h : x.completed = (getT tasks i).completed) :
    completedCount (setT tasks i x) j = completedCount tasks j := by
  unfold completedCount
  by_cases hj : j = i
  · subst hj; simp [h]
  · rw [getT_setT_ne _ _ _ _ hj]

theorem switchA_rest (quantumA : Int) (s : Sim) (t y : Nat) (hne : y ≠ t) :
    (switchA quantumA s t).readyQueueA.count y = s.readyQueueA.count y ∧
    (switchA quantumA s t).readyQueueB.count y = s.readyQueueB.count y ∧
    (switchA quantumA s t).ioQueue.count y = s.ioQueue.count y ∧
    completedCount (switchA quantumA s t).tasks y = completedCount s.tasks y ∧
    (switchA quantumA s t).t = s.t := by
  simp only [switchA, finalize, updP, updT, updStats]
  split_ifs <;>
    simp [getT_setT_completed, count_priorityEnqueueTask, enqueueTask, hne, completedCount,
      getT_setT_ne]

theorem switchB_rest (quantumA quantumB : Int) (s : Sim) (t y : Nat) (hne : y ≠ t) :
    (switchB quantumA quantumB s t).readyQueueA.count y = s.readyQueueA.count y ∧
    (switchB quantumA quantumB s t).readyQueueB.count y = s.readyQueueB.count y ∧
    (switchB quantumA quantumB s t).ioQueue.count y = s.ioQueue.count y ∧
    completedCount (switchB quantumA quantumB s t).tasks y = completedCount s.tasks y ∧
    (switchB quantumA quantumB s t).t = s.t := by
  simp only [switchB, finalize, doPromote, updP, updT, updStats]
  split_ifs <;>
    simp [getT_setT_completed, count_priorityEnqueueTask, enqueueTask, hne, completedCount,
      getT_setT_ne]

theorem switchA_self (quantumA : Int) (s : Sim) (t : Nat) (ht : s.t = some t)
    (hc : s.cpu ≠ 0) (hcomp : completedCount s.tasks t = 0) :
    (switchA quantumA s t).readyQueueA.count t + (switchA quantumA s t).readyQueueB.count t +
        (switchA quantumA s t).ioQueue.count t + slotCount (switchA quantumA s t) t +
        completedCount (switchA quantumA s t).tasks t =
      s.readyQueueA.count t + s.readyQueueB.count t + s.ioQueue.count t + 1 +
        completedCount s.tasks t ∨
    ((getT s.tasks t).type ≠ 'i' ∧ (getT s.tasks t).type ≠ 'e' ∧
      (switchA quantumA s t).readyQueueA.count t + (switchA quantumA s t).readyQueueB.count t +
        (switchA quantumA s t).ioQueue.count t + slotCount (switchA quantumA s t) t +
        completedCount (switchA quantumA s t).tasks t =
      s.readyQueueA.count t + s.readyQueueB.count t + s.ioQueue.count t +
        completedCount s.tasks t) := by
  unfold completedCount at hcomp
  simp only [switchA, finalize, updP, updT, updStats]
  split_ifs <;>
    simp_all [count_priorityEnqueueTask, enqueueTask, completedCount, slotCount] <;> omega

theorem switchB_self (quantumA quantumB : Int) (s : Sim) (t : Nat) (ht : s.t = some t)
    (hc : s.cpu ≠ 0) (hcomp : completedCount s.tasks t = 0) :
    (switchB quantumA quantumB s t).readyQueueA.count t +
        (switchB quantumA quantumB s t).readyQueueB.count t +
        (switchB quantumA quantumB s t).ioQueue.count t +
        slotCount (switchB quantumA quantumB s t) t +
        completedCount (switchB quantumA quantumB s t).tasks t =
      s.readyQueueA.count t + s.readyQueueB.count t + s.ioQueue.count t + 1 +
        completedCount s.tasks t ∨
    ((getT s.tasks t).type ≠ 'i' ∧ (getT s.tasks t).type ≠ 'e' ∧
      (switchB quantumA quantumB s t).readyQueueA.count t +
        (switchB quantumA quantumB s t).readyQueueB.count t +
        (switchB quantumA quantumB s t).ioQueue.count t +
        slotCount (switchB quantumA quantumB s t) t +
        completedCount (switchB quantumA quantumB s t).tasks t =
      s.readyQueueA.count t + s.readyQueueB.count t + s.ioQueue.count t +
        completedCount s.tasks t) := by
  unfold completedCount at hcomp
  simp only [switchB, finalize, doPromote, updP, updT, updStats]
  split_ifs <;>
    simp_all [count_priorityEnqueueTask, enqueueTask, completedCount, slotCount] <;> omega

theorem markRunning_pendingCount (procs : List Process) (tasks : List Task) (t y : Nat) :
    pendingCount (markRunning procs tasks t) y = pendingCount procs y :=
  pendingCount_setP_same _ _ _ _ rfl

theorem takeTask_pendingCount (procs : List Process) (tasks : List Task) (p y : Nat) :
    pendingCount (takeTask procs tasks p).2 y +
        (if (takeTask procs tasks p).1 = some y then 1 else 0) = pendingCount procs y := by
  unfold takeTask
  cases h : (getP procs p).tasks with
  | nil => simp [dequeueTask]
  | cons t rest =>
    simp only [dequeueTask]
    have h1 := pendingCount_setP_tail procs p t rest y { getP procs p with tasks := rest } h rfl
    have h2 : ∀ (l : List Process) (i : Nat),
        pendingCount (setP l i { getP l i with taskRunning := 1 }) y = pendingCount l y :=
      fun l i => pendingCount_setP_same _ _ _ _ rfl
    rw [h2]
    by_cases hy : y = t
    · subst hy; simpa using h1
    · have hne : ¬ (t = y) := fun e => hy e.symm
      simpa [hy, hne] using h1

theorem scanNext_pendingCount (procs : List Process) (tasks : List Task) (runtime : Int)
    (y : Nat) (q : List Nat) :
    pendingCount (scanNext procs tasks runtime q).2 y +
        (if (scanNext procs tasks runtime q).1 = some y then 1 else 0) =
      pendingCount procs y := by
  induction q with
  | nil => simp [scanNext]
  | cons p rest ih =>
    by_cases he : eligible procs runtime p = true
    · cases hk : takeTask procs tasks p with
      | mk a procs1 =>
        cases a with
        | some t =>
          have e : scanNext procs tasks runtime (p :: rest) = (some t, procs1) := by
            simp [scanNext, he, hk]
          have h := takeTask_pendingCount procs tasks p y
          rw [hk] at h
          rw [e]
          exact h
        | none =>
          have e : scanNext procs tasks runtime (p :: rest) =
              scanNext procs tasks runtime rest := by
            simp [scanNext, he, hk]
          rw [e]
          exact ih
    · have e : scanNext procs tasks runtime (p :: rest) =
          scanNext procs tasks runtime rest := by
        simp [scanNext, he]
      rw [e]
      exact ih

theorem getNextTask_pendingCount (procs : List Process) (tasks : List Task) (q ready : List Nat)
    (runtime : Int) (y : Nat) :
    pendingCount (getNextTask procs tasks q ready runtime).2.1 y +
        (getNextTask procs tasks q ready runtime).2.2.count y +
        (if (getNextTask procs tasks q ready runtime).1 = some y then 1 else 0) =
      pendingCount procs y + ready.count y := by
  have hs := scanNext_pendingCount procs tasks runtime y q
  cases ready with
  | nil => simpa [getNextTask, isEmptyT] using hs
  | cons t rest =>
    simp only [getNextTask, isEmptyT, dequeueTask, List.isEmpty_cons, Bool.not_false, if_true]
    rw [markRunning_pendingCount, List.count_cons]
    by_cases hy : y = t
    · subst hy; simp; omega
    · have hne : ¬ (t = y) := fun e => hy e.symm
      simp [hy, hne]

theorem dispatch_places (tierA : Bool) (s : Sim) (hc : s.cpu = 0) (y : Nat) :
    places (dispatch false tierA s) y = places s y := by
  have h1 := getNextTask_pendingCount s.procs s.tasks s.queueA s.readyQueueA s.stats.runtime y
  have h2 := getNextTask_pendingCount s.procs s.tasks s.queueB s.readyQueueB s.stats.runtime y
  unfold places slotCount dispatch
  cases tierA
  · simp only [Bool.false_eq_true, if_false] at h2 ⊢
    generalize getNextTask s.procs s.tasks s.queueB s.readyQueueB s.stats.runtime = r at h2 ⊢
    obtain ⟨a, b, c⟩ := r
    cases a with
    | some t =>
      simp only [markRunning_pendingCount, hc] at h2 ⊢
      simp [markRunning_pendingCount] at h2 ⊢
      omega
    | none =>
      simp only [hc] at h2 ⊢
      simp [markRunning_pendingCount] at h2 ⊢
      omega
  · simp only [if_true] at h1 ⊢
    generalize getNextTask s.procs s.tasks s.queueA s.readyQueueA s.stats.runtime = r at h1 ⊢
    obtain ⟨a, b, c⟩ := r
    cases a with
    | some t =>
      simp only [markRunning_pendingCount, hc] at h1 ⊢
      simp [markRunning_pendingCount] at h1 ⊢
      omega
    | none =>
      simp only [hc] at h1 ⊢
      simp [markRunning_pendingCount] at h1 ⊢
      omega

theorem dispatch_type (preemption tierA : Bool) (s : Sim) :
    (dispatch preemption tierA s).tasks = s.tasks := by
  unfold dispatch
  simp only []
  split <;> split_ifs <;> rfl

theorem scanNextPreemptive_pendingCount (procs : List Process) (tasks : List Task)
    (runtime : Int) (y : Nat) (q : List Nat) :
    pendingCount (scanNextPreemptive procs tasks runtime q).2 y +
        (if (scanNextPreemptive procs tasks runtime q).1 = some y then 1 else 0) =
      pendingCount procs y := by
  induction q with
  | nil => simp [scanNextPreemptive]
  | cons p rest ih =>
    by_cases he : eligible procs runtime p = true
    · have key : ∀ r : Option Nat × List Process,
          (pendingCount r.2 y + (if r.1 = some y then 1 else 0) = pendingCount procs y) →
          pendingCount (match r with
            | (some t, procs1) => (some t, procs1)
            | (none, _) => scanNextPreemptive procs tasks runtime rest).2 y +
            (if (match r with
              | (some t, procs1) => ((some t, procs1) : Option Nat × List Process)
              | (none, _) => scanNextPreemptive procs tasks runtime rest).1 = some y
              then 1 else 0) = pendingCount procs y := by
        rintro ⟨a, procs1⟩ h
        cases a with
        | some t => exact h
        | none => exact ih
      simp only [scanNextPreemptive, he, if_true]
      exact key _ (takeTask_pendingCount _ _ _ _)
    · have e : scanNextPreemptive procs tasks runtime (p :: rest) =
          scanNextPreemptive procs tasks runtime rest := by
        simp [scanNextPreemptive, he]
      rw [e]
      exact ih

theorem getNextTaskPreemptive_pendingCount (procs : List Process) (tasks : List Task)
    (q ready : List Nat) (runtime : Int) (y : Nat) :
    pendingCount (getNextTaskPreemptive procs tasks q ready runtime).2.1 y +
        (getNextTaskPreemptive procs tasks q ready runtime).2.2.count y +
        (if (getNextTaskPreemptive procs tasks q ready runtime).1 = some y then 1 else 0) ≤
      pendingCount procs y + ready.count y := by
  have hs := scanNextPreemptive_pendingCount procs tasks runtime y q
  cases ready with
  | nil =>
    have e : getNextTaskPreemptive procs tasks q [] runtime =
        ((scanNextPreemptive procs tasks runtime q).1,
          (scanNextPreemptive procs tasks runtime q).2, []) := by
      simp [getNextTaskPreemptive, isEmptyT]
    rw [e]
    simpa using hs.le
  | cons c rest =>
    cases rest with
    | nil =>
      have e : getNextTaskPreemptive procs tasks q [c] runtime =
          (some c, markRunning procs tasks c, []) := by
        simp [getNextTaskPreemptive, isEmptyT, dequeueTask, peekTask]
      rw [e]
      simp only [markRunning_pendingCount, List.count_cons, List.count_nil]
      by_cases hy : y = c
      · subst hy; simp
      · have hne : ¬ (c = y) := fun e => hy e.symm
        simp [hy, hne]
    | cons n rest2 =>
      by_cases hp : taskPriority procs tasks c < taskPriority procs tasks n
      · have hcount := count_priorityEnqueueTask procs tasks (n :: rest2) c y
        cases hL : priorityEnqueueTask procs tasks (n :: rest2) c with
        | nil =>
          have e : getNextTaskPreemptive procs tasks q (c :: n :: rest2) runtime =
              ((scanNextPreemptive procs tasks runtime q).1,
                (scanNextPreemptive procs tasks runtime q).2, []) := by
            simp [getNextTaskPreemptive, isEmptyT, dequeueTask, peekTask, hp, hL]
          rw [e]
          simp only [List.count_nil]
          omega
        | cons cur ready2 =>
          have e : getNextTaskPreemptive procs tasks q (c :: n :: rest2) runtime =
              (some cur, markRunning procs tasks cur, ready2) := by
            simp [getNextTaskPreemptive, isEmptyT, dequeueTask, peekTask, hp, hL]
          rw [e]
          rw [hL] at hcount
          simp only [markRunning_pendingCount]
          rw [List.count_cons (a := y) (b := c)]
          rw [List.count_cons] at hcount
          by_cases hy : y = cur
          · subst hy
            by_cases hyc : y = c
            · subst hyc; simp at hcount ⊢; omega
            · have hne : ¬ (c = y) := fun e => hyc e.symm
              simp [hyc, hne] at hcount ⊢; omega
          · have hne1 : ¬ (cur = y) := fun e => hy e.symm
            by_cases hyc : y = c
            · subst hyc; simp [hy, hne1] at hcount ⊢; omega
            · have hne : ¬ (c = y) := fun e => hyc e.symm
              simp [hyc, hne, hy, hne1] at hcount ⊢; omega
      · have e : getNextTaskPreemptive procs tasks q (c :: n :: rest2) runtime =
            ((scanNextPreemptive procs tasks runtime q).1,
              (scanNextPreemptive procs tasks runtime q).2, n :: rest2) := by
          simp [getNextTaskPreemptive, isEmptyT, dequeueTask, peekTask, hp]
        rw [e]
        rw [List.count_cons (a := y) (b := c)]
        simp only []
        omega

theorem dispatch_places_le (preemption tierA : Bool) (s : Sim) (hc : s.cpu = 0) (y : Nat) :
    places (dispatch preemption tierA s) y ≤ places s y := by
  cases preemption
  · exact (dispatch_places tierA s hc y).le
  · have h1 := getNextTaskPreemptive_pendingCount s.procs s.tasks s.queueA s.readyQueueA
      s.stats.runtime y
    have h2 := getNextTaskPreemptive_pendingCount s.procs s.tasks s.queueB s.readyQueueB
      s.stats.runtime y
    unfold places slotCount dispatch
    cases tierA
    · simp only [Bool.false_eq_true, if_false, if_true] at h2 ⊢
      generalize getNextTaskPreemptive s.procs s.tasks s.queueB s.readyQueueB
        s.stats.runtime = r at h2 ⊢
      obtain ⟨a, b, c⟩ := r
      cases a with
      | some t =>
        simp only [markRunning_pendingCount, hc] at h2 ⊢
        simp [markRunning_pendingCount] at h2 ⊢
        omega
      | none =>
        simp only [hc] at h2 ⊢
        simp at h2 ⊢
        omega
    · simp only [if_true] at h1 ⊢
      generalize getNextTaskPreemptive s.procs s.tasks s.queueA s.readyQueueA
        s.stats.runtime = r at h1 ⊢
      obtain ⟨a, b, c⟩ := r
      cases a with
      | some t =>
        simp only [markRunning_pendingCount, hc] at h1 ⊢
        simp [markRunning_pendingCount] at h1 ⊢
        omega
      | none =>
        simp only [hc] at h1 ⊢
        simp at h1 ⊢
        omega

theorem slotCount_pos {s : Sim} {t : Nat} (ht : s.t = some t) (hc : s.cpu ≠ 0) :
    slotCount s t = 1 := by
  simp [slotCount, ht, hc]

theorem slotCount_other {s : Sim} {t y : Nat} (ht : s.t = some t) (hne : y ≠ t) :
    slotCount s y = 0 := by
  have : ¬ (t = y) := fun e => hne e.symm
  simp [slotCount, ht, this]

theorem switchA_places (quantumA : Int) (s : Sim) (t y : Nat) (ht : s.t = some t)
    (hc : s.cpu ≠ 0) (hle : places s t ≤ 1) :
    places (switchA quantumA s t) y = places s y ∨
      ((getT s.tasks y).type ≠ 'i' ∧ (getT s.tasks y).type ≠ 'e' ∧
        places (switchA quantumA s t) y + 1 = places s y) := by
  have hp := pendingCount_congr y s.procs (switchA quantumA s t).procs
    (switchA_pending quantumA s t)
  by_cases hy : y = t
  · subst hy
    have hslot := slotCount_pos ht hc
    have hcomp : completedCount s.tasks y = 0 := by
      unfold places at hle
      omega
    rcases switchA_self quantumA s y ht hc hcomp with h | ⟨h1, h2, h⟩
    · left; unfold places; omega
    · right; refine ⟨h1, h2, ?_⟩; unfold places; omega
  · left
    obtain ⟨h1, h2, h3, h4, h5⟩ := switchA_rest quantumA s t y hy
    have hs0 := slotCount_other ht hy
    have hs1 : slotCount (switchA quantumA s t) y = 0 := slotCount_other (h5.trans ht) hy
    unfold places
    omega

theorem switchB_places (quantumA quantumB : Int) (s : Sim) (t y : Nat) (ht : s.t = some t)
    (hc : s.cpu ≠ 0) (hle : places s t ≤ 1) :
    places (switchB quantumA quantumB s t) y = places s y ∨
      ((getT s.tasks y).type ≠ 'i' ∧ (getT s.tasks y).type ≠ 'e' ∧
        places (switchB quantumA quantumB s t) y + 1 = places s y) := by
  have hp := pendingCount_congr y s.procs (switchB quantumA quantumB s t).procs
    (switchB_pending quantumA quantumB s t)
  by_cases hy : y = t
  · subst hy
    have hslot := slotCount_pos ht hc
    have hcomp : completedCount s.tasks y = 0 := by
      unfold places at hle
      omega
    rcases switchB_self quantumA quantumB s y ht hc hcomp with h | ⟨h1, h2, h⟩
    · left; unfold places; omega
    · right; refine ⟨h1, h2, ?_⟩; unfold places; omega
  · left
    obtain ⟨h1, h2, h3, h4, h5⟩ := switchB_rest quantumA quantumB s t y hy
    have hs0 := slotCount_other ht hy
    have hs1 : slotCount (switchB quantumA quantumB s t) y = 0 :=
      slotCount_other (h5.trans ht) hy
    unfold places
    omega

theorem tailA_type (s : Sim) (y : Nat) :
    (getT (tailA s).tasks y).type = (getT s.tasks y).type := by
  rw [(tailA_frame s).2.2.2.2.2.2.2.1]

theorem tailB_type (s : Sim) (y : Nat) :
    (getT (tailB s).tasks y).type = (getT s.tasks y).type := by
  rw [(tailB_frame s).2.2.2.2.2.2.2.1]

/-- One move of the engine from a state in which the tier-B ready queue obeys `ReadyInv`
and no task is in two places: task types are kept, no task gains a place, and without
preemption a task keeps its place unless it is a task other than compute and I/O that
leaves its only place. -/
theorem next_places (preemption : Bool) (quantumA quantumB : Int) (m m1 : Machine)
    (hR : ReadyInv m) (hle : ∀ a, places m.sim a ≤ 1)
    (h : next preemption quantumA quantumB m = some m1) (y : Nat) :
    (getT m1.sim.tasks y).type = (getT m.sim.tasks y).type ∧
    places m1.sim y ≤ places m.sim y ∧
    (preemption = false →
      places m1.sim y = places m.sim y ∨
        ((getT m.sim.tasks y).type ≠ 'i' ∧ (getT m.sim.tasks y).type ≠ 'e' ∧
          places m1.sim y = 0)) := by
  obtain ⟨loc, s⟩ := m
  simp only at hle
  have hage : (getT (ageTasks s).tasks y).type = (getT s.tasks y).type ∧
      places (ageTasks s) y ≤ places s y ∧
      (preemption = false →
        places (ageTasks s) y = places s y ∨
          ((getT s.tasks y).type ≠ 'i' ∧ (getT s.tasks y).type ≠ 'e' ∧
            places (ageTasks s) y = 0)) :=
    ⟨ageTasks_type s y, (ageTasks_places hle y).le, fun _ => Or.inl (ageTasks_places hle y)⟩
  have hsame : (getT s.tasks y).type = (getT s.tasks y).type ∧
      places s y ≤ places s y ∧
      (preemption = false →
        places s y = places s y ∨
          ((getT s.tasks y).type ≠ 'i' ∧ (getT s.tasks y).type ≠ 'e' ∧ places s y = 0)) :=
    ⟨rfl, le_refl _, fun _ => Or.inl rfl⟩
  cases loc with
  | outer =>
    simp only [next] at h
    split_ifs at h <;> (cases h; exact hsame)
  | inA =>
    simp only [next] at h
    split_ifs at h
    · cases h; exact hage
    · cases h; exact hsame
  | inB =>
    simp only [next] at h
    split_ifs at h
    · cases h; exact hage
    · cases h; exact hsame
  | done =>
    simp only [next] at h
    cases h
    exact hsame
  | midA =>
    simp only [next] at h
    split_ifs at h with hc
    · cases h
      refine ⟨by simp only [dispatch_type], dispatch_places_le preemption true s hc y, ?_⟩
      intro hp
      subst hp
      exact Or.inl (dispatch_places true s hc y)
    · have hB : s.readyQueueB = [] := by
        rcases hR with h1 | ⟨h1, _, _⟩
        · exact h1
        · exact absurd h1 hc
      cases ht : s.t with
      | none => simp [execA, ht] at h
      | some t =>
        simp [execA, ht, hB, preemptionCheck_nil] at h
        cases h
        simp only [tailA_type, tailA_places, switchA_type]
        have hsw := switchA_places quantumA s t y ht hc (hle t)
        have hy := hle y
        refine ⟨trivial, ?_, fun _ => ?_⟩
        · rcases hsw with h1 | ⟨_, _, h1⟩ <;> omega
        · rcases hsw with h1 | ⟨h1, h2, h3⟩
          · exact Or.inl h1
          · exact Or.inr ⟨h1, h2, by omega⟩
  | midB =>
    simp only [next] at h
    split_ifs at h with hc
    · cases h
      refine ⟨by simp only [dispatch_type], dispatch_places_le preemption false s hc y, ?_⟩
      intro hp
      subst hp
      exact Or.inl (dispatch_places false s hc y)
    · have hB : s.readyQueueB = [] := by
        rcases hR with h1 | ⟨h1, _, _⟩
        · exact h1
        · exact absurd h1 hc
      cases ht : s.t with
      | none => simp [execB, ht] at h
      | some t =>
        simp [execB, ht, hB, preemptionCheck_nil] at h
        cases h
        simp only [tailB_type, tailB_places, switchB_type]
        have hsw := switchB_places quantumA quantumB s t y ht hc (hle t)
        have hy := hle y
        refine ⟨trivial, ?_, fun _ => ?_⟩
        · rcases hsw with h1 | ⟨_, _, h1⟩ <;> omega
        · rcases hsw with h1 | ⟨h1, h2, h3⟩
          · exact Or.inl h1
          · exact Or.inr ⟨h1, h2, by omega⟩

theorem runFrom_places (preemption : Bool) (quantumA quantumB : Int) (n : Nat) :
    ∀ m m1 : Machine, ReadyInv m → (∀ a, places m.sim a ≤ 1) →
      runFrom preemption quantumA quantumB n m = some m1 →
      ∀ y, (getT m1.sim.tasks y).type = (getT m.sim.tasks y).type ∧
        places m1.sim y ≤ places m.sim y ∧
        (preemption = false →
          places m1.sim y = places m.sim y ∨
            ((getT m.sim.tasks y).type ≠ 'i' ∧ (getT m.sim.tasks y).type ≠ 'e' ∧
              places m1.sim y = 0)) := by
  induction n with
  | zero =>
    intro m m1 _ _ h y
    simp [runFrom] at h
    subst h
    exact ⟨rfl, le_refl _, fun _ => Or.inl rfl⟩
  | succ n ih =>
    intro m m1 hR hle h y
    simp only [runFrom] at h
    cases hn : next preemption quantumA quantumB m with
    | none => simp [hn] at h
    | some m2 =>
      simp only [hn] at h
      have hstep := next_places preemption quantumA quantumB m m2 hR hle hn
      have hR2 := next_ReadyInv preemption quantumA quantumB m m2 hR hn
      have hle2 : ∀ a, places m2.sim a ≤ 1 := fun a => le_trans (hstep a).2.1 (hle a)
      obtain ⟨t1, l1, e1⟩ := ih m2 m1 hR2 hle2 h y
      obtain ⟨t0, l0, e0⟩ := hstep y
      refine ⟨t1.trans t0, le_trans l1 l0, fun hp => ?_⟩
      rcases e1 hp with h1 | ⟨h1, h2, h3⟩
      · rcases e0 hp with h4 | ⟨h4, h5, h6⟩
        · exact Or.inl (h1.trans h4)
        · exact Or.inr ⟨h4, h5, h1.trans h6⟩
      · exact Or.inr ⟨t0 ▸ h1, t0 ▸ h2, h3⟩

/-! ### Operations on an empty queue, and promotion between queues -/

/-- C27: on an empty queue `dequeueTask`, `dequeueProcess`, `peekTask` and `peekProcess`
return the empty result (and leave the queue empty), and `removeTask`, `updateIOTasks`,
`promoteProcess` with an empty source and `endProcess` with an empty source change
nothing: the queues involved are empty or as before and both stores are as before. -/
theorem C27_empty_queue_operations (procs : List Process) (tasks : List Task) (t p : Nat)
    (queueA exit : List Nat) :
    dequeueTask [] = (none, []) ∧ dequeueProcess [] = (none, []) ∧
    peekTask [] = none ∧ peekProcess [] = none ∧
    removeTask [] t = [] ∧
    updateIOTasks procs tasks [] = (procs, tasks, []) ∧
    promoteProcess procs [] queueA p = (procs, [], queueA) ∧
    endProcess [] exit p = ([], exit) :=
  ⟨rfl, rfl, rfl, rfl, rfl, rfl, rfl, rfl⟩

theorem detachProcess_split (p : Nat) :
    ∀ q : List Nat, p ∈ q →
      ∃ pre post, q = pre ++ p :: post ∧ p ∉ pre ∧ detachProcess q p = some (pre ++ post) := by
  intro q
  induction q with
  | nil => intro h; simp at h
  | cons c rest ih =>
    intro h
    by_cases hc : c = p
    · exact ⟨[], rest, by simp [hc], by simp, by simp [detachProcess, hc]⟩
    · rcases List.mem_cons.1 h with h1 | h1
      · exact absurd h1.symm hc
      · obtain ⟨pre, post, e1, e2, e3⟩ := ih h1
        refine ⟨c :: pre, post, by simp [e1], ?_, by simp [detachProcess, hc, e3]⟩
        simp only [List.mem_cons, not_or]
        exact ⟨fun e => hc e.symm, e2⟩

theorem detachProcess_notMem (p : Nat) :
    ∀ q : List Nat, p ∉ q → detachProcess q p = none := by
  intro q
  induction q with
  | nil => intro _; rfl
  | cons c rest ih =>
    intro h
    simp only [List.mem_cons, not_or] at h
    have hc : ¬ c = p := fun e => h.1 e.symm
    simp [detachProcess, hc, ih h.2]

/-- Insertion splits the queue at the first node whose priority is not greater than the
new process's. -/
theorem priorityEnqueueProcess_split (procs : List Process) (p : Nat) :
    ∀ q : List Nat, ∃ l r, q = l ++ r ∧
      priorityEnqueueProcess procs q p = l ++ p :: r ∧
      (∀ c ∈ l, (getP procs c).priority > (getP procs p).priority) ∧
      (∀ c, r.head? = some c → (getP procs c).priority ≤ (getP procs p).priority) := by
  intro q
  induction q with
  | nil => exact ⟨[], [], rfl, rfl, by simp, by simp⟩
  | cons c rest ih =>
    by_cases h : (getP procs c).priority > (getP procs p).priority
    · obtain ⟨l, r, e1, e2, e3, e4⟩ := ih
      refine ⟨c :: l, r, by simp [e1], by simp [priorityEnqueueProcess, h, e2], ?_, e4⟩
      intro u hu
      rcases List.mem_cons.1 hu with h1 | h1
      · rw [h1]; exact h
      · exact e3 u h1
    · refine ⟨[], c :: rest, rfl, by simp [priorityEnqueueProcess, h], by simp, ?_⟩
      intro u hu
      simp only [List.head?_cons, Option.some.injEq] at hu
      rw [← hu]
      exact not_lt.1 h

/-- C28: if `p` occurs in the source queue, `promoteProcess` removes its first occurrence
(the other members keep their order), puts `p` into the destination queue behind the
leading members whose priority number is greater than its own and in front of the first
member whose priority number is not (the previous members keep their order), and sets
the exit-tier tag of `p` to `"A"`, every other field and every other process being as
before; if `p` does not occur in the source, nothing changes. -/
theorem C28_promoteProcess (procs : List Process) (queueB queueA : List Nat) (p : Nat) :
    (p ∈ queueB →
      ∃ pre post l r, queueB = pre ++ p :: post ∧ p ∉ pre ∧ queueA = l ++ r ∧
        (∀ c ∈ l, (getP procs c).priority > (getP procs p).priority) ∧
        (∀ c, r.head? = some c → (getP procs c).priority ≤ (getP procs p).priority) ∧
        promoteProcess procs queueB queueA p =
          (setP procs p { getP procs p with endQueue := "A" }, pre ++ post, l ++ p :: r)) ∧
    (p ∉ queueB → promoteProcess procs queueB queueA p = (procs, queueB, queueA)) := by
  constructor
  · intro h
    obtain ⟨pre, post, e1, e2, e3⟩ := detachProcess_split p queueB h
    obtain ⟨l, r, f1, f2, f3, f4⟩ := priorityEnqueueProcess_split procs p queueA
    exact ⟨pre, post, l, r, e1, e2, f1, f3, f4, by simp [promoteProcess, e3, f2]⟩
  · intro h
    simp [promoteProcess, detachProcess_notMem p queueB h]

/-- Instance of C28: process 1 (priority 1) is promoted out of `[0, 1, 2]` into the queue
`[0]` of the priority-5 process 0 of the two-process input. -/
theorem C28_promoteProcess_witness :
    1 ∈ [0, 1, 2] ∧
    (∃ pre post l r, [0, 1, 2] = pre ++ 1 :: post ∧ 1 ∉ pre ∧ [0] = l ++ r ∧
        (∀ c ∈ l, (getP arriveProcs c).priority > (getP arriveProcs 1).priority) ∧
        (∀ c, r.head? = some c →
          (getP arriveProcs c).priority ≤ (getP arriveProcs 1).priority) ∧
        promoteProcess arriveProcs [0, 1, 2] [0] 1 =
          (setP arriveProcs 1 { getP arriveProcs 1 with endQueue := "A" }, pre ++ post,
            l ++ 1 :: r)) ∧
    promoteProcess arriveProcs [0, 1, 2] [0] 1 =
      (setP arriveProcs 1 { getP arriveProcs 1 with endQueue := "A" }, [0, 2], [0, 1]) ∧
    3 ∉ [0, 1, 2] ∧ promoteProcess arriveProcs [0, 1, 2] [0] 3 = (arriveProcs, [0, 1, 2], [0]) :=
  ⟨by decide, (C28_promoteProcess arriveProcs [0, 1, 2] [0] 1).1 (by decide), by decide,
    by decide, (C28_promoteProcess arriveProcs [0, 1, 2] [0] 3).2 (by decide)⟩

/-- C25 (the code at the failing input): process 1 of the input `P1:5` (arrival 0) and
`P2:1` (arrival 3) has arrived at tick 3 and is not running, yet
`updateProcessQueue(q, 3)` leaves its ready time at 0, while it adds one tick to process 0
(arrival 0); only the call for tick 4 adds a tick to process 1.  In the run with
quantumA = 4 and quantumB = 8 the engine executes the tier-B iteration of tick 3 from its
11th state, with process 1 in the tier-B queue, arrived and not running; after the
iteration the clock reads 4 and the ready time of process 1 is still 0. -/
theorem C25_arrival_tick_not_counted :
    (getP arriveProcs 1).arrival = 3 ∧ (getP arriveProcs 1).taskRunning = 0 ∧
    (getP arriveProcs 1).ready = 0 ∧
    (getP (updateProcessQueue arriveProcs 3 [0, 1]) 1).ready = 0 ∧
    (getP (updateProcessQueue arriveProcs 3 [0, 1]) 0).ready = 1 ∧
    (getP (updateProcessQueue arriveProcs 4 [0, 1]) 1).ready = 1 ∧
    runInput false 4 8 arriveProcs arriveTasks [0, 1] 11 =
      some (stateAt false 4 8 arriveProcs arriveTasks [0, 1] 11) ∧
    (stateAt false 4 8 arriveProcs arriveTasks [0, 1] 11).loc = Loc.midB ∧
    (stateAt false 4 8 arriveProcs arriveTasks [0, 1] 11).sim.stats.runtime = 3 ∧
    (stateAt false 4 8 arriveProcs arriveTasks [0, 1] 11).sim.queueB = [0, 1] ∧
    (getP (stateAt false 4 8 arriveProcs arriveTasks [0, 1] 11).sim.procs 1).taskRunning = 0 ∧
    (getP (stateAt false 4 8 arriveProcs arriveTasks [0, 1] 11).sim.procs 1).ready = 0 ∧
    next false 4 8 (stateAt false 4 8 arriveProcs arriveTasks [0, 1] 11) =
      some (stateAt false 4 8 arriveProcs arriveTasks [0, 1] 12) ∧
    (stateAt false 4 8 arriveProcs arriveTasks [0, 1] 12).loc = Loc.inB ∧
    (stateAt false 4 8 arriveProcs arriveTasks [0, 1] 12).sim.stats.runtime = 4 ∧
    (getP (stateAt false 4 8 arriveProcs arriveTasks [0, 1] 12).sim.procs 1).ready = 0 := by
  decide

/-! ### The Terminate step -/

theorem tailA_stats_eq (s : Sim) :
    (tailA s).stats = { s.stats with runtime := wrap32 (s.stats.runtime + 1) } := by
  cases hA : isEmptyP s.queueA <;> cases hB : isEmptyP s.queueB <;>
    simp [tailA, updStats, hA, hB]

theorem tailB_stats_eq (s : Sim) :
    (tailB s).stats = { s.stats with runtime := wrap32 (s.stats.runtime + 1) } := by
  cases hB : isEmptyP s.queueB <;> simp [tailB, updStats, hB]

theorem endProcess_split (q exit : List Nat) (p : Nat) (h : p ∈ q) :
    ∃ pre post, q = pre ++ p :: post ∧ p ∉ pre ∧
      endProcess q exit p = (pre ++ post, exit ++ [p]) := by
  obtain ⟨pre, post, e1, e2, e3⟩ := detachProcess_split p q h
  exact ⟨pre, post, e1, e2, by simp [endProcess, e3, enqueueProcess]⟩

/-! ### Interruption on an exhausted quantum -/

theorem tailA_TailOf (s : Sim) : TailOf s (tailA s) := by
  have hf := tailA_frame s
  exact ⟨hf.2.1, hf.1, hf.2.2.1, hf.2.2.2.2.1, hf.2.2.2.2.2.1, hf.2.2.2.2.2.2.1,
    hf.2.2.2.2.2.2.2.1, tailA_stats_eq s, tailA_procs s⟩

theorem tailB_TailOf (s : Sim) : TailOf s (tailB s) := by
  have hf := tailB_frame s
  exact ⟨hf.2.1, hf.1, hf.2.2.1, hf.2.2.2.2.1, hf.2.2.2.2.2.1, hf.2.2.2.2.2.2.1,
    hf.2.2.2.2.2.2.2.1, tailB_stats_eq s, tailB_procs s⟩

theorem InterruptedStep_tail {s s1 s2 : Sim} {t : Nat} (hT : TailOf s1 s2)
    (h : InterruptedStep s s1 t) : InterruptedStep s s2 t := by
  obtain ⟨h1, h2, h3⟩ := h
  obtain ⟨_, _, e3, _, _, _, e7, _, e9⟩ := hT
  obtain ⟨r, hp⟩ := e9 (getT s.tasks t).parent
  refine ⟨?_, ?_, ?_⟩
  · rw [e7]; exact h1
  · rw [hp]; exact h2
  · rw [e3]; exact h3

theorem Requeued_tail {s s1 s2 : Sim} {t : Nat} {quantum1 : Int} {ready ready1 : List Nat}
    (hT : TailOf s1 s2) (h : Requeued s s1 t quantum1 ready ready1) :
    Requeued s s2 t quantum1 ready ready1 := by
  obtain ⟨h1, h2⟩ := h
  obtain ⟨r, hp⟩ := hT.2.2.2.2.2.2.2.2 (getT s.tasks t).parent
  exact ⟨by rw [hp]; exact h1, h2⟩

theorem NotFinalized_tail {s s1 s2 : Sim} {t : Nat} (hT : TailOf s1 s2)
    (h : NotFinalized s s1 t) : NotFinalized s s2 t := by
  obtain ⟨h1, h2, h3, h4, h5, h6, h7⟩ := h
  obtain ⟨_, _, _, e4, e5, e6, _, e8, e9⟩ := hT
  obtain ⟨r, hp⟩ := e9 (getT s.tasks t).parent
  refine ⟨?_, ?_, ?_, ?_, ?_, ?_, ?_⟩
  · rw [e4]; exact h1
  · rw [e5]; exact h2
  · rw [e6]; exact h3
  · rw [hp]; exact h4
  · rw [e8]; exact h5
  · rw [e8]; exact h6
  · rw [e8]; exact h7

theorem priorityEnqueueTask_congr {procs procs1 : List Process} {tasks tasks1 : List Task}
    (h : ∀ c, taskPriority procs1 tasks1 c = taskPriority procs tasks c) (t : Nat) :
    ∀ q : List Nat,
      priorityEnqueueTask procs1 tasks1 q t = priorityEnqueueTask procs tasks q t := by
  intro q
  induction q with
  | nil => rfl
  | cons c rest ih => simp only [priorityEnqueueTask, h, ih]

theorem getP_setP_priority (procs : List Process) (i j : Nat) (p : Process)
    (h : p.priority = (getP procs i).priority) :
    (getP (setP procs i p) j).priority = (getP procs j).priority := by
  by_cases hj : j = i
  · subst hj; simp [h]
  · rw [getP_setP_ne _ _ _ _ hj]

theorem getT_setT_parent (tasks : List Task) (i j : Nat) (x : Task)
    (h : x.parent = (getT tasks i).parent) :
    (getT (setT tasks i x) j).parent = (getT tasks j).parent := by
  by_cases hj : j = i
  · subst hj; simp [h]
  · rw [getT_setT_ne _ _ _ _ hj]

theorem promoteProcess_priority (procs : List Process) (queueB queueA : List Nat) (p j : Nat) :
    (getP (promoteProcess procs queueB queueA p).1 j).priority = (getP procs j).priority :=
  (promoteProcess_frame procs queueB queueA p j).2.2.2.2

theorem switchA_terminate_deferred (quantumA : Int) (s : Sim) (t : Nat)
    (hi : (getT s.tasks t).type ≠ 'i') (he : (getT s.tasks t).type ≠ 'e')
    (hq : (getP s.procs (getT s.tasks t).parent).quantum ≤ 0) :
    InterruptedStep s (switchA quantumA s t) t ∧
    (getP (switchA quantumA s t).procs (getT s.tasks t).parent).completions = 0 ∧
    Requeued s (switchA quantumA s t) t quantumA s.readyQueueA
      (switchA quantumA s t).readyQueueA ∧
    NotFinalized s (switchA quantumA s t) t := by
  have hq1 : ¬ (getP s.procs (getT s.tasks t).parent).quantum > 0 := not_lt.2 hq
  simp only [switchA, hi, he, hq1, updP, updT, updStats, InterruptedStep, Requeued,
    NotFinalized, if_false]
  refine ⟨⟨by simp, by simp, trivial⟩, by simp, ⟨by simp, ?_⟩, by simp⟩
  refine priorityEnqueueTask_congr (fun c => ?_) t _
  simp [taskPriority, getT_setT_parent, getP_setP_priority]

theorem switchB_terminate_deferred (quantumA quantumB : Int) (s : Sim) (t : Nat)
    (hi : (getT s.tasks t).type ≠ 'i') (he : (getT s.tasks t).type ≠ 'e')
    (hq : (getP s.procs (getT s.tasks t).parent).quantum ≤ 0) :
    InterruptedStep s (switchB quantumA quantumB s t) t ∧
    (getP (switchB quantumA quantumB s t).procs (getT s.tasks t).parent).completions = 0 ∧
    Requeued s (switchB quantumA quantumB s t) t quantumB s.readyQueueB
      (switchB quantumA quantumB s t).readyQueueB ∧
    NotFinalized s (switchB quantumA quantumB s t) t := by
  have hq1 : ¬ (getP s.procs (getT s.tasks t).parent).quantum > 0 := not_lt.2 hq
  simp only [switchB, hi, he, hq1, updP, updT, updStats, InterruptedStep, Requeued,
    NotFinalized, if_false]
  refine ⟨⟨by simp, by simp, trivial⟩, by simp, ⟨by simp, ?_⟩, by simp⟩
  refine priorityEnqueueTask_congr (fun c => ?_) t _
  simp [taskPriority, getT_setT_parent, getP_setP_priority]

/-- C24: in every state reachable by either engine in which a Terminate task `t` (the
default case of the switch) occupies the CPU at the execution point of a tier loop and
its process has no quantum left, the step is defined and increments the interrupt counter
of `t`, clears the running flag, releases the CPU, resets the completions counter to 0,
sets the quantum to the quantum of the serviced tier and inserts `t` by priority into the
ready queue of that tier; the process is not finalized: the tier queues and the exit
queue, its completion time and the minimum, maximum and total ready times are as before.
All of this still holds at the end of the iteration. -/
theorem C24_terminate_deferred (preemption : Bool) (quantumA quantumB : Int)
    (procs : List Process) (tasks : List Task) (queueB : List Nat) (m : Machine) (t : Nat)
    (hr : Reachable preemption quantumA quantumB procs tasks queueB m)
    (hcpu : m.sim.cpu ≠ 0) (ht : m.sim.t = some t)
    (hi : (getT m.sim.tasks t).type ≠ 'i') (he : (getT m.sim.tasks t).type ≠ 'e')
    (hq : (getP m.sim.procs (getT m.sim.tasks t).parent).quantum ≤ 0) :
    (m.loc = Loc.midA →
      ∃ s1, execA preemption quantumA m.sim = some s1 ∧
        next preemption quantumA quantumB m = some { loc := Loc.inA, sim := tailA s1 } ∧
        ∀ s2, s2 = s1 ∨ s2 = tailA s1 →
          InterruptedStep m.sim s2 t ∧
          (getP s2.procs (getT m.sim.tasks t).parent).completions = 0 ∧
          Requeued m.sim s2 t quantumA m.sim.readyQueueA s2.readyQueueA ∧
          NotFinalized m.sim s2 t) ∧
    (m.loc = Loc.midB →
      ∃ s1, execB preemption quantumA quantumB m.sim = some s1 ∧
        next preemption quantumA quantumB m = some { loc := Loc.inB, sim := tailB s1 } ∧
        ∀ s2, s2 = s1 ∨ s2 = tailB s1 →
          InterruptedStep m.sim s2 t ∧
          (getP s2.procs (getT m.sim.tasks t).parent).completions = 0 ∧
          Requeued m.sim s2 t quantumB m.sim.readyQueueB s2.readyQueueB ∧
          NotFinalized m.sim s2 t) := by
  have hno := Reachable_no_preemption hr hcpu t
  obtain ⟨loc, s⟩ := m
  simp only at hcpu ht hi he hq hno
  constructor
  · intro hloc
    simp only at hloc
    subst hloc
    obtain ⟨h1, h2, h3, h4⟩ := switchA_terminate_deferred quantumA s t hi he hq
    have hx : execA preemption quantumA s = some (switchA quantumA s t) := by
      simp [execA, ht, hno]
    refine ⟨_, hx, by simp [next, hcpu, hx], ?_⟩
    rintro s2 (rfl | rfl)
    · exact ⟨h1, h2, h3, h4⟩
    · have hT := tailA_TailOf (switchA quantumA s t)
      obtain ⟨r, hp⟩ := hT.2.2.2.2.2.2.2.2 (getT s.tasks t).parent
      refine ⟨InterruptedStep_tail hT h1, by rw [hp]; exact h2, ?_, NotFinalized_tail hT h4⟩
      rw [hT.1]
      exact Requeued_tail hT h3
  · intro hloc
    simp only at hloc
    subst hloc
    obtain ⟨h1, h2, h3, h4⟩ := switchB_terminate_deferred quantumA quantumB s t hi he hq
    have hx : execB preemption quantumA quantumB s = some (switchB quantumA quantumB s t) := by
      simp [execB, ht, hno]
    refine ⟨_, hx, by simp [next, hcpu, hx], ?_⟩
    rintro s2 (rfl | rfl)
    · exact ⟨h1, h2, h3, h4⟩
    · have hT := tailB_TailOf (switchB quantumA quantumB s t)
      obtain ⟨r, hp⟩ := hT.2.2.2.2.2.2.2.2 (getT s.tasks t).parent
      refine ⟨InterruptedStep_tail hT h1, by rw [hp]; exact h2, ?_, NotFinalized_tail hT h4⟩
      rw [hT.2.1]
      exact Requeued_tail hT h3

/-- Instance of C24: with quantumB = 5 the Terminate task of `exe:5`, `t` is reached, at
the 20th state of the non-preemptive run, with quantum 0. -/
theorem C24_terminate_deferred_witness :
    runInput false 2 5 (soloProcs 5) soloTasks [0] 20 =
      some (stateAt false 2 5 (soloProcs 5) soloTasks [0] 20) ∧
    (stateAt false 2 5 (soloProcs 5) soloTasks [0] 20).loc = Loc.midB ∧
    (stateAt false 2 5 (soloProcs 5) soloTasks [0] 20).sim.cpu ≠ 0 ∧
    (stateAt false 2 5 (soloProcs 5) soloTasks [0] 20).sim.t = some 1 ∧
    (getT (stateAt false 2 5 (soloProcs 5) soloTasks [0] 20).sim.tasks 1).type = 't' ∧
    (getT (stateAt false 2 5 (soloProcs 5) soloTasks [0] 20).sim.tasks 1).parent = 0 ∧
    (getP (stateAt false 2 5 (soloProcs 5) soloTasks [0] 20).sim.procs 0).quantum = 0 ∧
    ∃ s1, execB false 2 5 (stateAt false 2 5 (soloProcs 5) soloTasks [0] 20).sim = some s1 ∧
      next false 2 5 (stateAt false 2 5 (soloProcs 5) soloTasks [0] 20) =
        some { loc := Loc.inB, sim := tailB s1 } ∧
      ∀ s2, s2 = s1 ∨ s2 = tailB s1 →
        InterruptedStep (stateAt false 2 5 (soloProcs 5) soloTasks [0] 20).sim s2 1 ∧
        (getP s2.procs
          (getT (stateAt false 2 5 (soloProcs 5) soloTasks [0] 20).sim.tasks 1).parent).completions
            = 0 ∧
        Requeued (stateAt false 2 5 (soloProcs 5) soloTasks [0] 20).sim s2 1 5
          (stateAt false 2 5 (soloProcs 5) soloTasks [0] 20).sim.readyQueueB s2.readyQueueB ∧
        NotFinalized (stateAt false 2 5 (soloProcs 5) soloTasks [0] 20).sim s2 1 :=
  ⟨by decide, by decide, by decide, by decide, by decide, by decide, by decide,
    (C24_terminate_deferred false 2 5 (soloProcs 5) soloTasks [0]
      (stateAt false 2 5 (soloProcs 5) soloTasks [0] 20) 1
      (runInput_Reachable (n := 20) (by decide)) (by decide) (by decide) (by decide)
      (by decide) (by decide)).2 (by decide)⟩

theorem switchA_interrupted (quantumA : Int) (s : Sim) (t : Nat)
    (hq : (getP s.procs (getT s.tasks t).parent).quantum = 0)
    (hcase : (getT s.tasks t).type = 'i' ∨
      ((getT s.tasks t).type = 'e' ∧ (getT s.tasks t).time > 0)) :
    InterruptedStep s (switchA quantumA s t) t ∧
    Requeued s (switchA quantumA s t) t quantumA s.readyQueueA
      (switchA quantumA s t).readyQueueA := by
  rcases hcase with h1 | ⟨h1, h2⟩
  · simp only [switchA, h1, hq, updP, updT, updStats, InterruptedStep, Requeued, if_true]
    refine ⟨⟨by simp, by simp, by simp⟩, by simp, ?_⟩
    simp only [gt_iff_lt, lt_self_iff_false, if_false]
    refine priorityEnqueueTask_congr (fun c => ?_) t _
    simp [taskPriority, getT_setT_parent, getP_setP_priority]
  · have h3 : ¬ (getT s.tasks t).time = 0 := by omega
    have h4 : ¬ ('e' : Char) = 'i' := by decide
    simp only [switchA, h1, h3, h4, hq, updP, updT, updStats, InterruptedStep, Requeued,
      if_true, if_false, le_refl]
    refine ⟨⟨by simp, by simp, trivial⟩, by simp, ?_⟩
    refine priorityEnqueueTask_congr (fun c => ?_) t _
    simp [taskPriority, getT_setT_parent, getP_setP_priority]

theorem switchB_interrupted_keep (quantumA quantumB : Int) (s : Sim) (t : Nat)
    (hq : (getP s.procs (getT s.tasks t).parent).quantum = 0)
    (hcase : (getT s.tasks t).type = 'i' ∨
      ((getT s.tasks t).type = 'e' ∧ (getT s.tasks t).time > 0))
    (hn : (getT s.tasks t).interrupts + 1 ≠ 3) :
    InterruptedStep s (switchB quantumA quantumB s t) t ∧
    Requeued s (switchB quantumA quantumB s t) t quantumB s.readyQueueB
      (switchB quantumA quantumB s t).readyQueueB ∧
    (switchB quantumA quantumB s t).queueA = s.queueA ∧
    (switchB quantumA quantumB s t).queueB = s.queueB := by
  rcases hcase with h1 | ⟨h1, h2⟩
  · simp only [switchB, h1, hq, updP, updT, updStats, InterruptedStep, Requeued, if_true]
    simp only [gt_iff_lt, lt_self_iff_false, if_false, getT_setT_eq, hn]
    refine ⟨⟨by simp, by simp, by simp⟩, ⟨by simp, ?_⟩, by simp, by simp⟩
    refine priorityEnqueueTask_congr (fun c => ?_) t _
    simp [taskPriority, getT_setT_parent, getP_setP_priority]
  · have h3 : ¬ (getT s.tasks t).time = 0 := by omega
    have h4 : ¬ ('e' : Char) = 'i' := by decide
    simp only [switchB, h1, h3, h4, hq, updP, updT, updStats, InterruptedStep, Requeued,
      if_true, if_false]
    simp only [getT_setT_eq, hn, if_false]
    refine ⟨⟨by simp, by simp, trivial⟩, ⟨by simp, ?_⟩, by simp, by simp⟩
    refine priorityEnqueueTask_congr (fun c => ?_) t _
    simp [taskPriority, getT_setT_parent, getP_setP_priority]

theorem promoteProcess_moved (procs : List Process) (queueB queueA : List Nat) (p : Nat)
    (h : p ∈ queueB) :
    MovedByPriority procs p queueB queueA (promoteProcess procs queueB queueA p).2.1
      (promoteProcess procs queueB queueA p).2.2 := by
  obtain ⟨pre, post, e1, e2, e3⟩ := detachProcess_split p queueB h
  obtain ⟨l, r, f1, f2, f3, f4⟩ := priorityEnqueueProcess_split procs p queueA
  exact ⟨pre, post, l, r, e1, e2, by simp [promoteProcess, e3], f1,
    by simp [promoteProcess, e3, f2], f3, f4⟩

theorem MovedByPriority_congr {procs procs1 : List Process} {p : Nat}
    {src dst src1 dst1 : List Nat}
    (h : ∀ c, (getP procs1 c).priority = (getP procs c).priority)
    (hm : MovedByPriority procs1 p src dst src1 dst1) :
    MovedByPriority procs p src dst src1 dst1 := by
  obtain ⟨pre, post, l, r, e1, e2, e3, e4, e5, e6, e7⟩ := hm
  refine ⟨pre, post, l, r, e1, e2, e3, e4, e5, ?_, ?_⟩
  · intro c hc
    have := e6 c hc
    rwa [h, h] at this
  · intro c hc
    have := e7 c hc
    rwa [h, h] at this

theorem switchB_interrupted_promote (quantumA quantumB : Int) (s : Sim) (t : Nat)
    (hq : (getP s.procs (getT s.tasks t).parent).quantum = 0)
    (hcase : (getT s.tasks t).type = 'i' ∨
      ((getT s.tasks t).type = 'e' ∧ (getT s.tasks t).time > 0))
    (hn : (getT s.tasks t).interrupts + 1 = 3) :
    InterruptedStep s (switchB quantumA quantumB s t) t ∧
    Requeued s (switchB quantumA quantumB s t) t quantumA s.readyQueueA
      (switchB quantumA quantumB s t).readyQueueA ∧
    ((getT s.tasks t).parent ∈ s.queueB →
      MovedByPriority s.procs (getT s.tasks t).parent s.queueB s.queueA
        (switchB quantumA quantumB s t).queueB (switchB quantumA quantumB s t).queueA ∧
      (getP (switchB quantumA quantumB s t).procs (getT s.tasks t).parent).endQueue = "A") := by
  have hfin : ∀ procs1 : List Process,
      (∀ c, (getP procs1 c).priority = (getP s.procs c).priority) →
      (getT s.tasks t).parent ∈ s.queueB →
        MovedByPriority s.procs (getT s.tasks t).parent s.queueB s.queueA
          (promoteProcess procs1 s.queueB s.queueA (getT s.tasks t).parent).2.1
          (promoteProcess procs1 s.queueB s.queueA (getT s.tasks t).parent).2.2 ∧
        (getP (promoteProcess procs1 s.queueB s.queueA (getT s.tasks t).parent).1
            (getT s.tasks t).parent).endQueue = "A" := by
    intro procs1 hpr hm
    refine ⟨MovedByPriority_congr hpr (promoteProcess_moved procs1 _ _ _ hm), ?_⟩
    obtain ⟨q1, hq1⟩ := detachProcess_of_mem _ _ hm
    simp [promoteProcess, hq1]
  rcases hcase with h1 | ⟨h1, h2⟩
  · simp only [switchB, h1, hq, updP, updT, updStats, doPromote, InterruptedStep, Requeued,
      if_true]
    simp only [gt_iff_lt, lt_self_iff_false, if_false, getT_setT_eq, hn, if_true]
    refine ⟨⟨by simp, ?_, trivial⟩, ⟨?_, ?_⟩, ?_⟩
    · rw [(promoteProcess_frame _ _ _ _ _).1]; simp
    · rw [(promoteProcess_frame _ _ _ _ _).2.2.1]; simp
    · refine priorityEnqueueTask_congr (fun c => ?_) t _
      simp [taskPriority, getT_setT_parent, getP_setP_priority, promoteProcess_priority]
    · exact hfin _ (fun c => by simp [getP_setP_priority])
  · have h3 : ¬ (getT s.tasks t).time = 0 := by omega
    have h4 : ¬ ('e' : Char) = 'i' := by decide
    simp only [switchB, h1, h3, h4, hq, updP, updT, updStats, doPromote, InterruptedStep,
      Requeued, if_true, if_false]
    simp only [getT_setT_eq, hn, if_true]
    refine ⟨⟨by simp, ?_, trivial⟩, ⟨?_, ?_⟩, ?_⟩
    · rw [(promoteProcess_frame _ _ _ _ _).1]; simp
    · rw [(promoteProcess_frame _ _ _ _ _).2.2.1]; simp
    · refine priorityEnqueueTask_congr (fun c => ?_) t _
      simp [taskPriority, getT_setT_parent, getP_setP_priority, promoteProcess_priority]
    · exact hfin _ (fun c => by simp [getP_setP_priority])

theorem MovedByPriority_tail {procs : List Process} {p : Nat} {s s1 s2 : Sim}
    (hT : TailOf s1 s2)
    (h : MovedByPriority procs p s.queueB s.queueA s1.queueB s1.queueA) :
    MovedByPriority procs p s.queueB s.queueA s2.queueB s2.queueA := by
  rw [hT.2.2.2.1, hT.2.2.2.2.1]
  exact h

/-- C21: in every state reachable by either engine in which the running task `t` is an
I/O task, or a compute task with remaining time above 0, and its process `p` has quantum
0, the step of the tier loop is defined, increments the interrupt counter of `t`, clears
the running flag of `p` and releases the CPU.  In tier A it sets the quantum to quantumA
and inserts `t` by priority into the tier-A ready queue.  In tier B, if the interrupt
counter thereby reaches 3, the quantum is set to quantumA, `t` is inserted by priority
into the tier-A ready queue and `p`, when it is a member of the tier-B queue, is moved
from there into the tier-A queue by priority, with exit-tier tag `"A"`; otherwise the
quantum is set to quantumB, `t` is inserted by priority into the tier-B ready queue and
the tier queues are as before.  All of this still holds at the end of the iteration. -/
theorem C21_quantum_exhausted (preemption : Bool) (quantumA quantumB : Int)
    (procs : List Process) (tasks : List Task) (queueB : List Nat) (m : Machine) (t : Nat)
    (hr : Reachable preemption quantumA quantumB procs tasks queueB m)
    (hcpu : m.sim.cpu ≠ 0) (ht : m.sim.t = some t)
    (hq : (getP m.sim.procs (getT m.sim.tasks t).parent).quantum = 0)
    (hcase : (getT m.sim.tasks t).type = 'i' ∨
      ((getT m.sim.tasks t).type = 'e' ∧ (getT m.sim.tasks t).time > 0)) :
    (m.loc = Loc.midA →
      ∃ s1, execA preemption quantumA m.sim = some s1 ∧
        next preemption quantumA quantumB m = some { loc := Loc.inA, sim := tailA s1 } ∧
        ∀ s2, s2 = s1 ∨ s2 = tailA s1 →
          InterruptedStep m.sim s2 t ∧
          Requeued m.sim s2 t quantumA m.sim.readyQueueA s2.readyQueueA) ∧
    (m.loc = Loc.midB →
      ∃ s1, execB preemption quantumA quantumB m.sim = some s1 ∧
        next preemption quantumA quantumB m = some { loc := Loc.inB, sim := tailB s1 } ∧
        ∀ s2, s2 = s1 ∨ s2 = tailB s1 →
          InterruptedStep m.sim s2 t ∧
          ((getT m.sim.tasks t).interrupts + 1 = 3 →
            Requeued m.sim s2 t quantumA m.sim.readyQueueA s2.readyQueueA ∧
            ((getT m.sim.tasks t).parent ∈ m.sim.queueB →
              MovedByPriority m.sim.procs (getT m.sim.tasks t).parent m.sim.queueB
                m.sim.queueA s2.queueB s2.queueA ∧
              (getP s2.procs (getT m.sim.tasks t).parent).endQueue = "A")) ∧
          ((getT m.sim.tasks t).interrupts + 1 ≠ 3 →
            Requeued m.sim s2 t quantumB m.sim.readyQueueB s2.readyQueueB ∧
            s2.queueA = m.sim.queueA ∧ s2.queueB = m.sim.queueB)) := by
  have hno := Reachable_no_preemption hr hcpu t
  obtain ⟨loc, s⟩ := m
  simp only at hcpu ht hq hcase hno
  constructor
  · intro hloc
    simp only at hloc
    subst hloc
    obtain ⟨h1, h2⟩ := switchA_interrupted quantumA s t hq hcase
    have hx : execA preemption quantumA s = some (switchA quantumA s t) := by
      simp [execA, ht, hno]
    refine ⟨_, hx, by simp [next, hcpu, hx], ?_⟩
    rintro s2 (rfl | rfl)
    · exact ⟨h1, h2⟩
    · have hT := tailA_TailOf (switchA quantumA s t)
      refine ⟨InterruptedStep_tail hT h1, ?_⟩
      rw [hT.1]
      exact Requeued_tail hT h2
  · intro hloc
    simp only at hloc
    subst hloc
    have hx : execB preemption quantumA quantumB s = some (switchB quantumA quantumB s t) := by
      simp [execB, ht, hno]
    refine ⟨_, hx, by simp [next, hcpu, hx], ?_⟩
    have hT := tailB_TailOf (switchB quantumA quantumB s t)
    by_cases hn : (getT s.tasks t).interrupts + 1 = 3
    · obtain ⟨h1, h2, h3⟩ := switchB_interrupted_promote quantumA quantumB s t hq hcase hn
      rintro s2 (rfl | rfl)
      · exact ⟨h1, fun _ => ⟨h2, h3⟩, fun h => absurd hn h⟩
      · refine ⟨InterruptedStep_tail hT h1, fun _ => ⟨?_, fun hm => ⟨?_, ?_⟩⟩,
          fun h => absurd hn h⟩
        · rw [hT.1]
          exact Requeued_tail hT h2
        · exact MovedByPriority_tail hT (h3 hm).1
        · obtain ⟨r, hp⟩ := hT.2.2.2.2.2.2.2.2 (getT s.tasks t).parent
          rw [hp]
          exact (h3 hm).2
    · obtain ⟨h1, h2, h3, h4⟩ := switchB_interrupted_keep quantumA quantumB s t hq hcase hn
      rintro s2 (rfl | rfl)
      · exact ⟨h1, fun h => absurd h hn, fun _ => ⟨h2, h3, h4⟩⟩
      · refine ⟨InterruptedStep_tail hT h1, fun h => absurd h hn, fun _ => ⟨?_, ?_, ?_⟩⟩
        · rw [hT.2.1]
          exact Requeued_tail hT h2
        · rw [hT.2.2.2.1]; exact h3
        · rw [hT.2.2.2.2.1]; exact h4

/-- Instance of C21: in the non-preemptive run on `P1:1` (`exe:7`, `t`) and `P2:5`
(`exe:9`, `t`) with both quanta 2, the compute task 0 is interrupted for the third time
from the 27th state, in tier B, and process 0 is promoted. -/
theorem C21_quantum_exhausted_witness :
    runInput false 2 2 dropProcs dropTasks [0, 1] 27 =
      some (stateAt false 2 2 dropProcs dropTasks [0, 1] 27) ∧
    (stateAt false 2 2 dropProcs dropTasks [0, 1] 27).loc = Loc.midB ∧
    (stateAt false 2 2 dropProcs dropTasks [0, 1] 27).sim.cpu ≠ 0 ∧
    (stateAt false 2 2 dropProcs dropTasks [0, 1] 27).sim.t = some 0 ∧
    (getT (stateAt false 2 2 dropProcs dropTasks [0, 1] 27).sim.tasks 0).parent = 0 ∧
    (getP (stateAt false 2 2 dropProcs dropTasks [0, 1] 27).sim.procs 0).quantum = 0 ∧
    (getT (stateAt false 2 2 dropProcs dropTasks [0, 1] 27).sim.tasks 0).type = 'e' ∧
    (getT (stateAt false 2 2 dropProcs dropTasks [0, 1] 27).sim.tasks 0).time = 1 ∧
    (getT (stateAt false 2 2 dropProcs dropTasks [0, 1] 27).sim.tasks 0).interrupts = 2 ∧
    (stateAt false 2 2 dropProcs dropTasks [0, 1] 27).sim.queueB = [0, 1] ∧
    ∃ s1, execB false 2 2 (stateAt false 2 2 dropProcs dropTasks [0, 1] 27).sim = some s1 ∧
      next false 2 2 (stateAt false 2 2 dropProcs dropTasks [0, 1] 27) =
        some { loc := Loc.inB, sim := tailB s1 } ∧
      ∀ s2, s2 = s1 ∨ s2 = tailB s1 →
        InterruptedStep (stateAt false 2 2 dropProcs dropTasks [0, 1] 27).sim s2 0 ∧
        ((getT (stateAt false 2 2 dropProcs dropTasks [0, 1] 27).sim.tasks 0).interrupts + 1
            = 3 →
          Requeued (stateAt false 2 2 dropProcs dropTasks [0, 1] 27).sim s2 0 2
            (stateAt false 2 2 dropProcs dropTasks [0, 1] 27).sim.readyQueueA
            s2.readyQueueA ∧
          ((getT (stateAt false 2 2 dropProcs dropTasks [0, 1] 27).sim.tasks 0).parent ∈
              (stateAt false 2 2 dropProcs dropTasks [0, 1] 27).sim.queueB →
            MovedByPriority (stateAt false 2 2 dropProcs dropTasks [0, 1] 27).sim.procs
              (getT (stateAt false 2 2 dropProcs dropTasks [0, 1] 27).sim.tasks 0).parent
              (stateAt false 2 2 dropProcs dropTasks [0, 1] 27).sim.queueB
              (stateAt false 2 2 dropProcs dropTasks [0, 1] 27).sim.queueA
              s2.queueB s2.queueA ∧
            (getP s2.procs
              (getT (stateAt false 2 2 dropProcs dropTasks [0, 1] 27).sim.tasks 0).parent).endQueue
                = "A")) ∧
        ((getT (stateAt false 2 2 dropProcs dropTasks [0, 1] 27).sim.tasks 0).interrupts + 1
            ≠ 3 →
          Requeued (stateAt false 2 2 dropProcs dropTasks [0, 1] 27).sim s2 0 2
            (stateAt false 2 2 dropProcs dropTasks [0, 1] 27).sim.readyQueueB
            s2.readyQueueB ∧
          s2.queueA = (stateAt false 2 2 dropProcs dropTasks [0, 1] 27).sim.queueA ∧
          s2.queueB = (stateAt false 2 2 dropProcs dropTasks [0, 1] 27).sim.queueB) :=
  ⟨by decide, by decide, by decide, by decide, by decide, by decide, by decide, by decide,
    by decide, by decide,
    (C21_quantum_exhausted false 2 2 dropProcs dropTasks [0, 1]
      (stateAt false 2 2 dropProcs dropTasks [0, 1] 27) 0
      (runInput_Reachable (n := 27) (by decide)) (by decide) (by decide) (by decide)
      (Or.inr ⟨by decide, by decide⟩)).2 (by decide)⟩

/-! ### The tier-A loop of the preemptive engine -/

theorem takeTask_source (procs : List Process) (tasks : List Task) (p t : Nat) :
    (takeTask procs tasks p).1 = some t → (getP procs p).tasks.head? = some t := by
  unfold takeTask
  cases h : (getP procs p).tasks with
  | nil => simp [dequeueTask]
  | cons c rest => simp [dequeueTask]

theorem scanNextPreemptive_source (procs : List Process) (tasks : List Task) (runtime : Int)
    (t : Nat) :
    ∀ q : List Nat, (scanNextPreemptive procs tasks runtime q).1 = some t →
      ∃ p ∈ q, (getP procs p).tasks.head? = some t := by
  intro q
  induction q with
  | nil => simp [scanNextPreemptive]
  | cons p rest ih =>
    have hrest : (scanNextPreemptive procs tasks runtime rest).1 = some t →
        ∃ c ∈ p :: rest, (getP procs c).tasks.head? = some t := by
      intro h
      obtain ⟨c, hc, hh⟩ := ih h
      exact ⟨c, List.mem_cons_of_mem _ hc, hh⟩
    have key : ∀ chosen, chosen ∈ p :: rest →
        (match takeTask procs tasks chosen with
          | (some t, procs1) => ((some t, procs1) : Option Nat × List Process)
          | (none, _) => scanNextPreemptive procs tasks runtime rest).1 = some t →
        ∃ c ∈ p :: rest, (getP procs c).tasks.head? = some t := by
      intro chosen hmem
      have hsrc := takeTask_source procs tasks chosen t
      cases hk : takeTask procs tasks chosen with
      | mk a procs1 =>
        rw [hk] at hsrc
        cases a with
        | some u => intro h; exact ⟨chosen, hmem, hsrc h⟩
        | none => intro h; exact hrest h
    by_cases he : eligible procs runtime p = true
    · simp only [scanNextPreemptive, he, if_true]
      refine key _ ?_
      cases rest with
      | nil => simp
      | cons n rest2 =>
        simp only [List.head?_cons]
        split_ifs <;> simp
    · have e : scanNextPreemptive procs tasks runtime (p :: rest) =
          scanNextPreemptive procs tasks runtime rest := by
        simp [scanNextPreemptive, he]
      rw [e]
      exact hrest

theorem getNextTaskPreemptive_source (procs : List Process) (tasks : List Task)
    (q ready : List Nat) (runtime : Int) (t : Nat)
    (h : (getNextTaskPreemptive procs tasks q ready runtime).1 = some t) :
    t ∈ ready ∨ ∃ p ∈ q, (getP procs p).tasks.head? = some t := by
  have hs := scanNextPreemptive_source procs tasks runtime t q
  cases ready with
  | nil =>
    right
    apply hs
    simpa [getNextTaskPreemptive, isEmptyT] using h
  | cons c rest =>
    cases rest with
    | nil =>
      left
      simp [getNextTaskPreemptive, isEmptyT, dequeueTask, peekTask] at h
      simp [h]
    | cons n rest2 =>
      by_cases hp : taskPriority procs tasks c < taskPriority procs tasks n
      · have hperm := priorityEnqueueTask_perm procs tasks c (n :: rest2)
        cases hL : priorityEnqueueTask procs tasks (n :: rest2) c with
        | nil =>
          right
          apply hs
          simpa [getNextTaskPreemptive, isEmptyT, dequeueTask, peekTask, hp, hL] using h
        | cons cur ready2 =>
          left
          simp [getNextTaskPreemptive, isEmptyT, dequeueTask, peekTask, hp, hL] at h
          rw [hL] at hperm
          have : cur ∈ c :: n :: rest2 := hperm.subset (List.mem_cons_self _ _)
          rw [← h]
          exact this
      · right
        apply hs
        simpa [getNextTaskPreemptive, isEmptyT, dequeueTask, peekTask, hp] using h

theorem dispatch_tierA_frame (preemption : Bool) (s : Sim) :
    (dispatch preemption true s).queueB = s.queueB ∧
    (dispatch preemption true s).t =
      (if preemption then
        (getNextTaskPreemptive s.procs s.tasks s.queueA s.readyQueueA s.stats.runtime).1
       else (getNextTask s.procs s.tasks s.queueA s.readyQueueA s.stats.runtime).1) := by
  unfold dispatch
  cases preemption <;> simp only [] <;> split <;> simp_all

theorem switchA_slot (quantumA : Int) (s : Sim) (t : Nat) :
    (switchA quantumA s t).t = s.t := by
  simp only [switchA, finalize, updP, updT, updStats]
  split_ifs <;> rfl

/-- C29: in every state reachable by the preemptive engine at the execution point of the
tier-A loop, (1) while a task `t` occupies the CPU the preemption check answers 0, so
that the step is the state-machine step on `t`: it does not replace the running task and
leaves the tier-B ready queue as it was; (2) while the CPU is free the step is the
dispatch from tier A: it leaves the tier-B ready queue and the tier-B process queue as
they were, and a dispatched task comes from the tier-A ready queue or is the front
pending task of a process of the tier-A process queue. -/
theorem C29_tierA_step (quantumA quantumB : Int) (procs : List Process) (tasks : List Task)
    (queueB : List Nat) (m : Machine)
    (hr : Reachable true quantumA quantumB procs tasks queueB m)
    (hloc : m.loc = Loc.midA) :
    (m.sim.cpu ≠ 0 → ∀ t, m.sim.t = some t →
      preemptionCheck m.sim.procs m.sim.tasks m.sim.readyQueueB t m.sim.stats.runtime
        m.sim.queueB = false ∧
      execA true quantumA m.sim = some (switchA quantumA m.sim t) ∧
      next true quantumA quantumB m =
        some { loc := Loc.inA, sim := tailA (switchA quantumA m.sim t) } ∧
      (tailA (switchA quantumA m.sim t)).t = some t ∧
      (tailA (switchA quantumA m.sim t)).readyQueueB = m.sim.readyQueueB) ∧
    (m.sim.cpu = 0 →
      next true quantumA quantumB m =
        some { loc := Loc.outer, sim := dispatch true true m.sim } ∧
      (dispatch true true m.sim).readyQueueB = m.sim.readyQueueB ∧
      (dispatch true true m.sim).queueB = m.sim.queueB ∧
      ∀ t, (dispatch true true m.sim).t = some t →
        t ∈ m.sim.readyQueueA ∨
          ∃ p ∈ m.sim.queueA, (getP m.sim.procs p).tasks.head? = some t) := by
  constructor
  · intro hcpu t ht
    have hno := Reachable_no_preemption hr hcpu t
    obtain ⟨loc, s⟩ := m
    simp only at hloc hcpu ht hno
    subst hloc
    have hx : execA true quantumA s = some (switchA quantumA s t) := by
      simp [execA, ht, hno]
    have hf := tailA_frame (switchA quantumA s t)
    refine ⟨by simpa using hno, hx, by simp [next, hcpu, hx], ?_, ?_⟩
    · show (tailA (switchA quantumA s t)).t = some t
      rw [hf.2.2.2.1, switchA_slot, ht]
    · show (tailA (switchA quantumA s t)).readyQueueB = s.readyQueueB
      rw [hf.1, switchA_readyQueueB]
  · intro hcpu
    obtain ⟨loc, s⟩ := m
    simp only at hloc hcpu
    subst hloc
    have hd := dispatch_tierA_frame true s
    refine ⟨by simp [next, hcpu], dispatch_tierA_readyQueueB true s, hd.1, ?_⟩
    intro t ht
    have ht1 : (dispatch true true s).t = some t := ht
    rw [hd.2] at ht1
    exact getNextTaskPreemptive_source s.procs s.tasks s.queueA s.readyQueueA
      s.stats.runtime t (by simpa using ht1)

/-- Instance of C29: the 29th state of the preemptive run on the I/O process with
quantumA = 2 and quantumB = 5, where the Terminate task occupies the CPU in tier A. -/
theorem C29_tierA_step_witness :
    runInput true 2 5 ioProcs ioTasks [0] 29 =
      some (stateAt true 2 5 ioProcs ioTasks [0] 29) ∧
    (stateAt true 2 5 ioProcs ioTasks [0] 29).loc = Loc.midA ∧
    (stateAt true 2 5 ioProcs ioTasks [0] 29).sim.cpu ≠ 0 ∧
    (stateAt true 2 5 ioProcs ioTasks [0] 29).sim.t = some 3 ∧
    preemptionCheck (stateAt true 2 5 ioProcs ioTasks [0] 29).sim.procs
      (stateAt true 2 5 ioProcs ioTasks [0] 29).sim.tasks
      (stateAt true 2 5 ioProcs ioTasks [0] 29).sim.readyQueueB 3
      (stateAt true 2 5 ioProcs ioTasks [0] 29).sim.stats.runtime
      (stateAt true 2 5 ioProcs ioTasks [0] 29).sim.queueB = false ∧
    execA true 2 (stateAt true 2 5 ioProcs ioTasks [0] 29).sim =
      some (switchA 2 (stateAt true 2 5 ioProcs ioTasks [0] 29).sim 3) ∧
    next true 2 5 (stateAt true 2 5 ioProcs ioTasks [0] 29) =
      some { loc := Loc.inA,
             sim := tailA (switchA 2 (stateAt true 2 5 ioProcs ioTasks [0] 29).sim 3) } ∧
    (tailA (switchA 2 (stateAt true 2 5 ioProcs ioTasks [0] 29).sim 3)).t = some 3 ∧
    (tailA (switchA 2 (stateAt true 2 5 ioProcs ioTasks [0] 29).sim 3)).readyQueueB =
      (stateAt true 2 5 ioProcs ioTasks [0] 29).sim.readyQueueB :=
  ⟨by decide, by decide, by decide, by decide,
    (C29_tierA_step 2 5 ioProcs ioTasks [0] (stateAt true 2 5 ioProcs ioTasks [0] 29)
      (runInput_Reachable (n := 29) (by decide)) (by decide)).1 (by decide) 3 (by decide)⟩

/-! ### Statistics of the exited processes -/

/-- C26 (the code at the failing input): on the input `P1:1`, `arrival_t:0`, `io:1`,
`io:1`, `io:1`, `t` with quantumA = 2 and quantumB = 5, in both modes, the Terminate task
of process 0 is executed in tier A from the 29th state, where the ready time of the
process is 0; at the end of that iteration process 0 is in the exit queue and minWait,
maxWait and totalWait are 0, but the process is still in the tier-B queue and its ready
time has been raised to 1: the minimum, the maximum and the sum of the ready times of the
exit queue are 1. -/
theorem C26_stats_miss_exited_ready_time :
    (∀ preemption : Bool,
      runInput preemption 2 5 ioProcs ioTasks [0] 29 =
        some (stateAt preemption 2 5 ioProcs ioTasks [0] 29) ∧
      (stateAt preemption 2 5 ioProcs ioTasks [0] 29).loc = Loc.midA ∧
      (stateAt preemption 2 5 ioProcs ioTasks [0] 29).sim.t = some 3 ∧
      (stateAt preemption 2 5 ioProcs ioTasks [0] 29).sim.cpu = 1 ∧
      (stateAt preemption 2 5 ioProcs ioTasks [0] 29).sim.exitQueue = [] ∧
      (getP (stateAt preemption 2 5 ioProcs ioTasks [0] 29).sim.procs 0).ready = 0 ∧
      next preemption 2 5 (stateAt preemption 2 5 ioProcs ioTasks [0] 29) =
        some (stateAt preemption 2 5 ioProcs ioTasks [0] 30) ∧
      (stateAt preemption 2 5 ioProcs ioTasks [0] 30).sim.exitQueue = [0] ∧
      (stateAt preemption 2 5 ioProcs ioTasks [0] 30).sim.queueB = [0] ∧
      (stateAt preemption 2 5 ioProcs ioTasks [0] 30).sim.stats.minWait = 0 ∧
      (stateAt preemption 2 5 ioProcs ioTasks [0] 30).sim.stats.maxWait = 0 ∧
      (stateAt preemption 2 5 ioProcs ioTasks [0] 30).sim.stats.totalWait = 0 ∧
      (getP (stateAt preemption 2 5 ioProcs ioTasks [0] 30).sim.procs 0).ready = 1) := by
  decide

/-! ### Argument checks of `main` -/

/-- C30: for every argument vector in which the tier-A or the tier-B quantum argument
converts to a number below 2, `main` returns status 1 without opening or parsing the
input and without starting a simulation; for every vector of program name and four
arguments in which both quanta are at least 2, `main` goes on to open the input file
and, when the file opens, parses it with the tier-B quantum and starts the simulation
with exactly the converted quanta and preemption flag, ending with status 0. -/
theorem C30_quanta_checked (atoi : String → Int) (canOpen : String → Bool)
    (argv : List String) :
    (atoi (argv.getD 2 "") < 2 ∨ atoi (argv.getD 3 "") < 2 →
      main atoi canOpen argv = (1, [])) ∧
    (argv.length = 5 → 2 ≤ atoi (argv.getD 2 "") → 2 ≤ atoi (argv.getD 3 "") →
      (canOpen (argv.getD 1 "") = true →
        main atoi canOpen argv =
          (0, [Action.openInput (argv.getD 1 ""), Action.parseInput (atoi (argv.getD 3 "")),
            Action.simulate (atoi (argv.getD 2 "")) (atoi (argv.getD 3 ""))
              (atoi (argv.getD 4 ""))])) ∧
      (canOpen (argv.getD 1 "") = false →
        main atoi canOpen argv = (1, [Action.openInput (argv.getD 1 "")]))) := by
  constructor
  · intro h
    unfold main
    split_ifs <;> rfl
  · intro hlen hA hB
    have hnot : ¬ (atoi (argv.getD 2 "") < 2 ∨ atoi (argv.getD 3 "") < 2) := by omega
    constructor
    · intro ho
      unfold main
      rw [if_neg (not_not.2 hlen), if_neg hnot]
      simp only [ho, if_true]
    · intro ho
      unfold main
      rw [if_neg (not_not.2 hlen), if_neg hnot]
      simp only [ho, Bool.false_eq_true, if_false]

/-- Instance of C30: quantumA = 1 is rejected, quanta 2 and 5 are accepted. -/
theorem C30_quanta_checked_witness :
    (atoiSample (["sim", "in.txt", "1", "5", "0"].getD 2 "") < 2 ∨
      atoiSample (["sim", "in.txt", "1", "5", "0"].getD 3 "") < 2) ∧
    main atoiSample (fun _ => true) ["sim", "in.txt", "1", "5", "0"] = (1, []) ∧
    main atoiSample (fun _ => true) ["sim", "in.txt", "2", "5", "1"] =
      (0, [Action.openInput "in.txt", Action.parseInput 5, Action.simulate 2 5 1]) :=
  ⟨by decide,
    (C30_quanta_checked atoiSample (fun _ => true) ["sim", "in.txt", "1", "5", "0"]).1
      (by decide),
    ((C30_quanta_checked atoiSample (fun _ => true) ["sim", "in.txt", "2", "5", "1"]).2
      (by decide) (by decide) (by decide)).1 rfl⟩

/-! ### The ready queue under `getNextTaskPreemptive` -/

/-- C31 (the code at the failing input): in the preemptive run on `P1:1` (`exe:7`, `t`)
and `P2:5` (`exe:9`, `t`) with quantumA = quantumB = 2 the tier-A dispatch of the 38th
state calls `getNextTaskPreemptive` with the ready queue `[2, 0]`, whose front task 2
belongs to the priority-5 process and whose second task 0 to the priority-1 process; the
call returns task 1, which was not in the ready queue, and leaves the ready queue as
`[0]`: task 2 has left the ready queue without being returned, and it is in no queue and
on no pending sequence afterwards.  The non-preemptive `getNextTask` returns task 2 on
the same arguments. -/
theorem C31_front_task_dropped :
    runInput true 2 2 dropProcs dropTasks [0, 1] 38 =
      some (stateAt true 2 2 dropProcs dropTasks [0, 1] 38) ∧
    (stateAt true 2 2 dropProcs dropTasks [0, 1] 38).loc = Loc.midA ∧
    (stateAt true 2 2 dropProcs dropTasks [0, 1] 38).sim.cpu = 0 ∧
    (stateAt true 2 2 dropProcs dropTasks [0, 1] 38).sim.readyQueueA = [2, 0] ∧
    taskPriority (stateAt true 2 2 dropProcs dropTasks [0, 1] 38).sim.procs
      (stateAt true 2 2 dropProcs dropTasks [0, 1] 38).sim.tasks 2 = 5 ∧
    taskPriority (stateAt true 2 2 dropProcs dropTasks [0, 1] 38).sim.procs
      (stateAt true 2 2 dropProcs dropTasks [0, 1] 38).sim.tasks 0 = 1 ∧
    (getNextTaskPreemptive (stateAt true 2 2 dropProcs dropTasks [0, 1] 38).sim.procs
      (stateAt true 2 2 dropProcs dropTasks [0, 1] 38).sim.tasks
      (stateAt true 2 2 dropProcs dropTasks [0, 1] 38).sim.queueA [2, 0]
      (stateAt true 2 2 dropProcs dropTasks [0, 1] 38).sim.stats.runtime).1 = some 1 ∧
    (getNextTaskPreemptive (stateAt true 2 2 dropProcs dropTasks [0, 1] 38).sim.procs
      (stateAt true 2 2 dropProcs dropTasks [0, 1] 38).sim.tasks
      (stateAt true 2 2 dropProcs dropTasks [0, 1] 38).sim.queueA [2, 0]
      (stateAt true 2 2 dropProcs dropTasks [0, 1] 38).sim.stats.runtime).2.2 = [0] ∧
    (getNextTask (stateAt true 2 2 dropProcs dropTasks [0, 1] 38).sim.procs
      (stateAt true 2 2 dropProcs dropTasks [0, 1] 38).sim.tasks
      (stateAt true 2 2 dropProcs dropTasks [0, 1] 38).sim.queueA [2, 0]
      (stateAt true 2 2 dropProcs dropTasks [0, 1] 38).sim.stats.runtime).1 = some 2 ∧
    next true 2 2 (stateAt true 2 2 dropProcs dropTasks [0, 1] 38) =
      some (stateAt true 2 2 dropProcs dropTasks [0, 1] 39) ∧
    (stateAt true 2 2 dropProcs dropTasks [0, 1] 39).sim.t = some 1 ∧
    (stateAt true 2 2 dropProcs dropTasks [0, 1] 39).sim.readyQueueA = [0] ∧
    (stateAt true 2 2 dropProcs dropTasks [0, 1] 39).sim.readyQueueB = [] ∧
    (stateAt true 2 2 dropProcs dropTasks [0, 1] 39).sim.ioQueue = [] ∧
    pendingCount (stateAt true 2 2 dropProcs dropTasks [0, 1] 39).sim.procs 2 = 0 := by
  decide

/-! ### Independent ageing of the in-flight tasks -/

/-- C34: for every I/O queue `q` holding each task once, `updateIOTasks` leaves in the
queue exactly the tasks found with remaining time above 0, in their previous order (the
new queue is `q` filtered, whichever tasks are removed, adjacent ones, head and tail
included); each task that stays has its time reduced by exactly one and no other field
changed, each task with remaining time 0 is removed, and tasks outside the queue are not
touched. -/
theorem C34_ageing_independent (procs : List Process) (tasks : List Task) (q : List Nat)
    (hnd : q.Nodup) :
    (updateIOTasks procs tasks q).2.2 = (q.filter fun c => decide ((getT tasks c).time > 0)) ∧
    List.Sublist (updateIOTasks procs tasks q).2.2 q ∧
    (∀ x ∈ q, (getT tasks x).time > 0 →
      x ∈ (updateIOTasks procs tasks q).2.2 ∧
      getT (updateIOTasks procs tasks q).2.1 x =
        { getT tasks x with time := (getT tasks x).time - 1 }) ∧
    (∀ x ∈ q, (getT tasks x).time = 0 → x ∉ (updateIOTasks procs tasks q).2.2) ∧
    (∀ x, x ∉ q → getT (updateIOTasks procs tasks q).2.1 x = getT tasks x) := by
  have hq := updateIOTasks_queue q procs tasks hnd
  refine ⟨hq, ?_, ?_, ?_, ?_⟩
  · rw [hq]
    exact List.filter_sublist _
  · intro x hx ht
    refine ⟨?_, ?_⟩
    · rw [hq]
      exact List.mem_filter.2 ⟨hx, by simpa using ht⟩
    · rw [updateIOTasks_tasks_mem q procs tasks x hnd hx, if_pos ht]
  · intro x hx ht h
    rw [hq] at h
    have := (List.mem_filter.1 h).2
    simp [ht] at this
  · intro x hx
    exact updateIOTasks_tasks_notMem q procs tasks x hx

/-- Instance of C34: of six queued tasks with times 0, 0, 2, 0, 1, 0 the head, its
neighbour, the fourth and the tail are removed in one call; the two others stay in order
with times 1 and 0. -/
theorem C34_ageing_independent_witness :
    [0, 1, 2, 3, 4, 5].Nodup ∧
    (updateIOTasks ioProcs mixTasks [0, 1, 2, 3, 4, 5]).2.2 = [2, 4] ∧
    ((updateIOTasks ioProcs mixTasks [0, 1, 2, 3, 4, 5]).2.2 =
      ([0, 1, 2, 3, 4, 5].filter fun c => decide ((getT mixTasks c).time > 0)) ∧
    List.Sublist (updateIOTasks ioProcs mixTasks [0, 1, 2, 3, 4, 5]).2.2 [0, 1, 2, 3, 4, 5] ∧
    (∀ x ∈ [0, 1, 2, 3, 4, 5], (getT mixTasks x).time > 0 →
      x ∈ (updateIOTasks ioProcs mixTasks [0, 1, 2, 3, 4, 5]).2.2 ∧
      getT (updateIOTasks ioProcs mixTasks [0, 1, 2, 3, 4, 5]).2.1 x =
        { getT mixTasks x with time := (getT mixTasks x).time - 1 }) ∧
    (∀ x ∈ [0, 1, 2, 3, 4, 5], (getT mixTasks x).time = 0 →
      x ∉ (updateIOTasks ioProcs mixTasks [0, 1, 2, 3, 4, 5]).2.2) ∧
    (∀ x, x ∉ [0, 1, 2, 3, 4, 5] →
      getT (updateIOTasks ioProcs mixTasks [0, 1, 2, 3, 4, 5]).2.1 x = getT mixTasks x)) :=
  ⟨by decide, by decide,
    C34_ageing_independent ioProcs mixTasks [0, 1, 2, 3, 4, 5] (by decide)⟩

/-! ### What `preemptionCheck` computes -/

/-- C35: `preemptionCheck` answers 1 exactly when the ready queue has a front task whose
parent priority is greater than that of the parent of `t` and the process queue holds at
least one process that has arrived, is not running and has a pending task; the priority
of that process plays no part. In particular the answer is 0 on an empty ready queue. -/
theorem C35_preemptionCheck_iff (procs : List Process) (tasks : List Task)
    (ready : List Nat) (t : Nat) (runtime : Int) (q : List Nat) :
    (preemptionCheck procs tasks ready t runtime q = true ↔
      (∃ nextTask, ready.head? = some nextTask ∧
        taskPriority procs tasks nextTask > taskPriority procs tasks t) ∧
      ∃ p ∈ q, eligible procs runtime p = true) ∧
    preemptionCheck procs tasks [] t runtime q = false := by
  refine ⟨?_, preemptionCheck_nil procs tasks t runtime q⟩
  induction q with
  | nil => simp [preemptionCheck]
  | cons p rest ih =>
    by_cases he : eligible procs runtime p = true
    · obtain hr | ⟨nt, hr⟩ : ready.head? = none ∨ ∃ nt, ready.head? = some nt := by
        cases ready.head? <;> simp
      · have e : preemptionCheck procs tasks ready t runtime (p :: rest) =
            preemptionCheck procs tasks ready t runtime rest := by
          simp [preemptionCheck, he, peekTask, hr]
        rw [e, ih]
        simp [hr]
      · by_cases hp : taskPriority procs tasks nt > taskPriority procs tasks t
        · have e : preemptionCheck procs tasks ready t runtime (p :: rest) = true := by
            simp [preemptionCheck, he, peekTask, hr, hp]
          rw [e]
          simp only [true_iff]
          exact ⟨⟨nt, hr, hp⟩, p, List.mem_cons_self _ _, he⟩
        · have e : preemptionCheck procs tasks ready t runtime (p :: rest) =
              preemptionCheck procs tasks ready t runtime rest := by
            simp [preemptionCheck, he, peekTask, hr, hp]
          rw [e, ih]
          constructor
          · rintro ⟨⟨n2, h1, h2⟩, _⟩
            rw [hr] at h1
            cases h1
            exact absurd h2 hp
          · rintro ⟨⟨n2, h1, h2⟩, _⟩
            rw [hr] at h1
            cases h1
            exact absurd h2 hp
    · have e : preemptionCheck procs tasks ready t runtime (p :: rest) =
          preemptionCheck procs tasks ready t runtime rest := by
        simp [preemptionCheck, he]
      rw [e, ih]
      constructor
      · rintro ⟨h1, c, hc, h2⟩
        exact ⟨h1, c, List.mem_cons_of_mem _ hc, h2⟩
      · rintro ⟨h1, c, hc, h2⟩
        rcases List.mem_cons.1 hc with rfl | hc1
        · exact absurd h2 he
        · exact ⟨h1, c, hc1, h2⟩

/-! ### Bounds on quanta and remaining times -/

theorem getP_setP_quantum (procs : List Process) (i j : Nat) (p : Process)
    (h : p.quantum = (getP procs i).quantum) :
    (getP (setP procs i p) j).quantum = (getP procs j).quantum := by
  by_cases hj : j = i
  · subst hj; simp [h]
  · rw [getP_setP_ne _ _ _ _ hj]

theorem promoteProcess_quantum (procs : List Process) (queueB queueA : List Nat) (p j : Nat) :
    (getP (promoteProcess procs queueB queueA p).1 j).quantum = (getP procs j).quantum := by
  unfold promoteProcess
  split
  · exact getP_setP_quantum _ _ _ _ rfl
  · rfl

theorem updateIOTasks_quantum (q : List Nat) :
    ∀ (procs : List Process) (tasks : List Task) (j : Nat),
      (getP (updateIOTasks procs tasks q).1 j).quantum = (getP procs j).quantum := by
  induction q with
  | nil => intro procs tasks j; rfl
  | cons c rest ih =>
    intro procs tasks j
    simp only [updateIOTasks]
    split_ifs
    · exact ih _ _ j
    · rw [ih]
      exact getP_setP_quantum _ _ _ _ rfl

theorem markRunning_quantum (procs : List Process) (tasks : List Task) (t j : Nat) :
    (getP (markRunning procs tasks t) j).quantum = (getP procs j).quantum :=
  getP_setP_quantum _ _ _ _ rfl

theorem takeTask_quantum (procs : List Process) (tasks : List Task) (p j : Nat) :
    (getP (takeTask procs tasks p).2 j).quantum = (getP procs j).quantum := by
  unfold takeTask
  cases h : (getP procs p).tasks with
  | nil => simp [dequeueTask]
  | cons t rest =>
    simp only [dequeueTask]
    refine Eq.trans (getP_setP_quantum _ _ _ _ ?_) (getP_setP_quantum _ _ _ _ ?_) <;> rfl

theorem takeTask_quantum_of_eq {procs procs1 : List Process} {tasks : List Task} {p : Nat}
    {o : Option Nat} (h : takeTask procs tasks p = (o, procs1)) (j : Nat) :
    (getP procs1 j).quantum = (getP procs j).quantum := by
  have := takeTask_quantum procs tasks p j
  rw [h] at this
  exact this

theorem scanNext_quantum (procs : List Process) (tasks : List Task) (runtime : Int) (j : Nat) :
    ∀ q : List Nat, (getP (scanNext procs tasks runtime q).2 j).quantum = (getP procs j).quantum := by
  intro q
  induction q with
  | nil => rfl
  | cons c rest ih =>
    simp only [scanNext]
    split_ifs
    · split
      · rename_i t procs1 heq
        exact takeTask_quantum_of_eq heq j
      · exact ih
    · exact ih

theorem scanNextPreemptive_quantum (procs : List Process) (tasks : List Task) (runtime : Int)
    (j : Nat) :
    ∀ q : List Nat,
      (getP (scanNextPreemptive procs tasks runtime q).2 j).quantum = (getP procs j).quantum := by
  intro q
  induction q with
  | nil => rfl
  | cons c rest ih =>
    simp only [scanNextPreemptive]
    split_ifs
    · split
      · rename_i t procs1 heq
        exact takeTask_quantum_of_eq heq j
      · exact ih
    · exact ih

theorem getNextTask_quantum (procs : List Process) (tasks : List Task) (q ready : List Nat)
    (runtime : Int) (j : Nat) :
    (getP (getNextTask procs tasks q ready runtime).2.1 j).quantum = (getP procs j).quantum := by
  unfold getNextTask
  split_ifs
  · cases ready with
    | nil => simp [dequeueTask, scanNext_quantum]
    | cons t rest => simp [dequeueTask, markRunning_quantum]
  · simp [scanNext_quantum]

theorem getNextTaskPreemptive_quantum (procs : List Process) (tasks : List Task)
    (q ready : List Nat) (runtime : Int) (j : Nat) :
    (getP (getNextTaskPreemptive procs tasks q ready runtime).2.1 j).quantum =
      (getP procs j).quantum := by
  unfold getNextTaskPreemptive
  split_ifs
  · cases ready with
    | nil => simp [dequeueTask, scanNextPreemptive_quantum]
    | cons c rest =>
      cases rest with
      | nil => simp [dequeueTask, peekTask, markRunning_quantum]
      | cons n rest1 =>
        simp only [dequeueTask, peekTask, List.head?]
        split_ifs
        · cases hq : priorityEnqueueTask procs tasks (n :: rest1) c with
          | nil => simp [scanNextPreemptive_quantum]
          | cons a b => simp [markRunning_quantum]
        · simp [scanNextPreemptive_quantum]
  · simp [scanNextPreemptive_quantum]

theorem dispatch_quantum (preemption tierA : Bool) (s : Sim) (j : Nat) :
    (getP (dispatch preemption tierA s).procs j).quantum = (getP s.procs j).quantum := by
  unfold dispatch
  cases preemption <;> cases tierA <;> simp only [] <;> split <;>
    simp [markRunning_quantum, getNextTask_quantum, getNextTaskPreemptive_quantum]

theorem ageTasks_quantum (s : Sim) (j : Nat) :
    (getP (ageTasks s).procs j).quantum = (getP s.procs j).quantum := by
  unfold ageTasks
  split_ifs
  · simp [updateIOTasks_quantum]
  · rfl

theorem updateIOTasks_time (q : List Nat) :
    ∀ (procs : List Process) (tasks : List Task),
      (∀ y, 0 ≤ (getT tasks y).time) →
      ∀ y, 0 ≤ (getT (updateIOTasks procs tasks q).2.1 y).time := by
  induction q with
  | nil => intro procs tasks h y; exact h y
  | cons c rest ih =>
    intro procs tasks h
    by_cases ht : (getT tasks c).time > 0
    · rw [updateIOTasks_cons_pos _ _ _ _ ht]
      refine ih _ _ fun y => ?_
      rw [getT_setT]
      split_ifs
      · show 0 ≤ (getT tasks c).time - 1
        omega
      · exact h y
    · rw [updateIOTasks_cons_neg _ _ _ _ ht]
      refine ih _ _ fun y => ?_
      rw [getT_setT]
      split_ifs
      · exact h c
      · exact h y

theorem ageTasks_QuantumInv {qmax : Int} {s : Sim}
    (h : QuantumInv qmax s) : QuantumInv qmax (ageTasks s) := by
  refine ⟨fun j => ?_, ?_⟩
  · rw [ageTasks_quantum]; exact h.1 j
  · unfold ageTasks
    split_ifs
    · exact updateIOTasks_time _ _ _ h.2
    · exact h.2

theorem dispatch_QuantumInv {qmax : Int} {s : Sim} (preemption tierA : Bool)
    (h : QuantumInv qmax s) : QuantumInv qmax (dispatch preemption tierA s) := by
  refine ⟨fun j => ?_, fun y => ?_⟩
  · rw [dispatch_quantum]; exact h.1 j
  · rw [dispatch_type]; exact h.2 y

theorem tail_QuantumInv {qmax : Int} {s1 s2 : Sim} (hT : TailOf s1 s2)
    (h : QuantumInv qmax s1) : QuantumInv qmax s2 := by
  refine ⟨fun j => ?_, fun y => ?_⟩
  · obtain ⟨r, hp⟩ := hT.2.2.2.2.2.2.2.2 j
    rw [hp]; exact h.1 j
  · rw [hT.2.2.2.2.2.2.1]; exact h.2 y

theorem switchA_QuantumInv {qmax quantumA : Int} {s : Sim} (t : Nat)
    (hA : 0 ≤ quantumA) (hm : quantumA ≤ qmax) (h : QuantumInv qmax s) :
    QuantumInv qmax (switchA quantumA s t) := by
  have hp := h.1 (getT s.tasks t).parent
  have ht := h.2 t
  refine ⟨fun j => ?_, fun y => ?_⟩
  · have hj := h.1 j
    simp only [switchA, finalize, updP, updT, updStats]
    split_ifs <;> (try simp only [getP_setP]) <;> (try split_ifs) <;> (try simp) <;> omega
  · have hy := h.2 y
    simp only [switchA, finalize, updP, updT, updStats]
    split_ifs <;> (try simp only [getT_setT]) <;> (try split_ifs) <;> (try simp) <;> omega

theorem switchB_QuantumInv {qmax quantumA quantumB : Int} {s : Sim} (t : Nat)
    (hA : 0 ≤ quantumA) (hm : quantumA ≤ qmax) (hB : 0 ≤ quantumB) (hn : quantumB ≤ qmax)
    (h : QuantumInv qmax s) : QuantumInv qmax (switchB quantumA quantumB s t) := by
  have hp := h.1 (getT s.tasks t).parent
  have ht := h.2 t
  refine ⟨fun j => ?_, fun y => ?_⟩
  · have hj := h.1 j
    simp only [switchB, finalize, doPromote, updP, updT, updStats]
    split_ifs <;> (try simp only [promoteProcess_quantum]) <;>
      (try simp only [getP_setP]) <;> (try split_ifs) <;> (try simp) <;> omega
  · have hy := h.2 y
    simp only [switchB, finalize, doPromote, updP, updT, updStats]
    split_ifs <;> (try simp only [getT_setT]) <;> (try split_ifs) <;> (try simp) <;> omega

theorem next_QuantumInv {qmax : Int} (preemption : Bool) (quantumA quantumB : Int)
    (m m1 : Machine) (hA : 0 ≤ quantumA) (hm : quantumA ≤ qmax) (hB : 0 ≤ quantumB)
    (hn : quantumB ≤ qmax) (hR : ReadyInv m) (h : QuantumInv qmax m.sim)
    (hx : next preemption quantumA quantumB m = some m1) : QuantumInv qmax m1.sim := by
  obtain ⟨loc, s⟩ := m
  simp only at h
  cases loc with
  | outer =>
    simp only [next] at hx
    split_ifs at hx <;> (cases hx; exact h)
  | inA =>
    simp only [next] at hx
    split_ifs at hx
    · cases hx; exact ageTasks_QuantumInv h
    · cases hx; exact h
  | inB =>
    simp only [next] at hx
    split_ifs at hx
    · cases hx; exact ageTasks_QuantumInv h
    · cases hx; exact h
  | done =>
    simp only [next] at hx
    cases hx
    exact h
  | midA =>
    simp only [next] at hx
    split_ifs at hx with hc
    · cases hx; exact dispatch_QuantumInv preemption true h
    · have hB0 : s.readyQueueB = [] := by
        rcases hR with h1 | ⟨h1, _, _⟩
        · exact h1
        · exact absurd h1 hc
      cases ht : s.t with
      | none => simp [execA, ht] at hx
      | some t =>
        simp [execA, ht, hB0, preemptionCheck_nil] at hx
        cases hx
        exact tail_QuantumInv (tailA_TailOf _) (switchA_QuantumInv t hA hm h)
  | midB =>
    simp only [next] at hx
    split_ifs at hx with hc
    · cases hx; exact dispatch_QuantumInv preemption false h
    · have hB0 : s.readyQueueB = [] := by
        rcases hR with h1 | ⟨h1, _, _⟩
        · exact h1
        · exact absurd h1 hc
      cases ht : s.t with
      | none => simp [execB, ht] at hx
      | some t =>
        simp [execB, ht, hB0, preemptionCheck_nil] at hx
        cases hx
        exact tail_QuantumInv (tailB_TailOf _) (switchB_QuantumInv t hA hm hB hn h)

theorem runFrom_QuantumInv {qmax : Int} (preemption : Bool) (quantumA quantumB : Int)
    (hA : 0 ≤ quantumA) (hm : quantumA ≤ qmax) (hB : 0 ≤ quantumB) (hn : quantumB ≤ qmax)
    (n : Nat) :
    ∀ m m1 : Machine, ReadyInv m → QuantumInv qmax m.sim →
      runFrom preemption quantumA quantumB n m = some m1 → QuantumInv qmax m1.sim := by
  induction n with
  | zero =>
    intro m m1 _ h hx
    simp [runFrom] at hx
    subst hx
    exact h
  | succ n ih =>
    intro m m1 hR h hx
    simp only [runFrom] at hx
    cases hs : next preemption quantumA quantumB m with
    | none => simp [hs] at hx
    | some m2 =>
      simp only [hs] at hx
      exact ih m2 m1 (next_ReadyInv preemption quantumA quantumB m m2 hR hs)
        (next_QuantumInv preemption quantumA quantumB m m2 hA hm hB hn hR h hs) hx

theorem getP_mem_or_default (j : Nat) :
    ∀ procs : List Process, getP procs j ∈ procs ∨ getP procs j = default := by
  induction j with
  | zero =>
    intro procs
    cases procs with
    | nil => exact Or.inr rfl
    | cons x xs => exact Or.inl (List.mem_cons_self _ _)
  | succ j ih =>
    intro procs
    cases procs with
    | nil => exact Or.inr rfl
    | cons x xs =>
      rcases ih xs with h | h
      · exact Or.inl (List.mem_cons_of_mem _ h)
      · exact Or.inr h

theorem getT_mem_or_default (j : Nat) :
    ∀ tasks : List Task, getT tasks j ∈ tasks ∨ getT tasks j = default := by
  induction j with
  | zero =>
    intro tasks
    cases tasks with
    | nil => exact Or.inr rfl
    | cons x xs => exact Or.inl (List.mem_cons_self _ _)
  | succ j ih =>
    intro tasks
    cases tasks with
    | nil => exact Or.inr rfl
    | cons x xs =>
      rcases ih xs with h | h
      · exact Or.inl (List.mem_cons_of_mem _ h)
      · exact Or.inr h

/-- C36: in every state reachable by either engine from stores in which every process
has quantum quantumB and every task a remaining time of at least 0, with both quanta at
least 2, every process has a quantum between 0 and the greater of quantumA and quantumB,
and every task has a remaining time of at least 0. -/
theorem C36_quantum_and_time_bounds (preemption : Bool) (quantumA quantumB : Int)
    (procs : List Process) (tasks : List Task) (queueB : List Nat) (m : Machine)
    (hr : Reachable preemption quantumA quantumB procs tasks queueB m)
    (hqA : 2 ≤ quantumA) (hqB : 2 ≤ quantumB)
    (hq : ∀ p ∈ procs, p.quantum = quantumB) (ht : ∀ x ∈ tasks, 0 ≤ x.time) :
    (∀ j, 0 ≤ (getP m.sim.procs j).quantum ∧
      (getP m.sim.procs j).quantum ≤ max quantumA quantumB) ∧
    ∀ y, 0 ≤ (getT m.sim.tasks y).time := by
  obtain ⟨m0, n, h0, hn⟩ := hr
  have hmA : quantumA ≤ max quantumA quantumB := le_max_left _ _
  have hmB : quantumB ≤ max quantumA quantumB := le_max_right _ _
  refine runFrom_QuantumInv preemption quantumA quantumB (by omega) hmA (by omega) hmB n m0 m
    ?_ ?_ hn
  · unfold start at h0
    cases hp : peekProcess queueB with
    | none => simp [hp] at h0
    | some p =>
      simp only [hp] at h0
      cases h0
      exact Or.inl rfl
  · unfold start at h0
    cases hp : peekProcess queueB with
    | none => simp [hp] at h0
    | some p =>
      simp only [hp] at h0
      cases h0
      refine ⟨fun j => ?_, fun y => ?_⟩
      · show 0 ≤ (getP procs j).quantum ∧ (getP procs j).quantum ≤ max quantumA quantumB
        rcases getP_mem_or_default j procs with h | h
        · rw [hq _ h]; exact ⟨by omega, hmB⟩
        · rw [h, default_process]
          exact ⟨le_refl _, by show (0 : Int) ≤ max quantumA quantumB; omega⟩
      · show 0 ≤ (getT tasks y).time
        rcases getT_mem_or_default y tasks with h | h
        · exact ht _ h
        · rw [h, default_task]

/-- Instance of C36: the state after 27 moves of the non-preemptive run on `P1:1`
(`exe:7`, `t`) and `P2:5` (`exe:9`, `t`) with both quanta 2. -/
theorem C36_quantum_and_time_bounds_witness :
    runInput false 2 2 dropProcs dropTasks [0, 1] 27 =
      some (stateAt false 2 2 dropProcs dropTasks [0, 1] 27) ∧
    (∀ p ∈ dropProcs, p.quantum = 2) ∧ (∀ x ∈ dropTasks, 0 ≤ x.time) ∧
    (∀ j, 0 ≤ (getP (stateAt false 2 2 dropProcs dropTasks [0, 1] 27).sim.procs j).quantum ∧
      (getP (stateAt false 2 2 dropProcs dropTasks [0, 1] 27).sim.procs j).quantum ≤
        max 2 2) ∧
    ∀ y, 0 ≤ (getT (stateAt false 2 2 dropProcs dropTasks [0, 1] 27).sim.tasks y).time :=
  ⟨by decide, by decide, by decide,
    C36_quantum_and_time_bounds false 2 2 dropProcs dropTasks [0, 1]
      (stateAt false 2 2 dropProcs dropTasks [0, 1] 27)
      (runInput_Reachable (n := 27) (by decide)) (by decide) (by decide) (by decide)
      (by decide)⟩

/-! ### The current task while the CPU is busy -/

theorem switchB_slot (quantumA quantumB : Int) (s : Sim) (t : Nat) :
    (switchB quantumA quantumB s t).t = s.t := by
  simp only [switchB, finalize, doPromote, updP, updT, updStats]
  split_ifs <;> rfl

theorem dispatch_cpu (preemption tierA : Bool) (s : Sim) :
    (dispatch preemption tierA s).cpu = s.cpu ∨
      ∃ t, (dispatch preemption tierA s).t = some t := by
  unfold dispatch
  cases preemption <;> cases tierA <;> simp only [] <;> split <;> simp_all

theorem dispatch_slot (preemption tierA : Bool) (s : Sim) (hc : s.cpu = 0) :
    (dispatch preemption tierA s).cpu ≠ 0 → ∃ t, (dispatch preemption tierA s).t = some t := by
  intro h
  rcases dispatch_cpu preemption tierA s with h1 | h1
  · exact absurd (h1.trans hc) h
  · exact h1

theorem next_slot (preemption : Bool) (quantumA quantumB : Int) (m : Machine)
    (hR : ReadyInv m) (h : m.sim.cpu ≠ 0 → ∃ t, m.sim.t = some t) :
    ∃ m1, next preemption quantumA quantumB m = some m1 ∧
      (m1.sim.cpu ≠ 0 → ∃ t, m1.sim.t = some t) := by
  obtain ⟨loc, s⟩ := m
  simp only at h
  have hage : (ageTasks s).cpu ≠ 0 → ∃ t, (ageTasks s).t = some t := by
    rw [(ageTasks_frame s).2.2.1, (ageTasks_frame s).2.2.2.1]
    exact h
  cases loc with
  | outer =>
    simp only [next]
    split_ifs <;> exact ⟨_, rfl, h⟩
  | inA =>
    simp only [next]
    split_ifs
    · exact ⟨_, rfl, hage⟩
    · exact ⟨_, rfl, h⟩
  | inB =>
    simp only [next]
    split_ifs
    · exact ⟨_, rfl, hage⟩
    · exact ⟨_, rfl, h⟩
  | done => exact ⟨_, rfl, h⟩
  | midA =>
    by_cases hc : s.cpu = 0
    · exact ⟨{ loc := Loc.outer, sim := dispatch preemption true s }, by simp [next, hc],
        dispatch_slot preemption true s hc⟩
    · have hB0 : s.readyQueueB = [] := by
        rcases hR with h1 | ⟨h1, _, _⟩
        · exact h1
        · exact absurd h1 hc
      obtain ⟨t, ht⟩ := h hc
      have hx : execA preemption quantumA s = some (switchA quantumA s t) := by
        simp [execA, ht, hB0, preemptionCheck_nil]
      refine ⟨{ loc := Loc.inA, sim := tailA (switchA quantumA s t) },
        by simp [next, hc, hx], fun _ => ⟨t, ?_⟩⟩
      show (tailA (switchA quantumA s t)).t = some t
      rw [(tailA_frame _).2.2.2.1, switchA_slot, ht]
  | midB =>
    by_cases hc : s.cpu = 0
    · exact ⟨{ loc := Loc.outer, sim := dispatch preemption false s }, by simp [next, hc],
        dispatch_slot preemption false s hc⟩
    · have hB0 : s.readyQueueB = [] := by
        rcases hR with h1 | ⟨h1, _, _⟩
        · exact h1
        · exact absurd h1 hc
      obtain ⟨t, ht⟩ := h hc
      have hx : execB preemption quantumA quantumB s =
          some (switchB quantumA quantumB s t) := by
        simp [execB, ht, hB0, preemptionCheck_nil]
      refine ⟨{ loc := Loc.inB, sim := tailB (switchB quantumA quantumB s t) },
        by simp [next, hc, hx], fun _ => ⟨t, ?_⟩⟩
      show (tailB (switchB quantumA quantumB s t)).t = some t
      rw [(tailB_frame _).2.2.2.1, switchB_slot, ht]

theorem runFrom_slot (preemption : Bool) (quantumA quantumB : Int) (n : Nat) :
    ∀ m : Machine, ReadyInv m → (m.sim.cpu ≠ 0 → ∃ t, m.sim.t = some t) →
      ∃ m1, runFrom preemption quantumA quantumB n m = some m1 ∧
        (m1.sim.cpu ≠ 0 → ∃ t, m1.sim.t = some t) := by
  induction n with
  | zero => intro m _ h; exact ⟨m, rfl, h⟩
  | succ n ih =>
    intro m hR h
    obtain ⟨m2, h2, h3⟩ := next_slot preemption quantumA quantumB m hR h
    obtain ⟨m1, h4, h5⟩ := ih m2 (next_ReadyInv preemption quantumA quantumB m m2 hR h2) h3
    exact ⟨m1, by simp [runFrom, h2, h4], h5⟩

/-- C39: from every non-empty initial queue the preemptive engine has a state after any
number of moves, so that it never reads the owner of an absent task, and in each of
these states a set CPU flag comes with a defined current task; moreover the preemption
check answers 0 in every reachable state with a set CPU flag, so that the current task is
never replaced by the result of `getNextTaskPreemptive` while the flag stays set. -/
theorem C39_current_task_defined (quantumA quantumB : Int) (procs : List Process)
    (tasks : List Task) (queueB : List Nat) (hq : queueB ≠ []) (n : Nat) :
    ∃ m, runInput true quantumA quantumB procs tasks queueB n = some m ∧
      (m.sim.cpu ≠ 0 →
        ∃ t, m.sim.t = some t ∧
          preemptionCheck m.sim.procs m.sim.tasks m.sim.readyQueueB t m.sim.stats.runtime
            m.sim.queueB = false ∧
          (m.loc = Loc.midA → execA true quantumA m.sim = some (switchA quantumA m.sim t)) ∧
          (m.loc = Loc.midB →
            execB true quantumA quantumB m.sim = some (switchB quantumA quantumB m.sim t))) := by
  obtain ⟨p, rest, hqe⟩ := List.exists_cons_of_ne_nil hq
  have hs : ∃ m0, start procs tasks queueB = some m0 ∧ ReadyInv m0 ∧ m0.sim.cpu = 0 := by
    subst hqe
    exact ⟨_, rfl, Or.inl rfl, rfl⟩
  obtain ⟨m0, h0, hR0, hc0⟩ := hs
  obtain ⟨m, hm, hslot⟩ := runFrom_slot true quantumA quantumB n m0 hR0
    (fun h => absurd hc0 h)
  have hrun : runInput true quantumA quantumB procs tasks queueB n = some m := by
    simp [runInput, h0, hm]
  refine ⟨m, hrun, fun hc => ?_⟩
  obtain ⟨t, ht⟩ := hslot hc
  have hno := Reachable_no_preemption (runInput_Reachable hrun) hc t
  have hno1 : preemptionCheck m.sim.procs m.sim.tasks m.sim.readyQueueB t m.sim.stats.runtime
      m.sim.queueB = false := by simpa using hno
  exact ⟨t, ht, hno1, fun _ => by simp [execA, ht, hno1], fun _ => by simp [execB, ht, hno1]⟩

/-- Instance of C39: the preemptive run on `P1:1` (`exe:7`, `t`) and `P2:5` (`exe:9`, `t`)
with both quanta 2, after 36 moves. -/
theorem C39_current_task_defined_witness :
    ([0, 1] : List Nat) ≠ [] ∧
    ∃ m, runInput true 2 2 dropProcs dropTasks [0, 1] 36 = some m ∧
      (m.sim.cpu ≠ 0 →
        ∃ t, m.sim.t = some t ∧
          preemptionCheck m.sim.procs m.sim.tasks m.sim.readyQueueB t m.sim.stats.runtime
            m.sim.queueB = false ∧
          (m.loc = Loc.midA → execA true 2 m.sim = some (switchA 2 m.sim t)) ∧
          (m.loc = Loc.midB → execB true 2 2 m.sim = some (switchB 2 2 m.sim t))) :=
  ⟨by decide, C39_current_task_defined 2 2 dropProcs dropTasks [0, 1] (by decide) 36⟩

/-! ### The clock along the iterations of the non-preemptive engine -/

theorem updateIOTasks_parent (q : List Nat) (y : Nat) :
    ∀ (procs : List Process) (tasks : List Task),
      (getT (updateIOTasks procs tasks q).2.1 y).parent = (getT tasks y).parent := by
  induction q with
  | nil => intro procs tasks; rfl
  | cons c rest ih =>
    intro procs tasks
    by_cases ht : (getT tasks c).time > 0
    · rw [updateIOTasks_cons_pos _ _ _ _ ht]
      simp only []
      rw [ih, getT_setT]
      split_ifs with h
      · subst h; rfl
      · rfl
    · rw [updateIOTasks_cons_neg _ _ _ _ ht, ih, getT_setT]
      split_ifs with h
      · subst h; rfl
      · rfl

theorem ageTasks_parent (s : Sim) (y : Nat) :
    (getT (ageTasks s).tasks y).parent = (getT s.tasks y).parent := by
  unfold ageTasks
  split_ifs
  · exact updateIOTasks_parent _ _ _ _
  · rfl

theorem getNextTask_none (procs : List Process) (tasks : List Task) (q ready : List Nat)
    (runtime : Int) (h : (getNextTask procs tasks q ready runtime).1 = none) :
    getNextTask procs tasks q ready runtime = (none, procs, ready) := by
  cases ready with
  | cons c rest => simp [getNextTask, isEmptyT, dequeueTask] at h
  | nil =>
    have h1 : (scanNext procs tasks runtime q).1 = none := by
      simpa [getNextTask, isEmptyT] using h
    have h2 : (scanNext procs tasks runtime q).2 = procs := by
      rcases first_eligible procs runtime q with hn | ⟨pre, p, post, e1, e2, e3⟩
      · rw [scanNext_none procs tasks runtime q hn]
      · rw [e1, scanNext_skip procs tasks runtime pre _ e2] at h1
        obtain ⟨h4, t, rest, h5⟩ := scanNext_hit procs tasks runtime p post e3
        rw [h4, takeTask_cons procs tasks p t rest h5] at h1
        simp at h1
    simp only [getNextTask, isEmptyT, List.isEmpty_nil, Bool.not_true, Bool.false_eq_true,
      if_false]
    rw [Prod.ext_iff]
    exact ⟨h1, Prod.ext h2 rfl⟩

theorem stuck_next (quantumA quantumB : Int) (s : Sim) (m : Machine)
    (hcpu : s.cpu = 0) (hio : s.ioQueue = [])
    (hA : (getNextTask s.procs s.tasks s.queueA s.readyQueueA s.stats.runtime).1 = none)
    (hB : (getNextTask s.procs s.tasks s.queueB s.readyQueueB s.stats.runtime).1 = none)
    (hm : m.sim = { s with t := m.sim.t }) :
    ∃ m1, next false quantumA quantumB m = some m1 ∧ m1.sim = { s with t := m1.sim.t } := by
  obtain ⟨loc, s0⟩ := m
  simp only at hm
  have hage : ageTasks s0 = s0 := by
    unfold ageTasks
    rw [hm]
    simp [isEmptyT, hio]
  have hdA : dispatch false true s0 = { s with t := none } := by
    have e := getNextTask_none _ _ _ _ _ hA
    rw [hm]
    simp [dispatch, e]
  have hdB : dispatch false false s0 = { s with t := none } := by
    have e := getNextTask_none _ _ _ _ _ hB
    rw [hm]
    simp [dispatch, e]
  have hc0 : s0.cpu = 0 := by rw [hm]; exact hcpu
  cases loc with
  | outer =>
    simp only [next]
    split_ifs <;> exact ⟨_, rfl, hm⟩
  | inA =>
    simp only [next]
    split_ifs
    · exact ⟨_, rfl, by rw [hage]; exact hm⟩
    · exact ⟨_, rfl, hm⟩
  | inB =>
    simp only [next]
    split_ifs
    · exact ⟨_, rfl, by rw [hage]; exact hm⟩
    · exact ⟨_, rfl, hm⟩
  | done => exact ⟨_, rfl, hm⟩
  | midA =>
    exact ⟨{ loc := Loc.outer, sim := dispatch false true s0 }, by simp [next, hc0],
      by rw [hdA]⟩
  | midB =>
    exact ⟨{ loc := Loc.outer, sim := dispatch false false s0 }, by simp [next, hc0],
      by rw [hdB]⟩

theorem stuck_run (quantumA quantumB : Int) (s : Sim)
    (hcpu : s.cpu = 0) (hio : s.ioQueue = [])
    (hA : (getNextTask s.procs s.tasks s.queueA s.readyQueueA s.stats.runtime).1 = none)
    (hB : (getNextTask s.procs s.tasks s.queueB s.readyQueueB s.stats.runtime).1 = none)
    (n : Nat) :
    ∀ m : Machine, m.sim = { s with t := m.sim.t } →
      ∃ m1, runFrom false quantumA quantumB n m = some m1 ∧
        m1.sim = { s with t := m1.sim.t } := by
  induction n with
  | zero => intro m hm; exact ⟨m, rfl, hm⟩
  | succ n ih =>
    intro m hm
    obtain ⟨m2, h2, h3⟩ := stuck_next quantumA quantumB s m hcpu hio hA hB hm
    obtain ⟨m1, h4, h5⟩ := ih m2 h3
    exact ⟨m1, by simp [runFrom, h2, h4], h5⟩

/-! ### Runs on a single process -/

theorem switchA_parent (quantumA : Int) (s : Sim) (t j : Nat) :
    (getT (switchA quantumA s t).tasks j).parent = (getT s.tasks j).parent := by
  simp only [switchA, finalize, updP, updT, updStats]
  split_ifs <;> simp [getT_setT_parent]

theorem switchB_parent (quantumA quantumB : Int) (s : Sim) (t j : Nat) :
    (getT (switchB quantumA quantumB s t).tasks j).parent = (getT s.tasks j).parent := by
  simp only [switchB, finalize, doPromote, updP, updT, updStats]
  split_ifs <;> simp [getT_setT_parent]

theorem scanNextPreemptive_solo (procs : List Process) (tasks : List Task) (runtime : Int) :
    ∀ q : List Nat, (∀ x ∈ q, x = 0) →
      scanNextPreemptive procs tasks runtime q = scanNext procs tasks runtime q := by
  intro q
  induction q with
  | nil => intro _; rfl
  | cons p rest ih =>
    intro h
    have hp : p = 0 := h p (List.mem_cons_self _ _)
    have hrest : ∀ x ∈ rest, x = 0 := fun x hx => h x (List.mem_cons_of_mem _ hx)
    have ih1 := ih hrest
    subst hp
    cases rest with
    | nil => simp [scanNextPreemptive, scanNext]
    | cons n rest2 =>
      have hn : n = 0 := hrest n (List.mem_cons_self _ _)
      subst hn
      rw [scanNextPreemptive, ih1]
      conv_rhs => rw [scanNext]
      simp only [List.head?_cons, lt_self_iff_false, if_false, ite_self]

theorem getNextTaskPreemptive_solo (procs : List Process) (tasks : List Task)
    (q ready : List Nat) (runtime : Int) (hq : ∀ x ∈ q, x = 0)
    (hr : ready = [] ∨ ∃ x, ready = [x]) :
    getNextTaskPreemptive procs tasks q ready runtime =
      getNextTask procs tasks q ready runtime := by
  have hs := scanNextPreemptive_solo procs tasks runtime q hq
  rcases hr with rfl | ⟨x, rfl⟩
  · simp [getNextTaskPreemptive, getNextTask, isEmptyT, hs]
  · simp [getNextTaskPreemptive, getNextTask, isEmptyT, dequeueTask, peekTask]

theorem dispatch_solo (tierA : Bool) (s : Sim)
    (hq : ∀ x ∈ (if tierA then s.queueA else s.queueB), x = 0)
    (hr : (if tierA then s.readyQueueA else s.readyQueueB) = [] ∨
      ∃ x, (if tierA then s.readyQueueA else s.readyQueueB) = [x]) :
    dispatch true tierA s = dispatch false tierA s := by
  unfold dispatch
  simp only [if_true, Bool.false_eq_true, if_false]
  rw [getNextTaskPreemptive_solo _ _ _ _ _ hq hr]

theorem mem_priorityEnqueueProcess_iff (procs : List Process) (p x : Nat) :
    ∀ q : List Nat, x ∈ priorityEnqueueProcess procs q p ↔ x = p ∨ x ∈ q := by
  intro q
  obtain ⟨l, r, e1, e2, _, _⟩ := priorityEnqueueProcess_split procs p q
  rw [e2, e1]
  simp only [List.mem_append, List.mem_cons]
  tauto

theorem endProcess_subset (q exit : List Nat) (p x : Nat) :
    x ∈ (endProcess q exit p).1 → x ∈ q := by
  by_cases h : p ∈ q
  · obtain ⟨pre, post, e1, _, e3⟩ := endProcess_split q exit p h
    rw [e3, e1]
    simp only [List.mem_append, List.mem_cons]
    tauto
  · simp [endProcess, detachProcess_notMem p q h]

theorem switchA_solo (quantumA : Int) (s : Sim) (t : Nat)
    (hrA : s.readyQueueA = []) :
    (∀ x ∈ (switchA quantumA s t).queueA, x ∈ s.queueA) ∧
    (switchA quantumA s t).queueB = s.queueB ∧
    ((switchA quantumA s t).readyQueueA = [] ∨
      ((switchA quantumA s t).cpu = 0 ∧ ∃ x, (switchA quantumA s t).readyQueueA = [x])) := by
  refine ⟨?_, ?_, ?_⟩
  · intro x
    simp only [switchA, finalize, updP, updT, updStats]
    split_ifs <;> first | exact id | exact endProcess_subset _ _ _ _
  · simp only [switchA, finalize, updP, updT, updStats]
    split_ifs <;> rfl
  · simp only [switchA, finalize, updP, updT, updStats]
    split_ifs <;> simp [hrA, priorityEnqueueTask]

theorem switchB_solo_queueA (quantumA quantumB : Int) (s : Sim) (t : Nat)
    (hp : (getT s.tasks t).parent = 0) (hqA : ∀ x ∈ s.queueA, x = 0) :
    ∀ x ∈ (switchB quantumA quantumB s t).queueA, x = 0 := by
  have hpr : ∀ (procs1 : List Process) x,
      x ∈ (promoteProcess procs1 s.queueB s.queueA 0).2.2 → x = 0 := by
    intro procs1 x
    unfold promoteProcess
    split
    · intro h
      rcases (mem_priorityEnqueueProcess_iff _ _ _ _).1 h with h1 | h1
      · exact h1
      · exact hqA x h1
    · exact hqA x
  have hen : ∀ (procs1 : List Process) x,
      x ∈ priorityEnqueueProcess procs1 s.queueA 0 → x = 0 := by
    intro procs1 x h
    rcases (mem_priorityEnqueueProcess_iff _ _ _ _).1 h with h1 | h1
    · exact h1
    · exact hqA x h1
  intro x
  simp only [switchB, finalize, doPromote, updP, updT, updStats, hp]
  split_ifs <;> first | exact hqA x | exact hpr _ x | exact hen _ x

theorem switchB_solo_queueB (quantumA quantumB : Int) (s : Sim) (t : Nat)
    (hp : (getT s.tasks t).parent = 0) (hqB : s.queueB = [] ∨ s.queueB = [0]) :
    (switchB quantumA quantumB s t).queueB = [] ∨
      (switchB quantumA quantumB s t).queueB = [0] := by
  have hpr : ∀ procs1 : List Process,
      (promoteProcess procs1 s.queueB s.queueA 0).2.1 = [] ∨
        (promoteProcess procs1 s.queueB s.queueA 0).2.1 = [0] := by
    intro procs1
    rcases hqB with h | h <;> simp [promoteProcess, detachProcess, h]
  have hen : (endProcess s.queueB s.exitQueue 0).1 = [] ∨
      (endProcess s.queueB s.exitQueue 0).1 = [0] := by
    rcases hqB with h | h <;> simp [endProcess, detachProcess, h]
  suffices key : ∀ s1 : Sim, s1 = switchB quantumA quantumB s t →
      (s1.queueB = [] ∨ s1.queueB = [0]) from key _ rfl
  intro s1 hs1
  simp only [switchB, finalize, doPromote, updP, updT, updStats, hp] at hs1
  split_ifs at hs1 <;> subst hs1 <;> first | exact hqB | exact hpr _ | exact hen

theorem switchB_solo_ready (quantumA quantumB : Int) (s : Sim) (t : Nat)
    (hp : (getT s.tasks t).parent = 0) (hqB : s.queueB = [] ∨ s.queueB = [0])
    (hrA : s.readyQueueA = []) (hrB : s.readyQueueB = []) :
    (switchB quantumA quantumB s t).readyQueueA = [] ∨
      ((switchB quantumA quantumB s t).cpu = 0 ∧
        (∃ x, (switchB quantumA quantumB s t).readyQueueA = [x]) ∧
        (switchB quantumA quantumB s t).queueB = [] ∧
        (switchB quantumA quantumB s t).readyQueueB = []) := by
  have hpr : ∀ procs1 : List Process,
      (promoteProcess procs1 s.queueB s.queueA 0).2.1 = [] := by
    intro procs1
    rcases hqB with h | h <;> simp [promoteProcess, detachProcess, h]
  suffices key : ∀ s1 : Sim, s1 = switchB quantumA quantumB s t →
      (s1.readyQueueA = [] ∨
        (s1.cpu = 0 ∧ (∃ x, s1.readyQueueA = [x]) ∧ s1.queueB = [] ∧ s1.readyQueueB = [])) from
    key _ rfl
  intro s1 hs1
  simp only [switchB, finalize, doPromote, updP, updT, updStats, hp] at hs1
  split_ifs at hs1 <;> subst hs1 <;> simp [hpr, hrA, hrB, priorityEnqueueTask]

theorem dispatch_queues (preemption tierA : Bool) (s : Sim) :
    (dispatch preemption tierA s).queueA = s.queueA ∧
    (dispatch preemption tierA s).queueB = s.queueB := by
  unfold dispatch
  cases preemption <;> cases tierA <;> simp only [] <;> split <;> simp_all

theorem dispatch_tierB_readyQueueA (preemption : Bool) (s : Sim) :
    (dispatch preemption false s).readyQueueA = s.readyQueueA := by
  unfold dispatch
  cases preemption <;> simp only [] <;> split <;> simp_all

theorem dispatch_tierA_short (preemption : Bool) (s : Sim)
    (h : s.readyQueueA = [] ∨ ∃ x, s.readyQueueA = [x]) :
    (dispatch preemption true s).readyQueueA = [] := by
  have h1 := getNextTask_short s.procs s.tasks s.queueA s.readyQueueA s.stats.runtime h
  have h2 := getNextTaskPreemptive_short s.procs s.tasks s.queueA s.readyQueueA
    s.stats.runtime h
  unfold dispatch
  cases preemption <;> simp only [] <;> split <;> simp [h1, h2]

theorem dispatch_tierB_idle (s : Sim) (hq : s.queueB = []) (hr : s.readyQueueB = []) :
    (dispatch false false s).cpu = s.cpu := by
  simp [dispatch, getNextTask, scanNext, isEmptyT, hq, hr]

theorem next_SoloInv (quantumA quantumB : Int) (m m1 : Machine) (h : SoloInv m)
    (hx : next false quantumA quantumB m = some m1) : SoloInv m1 := by
  have hR1 := next_ReadyInv false quantumA quantumB m m1 h.1 hx
  obtain ⟨hR, hpar, hqA, hqB, hrA, hB⟩ := h
  obtain ⟨loc, s⟩ := m
  simp only at hpar hqA hqB hrA hB
  have hfa := ageTasks_frame s
  cases loc with
  | outer =>
    simp only [next] at hx
    split_ifs at hx with h1 h2
    · cases hx
      exact ⟨hR1, hpar, hqA, hqB, hrA, fun hl => by rcases hl with hl | hl <;> cases hl⟩
    · cases hx
      exact ⟨hR1, hpar, hqA, hqB, hrA, fun hl => by rcases hl with hl | hl <;> cases hl⟩
    · cases hx
      refine ⟨hR1, hpar, hqA, hqB, hrA, fun _ hne => ?_⟩
      have : s.readyQueueA = [] := by
        simp [condA, isEmptyT, isEmptyP] at h2
        exact h2.2
      exact absurd this hne
  | inA =>
    simp only [next] at hx
    split_ifs at hx
    · cases hx
      refine ⟨hR1, fun y => ?_, ?_, ?_, ?_, fun hl => by rcases hl with hl | hl <;> cases hl⟩
      · show (getT (ageTasks s).tasks y).parent = 0
        rw [ageTasks_parent]; exact hpar y
      · show ∀ x ∈ (ageTasks s).queueA, x = 0
        rw [hfa.2.2.2.2.1]; exact hqA
      · show (ageTasks s).queueB = [] ∨ (ageTasks s).queueB = [0]
        rw [hfa.2.2.2.2.2.1]; exact hqB
      · show (ageTasks s).readyQueueA = [] ∨
          ((ageTasks s).cpu = 0 ∧ ∃ x, (ageTasks s).readyQueueA = [x])
        rw [hfa.2.1, hfa.2.2.1]; exact hrA
    · cases hx
      exact ⟨hR1, hpar, hqA, hqB, hrA, fun hl => by rcases hl with hl | hl <;> cases hl⟩
  | inB =>
    simp only [next] at hx
    split_ifs at hx
    · cases hx
      refine ⟨hR1, fun y => ?_, ?_, ?_, ?_, fun _ => ?_⟩
      · show (getT (ageTasks s).tasks y).parent = 0
        rw [ageTasks_parent]; exact hpar y
      · show ∀ x ∈ (ageTasks s).queueA, x = 0
        rw [hfa.2.2.2.2.1]; exact hqA
      · show (ageTasks s).queueB = [] ∨ (ageTasks s).queueB = [0]
        rw [hfa.2.2.2.2.2.1]; exact hqB
      · show (ageTasks s).readyQueueA = [] ∨
          ((ageTasks s).cpu = 0 ∧ ∃ x, (ageTasks s).readyQueueA = [x])
        rw [hfa.2.1, hfa.2.2.1]; exact hrA
      · show (ageTasks s).readyQueueA ≠ [] →
          (ageTasks s).queueB = [] ∧ (ageTasks s).readyQueueB = []
        rw [hfa.2.1, hfa.2.2.2.2.2.1, hfa.1]
        exact hB (Or.inl rfl)
    · cases hx
      exact ⟨hR1, hpar, hqA, hqB, hrA, fun hl => by rcases hl with hl | hl <;> cases hl⟩
  | done =>
    simp only [next] at hx
    cases hx
    exact ⟨hR1, hpar, hqA, hqB, hrA, fun hl => by rcases hl with hl | hl <;> cases hl⟩
  | midA =>
    simp only [next] at hx
    split_ifs at hx with hc
    · cases hx
      have hd := dispatch_queues false true s
      have hshort : s.readyQueueA = [] ∨ ∃ x, s.readyQueueA = [x] := by
        rcases hrA with h1 | ⟨_, h1⟩
        · exact Or.inl h1
        · exact Or.inr h1
      refine ⟨hR1, fun y => ?_, ?_, ?_, Or.inl (dispatch_tierA_short false s hshort),
        fun hl => by rcases hl with hl | hl <;> cases hl⟩
      · show (getT (dispatch false true s).tasks y).parent = 0
        rw [dispatch_type]; exact hpar y
      · show ∀ x ∈ (dispatch false true s).queueA, x = 0
        rw [hd.1]; exact hqA
      · show (dispatch false true s).queueB = [] ∨ (dispatch false true s).queueB = [0]
        rw [hd.2]; exact hqB
    · have hrA0 : s.readyQueueA = [] := by
        rcases hrA with h1 | ⟨h1, _⟩
        · exact h1
        · exact absurd h1 hc
      cases ht : s.t with
      | none => simp [execA, ht] at hx
      | some t =>
        simp [execA, ht] at hx
        cases hx
        obtain ⟨k1, k2, k3⟩ := switchA_solo quantumA s t hrA0
        have hf := tailA_frame (switchA quantumA s t)
        refine ⟨hR1, fun y => ?_, ?_, ?_, ?_,
          fun hl => by rcases hl with hl | hl <;> cases hl⟩
        · show (getT (tailA (switchA quantumA s t)).tasks y).parent = 0
          rw [hf.2.2.2.2.2.2.2.1, switchA_parent]; exact hpar y
        · show ∀ x ∈ (tailA (switchA quantumA s t)).queueA, x = 0
          rw [hf.2.2.2.2.1]
          exact fun x hx => hqA x (k1 x hx)
        · show (tailA (switchA quantumA s t)).queueB = [] ∨
            (tailA (switchA quantumA s t)).queueB = [0]
          rw [hf.2.2.2.2.2.1, k2]; exact hqB
        · show (tailA (switchA quantumA s t)).readyQueueA = [] ∨
            ((tailA (switchA quantumA s t)).cpu = 0 ∧
              ∃ x, (tailA (switchA quantumA s t)).readyQueueA = [x])
          rw [hf.2.1, hf.2.2.1]; exact k3
  | midB =>
    simp only [next] at hx
    split_ifs at hx with hc
    · cases hx
      have hd := dispatch_queues false false s
      refine ⟨hR1, fun y => ?_, ?_, ?_, ?_,
        fun hl => by rcases hl with hl | hl <;> cases hl⟩
      · show (getT (dispatch false false s).tasks y).parent = 0
        rw [dispatch_type]; exact hpar y
      · show ∀ x ∈ (dispatch false false s).queueA, x = 0
        rw [hd.1]; exact hqA
      · show (dispatch false false s).queueB = [] ∨ (dispatch false false s).queueB = [0]
        rw [hd.2]; exact hqB
      · show (dispatch false false s).readyQueueA = [] ∨
          ((dispatch false false s).cpu = 0 ∧ ∃ x, (dispatch false false s).readyQueueA = [x])
        rw [dispatch_tierB_readyQueueA]
        rcases hrA with h1 | ⟨h1, h2⟩
        · exact Or.inl h1
        · right
          obtain ⟨x, hx1⟩ := h2
          obtain ⟨e1, e2⟩ := hB (Or.inr rfl) (by simp [hx1])
          exact ⟨by rw [dispatch_tierB_idle s e1 e2]; exact h1, x, hx1⟩
    · have hrA0 : s.readyQueueA = [] := by
        rcases hrA with h1 | ⟨h1, _⟩
        · exact h1
        · exact absurd h1 hc
      have hrB0 : s.readyQueueB = [] := by
        rcases hR with h1 | ⟨h1, _, _⟩
        · exact h1
        · exact absurd h1 hc
      cases ht : s.t with
      | none => simp [execB, ht] at hx
      | some t =>
        simp [execB, ht] at hx
        cases hx
        have k1 := switchB_solo_queueA quantumA quantumB s t (hpar t) hqA
        have k2 := switchB_solo_queueB quantumA quantumB s t (hpar t) hqB
        have k3 := switchB_solo_ready quantumA quantumB s t (hpar t) hqB hrA0 hrB0
        have hf := tailB_frame (switchB quantumA quantumB s t)
        refine ⟨hR1, fun y => ?_, ?_, ?_, ?_, fun _ => ?_⟩
        · show (getT (tailB (switchB quantumA quantumB s t)).tasks y).parent = 0
          rw [hf.2.2.2.2.2.2.2.1, switchB_parent]; exact hpar y
        · show ∀ x ∈ (tailB (switchB quantumA quantumB s t)).queueA, x = 0
          rw [hf.2.2.2.2.1]; exact k1
        · show (tailB (switchB quantumA quantumB s t)).queueB = [] ∨
            (tailB (switchB quantumA quantumB s t)).queueB = [0]
          rw [hf.2.2.2.2.2.1]; exact k2
        · show (tailB (switchB quantumA quantumB s t)).readyQueueA = [] ∨
            ((tailB (switchB quantumA quantumB s t)).cpu = 0 ∧
              ∃ x, (tailB (switchB quantumA quantumB s t)).readyQueueA = [x])
          rw [hf.2.1, hf.2.2.1]
          rcases k3 with h1 | ⟨h1, h2, _, _⟩
          · exact Or.inl h1
          · exact Or.inr ⟨h1, h2⟩
        · show (tailB (switchB quantumA quantumB s t)).readyQueueA ≠ [] →
            (tailB (switchB quantumA quantumB s t)).queueB = [] ∧
              (tailB (switchB quantumA quantumB s t)).readyQueueB = []
          rw [hf.2.1, hf.2.2.2.2.2.1, hf.1]
          intro hne
          rcases k3 with h1 | ⟨_, _, h3, h4⟩
          · exact absurd h1 hne
          · exact ⟨h3, h4⟩

theorem next_solo_eq (quantumA quantumB : Int) (m : Machine) (h : SoloInv m) :
    next true quantumA quantumB m = next false quantumA quantumB m := by
  obtain ⟨hR, _, hqA, hqB, hrA, _⟩ := h
  obtain ⟨loc, s⟩ := m
  simp only at hqA hqB hrA
  have hshortA : s.readyQueueA = [] ∨ ∃ x, s.readyQueueA = [x] := by
    rcases hrA with h1 | ⟨_, h1⟩
    · exact Or.inl h1
    · exact Or.inr h1
  have hshortB : s.readyQueueB = [] ∨ ∃ x, s.readyQueueB = [x] := by
    rcases hR with h1 | ⟨_, h1, _⟩
    · exact Or.inl h1
    · exact Or.inr h1
  have hzB : ∀ x ∈ s.queueB, x = 0 := by
    intro x hx
    rcases hqB with h1 | h1 <;> rw [h1] at hx <;> simp at hx
    exact hx
  cases loc with
  | outer => rfl
  | inA => rfl
  | inB => rfl
  | done => rfl
  | midA =>
    simp only [next]
    split_ifs with hc
    · rw [dispatch_solo true s (by simpa using hqA) (by simpa using hshortA)]
    · have hrB0 : s.readyQueueB = [] := by
        rcases hR with h1 | ⟨h1, _, _⟩
        · exact h1
        · exact absurd h1 hc
      cases ht : s.t with
      | none => simp [execA, ht]
      | some t => simp [execA, ht, hrB0, preemptionCheck_nil]
  | midB =>
    simp only [next]
    split_ifs with hc
    · rw [dispatch_solo false s (by simpa using hzB) (by simpa using hshortB)]
    · have hrB0 : s.readyQueueB = [] := by
        rcases hR with h1 | ⟨h1, _, _⟩
        · exact h1
        · exact absurd h1 hc
      cases ht : s.t with
      | none => simp [execB, ht]
      | some t => simp [execB, ht, hrB0, preemptionCheck_nil]

theorem runFrom_solo (quantumA quantumB : Int) (n : Nat) :
    ∀ m : Machine, SoloInv m →
      runFrom true quantumA quantumB n m = runFrom false quantumA quantumB n m ∧
      ∀ m1, runFrom false quantumA quantumB n m = some m1 → SoloInv m1 := by
  induction n with
  | zero =>
    intro m h
    refine ⟨rfl, fun m1 h1 => ?_⟩
    simp only [runFrom, Option.some.injEq] at h1
    exact h1 ▸ h
  | succ n ih =>
    intro m h
    have e := next_solo_eq quantumA quantumB m h
    cases hx : next false quantumA quantumB m with
    | none => simp [runFrom, e, hx]
    | some m2 =>
      have h2 := next_SoloInv quantumA quantumB m m2 h hx
      obtain ⟨i1, i2⟩ := ih m2 h2
      refine ⟨by simp only [runFrom, e, hx]; exact i1, fun m1 h1 => ?_⟩
      simp only [runFrom, hx] at h1
      exact i2 m1 h1

theorem start_SoloInv (procs : List Process) (tasks : List Task)
    (hpar : ∀ y, (getT tasks y).parent = 0) (m0 : Machine)
    (h0 : start procs tasks [0] = some m0) : SoloInv m0 := by
  simp [start, peekProcess] at h0
  subst h0
  exact ⟨Or.inl rfl, hpar, by simp, Or.inr rfl, Or.inl rfl, fun _ h => absurd rfl h⟩

/-- C37: on an input with a single process (handle 0, which every task names as its owner
and which alone is in the initial queue) the preemptive and the non-preemptive engine are
in the same state after any number of moves, loop position, clock, CPU slot, current task,
queues, stores and statistics included; in each of these states the preemption check
answers 0 for every task while the CPU flag is set, and the dispatch through
`getNextTaskPreemptive` gives the same state as the one through `getNextTask` for the tier
being serviced. -/
theorem C37_single_process_modes_agree (quantumA quantumB : Int) (procs : List Process)
    (tasks : List Task) (hpar : ∀ y, (getT tasks y).parent = 0) (n : Nat) :
    runInput true quantumA quantumB procs tasks [0] n =
      runInput false quantumA quantumB procs tasks [0] n ∧
    ∃ m, runInput false quantumA quantumB procs tasks [0] n = some m ∧
      (m.sim.cpu ≠ 0 → ∀ t,
        preemptionCheck m.sim.procs m.sim.tasks m.sim.readyQueueB t m.sim.stats.runtime
          m.sim.queueB = false) ∧
      (m.loc = Loc.midA → dispatch true true m.sim = dispatch false true m.sim) ∧
      (m.loc = Loc.midB → dispatch true false m.sim = dispatch false false m.sim) := by
  obtain ⟨m0, h0⟩ : ∃ m0, start procs tasks [0] = some m0 := by
    simp [start, peekProcess]
  have hS := start_SoloInv procs tasks hpar m0 h0
  obtain ⟨e, hinv⟩ := runFrom_solo quantumA quantumB n m0 hS
  obtain ⟨m, hm, _⟩ := runFrom_slot false quantumA quantumB n m0 hS.1 (by
    intro hc
    simp [start, peekProcess] at h0
    subst h0
    exact absurd rfl hc)
  have hI := hinv m hm
  refine ⟨by simp only [runInput, h0]; exact e, m, by simp only [runInput, h0]; exact hm,
    fun hc t => ?_, fun _ => ?_, fun _ => ?_⟩
  · have hrB0 : m.sim.readyQueueB = [] := by
      rcases hI.1 with h1 | ⟨h1, _, _⟩
      · exact h1
      · exact absurd h1 hc
    rw [hrB0]; exact preemptionCheck_nil _ _ _ _ _
  · refine dispatch_solo true m.sim (by simpa using hI.2.2.1) ?_
    rcases hI.2.2.2.2.1 with h1 | ⟨_, h1⟩
    · simpa using Or.inl h1
    · simpa using Or.inr h1
  · refine dispatch_solo false m.sim ?_ ?_
    · intro x hx
      simp only [Bool.false_eq_true, if_false] at hx
      rcases hI.2.2.2.1 with h1 | h1 <;> rw [h1] at hx <;> simp at hx
      exact hx
    · rcases hI.1 with h1 | ⟨_, h1, _⟩
      · simpa using Or.inl h1
      · simpa using Or.inr h1

/-- Instance of C37: the single process of `ioProcs` (three I/O tasks and the terminate
task), both quanta as in the other runs on it, after 30 moves. -/
theorem C37_single_process_modes_agree_witness :
    (∀ y, (getT ioTasks y).parent = 0) ∧
    runInput true 2 5 ioProcs ioTasks [0] 30 = runInput false 2 5 ioProcs ioTasks [0] 30 ∧
    ∃ m, runInput false 2 5 ioProcs ioTasks [0] 30 = some m ∧
      (m.sim.cpu ≠ 0 → ∀ t,
        preemptionCheck m.sim.procs m.sim.tasks m.sim.readyQueueB t m.sim.stats.runtime
          m.sim.queueB = false) ∧
      (m.loc = Loc.midA → dispatch true true m.sim = dispatch false true m.sim) ∧
      (m.loc = Loc.midB → dispatch true false m.sim = dispatch false false m.sim) :=
  have hpar : ∀ y, (getT ioTasks y).parent = 0 := by
    intro y
    rcases y with _ | _ | _ | _ | _ | y <;> simp [getT, ioTasks, parsedTask, default_task]
  ⟨hpar, C37_single_process_modes_agree 2 5 ioProcs ioTasks hpar 30⟩

/-! ### The linked queues and their `tail` field -/

namespace Linked

theorem enqueueTask_valid (q : Linked) (t : Nat) (h : TailValid q) :
    enqueueTask q t =
      some { items := q.items ++ [t], tail := TailPtr.node q.items.length } := by
  obtain ⟨items, tail⟩ := q
  unfold TailValid at h
  simp only at h
  cases items with
  | nil => simp [enqueueTask]
  | cons x xs =>
    rcases h with h | h
    · cases h
    · subst h
      simp [enqueueTask, linkBehindTail]

theorem dequeueTask_valid (q : Linked) (h : TailValid q) : TailValid (dequeueTask q).2 := by
  obtain ⟨items, tail⟩ := q
  unfold TailValid at h ⊢
  simp only at h
  cases items with
  | nil => left; rfl
  | cons x xs =>
    rcases h with h | h
    · cases h
    · subst h
      cases xs with
      | nil => left; rfl
      | cons y ys => right; simp [dequeueTask]

/-- On a queue whose `tail` designates the last node the linked operations are the list
operations of the engine: `enqueueTask` is defined and appends, `dequeueTask` takes the
head, and both leave `tail` on the last node. -/
theorem linked_refines_list (q : Linked) (t : Nat) (h : TailValid q) :
    (∃ q1, enqueueTask q t = some q1 ∧ q1.items = Sched.enqueueTask q.items t ∧
      TailValid q1) ∧
    (dequeueTask q).1 = (Sched.dequeueTask q.items).1 ∧
    (dequeueTask q).2.items = (Sched.dequeueTask q.items).2 ∧
    TailValid (dequeueTask q).2 ∧
    peekTask q = Sched.peekTask q.items := by
  refine ⟨⟨_, enqueueTask_valid q t h, rfl, ?_⟩, ?_, ?_, dequeueTask_valid q h, rfl⟩
  · right; simp
  · obtain ⟨items, tail⟩ := q
    cases items <;> rfl
  · obtain ⟨items, tail⟩ := q
    cases items <;> rfl

end Linked

theorem NoWrap_ready {s : Sim} (h : NoWrap s) (j : Nat) :
    -2147483648 ≤ (getP s.procs j).ready ∧
      (getP s.procs j).ready + ((s.queueA.length + s.queueB.length : Nat) : Int) <
        2147483647 := by
  obtain ⟨_, _, h3, h4⟩ := h
  rcases getP_mem_or_default j s.procs with hm | hd
  · exact h4 _ hm
  · rw [hd]
    have : (default : Process).ready = 0 := rfl
    rw [this]
    omega

theorem updateProcessQueue_bounds (runtime : Int) (q : List Nat) :
    ∀ (procs : List Process) (j : Nat), -2147483648 ≤ (getP procs j).ready →
      (getP procs j).ready + (q.length : Int) ≤ 2147483647 →
      (getP procs j).ready ≤ (getP (updateProcessQueue procs runtime q) j).ready ∧
      (getP (updateProcessQueue procs runtime q) j).ready ≤
        (getP procs j).ready + (q.length : Int) := by
  induction q with
  | nil => intro procs j _ _; simp [updateProcessQueue]
  | cons c rest ih =>
    intro procs j h1 h2
    rw [List.length_cons] at h2 ⊢
    push_cast at h2 ⊢
    simp only [updateProcessQueue]
    split_ifs with hc
    · by_cases hj : j = c
      · subst hj
        have e : wrap32 ((getP procs j).ready + 1) = (getP procs j).ready + 1 :=
          wrap32_eq (by omega) (by omega)
        constructor
        · refine le_trans ?_ (ih _ j ?_ ?_).1
          · rw [getP_setP_eq]; show _ ≤ wrap32 _; rw [e]; omega
          · rw [getP_setP_eq]; show _ ≤ wrap32 _; rw [e]; omega
          · rw [getP_setP_eq]; show wrap32 _ + _ ≤ _; rw [e]; omega
        · refine le_trans (ih _ j ?_ ?_).2 ?_
          · rw [getP_setP_eq]; show _ ≤ wrap32 _; rw [e]; omega
          · rw [getP_setP_eq]; show wrap32 _ + _ ≤ _; rw [e]; omega
          · rw [getP_setP_eq]; show wrap32 _ + _ ≤ _; rw [e]; omega
      · constructor
        · refine le_trans ?_ (ih _ j ?_ ?_).1
          · rw [getP_setP_ne _ _ _ _ hj]
          · rw [getP_setP_ne _ _ _ _ hj]; exact h1
          · rw [getP_setP_ne _ _ _ _ hj]; omega
        · refine le_trans (ih _ j ?_ ?_).2 ?_
          · rw [getP_setP_ne _ _ _ _ hj]; exact h1
          · rw [getP_setP_ne _ _ _ _ hj]; omega
          · rw [getP_setP_ne _ _ _ _ hj]; omega
    · have h3 := ih procs j h1 (by omega)
      omega

theorem tailA_procs_both (s : Sim) :
    (tailA s).procs =
      updateProcessQueue (updateProcessQueue s.procs s.stats.runtime s.queueA)
        s.stats.runtime s.queueB := by
  rw [tailA_procs_eq]
  cases hA : s.queueA <;> cases hB : s.queueB <;> simp [isEmptyP, updateProcessQueue]

theorem tailB_procs_one (s : Sim) :
    (tailB s).procs = updateProcessQueue s.procs s.stats.runtime s.queueB := by
  rw [tailB_procs_eq]
  cases hB : s.queueB <;> simp [isEmptyP, updateProcessQueue]

theorem tailA_ready_mono (s : Sim) (j : Nat) (h1 : -2147483648 ≤ (getP s.procs j).ready)
    (h2 : (getP s.procs j).ready + ((s.queueA.length + s.queueB.length : Nat) : Int) ≤
      2147483647) :
    (getP s.procs j).ready ≤ (getP (tailA s).procs j).ready := by
  push_cast at h2
  rw [tailA_procs_both]
  obtain ⟨a1, a2⟩ := updateProcessQueue_bounds s.stats.runtime s.queueA s.procs j h1 (by omega)
  obtain ⟨b1, _⟩ := updateProcessQueue_bounds s.stats.runtime s.queueB
    (updateProcessQueue s.procs s.stats.runtime s.queueA) j (by omega) (by omega)
  omega

theorem tailB_ready_mono (s : Sim) (j : Nat) (h1 : -2147483648 ≤ (getP s.procs j).ready)
    (h2 : (getP s.procs j).ready + ((s.queueA.length + s.queueB.length : Nat) : Int) ≤
      2147483647) :
    (getP s.procs j).ready ≤ (getP (tailB s).procs j).ready := by
  push_cast at h2
  rw [tailB_procs_one]
  exact (updateProcessQueue_bounds s.stats.runtime s.queueB s.procs j h1 (by omega)).1

theorem length_priorityEnqueueProcess (procs : List Process) (p : Nat) :
    ∀ q, (priorityEnqueueProcess procs q p).length = q.length + 1 := by
  intro q
  induction q with
  | nil => rfl
  | cons c rest ih =>
    simp only [priorityEnqueueProcess]
    split_ifs
    · simp [ih]
    · simp

theorem length_detachProcess (p : Nat) :
    ∀ q q1, detachProcess q p = some q1 → q1.length + 1 = q.length := by
  intro q
  induction q with
  | nil => intro q1 h; simp [detachProcess] at h
  | cons c rest ih =>
    intro q1 h
    simp only [detachProcess] at h
    split_ifs at h with hc
    · cases h; rfl
    · cases hd : detachProcess rest p with
      | none => simp [hd] at h
      | some r =>
        simp only [hd, Option.some.injEq] at h
        subst h
        simp [ih r hd]

theorem promoteProcess_length (procs : List Process) (queueB queueA : List Nat) (p : Nat) :
    (promoteProcess procs queueB queueA p).2.2.length +
        (promoteProcess procs queueB queueA p).2.1.length =
      queueA.length + queueB.length := by
  unfold promoteProcess
  cases hd : detachProcess queueB p with
  | none => rfl
  | some q1 =>
    have := length_detachProcess p queueB q1 hd
    simp only [length_priorityEnqueueProcess]
    omega

theorem endProcess_length (q exit : List Nat) (p : Nat) :
    (endProcess q exit p).1.length ≤ q.length := by
  unfold endProcess
  cases hd : detachProcess q p with
  | none => exact le_refl _
  | some q1 =>
    have := length_detachProcess p q q1 hd
    simp only
    omega

theorem switchA_length (quantumA : Int) (s : Sim) (t : Nat) :
    (switchA quantumA s t).queueA.length + (switchA quantumA s t).queueB.length ≤
      s.queueA.length + s.queueB.length + 1 := by
  suffices key : ∀ s1, s1 = switchA quantumA s t →
      s1.queueA.length + s1.queueB.length ≤ s.queueA.length + s.queueB.length + 1 from
    key _ rfl
  intro s1 hs1
  have he := fun ex => endProcess_length s.queueA ex (getT s.tasks t).parent
  simp only [switchA, finalize, updP, updT, updStats] at hs1
  have hx := he s.exitQueue
  split_ifs at hs1 <;> subst hs1 <;> simp only [] <;> omega

theorem switchB_length (quantumA quantumB : Int) (s : Sim) (t : Nat) :
    (switchB quantumA quantumB s t).queueA.length +
        (switchB quantumA quantumB s t).queueB.length ≤
      s.queueA.length + s.queueB.length + 1 := by
  suffices key : ∀ s1, s1 = switchB quantumA quantumB s t →
      s1.queueA.length + s1.queueB.length ≤ s.queueA.length + s.queueB.length + 1 from
    key _ rfl
  intro s1 hs1
  have he := fun ex => endProcess_length s.queueB ex (getT s.tasks t).parent
  have hp := fun pr => promoteProcess_length pr s.queueB s.queueA (getT s.tasks t).parent
  have hl := fun pr => length_priorityEnqueueProcess pr (getT s.tasks t).parent s.queueA
  have hx := he s.exitQueue
  simp only [switchB, finalize, doPromote, updP, updT, updStats] at hs1
  split_ifs at hs1 <;> subst hs1 <;> simp only [] <;>
    first
    | omega
    | (rw [hl]; omega)
    | (rw [hp]; omega)

theorem preemptA_length (s : Sim) (t : Nat) :
    (preemptA s t).queueA = s.queueA ∧ (preemptA s t).queueB = s.queueB := by
  simp [preemptA, updP, updT]

theorem preemptB_length (quantumA : Int) (s : Sim) (t : Nat) :
    (preemptB quantumA s t).queueA.length + (preemptB quantumA s t).queueB.length =
      s.queueA.length + s.queueB.length := by
  have hp := fun pr => promoteProcess_length pr s.queueB s.queueA (getT s.tasks t).parent
  simp only [preemptB, doPromote, updP, updT]
  split_ifs
  · simp only []
    rw [hp]
  · rfl

/-- What one step of the running task does to the quantities that can wrap: no ready
time changes, the clock stays or takes one 32-bit increment, and the tier queues gain at
most one node. -/
theorem execA_counters {preemption : Bool} {quantumA : Int} {s s1 : Sim}
    (h : execA preemption quantumA s = some s1) :
    (∀ j, (getP s1.procs j).ready = (getP s.procs j).ready) ∧
    (s1.stats.runtime = s.stats.runtime ∨ s1.stats.runtime = wrap32 (s.stats.runtime + 1)) ∧
    s1.queueA.length + s1.queueB.length ≤ s.queueA.length + s.queueB.length + 1 := by
  unfold execA at h
  cases ht : s.t with
  | none => simp [ht] at h
  | some t =>
    simp only [ht] at h
    split_ifs at h
    · cases h
      refine ⟨preemptA_ready s t, Or.inl (by rw [preemptA_stats]), ?_⟩
      rw [(preemptA_length s t).1, (preemptA_length s t).2]
      omega
    · cases h
      refine ⟨switchA_ready quantumA s t, ?_, switchA_length quantumA s t⟩
      rw [switchA_runtime]
      split_ifs
      · exact Or.inr rfl
      · exact Or.inl rfl

theorem execB_counters {preemption : Bool} {quantumA quantumB : Int} {s s1 : Sim}
    (h : execB preemption quantumA quantumB s = some s1) :
    (∀ j, (getP s1.procs j).ready = (getP s.procs j).ready) ∧
    (s1.stats.runtime = s.stats.runtime ∨ s1.stats.runtime = wrap32 (s.stats.runtime + 1)) ∧
    s1.queueA.length + s1.queueB.length ≤ s.queueA.length + s.queueB.length + 1 := by
  unfold execB at h
  cases ht : s.t with
  | none => simp [ht] at h
  | some t =>
    simp only [ht] at h
    split_ifs at h
    · cases h
      refine ⟨preemptB_ready quantumA s t, Or.inl (by rw [preemptB_stats]), ?_⟩
      rw [preemptB_length]
      omega
    · cases h
      refine ⟨switchB_ready quantumA quantumB s t, ?_, switchB_length quantumA quantumB s t⟩
      rw [switchB_runtime]
      split_ifs
      · exact Or.inr rfl
      · exact Or.inl rfl

theorem NoDecrease_refl (s : Sim) : NoDecrease s s := ⟨le_refl _, fun _ => le_refl _⟩

theorem NoDecrease_trans {s s1 s2 : Sim} (h1 : NoDecrease s s1) (h2 : NoDecrease s1 s2) :
    NoDecrease s s2 :=
  ⟨le_trans h1.1 h2.1, fun j => le_trans (h1.2 j) (h2.2 j)⟩

theorem ageTasks_NoDecrease (s : Sim) : NoDecrease s (ageTasks s) :=
  ⟨le_of_eq (by rw [(ageTasks_frame s).2.2.2.2.2.2.2]),
    fun j => le_of_eq (ageTasks_ready s j).symm⟩

theorem dispatch_NoDecrease (preemption tierA : Bool) (s : Sim) :
    NoDecrease s (dispatch preemption tierA s) :=
  ⟨le_of_eq (by rw [dispatch_runtime]), fun j => le_of_eq (dispatch_ready _ _ s j).symm⟩

theorem next_NoDecrease {preemption : Bool} {quantumA quantumB : Int} {m m1 : Machine}
    (h : next preemption quantumA quantumB m = some m1) (hw : NoWrap m.sim) :
    NoDecrease m.sim m1.sim := by
  obtain ⟨loc, s⟩ := m
  have hr := NoWrap_ready hw
  obtain ⟨c1, c2, _, _⟩ := hw
  simp only at hr c1 c2
  cases loc <;> simp only [next] at h
  · split_ifs at h <;> (cases h; exact NoDecrease_refl s)
  · split_ifs at h
    · cases h; exact ageTasks_NoDecrease s
    · cases h; exact NoDecrease_refl s
  · split_ifs at h
    · cases h; exact dispatch_NoDecrease _ _ s
    · cases he : execA preemption quantumA s with
      | none => simp [he] at h
      | some s1 =>
        simp only [he] at h
        cases h
        obtain ⟨e1, e2, e3⟩ := execA_counters he
        have e4 : wrap32 (s.stats.runtime + 1) = s.stats.runtime + 1 :=
          wrap32_eq (by omega) (by omega)
        have e5 : wrap32 (s1.stats.runtime + 1) = s1.stats.runtime + 1 := by
          rcases e2 with e2 | e2
          · rw [e2]; exact wrap32_eq (by omega) (by omega)
          · rw [e2, e4]; exact wrap32_eq (by omega) (by omega)
        refine ⟨?_, fun j => ?_⟩
        · show s.stats.runtime ≤ (tailA s1).stats.runtime
          rw [tailA_runtime, e5]
          rcases e2 with e2 | e2
          · rw [e2]; omega
          · rw [e2, e4]; omega
        · show (getP s.procs j).ready ≤ (getP (tailA s1).procs j).ready
          rw [← e1 j]
          have := hr j
          exact tailA_ready_mono s1 j (by rw [e1 j]; omega) (by rw [e1 j]; push_cast at this ⊢; omega)
  · split_ifs at h
    · cases h; exact ageTasks_NoDecrease s
    · cases h; exact NoDecrease_refl s
  · split_ifs at h
    · cases h; exact dispatch_NoDecrease _ _ s
    · cases he : execB preemption quantumA quantumB s with
      | none => simp [he] at h
      | some s1 =>
        simp only [he] at h
        cases h
        obtain ⟨e1, e2, e3⟩ := execB_counters he
        have e4 : wrap32 (s.stats.runtime + 1) = s.stats.runtime + 1 :=
          wrap32_eq (by omega) (by omega)
        have e5 : wrap32 (s1.stats.runtime + 1) = s1.stats.runtime + 1 := by
          rcases e2 with e2 | e2
          · rw [e2]; exact wrap32_eq (by omega) (by omega)
          · rw [e2, e4]; exact wrap32_eq (by omega) (by omega)
        refine ⟨?_, fun j => ?_⟩
        · show s.stats.runtime ≤ (tailB s1).stats.runtime
          rw [tailB_runtime, e5]
          rcases e2 with e2 | e2
          · rw [e2]; omega
          · rw [e2, e4]; omega
        · show (getP s.procs j).ready ≤ (getP (tailB s1).procs j).ready
          rw [← e1 j]
          have := hr j
          exact tailB_ready_mono s1 j (by rw [e1 j]; omega) (by rw [e1 j]; push_cast at this ⊢; omega)
  · cases h; exact NoDecrease_refl s

/-! ### Runs with a long compute phase -/

theorem runFrom_trans (preemption : Bool) (quantumA quantumB : Int) {a b : Nat}
    {m m1 m2 : Machine} (h1 : runFrom preemption quantumA quantumB a m = some m1)
    (h2 : runFrom preemption quantumA quantumB b m1 = some m2) :
    runFrom preemption quantumA quantumB (a + b) m = some m2 := by
  rw [runFrom_add, h1]
  exact h2

theorem runInput_trans (preemption : Bool) (quantumA quantumB : Int) {procs : List Process}
    {tasks : List Task} {queueB : List Nat} {a b : Nat} {m1 m2 : Machine}
    (h1 : runInput preemption quantumA quantumB procs tasks queueB a = some m1)
    (h2 : runFrom preemption quantumA quantumB b m1 = some m2) :
    runInput preemption quantumA quantumB procs tasks queueB (a + b) = some m2 := by
  rw [runInput_add, h1]
  exact h2

theorem computingAt_step (quantumA quantumB a n q : Int) (pend : List Nat)
    (others : List Task) (pend2 : List Nat) (k : Int) (h1 : 1 ≤ k) (h2 : k < n) (h3 : k < q)
    (h4 : -2147483648 ≤ a + k) (h5 : a + k < 2147483647) (h6 : k ≤ 2147483647) :
    runFrom false quantumA quantumB 2 (computingAt a n q pend others pend2 k) =
      some (computingAt a n q pend others pend2 (k + 1)) := by
  have e1 : wrap32 k = k := wrap32_eq (by omega) (by omega)
  have e2 : wrap32 (a + k + 1) = a + (k + 1) := by rw [wrap32_eq (by omega) (by omega)]; ring
  have q1 : q - k - 1 = q - (k + 1) := by omega
  have q2 : n - k - 1 = n - (k + 1) := by omega
  have c1 : ¬ (n - k = 0) := by omega
  have c2 : ¬ (q - k = 0) := by omega
  have c3 : (0 : Int) < k := by omega
  simp [runFrom, next, computingAt, condB, isEmptyP, isEmptyT, ageTasks, execB, switchB, tailB,
    updateProcessQueue, getP, getT, setP, setT, storeSet, updP, updT, updStats, parsedProcess,
    parsedTask, e1, e2, c1, c2, c3, initializeStats, default_process, default_task, q1, q2]

theorem computingAt_iter (quantumA quantumB a n q : Int) (pend : List Nat)
    (others : List Task) (pend2 : List Nat) (j : Nat) :
    ∀ k k1 : Int, 1 ≤ k → k1 = k + j → k1 ≤ n → k1 ≤ q → -2147483648 ≤ a + k →
      a + k1 ≤ 2147483647 → k1 ≤ 2147483648 →
      runFrom false quantumA quantumB (2 * j) (computingAt a n q pend others pend2 k) =
        some (computingAt a n q pend others pend2 k1) := by
  induction j with
  | zero =>
    intro k k1 _ h _ _ _ _ _
    have e : k1 = k := by simpa using h
    subst e
    rfl
  | succ j ih =>
    intro k k1 h1 h2 h3 h4 h5 h6 h7
    push_cast at h2
    rw [show 2 * (j + 1) = 2 + 2 * j by ring]
    exact runFrom_trans false quantumA quantumB
      (computingAt_step quantumA quantumB a n q pend others pend2 k h1 (by omega) (by omega)
        h5 (by omega) (by omega))
      (ih (k + 1) k1 (by omega) (by omega) h3 h4 (by omega) h6 h7)

theorem longRun_reaches :
    runInput false 2 20000000 longRunProcs longRunTasks [0, 1] 33554445 =
      some { loc := Loc.midB, sim := longWaitSim } := by
  have h0 : runInput false 2 20000000 longRunProcs longRunTasks [0, 1] 6 =
      some (computingAt 0 16777215 20000000 [1] [parsedTask 't' 0 0, parsedTask 't' 0 1]
        [2] 1) := by decide
  have h2 : runFrom false 2 20000000 11
      (computingAt 0 16777215 20000000 [1] [parsedTask 't' 0 0, parsedTask 't' 0 1] [2]
        16777215) = some { loc := Loc.midB, sim := longWaitSim } := by decide
  have h := runInput_trans false 2 20000000 h0
    (runFrom_trans false 2 20000000
      (computingAt_iter 2 20000000 0 16777215 20000000 [1]
        [parsedTask 't' 0 0, parsedTask 't' 0 1] [2] 16777214 1 16777215
        (by norm_num) (by norm_num) (by norm_num) (by norm_num) (by norm_num) (by norm_num)
        (by norm_num)) h2)
  have e : 6 + (2 * 16777214 + 11) = 33554445 := by norm_num
  rw [e] at h
  exact h

theorem overdue_reaches :
    runInput false 2 2147483643 overdueProcs overdueTasks [0, 1] 4294967307 =
      some { loc := Loc.midB, sim := overdueSim } := by
  have h0 : runInput false 2 2147483643 overdueProcs overdueTasks [0, 1] 6 =
      some (computingAt (-2147483648) 2147483640 2147483643 [1, 2]
        [parsedTask 'e' 20 0, parsedTask 't' 0 0, parsedTask 't' 0 1] [3] 1) := by decide
  have h2 : runFrom false 2 2147483643 23
      (computingAt (-2147483648) 2147483640 2147483643 [1, 2]
        [parsedTask 'e' 20 0, parsedTask 't' 0 0, parsedTask 't' 0 1] [3] 2147483640) =
      some { loc := Loc.midB, sim := overdueSim } := by decide
  have h := runInput_trans false 2 2147483643 h0
    (runFrom_trans false 2 2147483643
      (computingAt_iter 2 2147483643 (-2147483648) 2147483640 2147483643 [1, 2]
        [parsedTask 'e' 20 0, parsedTask 't' 0 0, parsedTask 't' 0 1] [3] 2147483639 1
        2147483640 (by norm_num) (by norm_num) (by norm_num) (by norm_num) (by norm_num)
        (by norm_num) (by norm_num)) h2)
  have e : 6 + (2 * 2147483639 + 23) = 4294967307 := by norm_num
  rw [e] at h
  exact h

/-- C17 (as stated, refuted): (a) on the input `P1:1`, `arrival_t:2147483647`, `exe:1`,
`t` the clock starts at 2147483647; the first executed iteration of the non-preemptive
run (quantumA 2, quantumB 5), from the 5th to the 6th state, takes it to -2147483648, so
that the clock has decreased.  (b) On the input `overdueProcs` (both processes arrived at
tick -2147483648, quantumB 2147483643) the non-preemptive run is, after 4294967307 moves,
at the execution point of the tier-B loop at tick 0, the waiting process having
accumulated 2147483647 ticks of ready time; the step takes the clock to 1 and that ready
time to -2147483648. -/
theorem C17_counterexample :
    runInput false 2 5 lastTickProcs lastTickTasks [0] 5 =
      some (stateAt false 2 5 lastTickProcs lastTickTasks [0] 5) ∧
    (stateAt false 2 5 lastTickProcs lastTickTasks [0] 5).loc = Loc.midB ∧
    (stateAt false 2 5 lastTickProcs lastTickTasks [0] 5).sim.cpu = 1 ∧
    (stateAt false 2 5 lastTickProcs lastTickTasks [0] 5).sim.stats.runtime = 2147483647 ∧
    next false 2 5 (stateAt false 2 5 lastTickProcs lastTickTasks [0] 5) =
      some (stateAt false 2 5 lastTickProcs lastTickTasks [0] 6) ∧
    (stateAt false 2 5 lastTickProcs lastTickTasks [0] 6).loc = Loc.inB ∧
    (stateAt false 2 5 lastTickProcs lastTickTasks [0] 6).sim.stats.runtime = -2147483648 ∧
    runInput false 2 2147483643 overdueProcs overdueTasks [0, 1] 4294967307 =
      some { loc := Loc.midB, sim := overdueSim } ∧
    overdueSim.stats.runtime = 0 ∧ (getP overdueSim.procs 1).ready = 2147483647 ∧
    next false 2 2147483643 { loc := Loc.midB, sim := overdueSim } =
      some { loc := Loc.inB, sim := tailB (switchB 2 2147483643 overdueSim 1) } ∧
    (tailB (switchB 2 2147483643 overdueSim 1)).stats.runtime = 1 ∧
    (getP (tailB (switchB 2 2147483643 overdueSim 1)).procs 1).ready = -2147483648 :=
  ⟨by decide, by decide, by decide, by decide, by decide, by decide, by decide,
    overdue_reaches, by decide⟩

/-- C17 (amended): along every run of either engine, from any state and over any number
of moves, as long as the states passed before the last one leave room below the 32-bit
limit (`NoWrap`: clock below 2147483646, every accumulated ready time below 2147483647 by
more than the number of nodes of the two tier queues), the clock value at the later state
is not below the clock value at the earlier one, and no process has a smaller accumulated
ready time at the later state. -/
theorem C17_clock_and_ready_monotone (preemption : Bool) (quantumA quantumB : Int)
    (n : Nat) (m m1 : Machine) (h : runFrom preemption quantumA quantumB n m = some m1)
    (hw : ∀ k, k < n → ∀ mk, runFrom preemption quantumA quantumB k m = some mk →
      NoWrap mk.sim) :
    m.sim.stats.runtime ≤ m1.sim.stats.runtime ∧
    ∀ j, (getP m.sim.procs j).ready ≤ (getP m1.sim.procs j).ready := by
  have key : ∀ (n : Nat) (m m1 : Machine),
      runFrom preemption quantumA quantumB n m = some m1 →
      (∀ k, k < n → ∀ mk, runFrom preemption quantumA quantumB k m = some mk →
        NoWrap mk.sim) → NoDecrease m.sim m1.sim := by
    intro n
    induction n with
    | zero =>
      intro m m1 h _
      simp [runFrom] at h
      subst h
      exact NoDecrease_refl _
    | succ n ih =>
      intro m m1 h hw
      simp only [runFrom] at h
      cases hn : next preemption quantumA quantumB m with
      | none => simp [hn] at h
      | some m2 =>
        simp only [hn] at h
        have h0 : NoWrap m.sim := hw 0 (Nat.succ_pos n) m rfl
        refine NoDecrease_trans (next_NoDecrease hn h0) (ih m2 m1 h ?_)
        intro k hk mk hmk
        exact hw (k + 1) (Nat.succ_lt_succ hk) mk (by simp only [runFrom, hn]; exact hmk)
  exact key n m m1 h hw

/-- Instance of the amended C17: the two moves of the iteration that takes the
two-process run from its 12th state to its 14th one, in which the clock
advances from 2 to 3 and the waiting process gains a tick of ready time. -/
theorem C17_clock_and_ready_monotone_witness :
    runFrom false 2 5 2 (stateAt false 2 5 duoProcs duoTasks [0, 1] 12) =
      some (stateAt false 2 5 duoProcs duoTasks [0, 1] 14) ∧
    (∀ k, k < 2 → ∀ mk,
      runFrom false 2 5 k (stateAt false 2 5 duoProcs duoTasks [0, 1] 12) = some mk →
        NoWrap mk.sim) ∧
    (stateAt false 2 5 duoProcs duoTasks [0, 1] 12).sim.stats.runtime ≤
      (stateAt false 2 5 duoProcs duoTasks [0, 1] 14).sim.stats.runtime ∧
    ∀ j, (getP (stateAt false 2 5 duoProcs duoTasks [0, 1] 12).sim.procs j).ready ≤
      (getP (stateAt false 2 5 duoProcs duoTasks [0, 1] 14).sim.procs j).ready :=
  have hw : ∀ k, k < 2 → ∀ mk,
      runFrom false 2 5 k (stateAt false 2 5 duoProcs duoTasks [0, 1] 12) = some mk →
        NoWrap mk.sim := by
    intro k hk mk hmk
    have h0 : runFrom false 2 5 0 (stateAt false 2 5 duoProcs duoTasks [0, 1] 12) =
        some (stateAt false 2 5 duoProcs duoTasks [0, 1] 12) := rfl
    have h1 : runFrom false 2 5 1 (stateAt false 2 5 duoProcs duoTasks [0, 1] 12) =
        some (stateAt false 2 5 duoProcs duoTasks [0, 1] 13) := by decide
    have n0 : NoWrap (stateAt false 2 5 duoProcs duoTasks [0, 1] 12).sim := by decide
    have n1 : NoWrap (stateAt false 2 5 duoProcs duoTasks [0, 1] 13).sim := by decide
    rcases k with _ | _ | k
    · rw [h0] at hmk; cases hmk; exact n0
    · rw [h1] at hmk; cases hmk; exact n1
    · omega
  ⟨by decide, hw,
    C17_clock_and_ready_monotone false 2 5 2 (stateAt false 2 5 duoProcs duoTasks [0, 1] 12)
      (stateAt false 2 5 duoProcs duoTasks [0, 1] 14) (by decide) hw⟩

/-! ### Order of the operations of a loop iteration -/

/-- C18 (as stated, refuted): in the non-preemptive run on `P1:1`, `arrival_t:0`, `io:1`,
`io:1`, `io:1`, `t` with quantumA = 2 and quantumB = 5, the tier-B iteration that starts
after 6 moves at clock 1 ages the I/O task (time 1 to 0), fails to dispatch and leaves the
loop with the clock still at 1; the next iteration ages the task again, which completes it,
and dispatches, the clock still at 1: two ageings within one clock tick.  In the run on
`exe:5`, `t` with quantumB = 6 the iteration that finalizes the process moves the clock
from 6 to 8.  In the run on `P1:1`, `arrival_t:2147483647`, `exe:1`, `t` the first
executing iteration moves the clock from 2147483647 to -2147483648. -/
theorem C18_counterexample :
    (∀ n, n ≤ 11 → runInput false 2 5 ioProcs ioTasks [0] n =
      some (stateAt false 2 5 ioProcs ioTasks [0] n)) ∧
    (stateAt false 2 5 ioProcs ioTasks [0] 6).loc = Loc.inB ∧
    (stateAt false 2 5 ioProcs ioTasks [0] 6).sim.stats.runtime = 1 ∧
    (stateAt false 2 5 ioProcs ioTasks [0] 6).sim.ioQueue = [0] ∧
    (getT (stateAt false 2 5 ioProcs ioTasks [0] 6).sim.tasks 0).time = 1 ∧
    (getT (stateAt false 2 5 ioProcs ioTasks [0] 7).sim.tasks 0).time = 0 ∧
    (stateAt false 2 5 ioProcs ioTasks [0] 7).sim.ioQueue = [0] ∧
    (stateAt false 2 5 ioProcs ioTasks [0] 8).loc = Loc.outer ∧
    (stateAt false 2 5 ioProcs ioTasks [0] 8).sim.t = none ∧
    (stateAt false 2 5 ioProcs ioTasks [0] 8).sim.stats.runtime = 1 ∧
    (stateAt false 2 5 ioProcs ioTasks [0] 9).loc = Loc.inB ∧
    (stateAt false 2 5 ioProcs ioTasks [0] 10).sim.ioQueue = [] ∧
    (getT (stateAt false 2 5 ioProcs ioTasks [0] 10).sim.tasks 0).completed = 1 ∧
    (stateAt false 2 5 ioProcs ioTasks [0] 11).loc = Loc.outer ∧
    (stateAt false 2 5 ioProcs ioTasks [0] 11).sim.t = some 1 ∧
    (stateAt false 2 5 ioProcs ioTasks [0] 11).sim.stats.runtime = 1 ∧
    (stateAt false 2 6 (soloProcs 6) soloTasks [0] 20).loc = Loc.midB ∧
    (stateAt false 2 6 (soloProcs 6) soloTasks [0] 20).sim.stats.runtime = 6 ∧
    (stateAt false 2 6 (soloProcs 6) soloTasks [0] 21).loc = Loc.inB ∧
    (stateAt false 2 6 (soloProcs 6) soloTasks [0] 21).sim.stats.runtime = 8 ∧
    runInput false 2 5 lastTickProcs lastTickTasks [0] 5 =
      some (stateAt false 2 5 lastTickProcs lastTickTasks [0] 5) ∧
    (stateAt false 2 5 lastTickProcs lastTickTasks [0] 5).loc = Loc.midB ∧
    (stateAt false 2 5 lastTickProcs lastTickTasks [0] 5).sim.cpu = 1 ∧
    (stateAt false 2 5 lastTickProcs lastTickTasks [0] 5).sim.stats.runtime = 2147483647 ∧
    next false 2 5 (stateAt false 2 5 lastTickProcs lastTickTasks [0] 5) =
      some (stateAt false 2 5 lastTickProcs lastTickTasks [0] 6) ∧
    (stateAt false 2 5 lastTickProcs lastTickTasks [0] 6).loc = Loc.inB ∧
    (stateAt false 2 5 lastTickProcs lastTickTasks [0] 6).sim.stats.runtime = -2147483648 := by
  decide

/-- C18 (amended): in both modes and both tiers an iteration of a tier loop first ages the
I/O queue.  Entered with the CPU idle it then only attempts a dispatch and leaves the tier
loop: the clock and every accumulated ready time are as they were at the dispatch point.
Entered with the CPU busy it executes one step of the running task, then updates the ready
times (tier A: both tier queues, tier B: the tier-B queue), then increments the clock, a C
`int`; the step itself leaves the clock alone unless it finalizes a Terminate task (switch
reached on a task that is neither I/O nor compute, quantum above 0), which increments it
once more.  While the clock is below 2147483646 each increment advances it by exactly
one. -/
theorem C18_iteration_order (preemption : Bool) (quantumA quantumB : Int) (s : Sim) :
    (condA s = true →
      next preemption quantumA quantumB { loc := Loc.inA, sim := s } =
        some { loc := Loc.midA, sim := ageTasks s }) ∧
    (condB s = true →
      next preemption quantumA quantumB { loc := Loc.inB, sim := s } =
        some { loc := Loc.midB, sim := ageTasks s }) ∧
    (s.cpu = 0 →
      next preemption quantumA quantumB { loc := Loc.midA, sim := s } =
        some { loc := Loc.outer, sim := dispatch preemption true s } ∧
      next preemption quantumA quantumB { loc := Loc.midB, sim := s } =
        some { loc := Loc.outer, sim := dispatch preemption false s } ∧
      (dispatch preemption true s).stats.runtime = s.stats.runtime ∧
      (dispatch preemption false s).stats.runtime = s.stats.runtime ∧
      ∀ j, (getP (dispatch preemption true s).procs j).ready = (getP s.procs j).ready ∧
        (getP (dispatch preemption false s).procs j).ready = (getP s.procs j).ready) ∧
    (s.cpu ≠ 0 → ∀ s1, execA preemption quantumA s = some s1 →
      next preemption quantumA quantumB { loc := Loc.midA, sim := s } =
        some { loc := Loc.inA, sim := tailA s1 } ∧
      (∀ j, (getP s1.procs j).ready = (getP s.procs j).ready) ∧
      (tailA s1).procs =
        (if isEmptyP s1.queueB then
          (if isEmptyP s1.queueA then s1.procs
           else updateProcessQueue s1.procs s1.stats.runtime s1.queueA)
         else updateProcessQueue
          (if isEmptyP s1.queueA then s1.procs
           else updateProcessQueue s1.procs s1.stats.runtime s1.queueA)
          s1.stats.runtime s1.queueB) ∧
      (tailA s1).stats.runtime = wrap32 (s1.stats.runtime + 1) ∧
      (s1.stats.runtime = s.stats.runtime ∨
        s1.stats.runtime = wrap32 (s.stats.runtime + 1)) ∧
      (s1.stats.runtime ≠ s.stats.runtime →
        ∃ t, s.t = some t ∧ (getT s.tasks t).type ≠ 'i' ∧ (getT s.tasks t).type ≠ 'e' ∧
          (getP s.procs (getT s.tasks t).parent).quantum > 0) ∧
      (-2147483648 ≤ s.stats.runtime → s.stats.runtime < 2147483646 →
        (tailA s1).stats.runtime = s1.stats.runtime + 1 ∧
        (s1.stats.runtime = s.stats.runtime ∨ s1.stats.runtime = s.stats.runtime + 1))) ∧
    (s.cpu ≠ 0 → ∀ s1, execB preemption quantumA quantumB s = some s1 →
      next preemption quantumA quantumB { loc := Loc.midB, sim := s } =
        some { loc := Loc.inB, sim := tailB s1 } ∧
      (∀ j, (getP s1.procs j).ready = (getP s.procs j).ready) ∧
      (tailB s1).procs =
        (if isEmptyP s1.queueB then s1.procs
         else updateProcessQueue s1.procs s1.stats.runtime s1.queueB) ∧
      (tailB s1).stats.runtime = wrap32 (s1.stats.runtime + 1) ∧
      (s1.stats.runtime = s.stats.runtime ∨
        s1.stats.runtime = wrap32 (s.stats.runtime + 1)) ∧
      (s1.stats.runtime ≠ s.stats.runtime →
        ∃ t, s.t = some t ∧ (getT s.tasks t).type ≠ 'i' ∧ (getT s.tasks t).type ≠ 'e' ∧
          (getP s.procs (getT s.tasks t).parent).quantum > 0) ∧
      (-2147483648 ≤ s.stats.runtime → s.stats.runtime < 2147483646 →
        (tailB s1).stats.runtime = s1.stats.runtime + 1 ∧
        (s1.stats.runtime = s.stats.runtime ∨ s1.stats.runtime = s.stats.runtime + 1))) := by
  refine ⟨?_, ?_, ?_, ?_, ?_⟩
  · intro h; simp [next, h]
  · intro h; simp [next, h]
  · intro h
    refine ⟨by simp [next, h], by simp [next, h], by rw [dispatch_runtime],
      by rw [dispatch_runtime], fun j => ⟨dispatch_ready _ _ s j, dispatch_ready _ _ s j⟩⟩
  · intro h s1 he
    have hstep : s1.stats.runtime = s.stats.runtime ∨
        s1.stats.runtime = wrap32 (s.stats.runtime + 1) := by
      unfold execA at he
      cases ht : s.t with
      | none => simp [ht] at he
      | some t =>
        simp only [ht] at he
        split_ifs at he <;> cases he
        · left; rw [preemptA_stats]
        · rw [switchA_runtime]; split_ifs <;> simp
    refine ⟨by simp [next, h, he], ?_, tailA_procs_eq s1, tailA_runtime s1, hstep, ?_, ?_⟩
    · intro j
      unfold execA at he
      cases ht : s.t with
      | none => simp [ht] at he
      | some t =>
        simp only [ht] at he
        split_ifs at he <;> cases he
        · exact preemptA_ready s t j
        · exact switchA_ready quantumA s t j
    · intro hrt
      unfold execA at he
      cases ht : s.t with
      | none => simp [ht] at he
      | some t =>
        simp only [ht] at he
        split_ifs at he <;> cases he
        · rw [preemptA_stats] at hrt; exact absurd rfl hrt
        · rw [switchA_runtime] at hrt
          split_ifs at hrt with hc
          · exact ⟨t, rfl, hc⟩
          · exact absurd rfl hrt
    · intro hlo hhi
      have e1 : wrap32 (s.stats.runtime + 1) = s.stats.runtime + 1 :=
        wrap32_eq (by omega) (by omega)
      rw [e1] at hstep
      refine ⟨?_, hstep⟩
      rw [tailA_runtime]
      rcases hstep with e | e <;> rw [e] <;> exact wrap32_eq (by omega) (by omega)
  · intro h s1 he
    have hstep : s1.stats.runtime = s.stats.runtime ∨
        s1.stats.runtime = wrap32 (s.stats.runtime + 1) := by
      unfold execB at he
      cases ht : s.t with
      | none => simp [ht] at he
      | some t =>
        simp only [ht] at he
        split_ifs at he <;> cases he
        · left; rw [preemptB_stats]
        · rw [switchB_runtime]; split_ifs <;> simp
    refine ⟨by simp [next, h, he], ?_, tailB_procs_eq s1, tailB_runtime s1, hstep, ?_, ?_⟩
    · intro j
      unfold execB at he
      cases ht : s.t with
      | none => simp [ht] at he
      | some t =>
        simp only [ht] at he
        split_ifs at he <;> cases he
        · exact preemptB_ready quantumA s t j
        · exact switchB_ready quantumA quantumB s t j
    · intro hrt
      unfold execB at he
      cases ht : s.t with
      | none => simp [ht] at he
      | some t =>
        simp only [ht] at he
        split_ifs at he <;> cases he
        · rw [preemptB_stats] at hrt; exact absurd rfl hrt
        · rw [switchB_runtime] at hrt
          split_ifs at hrt with hc
          · exact ⟨t, rfl, hc⟩
          · exact absurd rfl hrt
    · intro hlo hhi
      have e1 : wrap32 (s.stats.runtime + 1) = s.stats.runtime + 1 :=
        wrap32_eq (by omega) (by omega)
      rw [e1] at hstep
      refine ⟨?_, hstep⟩
      rw [tailB_runtime]
      rcases hstep with e | e <;> rw [e] <;> exact wrap32_eq (by omega) (by omega)

/-- Instance of the amended C18: the failed dispatch after 7 moves of the run on `io:1`,
`io:1`, `io:1`, `t` leaves the tier-B loop with the clock unchanged; the executing
iteration after 15 moves of the run on `exe:5`, `t` advances the clock by exactly one. -/
theorem C18_iteration_order_witness :
    (stateAt false 2 5 ioProcs ioTasks [0] 7).sim.cpu = 0 ∧
    next false 2 5 { loc := Loc.midB, sim := (stateAt false 2 5 ioProcs ioTasks [0] 7).sim } =
      some { loc := Loc.outer,
             sim := dispatch false false (stateAt false 2 5 ioProcs ioTasks [0] 7).sim } ∧
    (dispatch false false (stateAt false 2 5 ioProcs ioTasks [0] 7).sim).stats.runtime =
      (stateAt false 2 5 ioProcs ioTasks [0] 7).sim.stats.runtime ∧
    (stateAt false 2 6 (soloProcs 6) soloTasks [0] 15).sim.cpu ≠ 0 ∧
    (stateAt false 2 6 (soloProcs 6) soloTasks [0] 15).sim.stats.runtime = 5 ∧
    ∃ s1, execB false 2 6 (stateAt false 2 6 (soloProcs 6) soloTasks [0] 15).sim = some s1 ∧
      s1.stats.runtime = 5 ∧ (tailB s1).stats.runtime = s1.stats.runtime + 1 :=
  have hx : execB false 2 6 (stateAt false 2 6 (soloProcs 6) soloTasks [0] 15).sim =
      some (switchB 2 6 (stateAt false 2 6 (soloProcs 6) soloTasks [0] 15).sim 0) := by
    decide
  ⟨by decide,
    ((C18_iteration_order false 2 5 (stateAt false 2 5 ioProcs ioTasks [0] 7).sim).2.2.1
      (by decide)).2.1,
    ((C18_iteration_order false 2 5 (stateAt false 2 5 ioProcs ioTasks [0] 7).sim).2.2.1
      (by decide)).2.2.2.1,
    by decide, by decide, _, hx, by decide,
    (((C18_iteration_order false 2 6
      (stateAt false 2 6 (soloProcs 6) soloTasks [0] 15).sim).2.2.2.2 (by decide) _
        hx).2.2.2.2.2.2 (by decide) (by decide)).1⟩

/-! ### Finalization of a process -/

theorem switchA_finalized (quantumA : Int) (s : Sim) (t : Nat)
    (hi : (getT s.tasks t).type ≠ 'i') (he : (getT s.tasks t).type ≠ 'e')
    (hq : (getP s.procs (getT s.tasks t).parent).quantum > 0)
    (hm : (getT s.tasks t).parent ∈ s.queueA) :
    FinalizedStep s (switchA quantumA s t) t s.queueA (switchA quantumA s t).queueA := by
  obtain ⟨pre, post, e1, e2, e3⟩ := endProcess_split s.queueA s.exitQueue _ hm
  simp only [switchA, hi, he, hq, finalize, updP, updT, updStats, FinalizedStep, if_true,
    if_false, e3]
  refine ⟨by simp, ⟨pre, post, e1, e2, rfl⟩, trivial, trivial, ?_, ?_, by simp⟩
  · simp only [getP_setP_eq, min_def]
    split_ifs <;> first | rfl | omega
  · simp only [getP_setP_eq, max_def]
    split_ifs <;> first | rfl | omega

theorem switchB_finalized (quantumA quantumB : Int) (s : Sim) (t : Nat)
    (hi : (getT s.tasks t).type ≠ 'i') (he : (getT s.tasks t).type ≠ 'e')
    (hq : (getP s.procs (getT s.tasks t).parent).quantum > 0)
    (hm : (getT s.tasks t).parent ∈ s.queueB) :
    FinalizedStep s (switchB quantumA quantumB s t) t s.queueB
      (switchB quantumA quantumB s t).queueB := by
  obtain ⟨pre, post, e1, e2, e3⟩ := endProcess_split s.queueB s.exitQueue _ hm
  simp only [switchB, hi, he, hq, finalize, updP, updT, updStats, FinalizedStep, if_true,
    if_false, e3]
  refine ⟨by simp, ⟨pre, post, e1, e2, rfl⟩, trivial, trivial, ?_, ?_, by simp⟩
  · simp only [getP_setP_eq, min_def]
    split_ifs <;> first | rfl | omega
  · simp only [getP_setP_eq, max_def]
    split_ifs <;> first | rfl | omega

theorem FinalizedStep_tailA {s s1 : Sim} {t : Nat} {q : List Nat}
    (h : FinalizedStep s s1 t q s1.queueA) :
    FinalizedStep s (tailA s1) t q (tailA s1).queueA := by
  obtain ⟨h1, h2, h3, h4, h5, h6, h7⟩ := h
  have hf := tailA_frame s1
  obtain ⟨r, hp⟩ := tailA_procs s1 (getT s.tasks t).parent
  refine ⟨?_, ?_, ?_, ?_, ?_, ?_, ?_⟩
  · rw [hp]; exact h1
  · rw [hf.2.2.2.2.1]; exact h2
  · rw [hf.2.2.2.2.2.2.1]; exact h3
  · rw [hf.2.2.1]; exact h4
  · rw [tailA_stats_eq]; exact h5
  · rw [tailA_stats_eq]; exact h6
  · rw [tailA_stats_eq]; exact h7

theorem FinalizedStep_tailB {s s1 : Sim} {t : Nat} {q : List Nat}
    (h : FinalizedStep s s1 t q s1.queueB) :
    FinalizedStep s (tailB s1) t q (tailB s1).queueB := by
  obtain ⟨h1, h2, h3, h4, h5, h6, h7⟩ := h
  have hf := tailB_frame s1
  obtain ⟨r, hp⟩ := tailB_procs s1 (getT s.tasks t).parent
  refine ⟨?_, ?_, ?_, ?_, ?_, ?_, ?_⟩
  · rw [hp]; exact h1
  · rw [hf.2.2.2.2.2.1]; exact h2
  · rw [hf.2.2.2.2.2.2.1]; exact h3
  · rw [hf.2.2.1]; exact h4
  · rw [tailB_stats_eq]; exact h5
  · rw [tailB_stats_eq]; exact h6
  · rw [tailB_stats_eq]; exact h7

theorem FinalizedStep_exact {s s1 : Sim} {t : Nat} {q q1 : List Nat}
    (h : FinalizedStep s s1 t q q1)
    (h1 : (getP s.procs (getT s.tasks t).parent).ready.natAbs ≤ 16777216)
    (h2 : (s.stats.totalWait + (getP s.procs (getT s.tasks t).parent).ready).natAbs ≤
      16777216) :
    s1.stats.totalWait = s.stats.totalWait + (getP s.procs (getT s.tasks t).parent).ready := by
  rw [h.2.2.2.2.2.2, roundFloat_eq h1, roundFloat_eq h2]

/-- C22 (as stated, refuted): on the input `P1:1`, `arrival_t:0`, `exe:16777215`, `t` and
`P2:1`, `arrival_t:0`, `t` with quantumB = 20000000 the non-preemptive run is, after
33554445 moves, at the execution point of the tier-B loop with the Terminate task of the
second process on the CPU; that process has quantum 20000000, is in the tier-B queue and
has waited 16777216 ticks, and the total of the ready times is 1.  The step sets the
minimum to 1 and the maximum to 16777216 but the total, a C `float`, to 16777216, which is
not 1 + 16777216. -/
theorem C22_counterexample :
    runInput false 2 20000000 longRunProcs longRunTasks [0, 1] 33554445 =
      some { loc := Loc.midB, sim := longWaitSim } ∧
    longWaitSim.cpu = 1 ∧ longWaitSim.t = some 2 ∧
    (getT longWaitSim.tasks 2).type = 't' ∧ (getT longWaitSim.tasks 2).parent = 1 ∧
    (getP longWaitSim.procs 1).quantum = 20000000 ∧ 1 ∈ longWaitSim.queueB ∧
    (getP longWaitSim.procs 1).ready = 16777216 ∧ longWaitSim.stats.totalWait = 1 ∧
    execB false 2 20000000 longWaitSim = some (switchB 2 20000000 longWaitSim 2) ∧
    (switchB 2 20000000 longWaitSim 2).exitQueue = [0, 1] ∧
    (switchB 2 20000000 longWaitSim 2).stats.minWait = 1 ∧
    (switchB 2 20000000 longWaitSim 2).stats.maxWait = 16777216 ∧
    (switchB 2 20000000 longWaitSim 2).stats.totalWait = 16777216 ∧
    (tailB (switchB 2 20000000 longWaitSim 2)).stats.totalWait = 16777216 :=
  ⟨longRun_reaches, by decide⟩

/-- C22 (amended): in every state reachable by either engine in which a Terminate task `t` (the
default case of the switch: neither I/O nor compute) occupies the CPU at the execution
point of a tier loop, its process `p` has quantum above 0 and is a member of the serviced
tier queue, the step is defined and decrements the quantum of `p`, unlinks the first node
holding `p` from that tier queue (the other members keep their order), appends `p` to the
exit queue, releases the CPU, sets minWait and maxWait to min(minWait, p.ready) and
max(maxWait, p.ready) and adds p.ready to totalWait in the arithmetic of the C type
`float` (`roundFloat`), for the ready time `p` has at the step; all of this still holds
at the end of the iteration.  While p.ready and totalWait + p.ready do not exceed 16777216
in magnitude, the new total is exactly totalWait + p.ready. -/
theorem C22_terminate_finalizes (preemption : Bool) (quantumA quantumB : Int)
    (procs : List Process) (tasks : List Task) (queueB : List Nat) (m : Machine) (t : Nat)
    (hr : Reachable preemption quantumA quantumB procs tasks queueB m)
    (hcpu : m.sim.cpu ≠ 0) (ht : m.sim.t = some t)
    (hi : (getT m.sim.tasks t).type ≠ 'i') (he : (getT m.sim.tasks t).type ≠ 'e')
    (hq : (getP m.sim.procs (getT m.sim.tasks t).parent).quantum > 0) :
    (m.loc = Loc.midA → (getT m.sim.tasks t).parent ∈ m.sim.queueA →
      ∃ s1, execA preemption quantumA m.sim = some s1 ∧
        FinalizedStep m.sim s1 t m.sim.queueA s1.queueA ∧
        next preemption quantumA quantumB m = some { loc := Loc.inA, sim := tailA s1 } ∧
        FinalizedStep m.sim (tailA s1) t m.sim.queueA (tailA s1).queueA ∧
        ((getP m.sim.procs (getT m.sim.tasks t).parent).ready.natAbs ≤ 16777216 →
          (m.sim.stats.totalWait +
            (getP m.sim.procs (getT m.sim.tasks t).parent).ready).natAbs ≤ 16777216 →
          s1.stats.totalWait =
            m.sim.stats.totalWait + (getP m.sim.procs (getT m.sim.tasks t).parent).ready ∧
          (tailA s1).stats.totalWait =
            m.sim.stats.totalWait + (getP m.sim.procs (getT m.sim.tasks t).parent).ready)) ∧
    (m.loc = Loc.midB → (getT m.sim.tasks t).parent ∈ m.sim.queueB →
      ∃ s1, execB preemption quantumA quantumB m.sim = some s1 ∧
        FinalizedStep m.sim s1 t m.sim.queueB s1.queueB ∧
        next preemption quantumA quantumB m = some { loc := Loc.inB, sim := tailB s1 } ∧
        FinalizedStep m.sim (tailB s1) t m.sim.queueB (tailB s1).queueB ∧
        ((getP m.sim.procs (getT m.sim.tasks t).parent).ready.natAbs ≤ 16777216 →
          (m.sim.stats.totalWait +
            (getP m.sim.procs (getT m.sim.tasks t).parent).ready).natAbs ≤ 16777216 →
          s1.stats.totalWait =
            m.sim.stats.totalWait + (getP m.sim.procs (getT m.sim.tasks t).parent).ready ∧
          (tailB s1).stats.totalWait =
            m.sim.stats.totalWait + (getP m.sim.procs (getT m.sim.tasks t).parent).ready)) := by
  have hno := Reachable_no_preemption hr hcpu t
  obtain ⟨loc, s⟩ := m
  simp only at hcpu ht hi he hq hno
  constructor
  · intro hloc hm
    simp only at hloc hm
    subst hloc
    have hA := switchA_finalized quantumA s t hi he hq hm
    have hx : execA preemption quantumA s = some (switchA quantumA s t) := by
      simp [execA, ht, hno]
    exact ⟨_, hx, hA, by simp [next, hcpu, hx], FinalizedStep_tailA hA,
      fun h1 h2 => ⟨FinalizedStep_exact hA h1 h2,
        FinalizedStep_exact (FinalizedStep_tailA hA) h1 h2⟩⟩
  · intro hloc hm
    simp only at hloc hm
    subst hloc
    have hB := switchB_finalized quantumA quantumB s t hi he hq hm
    have hx : execB preemption quantumA quantumB s = some (switchB quantumA quantumB s t) := by
      simp [execB, ht, hno]
    exact ⟨_, hx, hB, by simp [next, hcpu, hx], FinalizedStep_tailB hB,
      fun h1 h2 => ⟨FinalizedStep_exact hB h1 h2,
        FinalizedStep_exact (FinalizedStep_tailB hB) h1 h2⟩⟩

/-- Instance of the amended C22: the Terminate task of the single process of `exe:5`, `t` at the 20th
state of the non-preemptive run with quantumB = 6, in tier B. -/
theorem C22_terminate_finalizes_witness :
    runInput false 2 6 (soloProcs 6) soloTasks [0] 20 =
      some (stateAt false 2 6 (soloProcs 6) soloTasks [0] 20) ∧
    (stateAt false 2 6 (soloProcs 6) soloTasks [0] 20).loc = Loc.midB ∧
    (stateAt false 2 6 (soloProcs 6) soloTasks [0] 20).sim.cpu ≠ 0 ∧
    (stateAt false 2 6 (soloProcs 6) soloTasks [0] 20).sim.t = some 1 ∧
    (getT (stateAt false 2 6 (soloProcs 6) soloTasks [0] 20).sim.tasks 1).type = 't' ∧
    (getT (stateAt false 2 6 (soloProcs 6) soloTasks [0] 20).sim.tasks 1).parent = 0 ∧
    (getP (stateAt false 2 6 (soloProcs 6) soloTasks [0] 20).sim.procs 0).quantum = 1 ∧
    (stateAt false 2 6 (soloProcs 6) soloTasks [0] 20).sim.queueB = [0] ∧
    ∃ s1, execB false 2 6 (stateAt false 2 6 (soloProcs 6) soloTasks [0] 20).sim = some s1 ∧
      FinalizedStep (stateAt false 2 6 (soloProcs 6) soloTasks [0] 20).sim s1 1
        (stateAt false 2 6 (soloProcs 6) soloTasks [0] 20).sim.queueB s1.queueB ∧
      next false 2 6 (stateAt false 2 6 (soloProcs 6) soloTasks [0] 20) =
        some { loc := Loc.inB, sim := tailB s1 } ∧
      FinalizedStep (stateAt false 2 6 (soloProcs 6) soloTasks [0] 20).sim (tailB s1) 1
        (stateAt false 2 6 (soloProcs 6) soloTasks [0] 20).sim.queueB (tailB s1).queueB ∧
      s1.stats.totalWait =
        (stateAt false 2 6 (soloProcs 6) soloTasks [0] 20).sim.stats.totalWait +
          (getP (stateAt false 2 6 (soloProcs 6) soloTasks [0] 20).sim.procs
            (getT (stateAt false 2 6 (soloProcs 6) soloTasks [0] 20).sim.tasks 1).parent).ready ∧
      (tailB s1).stats.totalWait =
        (stateAt false 2 6 (soloProcs 6) soloTasks [0] 20).sim.stats.totalWait +
          (getP (stateAt false 2 6 (soloProcs 6) soloTasks [0] 20).sim.procs
            (getT (stateAt false 2 6 (soloProcs 6) soloTasks [0] 20).sim.tasks 1).parent).ready :=
  ⟨by decide, by decide, by decide, by decide, by decide, by decide, by decide, by decide,
    match (C22_terminate_finalizes false 2 6 (soloProcs 6) soloTasks [0]
      (stateAt false 2 6 (soloProcs 6) soloTasks [0] 20) 1
      (runInput_Reachable (n := 20) (by decide)) (by decide) (by decide) (by decide)
      (by decide) (by decide)).2 (by decide) (by decide) with
    | ⟨s1, h1, h2, h3, h4, h5⟩ => ⟨s1, h1, h2, h3, h4, h5 (by decide) (by decide)⟩⟩

/-! ### Completion time -/

theorem switchA_completion (quantumA : Int) (s : Sim) (t : Nat)
    (hi : (getT s.tasks t).type ≠ 'i') (he : (getT s.tasks t).type ≠ 'e')
    (hq : (getP s.procs (getT s.tasks t).parent).quantum > 0) :
    (getP (switchA quantumA s t).procs (getT s.tasks t).parent).runtime =
        wrap32 (s.stats.runtime + 1) ∧
      (switchA quantumA s t).stats.runtime = wrap32 (s.stats.runtime + 1) := by
  simp [switchA, hi, he, hq, finalize, updP, updT, updStats]

theorem switchB_completion (quantumA quantumB : Int) (s : Sim) (t : Nat)
    (hi : (getT s.tasks t).type ≠ 'i') (he : (getT s.tasks t).type ≠ 'e')
    (hq : (getP s.procs (getT s.tasks t).parent).quantum > 0) :
    (getP (switchB quantumA quantumB s t).procs (getT s.tasks t).parent).runtime =
        wrap32 (s.stats.runtime + 1) ∧
      (switchB quantumA quantumB s t).stats.runtime = wrap32 (s.stats.runtime + 1) := by
  simp [switchB, hi, he, hq, finalize, updP, updT, updStats]

/-- C23 (as stated, refuted): in the non-preemptive run on `P1:1`, `arrival_t:0`, `exe:5`,
`t` with quantumA = 2 and quantumB = 6 the Terminate task is executed, with quantum 1,
from the 20th state, in the tick whose clock value is 6; after that iteration the
completion time recorded for the process is 7, not 6, and the clock reads 8, not 7,
whereas the iteration before advanced the clock from 5 to 6.  On the input `P1:1`,
`arrival_t:2147483647`, `t` the Terminate task is executed from the 5th state in the tick
whose clock value is 2147483647; the completion time recorded is -2147483648 and the
clock reads -2147483647 after the iteration. -/
theorem C23_counterexample :
    runInput false 2 6 (soloProcs 6) soloTasks [0] 20 =
      some (stateAt false 2 6 (soloProcs 6) soloTasks [0] 20) ∧
    (stateAt false 2 6 (soloProcs 6) soloTasks [0] 20).loc = Loc.midB ∧
    (stateAt false 2 6 (soloProcs 6) soloTasks [0] 20).sim.cpu = 1 ∧
    (stateAt false 2 6 (soloProcs 6) soloTasks [0] 20).sim.t = some 1 ∧
    (getT (stateAt false 2 6 (soloProcs 6) soloTasks [0] 20).sim.tasks 1).type = 't' ∧
    (getP (stateAt false 2 6 (soloProcs 6) soloTasks [0] 20).sim.procs 0).quantum = 1 ∧
    (stateAt false 2 6 (soloProcs 6) soloTasks [0] 20).sim.stats.runtime = 6 ∧
    next false 2 6 (stateAt false 2 6 (soloProcs 6) soloTasks [0] 20) =
      some (stateAt false 2 6 (soloProcs 6) soloTasks [0] 21) ∧
    (stateAt false 2 6 (soloProcs 6) soloTasks [0] 21).loc = Loc.inB ∧
    (stateAt false 2 6 (soloProcs 6) soloTasks [0] 21).sim.exitQueue = [0] ∧
    (getP (stateAt false 2 6 (soloProcs 6) soloTasks [0] 21).sim.procs 0).runtime = 7 ∧
    (stateAt false 2 6 (soloProcs 6) soloTasks [0] 21).sim.stats.runtime = 8 ∧
    (stateAt false 2 6 (soloProcs 6) soloTasks [0] 15).loc = Loc.midB ∧
    (stateAt false 2 6 (soloProcs 6) soloTasks [0] 15).sim.stats.runtime = 5 ∧
    next false 2 6 (stateAt false 2 6 (soloProcs 6) soloTasks [0] 15) =
      some (stateAt false 2 6 (soloProcs 6) soloTasks [0] 16) ∧
    (stateAt false 2 6 (soloProcs 6) soloTasks [0] 16).sim.stats.runtime = 6 ∧
    runInput false 2 5 lastExitProcs lastExitTasks [0] 5 =
      some (stateAt false 2 5 lastExitProcs lastExitTasks [0] 5) ∧
    (stateAt false 2 5 lastExitProcs lastExitTasks [0] 5).loc = Loc.midB ∧
    (stateAt false 2 5 lastExitProcs lastExitTasks [0] 5).sim.cpu = 1 ∧
    (stateAt false 2 5 lastExitProcs lastExitTasks [0] 5).sim.t = some 0 ∧
    (getT (stateAt false 2 5 lastExitProcs lastExitTasks [0] 5).sim.tasks 0).type = 't' ∧
    (getP (stateAt false 2 5 lastExitProcs lastExitTasks [0] 5).sim.procs 0).quantum = 5 ∧
    (stateAt false 2 5 lastExitProcs lastExitTasks [0] 5).sim.stats.runtime = 2147483647 ∧
    next false 2 5 (stateAt false 2 5 lastExitProcs lastExitTasks [0] 5) =
      some (stateAt false 2 5 lastExitProcs lastExitTasks [0] 6) ∧
    (stateAt false 2 5 lastExitProcs lastExitTasks [0] 6).sim.exitQueue = [0] ∧
    (getP (stateAt false 2 5 lastExitProcs lastExitTasks [0] 6).sim.procs 0).runtime =
      -2147483648 ∧
    (stateAt false 2 5 lastExitProcs lastExitTasks [0] 6).sim.stats.runtime = -2147483647 := by
  decide

/-- C23 (amended): in every state reachable by either engine in which a Terminate task
`t` occupies the CPU at the execution point of a tier loop and its process has quantum
above 0, the step is defined, increments the clock (a C `int`) and records the incremented
value as the completion time of the process; the end of the iteration increments the clock
once more and keeps the recorded completion time.  While the clock, a value of the C type
`int`, is below 2147483646, the recorded time is the clock value of the tick plus one and
the iteration advances the clock by two. -/
theorem C23_completion_time (preemption : Bool) (quantumA quantumB : Int)
    (procs : List Process) (tasks : List Task) (queueB : List Nat) (m : Machine) (t : Nat)
    (hr : Reachable preemption quantumA quantumB procs tasks queueB m)
    (hcpu : m.sim.cpu ≠ 0) (ht : m.sim.t = some t)
    (hi : (getT m.sim.tasks t).type ≠ 'i') (he : (getT m.sim.tasks t).type ≠ 'e')
    (hq : (getP m.sim.procs (getT m.sim.tasks t).parent).quantum > 0) :
    (m.loc = Loc.midA →
      ∃ s1, execA preemption quantumA m.sim = some s1 ∧
        (getP s1.procs (getT m.sim.tasks t).parent).runtime =
          wrap32 (m.sim.stats.runtime + 1) ∧
        s1.stats.runtime = wrap32 (m.sim.stats.runtime + 1) ∧
        next preemption quantumA quantumB m = some { loc := Loc.inA, sim := tailA s1 } ∧
        (getP (tailA s1).procs (getT m.sim.tasks t).parent).runtime =
          wrap32 (m.sim.stats.runtime + 1) ∧
        (tailA s1).stats.runtime = wrap32 (wrap32 (m.sim.stats.runtime + 1) + 1) ∧
        (-2147483648 ≤ m.sim.stats.runtime → m.sim.stats.runtime < 2147483646 →
          (getP (tailA s1).procs (getT m.sim.tasks t).parent).runtime =
            m.sim.stats.runtime + 1 ∧
          s1.stats.runtime = m.sim.stats.runtime + 1 ∧
          (tailA s1).stats.runtime = m.sim.stats.runtime + 2)) ∧
    (m.loc = Loc.midB →
      ∃ s1, execB preemption quantumA quantumB m.sim = some s1 ∧
        (getP s1.procs (getT m.sim.tasks t).parent).runtime =
          wrap32 (m.sim.stats.runtime + 1) ∧
        s1.stats.runtime = wrap32 (m.sim.stats.runtime + 1) ∧
        next preemption quantumA quantumB m = some { loc := Loc.inB, sim := tailB s1 } ∧
        (getP (tailB s1).procs (getT m.sim.tasks t).parent).runtime =
          wrap32 (m.sim.stats.runtime + 1) ∧
        (tailB s1).stats.runtime = wrap32 (wrap32 (m.sim.stats.runtime + 1) + 1) ∧
        (-2147483648 ≤ m.sim.stats.runtime → m.sim.stats.runtime < 2147483646 →
          (getP (tailB s1).procs (getT m.sim.tasks t).parent).runtime =
            m.sim.stats.runtime + 1 ∧
          s1.stats.runtime = m.sim.stats.runtime + 1 ∧
          (tailB s1).stats.runtime = m.sim.stats.runtime + 2)) := by
  have hno := Reachable_no_preemption hr hcpu t
  obtain ⟨loc, s⟩ := m
  simp only at hcpu ht hi he hq hno
  constructor
  · intro hloc
    simp only at hloc
    subst hloc
    obtain ⟨h1, h2⟩ := switchA_completion quantumA s t hi he hq
    have hx : execA preemption quantumA s = some (switchA quantumA s t) := by
      simp [execA, ht, hno]
    obtain ⟨r, hp⟩ := tailA_procs (switchA quantumA s t) (getT s.tasks t).parent
    have h3 : (tailA (switchA quantumA s t)).stats.runtime =
        wrap32 (wrap32 (s.stats.runtime + 1) + 1) := by
      rw [tailA_runtime, h2]
    refine ⟨_, hx, h1, h2, by simp [next, hcpu, hx], by rw [hp]; exact h1, h3, ?_⟩
    intro hlo hhi
    simp only at hlo hhi
    have e1 : wrap32 (s.stats.runtime + 1) = s.stats.runtime + 1 :=
      wrap32_eq (by show _ ≤ s.stats.runtime + 1; omega) (by show s.stats.runtime + 1 ≤ _; omega)
    have e2 : wrap32 (s.stats.runtime + 1 + 1) = s.stats.runtime + 1 + 1 :=
      wrap32_eq (by show _ ≤ s.stats.runtime + 1 + 1; omega)
        (by show s.stats.runtime + 1 + 1 ≤ _; omega)
    refine ⟨by rw [hp]; show _ = s.stats.runtime + 1; rw [← e1]; exact h1,
      by show _ = s.stats.runtime + 1; rw [← e1]; exact h2, ?_⟩
    show _ = s.stats.runtime + 2
    rw [h3, e1, e2]; omega
  · intro hloc
    simp only at hloc
    subst hloc
    obtain ⟨h1, h2⟩ := switchB_completion quantumA quantumB s t hi he hq
    have hx : execB preemption quantumA quantumB s = some (switchB quantumA quantumB s t) := by
      simp [execB, ht, hno]
    obtain ⟨r, hp⟩ := tailB_procs (switchB quantumA quantumB s t) (getT s.tasks t).parent
    have h3 : (tailB (switchB quantumA quantumB s t)).stats.runtime =
        wrap32 (wrap32 (s.stats.runtime + 1) + 1) := by
      rw [tailB_runtime, h2]
    refine ⟨_, hx, h1, h2, by simp [next, hcpu, hx], by rw [hp]; exact h1, h3, ?_⟩
    intro hlo hhi
    simp only at hlo hhi
    have e1 : wrap32 (s.stats.runtime + 1) = s.stats.runtime + 1 :=
      wrap32_eq (by show _ ≤ s.stats.runtime + 1; omega) (by show s.stats.runtime + 1 ≤ _; omega)
    have e2 : wrap32 (s.stats.runtime + 1 + 1) = s.stats.runtime + 1 + 1 :=
      wrap32_eq (by show _ ≤ s.stats.runtime + 1 + 1; omega)
        (by show s.stats.runtime + 1 + 1 ≤ _; omega)
    refine ⟨by rw [hp]; show _ = s.stats.runtime + 1; rw [← e1]; exact h1,
      by show _ = s.stats.runtime + 1; rw [← e1]; exact h2, ?_⟩
    show _ = s.stats.runtime + 2
    rw [h3, e1, e2]; omega

/-- Instance of C23: the Terminate task of the I/O process at the 29th state of the
preemptive run with quantumA = 2 and quantumB = 5, in tier A. -/
theorem C23_completion_time_witness :
    runInput true 2 5 ioProcs ioTasks [0] 29 =
      some (stateAt true 2 5 ioProcs ioTasks [0] 29) ∧
    (stateAt true 2 5 ioProcs ioTasks [0] 29).loc = Loc.midA ∧
    (stateAt true 2 5 ioProcs ioTasks [0] 29).sim.cpu ≠ 0 ∧
    (stateAt true 2 5 ioProcs ioTasks [0] 29).sim.t = some 3 ∧
    (getT (stateAt true 2 5 ioProcs ioTasks [0] 29).sim.tasks 3).type = 't' ∧
    (getT (stateAt true 2 5 ioProcs ioTasks [0] 29).sim.tasks 3).parent = 0 ∧
    (getP (stateAt true 2 5 ioProcs ioTasks [0] 29).sim.procs 0).quantum > 0 ∧
    (stateAt true 2 5 ioProcs ioTasks [0] 29).sim.stats.runtime = 3 ∧
    ∃ s1, execA true 2 (stateAt true 2 5 ioProcs ioTasks [0] 29).sim = some s1 ∧
      next true 2 5 (stateAt true 2 5 ioProcs ioTasks [0] 29) =
        some { loc := Loc.inA, sim := tailA s1 } ∧
      (getP (tailA s1).procs
          (getT (stateAt true 2 5 ioProcs ioTasks [0] 29).sim.tasks 3).parent).runtime =
        (stateAt true 2 5 ioProcs ioTasks [0] 29).sim.stats.runtime + 1 ∧
      s1.stats.runtime = (stateAt true 2 5 ioProcs ioTasks [0] 29).sim.stats.runtime + 1 ∧
      (tailA s1).stats.runtime = (stateAt true 2 5 ioProcs ioTasks [0] 29).sim.stats.runtime + 2 :=
  ⟨by decide, by decide, by decide, by decide, by decide, by decide, by decide, by decide,
    match (C23_completion_time true 2 5 ioProcs ioTasks [0]
      (stateAt true 2 5 ioProcs ioTasks [0] 29) 3
      (runInput_Reachable (n := 29) (by decide)) (by decide) (by decide) (by decide)
      (by decide) (by decide)).1 (by decide) with
    | ⟨s1, h1, _, _, h4, _, _, h7⟩ => ⟨s1, h1, h4, h7 (by decide) (by decide)⟩⟩

/-! ### Clock change of an iteration -/

/-- C38 (as stated, refuted): on the input `P1:1`, `arrival_t:2147483647`, `exe:1`, `t`
the non-preemptive engine is at the test of the tier-B loop after 4 moves, with the
compute task on the CPU and the clock at 2147483647; the iteration leaves the clock at
-2147483648, a change of -4294967295 instead of 1.  On `P1:1`, `arrival_t:2147483647`,
`t` the iteration from the 4th state finalizes the Terminate task and leaves the clock at
-2147483647, a change of -4294967294 instead of 2. -/
theorem C38_counterexample :
    runInput false 2 5 lastTickProcs lastTickTasks [0] 4 =
      some (stateAt false 2 5 lastTickProcs lastTickTasks [0] 4) ∧
    (stateAt false 2 5 lastTickProcs lastTickTasks [0] 4).loc = Loc.inB ∧
    condB (stateAt false 2 5 lastTickProcs lastTickTasks [0] 4).sim = true ∧
    (stateAt false 2 5 lastTickProcs lastTickTasks [0] 4).sim.cpu = 1 ∧
    (stateAt false 2 5 lastTickProcs lastTickTasks [0] 4).sim.t = some 0 ∧
    (getT (stateAt false 2 5 lastTickProcs lastTickTasks [0] 4).sim.tasks 0).type = 'e' ∧
    (stateAt false 2 5 lastTickProcs lastTickTasks [0] 4).sim.stats.runtime = 2147483647 ∧
    runFrom false 2 5 2 (stateAt false 2 5 lastTickProcs lastTickTasks [0] 4) =
      some (stateAt false 2 5 lastTickProcs lastTickTasks [0] 6) ∧
    (stateAt false 2 5 lastTickProcs lastTickTasks [0] 6).loc = Loc.inB ∧
    (stateAt false 2 5 lastTickProcs lastTickTasks [0] 6).sim.stats.runtime = -2147483648 ∧
    runInput false 2 5 lastExitProcs lastExitTasks [0] 4 =
      some (stateAt false 2 5 lastExitProcs lastExitTasks [0] 4) ∧
    (stateAt false 2 5 lastExitProcs lastExitTasks [0] 4).loc = Loc.inB ∧
    condB (stateAt false 2 5 lastExitProcs lastExitTasks [0] 4).sim = true ∧
    (stateAt false 2 5 lastExitProcs lastExitTasks [0] 4).sim.cpu = 1 ∧
    (stateAt false 2 5 lastExitProcs lastExitTasks [0] 4).sim.t = some 0 ∧
    (getT (stateAt false 2 5 lastExitProcs lastExitTasks [0] 4).sim.tasks 0).type = 't' ∧
    (getP (stateAt false 2 5 lastExitProcs lastExitTasks [0] 4).sim.procs 0).quantum = 5 ∧
    (stateAt false 2 5 lastExitProcs lastExitTasks [0] 4).sim.stats.runtime = 2147483647 ∧
    runFrom false 2 5 2 (stateAt false 2 5 lastExitProcs lastExitTasks [0] 4) =
      some (stateAt false 2 5 lastExitProcs lastExitTasks [0] 6) ∧
    (stateAt false 2 5 lastExitProcs lastExitTasks [0] 6).loc = Loc.inB ∧
    (stateAt false 2 5 lastExitProcs lastExitTasks [0] 6).sim.stats.runtime = -2147483647 := by
  decide

/-- C38 (amended): in the non-preemptive engine an iteration of a tier loop (two moves from the
loop test, the loop condition holding) leaves the clock and every ready time as they
were when the CPU is idle at its start: it is a dispatch attempt that leaves the loop;
with a task `t` on the CPU it advances the clock by 2 when `t` is a Terminate task whose
process has quantum above 0, and by 1 in every other case, provided that the clock, a
value of the C type `int`, has room for that advance below 2147483647 (the increment of
a clock at 2147483647 wraps around).  Consequently, from a state in
which the CPU is idle, the I/O queue is empty and `getNextTask` finds no task in either
tier, the engine has a state after any number of moves, and clock, queues and stores are
in all of them as in that state. -/
theorem C38_clock_per_iteration (quantumA quantumB : Int) (m : Machine) :
    (m.loc = Loc.inA → condA m.sim = true →
      (m.sim.cpu = 0 →
        ∃ m2, runFrom false quantumA quantumB 2 m = some m2 ∧ m2.loc = Loc.outer ∧
          m2.sim.stats.runtime = m.sim.stats.runtime ∧
          ∀ j, (getP m2.sim.procs j).ready = (getP m.sim.procs j).ready) ∧
      (m.sim.cpu ≠ 0 → ∀ t, m.sim.t = some t →
        ∃ m2, runFrom false quantumA quantumB 2 m = some m2 ∧ m2.loc = Loc.inA ∧
          (-2147483648 ≤ m.sim.stats.runtime →
            m.sim.stats.runtime +
              (if (getT m.sim.tasks t).type ≠ 'i' ∧ (getT m.sim.tasks t).type ≠ 'e' ∧
                  (getP m.sim.procs (getT m.sim.tasks t).parent).quantum > 0
                then 2 else 1) ≤ 2147483647 →
            m2.sim.stats.runtime = m.sim.stats.runtime +
              (if (getT m.sim.tasks t).type ≠ 'i' ∧ (getT m.sim.tasks t).type ≠ 'e' ∧
                  (getP m.sim.procs (getT m.sim.tasks t).parent).quantum > 0
                then 2 else 1)))) ∧
    (m.loc = Loc.inB → condB m.sim = true →
      (m.sim.cpu = 0 →
        ∃ m2, runFrom false quantumA quantumB 2 m = some m2 ∧ m2.loc = Loc.outer ∧
          m2.sim.stats.runtime = m.sim.stats.runtime ∧
          ∀ j, (getP m2.sim.procs j).ready = (getP m.sim.procs j).ready) ∧
      (m.sim.cpu ≠ 0 → ∀ t, m.sim.t = some t →
        ∃ m2, runFrom false quantumA quantumB 2 m = some m2 ∧ m2.loc = Loc.inB ∧
          (-2147483648 ≤ m.sim.stats.runtime →
            m.sim.stats.runtime +
              (if (getT m.sim.tasks t).type ≠ 'i' ∧ (getT m.sim.tasks t).type ≠ 'e' ∧
                  (getP m.sim.procs (getT m.sim.tasks t).parent).quantum > 0
                then 2 else 1) ≤ 2147483647 →
            m2.sim.stats.runtime = m.sim.stats.runtime +
              (if (getT m.sim.tasks t).type ≠ 'i' ∧ (getT m.sim.tasks t).type ≠ 'e' ∧
                  (getP m.sim.procs (getT m.sim.tasks t).parent).quantum > 0
                then 2 else 1)))) ∧
    (m.sim.cpu = 0 → m.sim.ioQueue = [] →
      (getNextTask m.sim.procs m.sim.tasks m.sim.queueA m.sim.readyQueueA
        m.sim.stats.runtime).1 = none →
      (getNextTask m.sim.procs m.sim.tasks m.sim.queueB m.sim.readyQueueB
        m.sim.stats.runtime).1 = none →
      ∀ n, ∃ m1, runFrom false quantumA quantumB n m = some m1 ∧
        m1.sim.stats.runtime = m.sim.stats.runtime ∧
        m1.sim.queueA = m.sim.queueA ∧ m1.sim.queueB = m.sim.queueB ∧
        m1.sim.exitQueue = m.sim.exitQueue ∧ m1.sim.ioQueue = m.sim.ioQueue ∧
        m1.sim.readyQueueA = m.sim.readyQueueA ∧ m1.sim.readyQueueB = m.sim.readyQueueB ∧
        m1.sim.procs = m.sim.procs ∧ m1.sim.tasks = m.sim.tasks) := by
  obtain ⟨loc, s⟩ := m
  have hf := ageTasks_frame s
  have hclock : ∀ (x : Int) (c : Prop) [Decidable c], -2147483648 ≤ x →
      x + (if c then 2 else 1) ≤ 2147483647 →
      wrap32 ((if c then wrap32 (x + 1) else x) + 1) = x + (if c then 2 else 1) := by
    intro x c _ h1 h2
    split_ifs at h2 ⊢
    · have e1 : wrap32 (x + 1) = x + 1 := wrap32_eq (by omega) (by omega)
      rw [e1, wrap32_eq (by omega) (by omega)]; omega
    · exact wrap32_eq (by omega) (by omega)
  refine ⟨?_, ?_, ?_⟩
  · intro hloc hc
    simp only at hloc hc
    subst hloc
    constructor
    · intro hcpu
      simp only at hcpu
      have hcpu1 : (ageTasks s).cpu = 0 := by rw [hf.2.2.1]; exact hcpu
      refine ⟨{ loc := Loc.outer, sim := dispatch false true (ageTasks s) },
        by simp [runFrom, next, hc, hcpu1], rfl, ?_, fun j => ?_⟩
      · show (dispatch false true (ageTasks s)).stats.runtime = s.stats.runtime
        rw [dispatch_runtime, hf.2.2.2.2.2.2.2]
      · show (getP (dispatch false true (ageTasks s)).procs j).ready = (getP s.procs j).ready
        rw [dispatch_ready, ageTasks_ready]
    · intro hcpu t ht
      simp only at hcpu ht
      have hcpu1 : ¬ (ageTasks s).cpu = 0 := by rw [hf.2.2.1]; exact hcpu
      have ht1 : (ageTasks s).t = some t := by rw [hf.2.2.2.1]; exact ht
      refine ⟨{ loc := Loc.inA, sim := tailA (switchA quantumA (ageTasks s) t) },
        by simp [runFrom, next, hc, hcpu1, execA, ht1], rfl, ?_⟩
      intro hlo hhi
      simp only at hlo hhi
      show (tailA (switchA quantumA (ageTasks s) t)).stats.runtime = _
      rw [tailA_runtime, switchA_runtime, hf.2.2.2.2.2.2.2]
      simp only [ageTasks_type, ageTasks_parent, ageTasks_quantum]
      exact hclock _ _ hlo hhi
  · intro hloc hc
    simp only at hloc hc
    subst hloc
    constructor
    · intro hcpu
      simp only at hcpu
      have hcpu1 : (ageTasks s).cpu = 0 := by rw [hf.2.2.1]; exact hcpu
      refine ⟨{ loc := Loc.outer, sim := dispatch false false (ageTasks s) },
        by simp [runFrom, next, hc, hcpu1], rfl, ?_, fun j => ?_⟩
      · show (dispatch false false (ageTasks s)).stats.runtime = s.stats.runtime
        rw [dispatch_runtime, hf.2.2.2.2.2.2.2]
      · show (getP (dispatch false false (ageTasks s)).procs j).ready = (getP s.procs j).ready
        rw [dispatch_ready, ageTasks_ready]
    · intro hcpu t ht
      simp only at hcpu ht
      have hcpu1 : ¬ (ageTasks s).cpu = 0 := by rw [hf.2.2.1]; exact hcpu
      have ht1 : (ageTasks s).t = some t := by rw [hf.2.2.2.1]; exact ht
      refine ⟨{ loc := Loc.inB, sim := tailB (switchB quantumA quantumB (ageTasks s) t) },
        by simp [runFrom, next, hc, hcpu1, execB, ht1], rfl, ?_⟩
      intro hlo hhi
      simp only at hlo hhi
      show (tailB (switchB quantumA quantumB (ageTasks s) t)).stats.runtime = _
      rw [tailB_runtime, switchB_runtime, hf.2.2.2.2.2.2.2]
      simp only [ageTasks_type, ageTasks_parent, ageTasks_quantum]
      exact hclock _ _ hlo hhi
  · intro hcpu hio hA hB n
    simp only at hcpu hio hA hB
    obtain ⟨m1, h1, h2⟩ := stuck_run quantumA quantumB s hcpu hio hA hB n
      { loc := loc, sim := s } rfl
    refine ⟨m1, h1, ?_⟩
    rw [h2]
    exact ⟨rfl, rfl, rfl, rfl, rfl, rfl, rfl, rfl, rfl⟩

/-- Instance of the amended C38: in the non-preemptive run on the I/O process with quantumA = 2 and
quantumB = 5 the 28th state is the loop test of tier A with the Terminate task on the
CPU, and the iteration advances the clock by 2; the 35th state is idle with nothing to
dispatch, and the clock and the queues stay as they are. -/
theorem C38_clock_per_iteration_witness :
    runInput false 2 5 ioProcs ioTasks [0] 28 =
      some (stateAt false 2 5 ioProcs ioTasks [0] 28) ∧
    (stateAt false 2 5 ioProcs ioTasks [0] 28).loc = Loc.inA ∧
    condA (stateAt false 2 5 ioProcs ioTasks [0] 28).sim = true ∧
    (stateAt false 2 5 ioProcs ioTasks [0] 28).sim.cpu ≠ 0 ∧
    (stateAt false 2 5 ioProcs ioTasks [0] 28).sim.t = some 3 ∧
    (∃ m2, runFrom false 2 5 2 (stateAt false 2 5 ioProcs ioTasks [0] 28) = some m2 ∧
      m2.loc = Loc.inA ∧
      m2.sim.stats.runtime = (stateAt false 2 5 ioProcs ioTasks [0] 28).sim.stats.runtime +
        (if (getT (stateAt false 2 5 ioProcs ioTasks [0] 28).sim.tasks 3).type ≠ 'i' ∧
            (getT (stateAt false 2 5 ioProcs ioTasks [0] 28).sim.tasks 3).type ≠ 'e' ∧
            (getP (stateAt false 2 5 ioProcs ioTasks [0] 28).sim.procs
              (getT (stateAt false 2 5 ioProcs ioTasks [0] 28).sim.tasks 3).parent).quantum > 0
          then 2 else 1)) ∧
    ∀ n, ∃ m1, runFrom false 2 5 n (stateAt false 2 5 ioProcs ioTasks [0] 35) = some m1 ∧
      m1.sim.stats.runtime = (stateAt false 2 5 ioProcs ioTasks [0] 35).sim.stats.runtime ∧
      m1.sim.queueA = (stateAt false 2 5 ioProcs ioTasks [0] 35).sim.queueA ∧
      m1.sim.queueB = (stateAt false 2 5 ioProcs ioTasks [0] 35).sim.queueB ∧
      m1.sim.exitQueue = (stateAt false 2 5 ioProcs ioTasks [0] 35).sim.exitQueue ∧
      m1.sim.ioQueue = (stateAt false 2 5 ioProcs ioTasks [0] 35).sim.ioQueue ∧
      m1.sim.readyQueueA = (stateAt false 2 5 ioProcs ioTasks [0] 35).sim.readyQueueA ∧
      m1.sim.readyQueueB = (stateAt false 2 5 ioProcs ioTasks [0] 35).sim.readyQueueB ∧
      m1.sim.procs = (stateAt false 2 5 ioProcs ioTasks [0] 35).sim.procs ∧
      m1.sim.tasks = (stateAt false 2 5 ioProcs ioTasks [0] 35).sim.tasks :=
  ⟨by decide, by decide, by decide, by decide, by decide,
    match ((C38_clock_per_iteration 2 5 (stateAt false 2 5 ioProcs ioTasks [0] 28)).1
      (by decide) (by decide)).2 (by decide) 3 (by decide) with
    | ⟨m2, h1, h2, h3⟩ => ⟨m2, h1, h2, h3 (by decide) (by decide)⟩,
    (C38_clock_per_iteration 2 5 (stateAt false 2 5 ioProcs ioTasks [0] 35)).2.2
      (by decide) (by decide) (by decide) (by decide)⟩

/-! ### Places of a Terminate task -/

theorem switchA_self_exact (quantumA : Int) (s : Sim) (t : Nat) (ht : s.t = some t)
    (hcomp : completedCount s.tasks t = 0)
    (hi : (getT s.tasks t).type ≠ 'i') (he : (getT s.tasks t).type ≠ 'e') :
    (0 < (getP s.procs (getT s.tasks t).parent).quantum →
      (switchA quantumA s t).readyQueueA.count t + (switchA quantumA s t).readyQueueB.count t +
        (switchA quantumA s t).ioQueue.count t + slotCount (switchA quantumA s t) t +
        completedCount (switchA quantumA s t).tasks t =
      s.readyQueueA.count t + s.readyQueueB.count t + s.ioQueue.count t +
        completedCount s.tasks t) ∧
    (¬ 0 < (getP s.procs (getT s.tasks t).parent).quantum →
      (switchA quantumA s t).readyQueueA.count t + (switchA quantumA s t).readyQueueB.count t +
        (switchA quantumA s t).ioQueue.count t + slotCount (switchA quantumA s t) t +
        completedCount (switchA quantumA s t).tasks t =
      s.readyQueueA.count t + s.readyQueueB.count t + s.ioQueue.count t + 1 +
        completedCount s.tasks t) := by
  unfold completedCount at hcomp
  constructor <;> intro hq <;>
    (simp only [switchA, finalize, updP, updT, updStats, hi, he, if_false]
     split_ifs <;>
      simp_all [count_priorityEnqueueTask, enqueueTask, completedCount, slotCount] <;> omega)

theorem switchB_self_exact (quantumA quantumB : Int) (s : Sim) (t : Nat) (ht : s.t = some t)
    (hcomp : completedCount s.tasks t = 0)
    (hi : (getT s.tasks t).type ≠ 'i') (he : (getT s.tasks t).type ≠ 'e') :
    (0 < (getP s.procs (getT s.tasks t).parent).quantum →
      (switchB quantumA quantumB s t).readyQueueA.count t +
        (switchB quantumA quantumB s t).readyQueueB.count t +
        (switchB quantumA quantumB s t).ioQueue.count t +
        slotCount (switchB quantumA quantumB s t) t +
        completedCount (switchB quantumA quantumB s t).tasks t =
      s.readyQueueA.count t + s.readyQueueB.count t + s.ioQueue.count t +
        completedCount s.tasks t) ∧
    (¬ 0 < (getP s.procs (getT s.tasks t).parent).quantum →
      (switchB quantumA quantumB s t).readyQueueA.count t +
        (switchB quantumA quantumB s t).readyQueueB.count t +
        (switchB quantumA quantumB s t).ioQueue.count t +
        slotCount (switchB quantumA quantumB s t) t +
        completedCount (switchB quantumA quantumB s t).tasks t =
      s.readyQueueA.count t + s.readyQueueB.count t + s.ioQueue.count t + 1 +
        completedCount s.tasks t) := by
  unfold completedCount at hcomp
  constructor <;> intro hq <;>
    (simp only [switchB, finalize, doPromote, updP, updT, updStats, hi, he, if_false]
     split_ifs <;>
      simp_all [count_priorityEnqueueTask, enqueueTask, completedCount, slotCount] <;> omega)

theorem switchA_places_terminate (quantumA : Int) (s : Sim) (t y : Nat) (ht : s.t = some t)
    (hc : s.cpu ≠ 0) (hle : places s t ≤ 1)
    (hi : (getT s.tasks y).type ≠ 'i') (he : (getT s.tasks y).type ≠ 'e') :
    (y = t ∧ 0 < (getP s.procs (getT s.tasks y).parent).quantum →
      places (switchA quantumA s t) y = 0) ∧
    (¬ (y = t ∧ 0 < (getP s.procs (getT s.tasks y).parent).quantum) →
      places (switchA quantumA s t) y = places s y) := by
  have hp := pendingCount_congr y s.procs (switchA quantumA s t).procs
    (switchA_pending quantumA s t)
  by_cases hy : y = t
  · subst hy
    have hslot := slotCount_pos ht hc
    have hcomp : completedCount s.tasks y = 0 := by
      unfold places at hle
      omega
    obtain ⟨h1, h2⟩ := switchA_self_exact quantumA s y ht hcomp hi he
    constructor
    · rintro ⟨_, hq⟩
      have := h1 hq
      unfold places at hle ⊢
      omega
    · intro hn
      have := h2 (fun hq => hn ⟨rfl, hq⟩)
      unfold places
      omega
  · obtain ⟨h1, h2, h3, h4, h5⟩ := switchA_rest quantumA s t y hy
    have hs0 := slotCount_other ht hy
    have hs1 : slotCount (switchA quantumA s t) y = 0 := slotCount_other (h5.trans ht) hy
    constructor
    · rintro ⟨h, _⟩
      exact absurd h hy
    · intro _
      unfold places
      omega

theorem switchB_places_terminate (quantumA quantumB : Int) (s : Sim) (t y : Nat)
    (ht : s.t = some t) (hc : s.cpu ≠ 0) (hle : places s t ≤ 1)
    (hi : (getT s.tasks y).type ≠ 'i') (he : (getT s.tasks y).type ≠ 'e') :
    (y = t ∧ 0 < (getP s.procs (getT s.tasks y).parent).quantum →
      places (switchB quantumA quantumB s t) y = 0) ∧
    (¬ (y = t ∧ 0 < (getP s.procs (getT s.tasks y).parent).quantum) →
      places (switchB quantumA quantumB s t) y = places s y) := by
  have hp := pendingCount_congr y s.procs (switchB quantumA quantumB s t).procs
    (switchB_pending quantumA quantumB s t)
  by_cases hy : y = t
  · subst hy
    have hslot := slotCount_pos ht hc
    have hcomp : completedCount s.tasks y = 0 := by
      unfold places at hle
      omega
    obtain ⟨h1, h2⟩ := switchB_self_exact quantumA quantumB s y ht hcomp hi he
    constructor
    · rintro ⟨_, hq⟩
      have := h1 hq
      unfold places at hle ⊢
      omega
    · intro hn
      have := h2 (fun hq => hn ⟨rfl, hq⟩)
      unfold places
      omega
  · obtain ⟨h1, h2, h3, h4, h5⟩ := switchB_rest quantumA quantumB s t y hy
    have hs0 := slotCount_other ht hy
    have hs1 : slotCount (switchB quantumA quantumB s t) y = 0 :=
      slotCount_other (h5.trans ht) hy
    constructor
    · rintro ⟨h, _⟩
      exact absurd h hy
    · intro _
      unfold places
      omega

/-- One move of the non-preemptive engine and the places of a task `y` that is neither
compute nor I/O: the move that executes `y` with quantum left takes it out of its place,
every other move leaves it where it is. -/
theorem next_places_terminate (quantumA quantumB : Int) (m m1 : Machine)
    (hR : ReadyInv m) (hle : ∀ a, places m.sim a ≤ 1)
    (h : next false quantumA quantumB m = some m1) (y : Nat)
    (hi : (getT m.sim.tasks y).type ≠ 'i') (he : (getT m.sim.tasks y).type ≠ 'e') :
    (ExecutedNext m y → places m1.sim y = 0) ∧
    (¬ ExecutedNext m y → places m1.sim y = places m.sim y) := by
  obtain ⟨loc, s⟩ := m
  simp only at hle hi he
  have hnot : ∀ l : Loc, l ≠ Loc.midA → l ≠ Loc.midB → ∀ s1 : Sim,
      places s1 y = places s y →
      (ExecutedNext { loc := l, sim := s } y → places s1 y = 0) ∧
      (¬ ExecutedNext { loc := l, sim := s } y → places s1 y = places s y) := by
    intro l h1 h2 s1 e
    refine ⟨fun hx => ?_, fun _ => e⟩
    rcases hx.1 with h3 | h3
    · exact absurd h3 h1
    · exact absurd h3 h2
  have hidle : ∀ l : Loc, s.cpu = 0 → ∀ s1 : Sim, places s1 y = places s y →
      (ExecutedNext { loc := l, sim := s } y → places s1 y = 0) ∧
      (¬ ExecutedNext { loc := l, sim := s } y → places s1 y = places s y) := by
    intro l hc s1 e
    exact ⟨fun hx => absurd hc hx.2.1, fun _ => e⟩
  cases loc with
  | outer =>
    simp only [next] at h
    split_ifs at h <;> (cases h; exact hnot _ (by decide) (by decide) _ rfl)
  | inA =>
    simp only [next] at h
    split_ifs at h
    · cases h; exact hnot _ (by decide) (by decide) _ (ageTasks_places hle y)
    · cases h; exact hnot _ (by decide) (by decide) _ rfl
  | inB =>
    simp only [next] at h
    split_ifs at h
    · cases h; exact hnot _ (by decide) (by decide) _ (ageTasks_places hle y)
    · cases h; exact hnot _ (by decide) (by decide) _ rfl
  | done =>
    simp only [next] at h
    cases h
    exact hnot _ (by decide) (by decide) _ rfl
  | midA =>
    simp only [next] at h
    split_ifs at h with hc
    · cases h
      exact hidle _ hc _ (dispatch_places true s hc y)
    · cases ht : s.t with
      | none => simp [execA, ht] at h
      | some t =>
        simp [execA, ht] at h
        cases h
        obtain ⟨h1, h2⟩ := switchA_places_terminate quantumA s t y ht hc (hle t) hi he
        simp only [tailA_places]
        constructor
        · intro hx
          have e : t = y := Option.some.inj (ht.symm.trans hx.2.2.1)
          exact h1 ⟨e.symm, hx.2.2.2⟩
        · intro hx
          refine h2 (fun hn => hx ⟨Or.inl rfl, hc, ?_, hn.2⟩)
          rw [ht, hn.1]
  | midB =>
    simp only [next] at h
    split_ifs at h with hc
    · cases h
      exact hidle _ hc _ (dispatch_places false s hc y)
    · cases ht : s.t with
      | none => simp [execB, ht] at h
      | some t =>
        simp [execB, ht] at h
        cases h
        obtain ⟨h1, h2⟩ := switchB_places_terminate quantumA quantumB s t y ht hc (hle t) hi he
        simp only [tailB_places]
        constructor
        · intro hx
          have e : t = y := Option.some.inj (ht.symm.trans hx.2.2.1)
          exact h1 ⟨e.symm, hx.2.2.2⟩
        · intro hx
          refine h2 (fun hn => hx ⟨Or.inr rfl, hc, ?_, hn.2⟩)
          rw [ht, hn.1]

theorem runFrom_places_terminate (quantumA quantumB : Int) (y : Nat) (n : Nat) :
    ∀ m m1 : Machine, ReadyInv m → (∀ a, places m.sim a ≤ 1) →
      (getT m.sim.tasks y).type ≠ 'i' → (getT m.sim.tasks y).type ≠ 'e' →
      runFrom false quantumA quantumB n m = some m1 →
      ((∃ k mk, k < n ∧ runFrom false quantumA quantumB k m = some mk ∧ ExecutedNext mk y) →
        places m1.sim y = 0) ∧
      (¬ (∃ k mk, k < n ∧ runFrom false quantumA quantumB k m = some mk ∧
          ExecutedNext mk y) → places m1.sim y = places m.sim y) := by
  induction n with
  | zero =>
    intro m m1 _ _ _ _ h
    simp [runFrom] at h
    subst h
    exact ⟨fun ⟨k, _, hk, _⟩ => absurd hk (Nat.not_lt_zero k), fun _ => rfl⟩
  | succ n ih =>
    intro m m1 hR hle hi he h
    simp only [runFrom] at h
    cases hn : next false quantumA quantumB m with
    | none => simp [hn] at h
    | some m2 =>
      simp only [hn] at h
      have hstep := next_places false quantumA quantumB m m2 hR hle hn
      have hR2 := next_ReadyInv false quantumA quantumB m m2 hR hn
      have hle2 : ∀ a, places m2.sim a ≤ 1 := fun a => le_trans (hstep a).2.1 (hle a)
      have hi2 : (getT m2.sim.tasks y).type ≠ 'i' := by rw [(hstep y).1]; exact hi
      have he2 : (getT m2.sim.tasks y).type ≠ 'e' := by rw [(hstep y).1]; exact he
      obtain ⟨a1, a2⟩ := ih m2 m1 hR2 hle2 hi2 he2 h
      obtain ⟨b1, b2⟩ := next_places_terminate quantumA quantumB m m2 hR hle hn y hi he
      have hshift : ∀ k mk, runFrom false quantumA quantumB (k + 1) m = some mk ↔
          runFrom false quantumA quantumB k m2 = some mk := by
        intro k mk
        simp only [runFrom, hn]
      constructor
      · rintro ⟨k, mk, hk, hrun, hx⟩
        by_cases hlater : ∃ k mk, k < n ∧ runFrom false quantumA quantumB k m2 = some mk ∧
            ExecutedNext mk y
        · exact a1 hlater
        · rw [a2 hlater]
          cases k with
          | zero =>
            simp only [runFrom, Option.some.injEq] at hrun
            subst hrun
            exact b1 hx
          | succ k =>
            exact absurd ⟨k, mk, Nat.lt_of_succ_lt_succ hk, (hshift k mk).1 hrun, hx⟩ hlater
      · intro hnone
        have h0 : ¬ ExecutedNext m y := fun hx => hnone ⟨0, m, Nat.succ_pos n, rfl, hx⟩
        have hl : ¬ ∃ k mk, k < n ∧ runFrom false quantumA quantumB k m2 = some mk ∧
            ExecutedNext mk y := by
          rintro ⟨k, mk, hk, hrun, hx⟩
          exact hnone ⟨k + 1, mk, Nat.succ_lt_succ hk, (hshift k mk).2 hrun, hx⟩
        rw [a2 hl, b2 h0]

/-- C14 (as stated, refuted): on the input `P1:1`, `arrival_t:0`, `exe:5`, `t` with
quantumA = 2 and quantumB = 6 the non-preemptive run has ended after 23 moves; the
Terminate task 1 of process 0, which was pending once after initialization, is then
neither pending, nor in a ready queue, nor in the I/O queue, nor on the CPU, nor marked
Completed, so the five counts of process 0 sum to 1, not 2. -/
theorem C14_counterexample :
    runInput false 2 6 (soloProcs 6) soloTasks [0] 23 =
      some (stateAt false 2 6 (soloProcs 6) soloTasks [0] 23) ∧
    (stateAt false 2 6 (soloProcs 6) soloTasks [0] 23).loc = Loc.done ∧
    pendingCount (soloProcs 6) 1 = 1 ∧ pendingCount (soloProcs 6) 0 = 1 ∧
    (getT soloTasks 1).type = 't' ∧ (getT soloTasks 1).parent = 0 ∧
    (getT soloTasks 0).parent = 0 ∧
    (getT (stateAt false 2 6 (soloProcs 6) soloTasks [0] 23).sim.tasks 1).completed = 0 ∧
    places (stateAt false 2 6 (soloProcs 6) soloTasks [0] 23).sim 1 = 0 ∧
    places (stateAt false 2 6 (soloProcs 6) soloTasks [0] 23).sim 0 = 1 := by
  decide

/-- C14 (amended): in every state of a run of the tick engine, in either mode, from
stores in which every task is pending at most once and none is marked Completed, each
task is in at most one of the five places (pending in a task sequence, in a ready queue,
in the I/O queue, on the CPU, marked Completed) and in no more places than it was pending
after initialization.  Without preemption each compute task and each I/O task is in as
many places as it was pending after initialization, that is in exactly one if it was
pending; and a task of any other type (a Terminate task) is so until the step that
executes it with quantum left for its process, and is in none of the places after that
step. -/
theorem C14_task_accounting (preemption : Bool) (quantumA quantumB : Int)
    (procs : List Process) (tasks : List Task) (queueB : List Nat) (n : Nat) (m : Machine)
    (hr : runInput preemption quantumA quantumB procs tasks queueB n = some m)
    (hp : ∀ y, pendingCount procs y ≤ 1) (hc : ∀ y, (getT tasks y).completed ≠ 1)
    (y : Nat) :
    places m.sim y ≤ 1 ∧ places m.sim y ≤ pendingCount procs y ∧
    (preemption = false → (getT tasks y).type = 'e' ∨ (getT tasks y).type = 'i' →
      places m.sim y = pendingCount procs y) ∧
    (preemption = false → (getT tasks y).type ≠ 'e' → (getT tasks y).type ≠ 'i' →
      ((∃ k mk, k < n ∧ runInput false quantumA quantumB procs tasks queueB k = some mk ∧
          ExecutedNext mk y) → places m.sim y = 0) ∧
      (¬ (∃ k mk, k < n ∧ runInput false quantumA quantumB procs tasks queueB k = some mk ∧
          ExecutedNext mk y) → places m.sim y = pendingCount procs y)) := by
  unfold runInput at hr
  unfold start at hr
  cases hq : peekProcess queueB with
  | none => simp [hq] at hr
  | some p =>
    simp only [hq] at hr
    have h0 : ∀ a, places
        { procs := procs, tasks := tasks, queueA := [], queueB := queueB,
          exitQueue := [], ioQueue := [], readyQueueA := [], readyQueueB := [],
          stats := { initializeStats with runtime := (getP procs p).arrival,
                                          startTime := (getP procs p).arrival },
          t := none, cpu := 0 } a = pendingCount procs a := by
      intro a
      simp [places, slotCount, completedCount, hc a]
    have hle0 := fun a => (h0 a).le.trans (hp a)
    obtain ⟨ht, hle, he⟩ := runFrom_places preemption quantumA quantumB n _ m (Or.inl rfl)
      hle0 hr y
    rw [h0 y] at hle he
    refine ⟨hle.trans (hp y), hle, fun hpre hty => ?_, fun hpre hne hni => ?_⟩
    · rcases he hpre with h1 | ⟨h1, h2, _⟩
      · exact h1
      · rcases hty with h3 | h3
        · exact absurd h3 h2
        · exact absurd h3 h1
    · subst hpre
      have hrun : ∀ k mk, runInput false quantumA quantumB procs tasks queueB k = some mk ↔
          runFrom false quantumA quantumB k
            { loc := Loc.outer,
              sim := { procs := procs, tasks := tasks, queueA := [], queueB := queueB,
                       exitQueue := [], ioQueue := [], readyQueueA := [], readyQueueB := [],
                       stats := { initializeStats with
                                    runtime := (getP procs p).arrival,
                                    startTime := (getP procs p).arrival },
                       t := none, cpu := 0 } } = some mk := by
        intro k mk
        simp only [runInput, start, hq]
      obtain ⟨a1, a2⟩ := runFrom_places_terminate quantumA quantumB y n _ m (Or.inl rfl)
        hle0 hni hne hr
      rw [h0 y] at a2
      constructor
      · rintro ⟨k, mk, hk, hrk, hx⟩
        exact a1 ⟨k, mk, hk, (hrun k mk).1 hrk, hx⟩
      · intro hnone
        refine a2 ?_
        rintro ⟨k, mk, hk, hrk, hx⟩
        exact hnone ⟨k, mk, hk, (hrun k mk).2 hrk, hx⟩

/-- Instance of the amended C14: the non-preemptive run on `exe:5`, `t` with quantumB = 6.
After 15 moves no step has executed the Terminate task 1, which is in one place; the move
from the 20th state executes it with quantum 1, and it is in no place at the end of the
run, after 23 moves. -/
theorem C14_task_accounting_witness :
    (∀ y, pendingCount (soloProcs 6) y ≤ 1) ∧ (∀ y, (getT soloTasks y).completed ≠ 1) ∧
    (getT soloTasks 1).type = 't' ∧ pendingCount (soloProcs 6) 1 = 1 ∧
    runInput false 2 6 (soloProcs 6) soloTasks [0] 15 =
      some (stateAt false 2 6 (soloProcs 6) soloTasks [0] 15) ∧
    places (stateAt false 2 6 (soloProcs 6) soloTasks [0] 15).sim 1 = 1 ∧
    runInput false 2 6 (soloProcs 6) soloTasks [0] 20 =
      some (stateAt false 2 6 (soloProcs 6) soloTasks [0] 20) ∧
    ExecutedNext (stateAt false 2 6 (soloProcs 6) soloTasks [0] 20) 1 ∧
    runInput false 2 6 (soloProcs 6) soloTasks [0] 23 =
      some (stateAt false 2 6 (soloProcs 6) soloTasks [0] 23) ∧
    places (stateAt false 2 6 (soloProcs 6) soloTasks [0] 23).sim 1 = 0 :=
  have hp : ∀ y, pendingCount (soloProcs 6) y ≤ 1 := by
    intro y
    simp only [pendingCount, soloProcs, parsedProcess, List.map_cons, List.map_nil,
      List.sum_cons, List.sum_nil, List.count_cons, List.count_nil]
    rcases y with _ | _ | _ | y <;> simp
  have hc : ∀ y, (getT soloTasks y).completed ≠ 1 := by
    intro y
    rcases y with _ | _ | _ | y <;> simp [getT, soloTasks, parsedTask, default_task]
  have h15 : runInput false 2 6 (soloProcs 6) soloTasks [0] 15 =
      some (stateAt false 2 6 (soloProcs 6) soloTasks [0] 15) := by decide
  have h20 : runInput false 2 6 (soloProcs 6) soloTasks [0] 20 =
      some (stateAt false 2 6 (soloProcs 6) soloTasks [0] 20) := by decide
  have h23 : runInput false 2 6 (soloProcs 6) soloTasks [0] 23 =
      some (stateAt false 2 6 (soloProcs 6) soloTasks [0] 23) := by decide
  have hx : ExecutedNext (stateAt false 2 6 (soloProcs 6) soloTasks [0] 20) 1 := by decide
  have hbefore : ∀ k, k < 15 →
      ¬ ExecutedNext (stateAt false 2 6 (soloProcs 6) soloTasks [0] k) 1 := by decide
  have hsome : ∀ k, k < 15 → runInput false 2 6 (soloProcs 6) soloTasks [0] k =
      some (stateAt false 2 6 (soloProcs 6) soloTasks [0] k) := by decide
  ⟨hp, hc, by decide, by decide, h15,
    (((C14_task_accounting false 2 6 (soloProcs 6) soloTasks [0] 15
      (stateAt false 2 6 (soloProcs 6) soloTasks [0] 15) h15 hp hc 1).2.2.2 rfl
        (by decide) (by decide)).2 (by
          rintro ⟨k, mk, hk, hrk, hxk⟩
          rw [hsome k hk] at hrk
          cases hrk
          exact hbefore k hk hxk)).trans (by decide),
    h20, hx, h23,
    ((C14_task_accounting false 2 6 (soloProcs 6) soloTasks [0] 23
      (stateAt false 2 6 (soloProcs 6) soloTasks [0] 23) h23 hp hc 1).2.2.2 rfl
        (by decide) (by decide)).1 ⟨20, _, by decide, h20, hx⟩⟩

/-! ### A compute task that keeps the CPU -/

theorem switchA_continued (quantumA : Int) (s : Sim) (t : Nat)
    (he : (getT s.tasks t).type = 'e') (htime : 0 < (getT s.tasks t).time)
    (hq : 0 < (getP s.procs (getT s.tasks t).parent).quantum) :
    ContinuedStep s (switchA quantumA s t) t ∧
    ∀ j, (getP (switchA quantumA s t).procs j).ready = (getP s.procs j).ready := by
  have h1 : ¬ (getT s.tasks t).time = 0 := by omega
  have h2 : ¬ (getP s.procs (getT s.tasks t).parent).quantum ≤ 0 := by omega
  have h3 : ¬ ('e' : Char) = 'i' := by decide
  simp only [switchA, he, h1, h2, h3, updP, updT, ContinuedStep, if_true, if_false]
  refine ⟨⟨trivial, trivial, by simp, fun y hy => by simp [getT_setT_ne _ _ _ _ hy],
    ⟨(getP s.procs (getT s.tasks t).parent).ready, by simp⟩,
    fun j hj => ⟨(getP s.procs j).ready, by simp [getP_setP_ne _ _ _ _ hj]⟩,
    trivial, trivial, trivial, trivial, trivial, trivial, trivial⟩, fun j => ?_⟩
  simp only [getP_setP]
  split_ifs with hj
  · subst hj; rfl
  · rfl

theorem switchB_continued (quantumA quantumB : Int) (s : Sim) (t : Nat)
    (he : (getT s.tasks t).type = 'e') (htime : 0 < (getT s.tasks t).time)
    (hq : 0 < (getP s.procs (getT s.tasks t).parent).quantum) :
    ContinuedStep s (switchB quantumA quantumB s t) t ∧
    ∀ j, (getP (switchB quantumA quantumB s t).procs j).ready = (getP s.procs j).ready := by
  have h1 : ¬ (getT s.tasks t).time = 0 := by omega
  have h2 : ¬ (getP s.procs (getT s.tasks t).parent).quantum = 0 := by omega
  have h3 : ¬ ('e' : Char) = 'i' := by decide
  simp only [switchB, he, h1, h2, h3, updP, updT, ContinuedStep, if_true, if_false]
  refine ⟨⟨trivial, trivial, by simp, fun y hy => by simp [getT_setT_ne _ _ _ _ hy],
    ⟨(getP s.procs (getT s.tasks t).parent).ready, by simp⟩,
    fun j hj => ⟨(getP s.procs j).ready, by simp [getP_setP_ne _ _ _ _ hj]⟩,
    trivial, trivial, trivial, trivial, trivial, trivial, trivial⟩, fun j => ?_⟩
  simp only [getP_setP]
  split_ifs with hj
  · subst hj; rfl
  · rfl

theorem ContinuedStep_tail {s s1 s2 : Sim} {t : Nat} (hT : TailOf s1 s2)
    (ht : s2.t = s1.t) (hio : s2.ioQueue = s1.ioQueue) (h : ContinuedStep s s1 t) :
    ContinuedStep s s2 t := by
  obtain ⟨a1, a2, a3, a4, ⟨r, a5⟩, a6, a7, a8, a9, a10, a11, a12, a13⟩ := h
  obtain ⟨b1, b2, b3, b4, b5, b6, b7, b8, b9⟩ := hT
  refine ⟨by rw [b3, a1], by rw [ht, a2], by rw [b7, a3], fun y hy => by rw [b7, a4 y hy],
    ?_, fun j hj => ?_, by rw [b4, a7], by rw [b5, a8], by rw [b6, a9], by rw [hio, a10],
    by rw [b1, a11], by rw [b2, a12], by rw [b8, a13]⟩
  · obtain ⟨r2, hr2⟩ := b9 (getT s.tasks t).parent
    exact ⟨r2, by rw [hr2, a5]⟩
  · obtain ⟨r1, hr1⟩ := a6 j hj
    obtain ⟨r2, hr2⟩ := b9 j
    exact ⟨r2, by rw [hr2, hr1]⟩

/-- The step on a compute task that keeps the CPU: in every state reachable by either
engine (in the preemptive one the preemption check answers 0 there) in which a compute task
`t` with remaining time above 0 occupies the CPU at the execution point of a tier loop and
its process has quantum above 0, the step is defined and is `ContinuedStep`: the time of
`t` and the quantum of its process go down by exactly one, CPU flag and current task stay,
the running flag of the process is as before, no queue changes and no counter of
completions, interrupts or instructions does.  The step itself changes no ready time, and
all of this still holds at the end of the iteration. -/
theorem compute_continues (preemption : Bool) (quantumA quantumB : Int)
    (procs : List Process) (tasks : List Task) (queueB : List Nat) (m : Machine) (t : Nat)
    (hr : Reachable preemption quantumA quantumB procs tasks queueB m)
    (hcpu : m.sim.cpu ≠ 0) (ht : m.sim.t = some t)
    (he : (getT m.sim.tasks t).type = 'e') (htime : 0 < (getT m.sim.tasks t).time)
    (hq : 0 < (getP m.sim.procs (getT m.sim.tasks t).parent).quantum) :
    (preemption = true →
      preemptionCheck m.sim.procs m.sim.tasks m.sim.readyQueueB t m.sim.stats.runtime
        m.sim.queueB = false) ∧
    (m.loc = Loc.midA →
      ∃ s1, execA preemption quantumA m.sim = some s1 ∧
        next preemption quantumA quantumB m = some { loc := Loc.inA, sim := tailA s1 } ∧
        (∀ j, (getP s1.procs j).ready = (getP m.sim.procs j).ready) ∧
        ∀ s2, s2 = s1 ∨ s2 = tailA s1 →
          ContinuedStep m.sim s2 t ∧ s2.cpu ≠ 0 ∧ s2.t = some t ∧
          (getP s2.procs (getT m.sim.tasks t).parent).taskRunning =
            (getP m.sim.procs (getT m.sim.tasks t).parent).taskRunning) ∧
    (m.loc = Loc.midB →
      ∃ s1, execB preemption quantumA quantumB m.sim = some s1 ∧
        next preemption quantumA quantumB m = some { loc := Loc.inB, sim := tailB s1 } ∧
        (∀ j, (getP s1.procs j).ready = (getP m.sim.procs j).ready) ∧
        ∀ s2, s2 = s1 ∨ s2 = tailB s1 →
          ContinuedStep m.sim s2 t ∧ s2.cpu ≠ 0 ∧ s2.t = some t ∧
          (getP s2.procs (getT m.sim.tasks t).parent).taskRunning =
            (getP m.sim.procs (getT m.sim.tasks t).parent).taskRunning) := by
  have hno := Reachable_no_preemption hr hcpu t
  obtain ⟨loc, s⟩ := m
  simp only at hcpu ht he htime hq hno
  have hfin : ∀ s2, ContinuedStep s s2 t →
      ContinuedStep s s2 t ∧ s2.cpu ≠ 0 ∧ s2.t = some t ∧
        (getP s2.procs (getT s.tasks t).parent).taskRunning =
          (getP s.procs (getT s.tasks t).parent).taskRunning := by
    intro s2 h
    obtain ⟨r, hp⟩ := h.2.2.2.2.1
    exact ⟨h, by rw [h.1]; exact hcpu, by rw [h.2.1]; exact ht, by rw [hp]⟩
  refine ⟨fun hp => by rw [hp] at hno; simpa using hno, ?_, ?_⟩
  · intro hloc
    simp only at hloc
    subst hloc
    obtain ⟨h1, h2⟩ := switchA_continued quantumA s t he htime hq
    have hx : execA preemption quantumA s = some (switchA quantumA s t) := by
      simp [execA, ht, hno]
    refine ⟨_, hx, by simp [next, hcpu, hx], h2, ?_⟩
    rintro s2 (rfl | rfl)
    · exact hfin _ h1
    · have hf := tailA_frame (switchA quantumA s t)
      exact hfin _ (ContinuedStep_tail (tailA_TailOf _) hf.2.2.2.1 hf.2.2.2.2.2.2.2.2 h1)
  · intro hloc
    simp only at hloc
    subst hloc
    obtain ⟨h1, h2⟩ := switchB_continued quantumA quantumB s t he htime hq
    have hx : execB preemption quantumA quantumB s = some (switchB quantumA quantumB s t) := by
      simp [execB, ht, hno]
    refine ⟨_, hx, by simp [next, hcpu, hx], h2, ?_⟩
    rintro s2 (rfl | rfl)
    · exact hfin _ h1
    · have hf := tailB_frame (switchB quantumA quantumB s t)
      exact hfin _ (ContinuedStep_tail (tailB_TailOf _) hf.2.2.2.1 hf.2.2.2.2.2.2.2.2 h1)

/-! ### The running flag of the process on the CPU -/

theorem countP_priorityEnqueueTask (procs : List Process) (tasks : List Task) (q : List Nat)
    (t : Nat) (f : Nat → Bool) :
    (priorityEnqueueTask procs tasks q t).countP f = q.countP f + (if f t = true then 1 else 0) := by
  rw [(priorityEnqueueTask_perm procs tasks t q).countP_eq, List.countP_cons]

theorem switchA_flow (quantumA : Int) (s : Sim) (t : Nat) (f : Nat → Bool) :
    (switchA quantumA s t).ioQueue.countP f + (switchA quantumA s t).readyQueueA.countP f +
        (switchA quantumA s t).readyQueueB.countP f +
        (if (switchA quantumA s t).cpu ≠ 0 ∧ f t = true then 1 else 0) ≤
      s.ioQueue.countP f + s.readyQueueA.countP f + s.readyQueueB.countP f +
        (if f t = true then 1 else 0) := by
  suffices key : ∀ s1, s1 = switchA quantumA s t →
      s1.ioQueue.countP f + s1.readyQueueA.countP f + s1.readyQueueB.countP f +
        (if s1.cpu ≠ 0 ∧ f t = true then 1 else 0) ≤
      s.ioQueue.countP f + s.readyQueueA.countP f + s.readyQueueB.countP f +
        (if f t = true then 1 else 0) from key _ rfl
  intro s1 hs1
  simp only [switchA, finalize, updP, updT, updStats] at hs1
  split_ifs at hs1 <;> subst hs1 <;>
    simp only [countP_priorityEnqueueTask, enqueueTask, List.countP_append, List.countP_cons,
      List.countP_nil] <;>
    split_ifs <;> simp_all <;> omega

theorem switchB_flow (quantumA quantumB : Int) (s : Sim) (t : Nat) (f : Nat → Bool) :
    (switchB quantumA quantumB s t).ioQueue.countP f +
        (switchB quantumA quantumB s t).readyQueueA.countP f +
        (switchB quantumA quantumB s t).readyQueueB.countP f +
        (if (switchB quantumA quantumB s t).cpu ≠ 0 ∧ f t = true then 1 else 0) ≤
      s.ioQueue.countP f + s.readyQueueA.countP f + s.readyQueueB.countP f +
        (if f t = true then 1 else 0) := by
  suffices key : ∀ s1, s1 = switchB quantumA quantumB s t →
      s1.ioQueue.countP f + s1.readyQueueA.countP f + s1.readyQueueB.countP f +
        (if s1.cpu ≠ 0 ∧ f t = true then 1 else 0) ≤
      s.ioQueue.countP f + s.readyQueueA.countP f + s.readyQueueB.countP f +
        (if f t = true then 1 else 0) from key _ rfl
  intro s1 hs1
  simp only [switchB, finalize, doPromote, updP, updT, updStats] at hs1
  split_ifs at hs1 <;> subst hs1 <;>
    simp only [countP_priorityEnqueueTask, enqueueTask, List.countP_append, List.countP_cons,
      List.countP_nil] <;>
    split_ifs <;> simp_all <;> omega

theorem detachProcess_sublist (p : Nat) :
    ∀ q q1 : List Nat, detachProcess q p = some q1 → q1.Sublist q := by
  intro q
  induction q with
  | nil => intro q1 h; simp [detachProcess] at h
  | cons c rest ih =>
    intro q1 h
    by_cases hc : c = p
    · simp [detachProcess, hc] at h
      subst h
      exact List.sublist_cons_self _ _
    · cases hd : detachProcess rest p with
      | none => simp [detachProcess, hc, hd] at h
      | some r =>
        simp [detachProcess, hc, hd] at h
        subst h
        exact (ih r hd).cons₂ c

theorem detachProcess_nodup_notMem (p : Nat) :
    ∀ q q1 : List Nat, q.Nodup → detachProcess q p = some q1 → p ∉ q1 := by
  intro q q1 hn h
  by_cases hm : p ∈ q
  · obtain ⟨pre, post, e, hpre, hd⟩ := detachProcess_split p q hm
    rw [hd] at h
    cases h
    subst e
    have := List.nodup_middle.mp hn
    simp only [List.nodup_cons, List.mem_append] at this
    simp only [List.mem_append]
    exact this.1
  · rw [detachProcess_notMem p q hm] at h
    cases h

theorem promoteProcess_sublist (procs : List Process) (queueB queueA : List Nat) (p : Nat) :
    (promoteProcess procs queueB queueA p).2.1.Sublist queueB := by
  unfold promoteProcess
  cases hd : detachProcess queueB p with
  | none => exact List.Sublist.refl _
  | some q1 => exact detachProcess_sublist p queueB q1 hd

theorem promoteProcess_notMem (procs : List Process) (queueB queueA : List Nat) (p : Nat)
    (hn : queueB.Nodup) : p ∉ (promoteProcess procs queueB queueA p).2.1 := by
  unfold promoteProcess
  cases hd : detachProcess queueB p with
  | none =>
    intro hm
    obtain ⟨q1, h⟩ := detachProcess_of_mem p queueB hm
    rw [hd] at h
    cases h
  | some q1 => exact detachProcess_nodup_notMem p queueB q1 hn hd

theorem endProcess_sublist (q exit : List Nat) (p : Nat) :
    (endProcess q exit p).1.Sublist q := by
  unfold endProcess
  cases hd : detachProcess q p with
  | none => exact List.Sublist.refl _
  | some q1 => exact detachProcess_sublist p q q1 hd

theorem mem_priorityEnqueueTask (procs : List Process) (tasks : List Task) (q : List Nat)
    (t x : Nat) : x ∈ priorityEnqueueTask procs tasks q t ↔ x = t ∨ x ∈ q := by
  rw [(priorityEnqueueTask_perm procs tasks t q).mem_iff, List.mem_cons]

theorem switchA_queueB (quantumA : Int) (s : Sim) (t : Nat) :
    (switchA quantumA s t).queueB = s.queueB := by
  simp only [switchA, finalize, updP, updT, updStats]
  split_ifs <;> rfl

theorem switchB_queueB (quantumA quantumB : Int) (s : Sim) (t : Nat) :
    (switchB quantumA quantumB s t).queueB.Sublist s.queueB := by
  have hp := fun pr => promoteProcess_sublist pr s.queueB s.queueA (getT s.tasks t).parent
  have he := endProcess_sublist s.queueB s.exitQueue (getT s.tasks t).parent
  suffices key : ∀ s1, s1 = switchB quantumA quantumB s t → s1.queueB.Sublist s.queueB from
    key _ rfl
  intro s1 hs1
  simp only [switchB, finalize, doPromote, updP, updT, updStats] at hs1
  split_ifs at hs1 <;> subst hs1 <;> first | exact List.Sublist.refl _ | exact hp _ | exact he

theorem switchB_readyQueueA_mem (quantumA quantumB : Int) (s : Sim) (t x : Nat)
    (hn : s.queueB.Nodup) (hx : x ∈ (switchB quantumA quantumB s t).readyQueueA) :
    x ∈ s.readyQueueA ∨
      (x = t ∧ (getT s.tasks t).parent ∉ (switchB quantumA quantumB s t).queueB) := by
  have hp := fun pr => promoteProcess_notMem pr s.queueB s.queueA (getT s.tasks t).parent hn
  suffices key : ∀ s1, s1 = switchB quantumA quantumB s t → x ∈ s1.readyQueueA →
      x ∈ s.readyQueueA ∨ (x = t ∧ (getT s.tasks t).parent ∉ s1.queueB) from key _ rfl hx
  intro s1 hs1 hx
  simp only [switchB, finalize, doPromote, updP, updT, updStats] at hs1
  split_ifs at hs1 <;> subst hs1 <;> simp only [mem_priorityEnqueueTask] at hx <;>
    first
    | exact Or.inl hx
    | (rcases hx with hx | hx
       · exact Or.inr ⟨hx, by simpa [getT_setT] using hp _⟩
       · exact Or.inl hx)

theorem switchA_flag_other (quantumA : Int) (s : Sim) (t j : Nat)
    (hj : j ≠ (getT s.tasks t).parent) :
    (getP (switchA quantumA s t).procs j).taskRunning = (getP s.procs j).taskRunning := by
  simp only [switchA, finalize, updP, updT, updStats]
  split_ifs <;> simp [getP_setP, hj]

theorem switchB_flag_other (quantumA quantumB : Int) (s : Sim) (t j : Nat)
    (hj : j ≠ (getT s.tasks t).parent) :
    (getP (switchB quantumA quantumB s t).procs j).taskRunning = (getP s.procs j).taskRunning := by
  simp only [switchB, finalize, doPromote, updP, updT, updStats]
  split_ifs <;> simp [getP_setP, hj, (promoteProcess_frame _ _ _ _ _).1]

theorem switchA_busy (quantumA : Int) (s : Sim) (t : Nat) :
    ((switchA quantumA s t).cpu ≠ 0 →
      (getP (switchA quantumA s t).procs (getT s.tasks t).parent).taskRunning =
        (getP s.procs (getT s.tasks t).parent).taskRunning) ∧
    ((switchA quantumA s t).ioQueue = s.ioQueue ∨
      ((switchA quantumA s t).ioQueue = s.ioQueue ++ [t] ∧
        (getP (switchA quantumA s t).procs (getT s.tasks t).parent).taskRunning =
          (getP s.procs (getT s.tasks t).parent).taskRunning)) := by
  suffices key : ∀ s1, s1 = switchA quantumA s t →
      (s1.cpu ≠ 0 → (getP s1.procs (getT s.tasks t).parent).taskRunning =
        (getP s.procs (getT s.tasks t).parent).taskRunning) ∧
      (s1.ioQueue = s.ioQueue ∨ (s1.ioQueue = s.ioQueue ++ [t] ∧
        (getP s1.procs (getT s.tasks t).parent).taskRunning =
          (getP s.procs (getT s.tasks t).parent).taskRunning)) from key _ rfl
  intro s1 hs1
  simp only [switchA, finalize, updP, updT, updStats] at hs1
  split_ifs at hs1 <;> subst hs1 <;> simp [getP_setP, enqueueTask]

theorem switchB_busy (quantumA quantumB : Int) (s : Sim) (t : Nat) :
    ((switchB quantumA quantumB s t).cpu ≠ 0 →
      (getP (switchB quantumA quantumB s t).procs (getT s.tasks t).parent).taskRunning =
        (getP s.procs (getT s.tasks t).parent).taskRunning) ∧
    ((switchB quantumA quantumB s t).ioQueue = s.ioQueue ∨
      ((switchB quantumA quantumB s t).ioQueue = s.ioQueue ++ [t] ∧
        (getP (switchB quantumA quantumB s t).procs (getT s.tasks t).parent).taskRunning =
          (getP s.procs (getT s.tasks t).parent).taskRunning)) := by
  suffices key : ∀ s1, s1 = switchB quantumA quantumB s t →
      (s1.cpu ≠ 0 → (getP s1.procs (getT s.tasks t).parent).taskRunning =
        (getP s.procs (getT s.tasks t).parent).taskRunning) ∧
      (s1.ioQueue = s.ioQueue ∨ (s1.ioQueue = s.ioQueue ++ [t] ∧
        (getP s1.procs (getT s.tasks t).parent).taskRunning =
          (getP s.procs (getT s.tasks t).parent).taskRunning)) from key _ rfl
  intro s1 hs1
  simp only [switchB, finalize, doPromote, updP, updT, updStats] at hs1
  split_ifs at hs1 <;> subst hs1 <;>
    simp [getP_setP, enqueueTask, (promoteProcess_frame _ _ _ _ _).1]

theorem updateIOTasks_sublist (q : List Nat) :
    ∀ (procs : List Process) (tasks : List Task),
      (updateIOTasks procs tasks q).2.2.Sublist q := by
  induction q with
  | nil => intro procs tasks; simp [updateIOTasks]
  | cons c rest ih =>
    intro procs tasks
    by_cases h : (getT tasks c).time > 0
    · rw [updateIOTasks_cons_pos procs tasks c rest h]
      exact (ih _ _).cons₂ c
    · rw [updateIOTasks_cons_neg procs tasks c rest h]
      exact (ih _ _).cons c

theorem updateIOTasks_pending (q : List Nat) (j : Nat) :
    ∀ (procs : List Process) (tasks : List Task),
      (getP (updateIOTasks procs tasks q).1 j).tasks = (getP procs j).tasks := by
  induction q with
  | nil => intro procs tasks; simp [updateIOTasks]
  | cons c rest ih =>
    intro procs tasks
    by_cases h : (getT tasks c).time > 0
    · rw [updateIOTasks_cons_pos procs tasks c rest h]
      exact ih _ _
    · rw [updateIOTasks_cons_neg procs tasks c rest h]
      rw [ih]
      simp only [getP_setP]
      split_ifs with e
      · subst e; rfl
      · rfl

theorem ownedIn_congr {tasks1 tasks : List Task} (q : List Nat) (p : Nat)
    (h : ∀ x, (getT tasks1 x).parent = (getT tasks x).parent) :
    ownedIn tasks1 q p = ownedIn tasks q p := by
  unfold ownedIn
  congr 1
  funext x
  rw [h x]

theorem updateIOTasks_flag (q : List Nat) (j : Nat) :
    ∀ (procs : List Process) (tasks : List Task),
      (getP (updateIOTasks procs tasks q).1 j).taskRunning = (getP procs j).taskRunning ∨
        ownedIn tasks (updateIOTasks procs tasks q).2.2 j < ownedIn tasks q j := by
  induction q with
  | nil => intro procs tasks; left; simp [updateIOTasks]
  | cons c rest ih =>
    intro procs tasks
    by_cases h : (getT tasks c).time > 0
    · rw [updateIOTasks_cons_pos procs tasks c rest h]
      have hp : ∀ x, (getT (setT tasks c { getT tasks c with time := (getT tasks c).time - 1 })
          x).parent = (getT tasks x).parent := by
        intro x
        rw [getT_setT]
        split_ifs with e
        · subst e; rfl
        · rfl
      rcases ih procs (setT tasks c { getT tasks c with time := (getT tasks c).time - 1 })
        with h1 | h1
      · exact Or.inl h1
      · right
        rw [ownedIn_congr _ _ hp, ownedIn_congr _ _ hp] at h1
        simp only [ownedIn, List.countP_cons] at h1 ⊢
        omega
    · rw [updateIOTasks_cons_neg procs tasks c rest h]
      have hp : ∀ x, (getT (setT tasks c { getT tasks c with completed := 1 }) x).parent =
          (getT tasks x).parent := by
        intro x
        rw [getT_setT]
        split_ifs with e
        · subst e; rfl
        · rfl
      have hsub := (updateIOTasks_sublist rest
        (setP procs (getT tasks c).parent
          { getP procs (getT tasks c).parent with
            taskRunning := 0,
            currentTask := (getP procs (getT tasks c).parent).currentTask + 1 })
        (setT tasks c { getT tasks c with completed := 1 })).countP_le
          (fun x => decide ((getT tasks x).parent = j))
      by_cases hj : (getT tasks c).parent = j
      · right
        unfold ownedIn
        rw [List.countP_cons_of_pos _ _ (by simpa using hj)]
        omega
      · rcases ih (setP procs (getT tasks c).parent
          { getP procs (getT tasks c).parent with
            taskRunning := 0,
            currentTask := (getP procs (getT tasks c).parent).currentTask + 1 })
          (setT tasks c { getT tasks c with completed := 1 }) with h1 | h1
        · left
          rw [h1, getP_setP_ne _ _ _ _ (fun e => hj e.symm)]
        · right
          rw [ownedIn_congr _ _ hp, ownedIn_congr _ _ hp] at h1
          simp only [ownedIn, List.countP_cons, hj, decide_False] at h1 ⊢
          simpa using h1

theorem scanNext_cases (procs : List Process) (tasks : List Task) (runtime : Int)
    (q : List Nat) :
    scanNext procs tasks runtime q = (none, procs) ∨
    ∃ p y rest, p ∈ q ∧ eligible procs runtime p = true ∧ (getP procs p).tasks = y :: rest ∧
      scanNext procs tasks runtime q =
        (some y, markRunning (setP procs p { getP procs p with tasks := rest }) tasks y) := by
  rcases first_eligible procs runtime q with h | ⟨pre, p, post, e, hpre, hp⟩
  · exact Or.inl (scanNext_none procs tasks runtime q h)
  · right
    obtain ⟨h1, y, rest, h2⟩ := scanNext_hit procs tasks runtime p post hp
    refine ⟨p, y, rest, by rw [e]; simp, hp, h2, ?_⟩
    rw [e, scanNext_skip procs tasks runtime pre (p :: post) hpre, h1,
      takeTask_cons procs tasks p y rest h2]

theorem dispatchA_cases (s : Sim) :
    (s.readyQueueA = [] ∧ dispatch false true s = { s with t := none }) ∨
    (∃ x rest, s.readyQueueA = x :: rest ∧
      dispatch false true s =
        { s with t := some x, cpu := 1, readyQueueA := rest,
                 procs := markRunning (markRunning s.procs s.tasks x) s.tasks x }) ∨
    (∃ p y rest, s.readyQueueA = [] ∧ p ∈ s.queueA ∧
      eligible s.procs s.stats.runtime p = true ∧ (getP s.procs p).tasks = y :: rest ∧
      dispatch false true s =
        { s with t := some y, cpu := 1,
                 procs := markRunning (markRunning
                   (setP s.procs p { getP s.procs p with tasks := rest }) s.tasks y)
                   s.tasks y }) := by
  cases hr : s.readyQueueA with
  | cons x rest =>
    right; left
    refine ⟨x, rest, rfl, ?_⟩
    simp [dispatch, getNextTask, hr, isEmptyT, dequeueTask]
  | nil =>
    rcases scanNext_cases s.procs s.tasks s.stats.runtime s.queueA with h | ⟨p, y, rest, h1, h2, h3, h4⟩
    · left
      refine ⟨rfl, ?_⟩
      simp [dispatch, getNextTask, hr, isEmptyT, h]
    · right; right
      refine ⟨p, y, rest, rfl, h1, h2, h3, ?_⟩
      simp [dispatch, getNextTask, hr, isEmptyT, h4]

theorem dispatchB_cases (s : Sim) :
    (s.readyQueueB = [] ∧ dispatch false false s = { s with t := none }) ∨
    (∃ x rest, s.readyQueueB = x :: rest ∧
      dispatch false false s =
        { s with t := some x, cpu := 1, readyQueueB := rest,
                 procs := markRunning (markRunning s.procs s.tasks x) s.tasks x }) ∨
    (∃ p y rest, s.readyQueueB = [] ∧ p ∈ s.queueB ∧
      eligible s.procs s.stats.runtime p = true ∧ (getP s.procs p).tasks = y :: rest ∧
      dispatch false false s =
        { s with t := some y, cpu := 1,
                 procs := markRunning (markRunning
                   (setP s.procs p { getP s.procs p with tasks := rest }) s.tasks y)
                   s.tasks y }) := by
  cases hr : s.readyQueueB with
  | cons x rest =>
    right; left
    refine ⟨x, rest, rfl, ?_⟩
    simp [dispatch, getNextTask, hr, isEmptyT, dequeueTask]
  | nil =>
    rcases scanNext_cases s.procs s.tasks s.stats.runtime s.queueB with h | ⟨p, y, rest, h1, h2, h3, h4⟩
    · left
      refine ⟨rfl, ?_⟩
      simp [dispatch, getNextTask, hr, isEmptyT, h]
    · right; right
      refine ⟨p, y, rest, rfl, h1, h2, h3, ?_⟩
      simp [dispatch, getNextTask, hr, isEmptyT, h4]

theorem onCpu_of_slot {s : Sim} {t : Nat} (ht : s.t = some t) (p : Nat) :
    onCpu s p = if s.cpu ≠ 0 ∧ decide ((getT s.tasks t).parent = p) = true then 1 else 0 := by
  simp [onCpu, ht]

theorem onCpu_idle {s : Sim} (hc : s.cpu = 0) (p : Nat) : onCpu s p = 0 := by
  simp [onCpu, hc]

theorem markRunning_flag (procs : List Process) (tasks : List Task) (x j : Nat) :
    (getP (markRunning procs tasks x) j).taskRunning =
      if j = (getT tasks x).parent then 1 else (getP procs j).taskRunning := by
  unfold markRunning
  simp only [getP_setP]
  split_ifs <;> rfl

theorem ownedIn_eq_zero {tasks : List Task} {q : List Nat} {p : Nat}
    (h : ∀ x ∈ q, (getT tasks x).parent ≠ p) : ownedIn tasks q p = 0 := by
  unfold ownedIn
  rw [List.countP_eq_zero]
  intro x hx
  simpa using h x hx

theorem ageTasks_FlagSim (s : Sim) (h : FlagSim s) : FlagSim (ageTasks s) := by
  obtain ⟨ha, hb, hd, he⟩ := h
  have hf := ageTasks_frame s
  have hpar : ∀ x, (getT (ageTasks s).tasks x).parent = (getT s.tasks x).parent :=
    ageTasks_parent s
  have hcpu : ∀ p, onCpu (ageTasks s) p = onCpu s p := by
    intro p
    unfold onCpu
    rw [hf.2.2.1, hf.2.2.2.1]
    simp only [hpar]
  have hio : ∀ p, ownedIn s.tasks (ageTasks s).ioQueue p ≤ ownedIn s.tasks s.ioQueue p := by
    intro p
    unfold ageTasks
    split_ifs
    · exact (updateIOTasks_sublist s.ioQueue s.procs s.tasks).countP_le _
    · exact le_refl _
  have hflag : ∀ p, (getP (ageTasks s).procs p).taskRunning = (getP s.procs p).taskRunning ∨
      ownedIn s.tasks (ageTasks s).ioQueue p < ownedIn s.tasks s.ioQueue p := by
    intro p
    unfold ageTasks
    split_ifs
    · exact updateIOTasks_flag s.ioQueue p s.procs s.tasks
    · exact Or.inl rfl
  have hpend : ∀ p, (getP (ageTasks s).procs p).tasks = (getP s.procs p).tasks := by
    intro p
    unfold ageTasks
    split_ifs
    · exact updateIOTasks_pending s.ioQueue p s.procs s.tasks
    · rfl
  refine ⟨fun p => ?_, fun p hp => ?_, by rw [hf.2.2.2.2.2.1]; exact hd, fun p y hy => ?_⟩
  · rw [hcpu, ownedIn_congr _ _ hpar, ownedIn_congr _ _ hpar, ownedIn_congr _ _ hpar,
      hf.2.1, hf.1]
    have := ha p
    have := hio p
    omega
  · rw [hcpu, ownedIn_congr _ _ hpar] at hp
    have h1 := ha p
    have h2 := hio p
    rcases hflag p with h3 | h3
    · rw [h3]
      exact hb p (by omega)
    · omega
  · rw [hpar]
    rw [hpend] at hy
    exact he p y hy

theorem tail_FlagSim {s s1 : Sim} (h : FlagSim s)
    (hp : ∀ j, ∃ r, getP s1.procs j = { getP s.procs j with ready := r })
    (hrB : s1.readyQueueB = s.readyQueueB) (hrA : s1.readyQueueA = s.readyQueueA)
    (hcpu : s1.cpu = s.cpu) (ht : s1.t = s.t) (hqB : s1.queueB = s.queueB)
    (htasks : s1.tasks = s.tasks) (hio : s1.ioQueue = s.ioQueue) : FlagSim s1 := by
  obtain ⟨ha, hb, hd, he⟩ := h
  have hc : ∀ p, onCpu s1 p = onCpu s p := by
    intro p
    unfold onCpu
    rw [hcpu, ht, htasks]
  refine ⟨fun p => ?_, fun p hp1 => ?_, by rw [hqB]; exact hd, fun p y hy => ?_⟩
  · rw [hc, htasks, hio, hrA, hrB]
    exact ha p
  · rw [hc, htasks, hio] at hp1
    obtain ⟨r, hr⟩ := hp p
    rw [hr]
    exact hb p hp1
  · obtain ⟨r, hr⟩ := hp p
    rw [hr] at hy
    rw [htasks]
    exact he p y hy

theorem tailA_FlagSim (s : Sim) (h : FlagSim s) : FlagSim (tailA s) := by
  have hf := tailA_frame s
  exact tail_FlagSim h (tailA_procs s) hf.1 hf.2.1 hf.2.2.1 hf.2.2.2.1 hf.2.2.2.2.2.1
    hf.2.2.2.2.2.2.2.1 hf.2.2.2.2.2.2.2.2

theorem tailB_FlagSim (s : Sim) (h : FlagSim s) : FlagSim (tailB s) := by
  have hf := tailB_frame s
  exact tail_FlagSim h (tailB_procs s) hf.1 hf.2.1 hf.2.2.1 hf.2.2.2.1 hf.2.2.2.2.2.1
    hf.2.2.2.2.2.2.2.1 hf.2.2.2.2.2.2.2.2

theorem switch_FlagSim {s s1 : Sim} {t : Nat} (h : FlagSim s) (hcpu : s.cpu ≠ 0)
    (ht : s.t = some t)
    (hflow : ∀ f : Nat → Bool,
      s1.ioQueue.countP f + s1.readyQueueA.countP f + s1.readyQueueB.countP f +
          (if s1.cpu ≠ 0 ∧ f t = true then 1 else 0) ≤
        s.ioQueue.countP f + s.readyQueueA.countP f + s.readyQueueB.countP f +
          (if f t = true then 1 else 0))
    (hother : ∀ j, j ≠ (getT s.tasks t).parent →
      (getP s1.procs j).taskRunning = (getP s.procs j).taskRunning)
    (hbusy : (s1.cpu ≠ 0 → (getP s1.procs (getT s.tasks t).parent).taskRunning =
        (getP s.procs (getT s.tasks t).parent).taskRunning) ∧
      (s1.ioQueue = s.ioQueue ∨ (s1.ioQueue = s.ioQueue ++ [t] ∧
        (getP s1.procs (getT s.tasks t).parent).taskRunning =
          (getP s.procs (getT s.tasks t).parent).taskRunning)))
    (hpar : ∀ x, (getT s1.tasks x).parent = (getT s.tasks x).parent)
    (hpend : ∀ j, (getP s1.procs j).tasks = (getP s.procs j).tasks)
    (hslot : s1.t = s.t) (hqB : s1.queueB.Sublist s.queueB) : FlagSim s1 := by
  obtain ⟨ha, hb, hd, he⟩ := h
  have hc1 : ∀ p, onCpu s1 p =
      if s1.cpu ≠ 0 ∧ decide ((getT s.tasks t).parent = p) = true then 1 else 0 := by
    intro p
    rw [onCpu_of_slot (hslot.trans ht) p, hpar]
  have hc0 : ∀ p, onCpu s p = if decide ((getT s.tasks t).parent = p) = true then 1 else 0 := by
    intro p
    rw [onCpu_of_slot ht p]
    simp [hcpu]
  have hA : ∀ p, onCpu s1 p + ownedIn s1.tasks s1.ioQueue p +
      ownedIn s1.tasks s1.readyQueueA p + ownedIn s1.tasks s1.readyQueueB p ≤ 1 := by
    intro p
    rw [hc1, ownedIn_congr _ _ hpar, ownedIn_congr _ _ hpar, ownedIn_congr _ _ hpar]
    have h1 := ha p
    rw [hc0] at h1
    have h2 := hflow (fun x => decide ((getT s.tasks x).parent = p))
    simp only [ownedIn] at h1 ⊢
    omega
  refine ⟨hA, fun p hp => ?_, hd.sublist hqB, fun p y hy => ?_⟩
  · by_cases hpp : p = (getT s.tasks t).parent
    · subst hpp
      have hf1 : (getP s.procs (getT s.tasks t).parent).taskRunning = 1 := by
        apply hb
        rw [hc0]
        simp
      by_cases hc : s1.cpu ≠ 0
      · rw [hbusy.1 hc]; exact hf1
      · rcases hbusy.2 with e | ⟨_, e⟩
        · exfalso
          have h1 := ha (getT s.tasks t).parent
          rw [hc0] at h1
          rw [hc1, ownedIn_congr _ _ hpar, e] at hp
          simp only [decide_True, if_true] at h1
          simp [hc] at hp
          omega
        · rw [e]; exact hf1
    · rw [hother p hpp]
      apply hb
      rw [hc1, ownedIn_congr _ _ hpar] at hp
      have hne : ¬ (getT s.tasks t).parent = p := fun e => hpp e.symm
      simp only [hne, decide_False, Bool.false_eq_true, and_false, if_false, zero_add] at hp
      rcases hbusy.2 with e | ⟨e, _⟩
      · rw [e] at hp; omega
      · rw [e] at hp
        simp only [ownedIn, List.countP_append, List.countP_cons, List.countP_nil] at hp
        simp only [hne, decide_False, Bool.false_eq_true, if_false] at hp
        simp only [ownedIn]
        omega
  · rw [hpar]
    rw [hpend] at hy
    exact he p y hy

theorem switchA_FlagSim (quantumA : Int) (s : Sim) (t : Nat) (h : FlagSim s)
    (hcpu : s.cpu ≠ 0) (ht : s.t = some t) : FlagSim (switchA quantumA s t) :=
  switch_FlagSim h hcpu ht (switchA_flow quantumA s t)
    (fun j hj => switchA_flag_other quantumA s t j hj) (switchA_busy quantumA s t)
    (switchA_parent quantumA s t) (switchA_pending quantumA s t) (switchA_slot quantumA s t)
    (by rw [switchA_queueB])

theorem switchB_FlagSim (quantumA quantumB : Int) (s : Sim) (t : Nat) (h : FlagSim s)
    (hcpu : s.cpu ≠ 0) (ht : s.t = some t) : FlagSim (switchB quantumA quantumB s t) :=
  switch_FlagSim h hcpu ht (switchB_flow quantumA quantumB s t)
    (fun j hj => switchB_flag_other quantumA quantumB s t j hj)
    (switchB_busy quantumA quantumB s t)
    (switchB_parent quantumA quantumB s t) (switchB_pending quantumA quantumB s t)
    (switchB_slot quantumA quantumB s t) (switchB_queueB quantumA quantumB s t)

theorem launch_FlagSim {s s1 : Sim} {x : Nat} (h : FlagSim s)
    (ht : s1.t = some x) (htasks : s1.tasks = s.tasks) (hio : s1.ioQueue = s.ioQueue)
    (hqB : s1.queueB = s.queueB)
    (hflag : ∀ j, (getP s1.procs j).taskRunning =
      if j = (getT s.tasks x).parent then 1 else (getP s.procs j).taskRunning)
    (hpend : ∀ j y, y ∈ (getP s1.procs j).tasks → y ∈ (getP s.procs j).tasks)
    (hcount : ∀ p, ownedIn s.tasks s1.readyQueueA p + ownedIn s.tasks s1.readyQueueB p +
      (if (getT s.tasks x).parent = p then 1 else 0) + ownedIn s.tasks s.ioQueue p ≤ 1) :
    FlagSim s1 := by
  obtain ⟨ha, hb, hd, he⟩ := h
  have hc1 : ∀ p, onCpu s1 p ≤ if (getT s.tasks x).parent = p then 1 else 0 := by
    intro p
    rw [onCpu_of_slot ht p, htasks]
    by_cases e : (getT s.tasks x).parent = p <;> simp [e]
    split_ifs <;> omega
  refine ⟨fun p => ?_, fun p hp => ?_, by rw [hqB]; exact hd, fun p y hy => ?_⟩
  · rw [htasks, hio]
    have := hc1 p
    have := hcount p
    omega
  · rw [hflag]
    by_cases e : p = (getT s.tasks x).parent
    · simp [e]
    · simp only [e, if_false]
      apply hb
      rw [htasks, hio] at hp
      have h1 := hc1 p
      have hne : ¬ (getT s.tasks x).parent = p := fun e1 => e e1.symm
      simp only [hne, if_false] at h1
      omega
  · rw [htasks]
    exact he p y (hpend p y hy)

theorem idle_FlagSim {s : Sim} (h : FlagSim s) (hc : s.cpu = 0) :
    FlagSim { s with t := none } := by
  obtain ⟨ha, hb, hd, he⟩ := h
  have h0 : ∀ p, onCpu { s with t := none } p = 0 := fun p => by simp [onCpu, hc]
  have h1 : ∀ p, onCpu s p = 0 := fun p => onCpu_idle hc p
  refine ⟨fun p => ?_, fun p hp => ?_, hd, he⟩
  · have := ha p
    rw [h1] at this
    rw [h0]
    exact this
  · rw [h0] at hp
    exact hb p (by rw [h1]; exact hp)

theorem ready_launch_flag (procs : List Process) (tasks : List Task) (x j : Nat) :
    (getP (markRunning (markRunning procs tasks x) tasks x) j).taskRunning =
      if j = (getT tasks x).parent then 1 else (getP procs j).taskRunning := by
  rw [markRunning_flag, markRunning_flag]
  split_ifs <;> rfl

theorem scan_launch_flag (procs : List Process) (tasks : List Task) (p y j : Nat)
    (rest : List Nat) :
    (getP (markRunning (markRunning (setP procs p { getP procs p with tasks := rest }) tasks y)
      tasks y) j).taskRunning =
      if j = (getT tasks y).parent then 1 else (getP procs j).taskRunning := by
  rw [ready_launch_flag, getP_setP]
  split_ifs with h1 h2
  · rfl
  · subst h2; rfl
  · rfl

theorem scan_launch_pending (procs : List Process) (tasks : List Task) (p y j z : Nat)
    (rest : List Nat) (hp : (getP procs p).tasks = y :: rest)
    (h : z ∈ (getP (markRunning (markRunning (setP procs p { getP procs p with tasks := rest })
      tasks y) tasks y) j).tasks) : z ∈ (getP procs j).tasks := by
  rw [markRunning_tasks, markRunning_tasks, getP_setP] at h
  split_ifs at h with e
  · subst e
    rw [hp]
    exact List.mem_cons_of_mem _ h
  · exact h

theorem dispatchA_FlagSim (s : Sim) (h : FlagSim s) (hc : s.cpu = 0)
    (hrB : s.readyQueueB = []) : FlagSim (dispatch false true s) := by
  have ha := h.1
  have hb := h.2.1
  have he := h.2.2.2
  have h0 : ∀ p, onCpu s p = 0 := fun p => onCpu_idle hc p
  rcases dispatchA_cases s with ⟨_, e⟩ | ⟨x, rest, hr, e⟩ | ⟨p, y, rest, hr, hp, hel, hty, e⟩
  · rw [e]; exact idle_FlagSim h hc
  · rw [e]
    refine launch_FlagSim h rfl rfl rfl rfl (fun j => ready_launch_flag s.procs s.tasks x j)
      (fun j z hz => by
        simp only at hz
        rw [markRunning_tasks, markRunning_tasks] at hz
        exact hz) (fun q => ?_)
    have h1 := ha q
    rw [h0, hr] at h1
    simp only [ownedIn, List.countP_cons] at h1 ⊢
    by_cases e1 : (getT s.tasks x).parent = q <;> simp [e1] at h1 ⊢ <;> omega
  · rw [e]
    have hpy : (getT s.tasks y).parent = p := he p y (by rw [hty]; exact List.mem_cons_self _ _)
    have hfl : (getP s.procs p).taskRunning = 0 := by
      simp only [eligible, Bool.and_eq_true, decide_eq_true_eq] at hel
      exact hel.1.2
    have hio : ownedIn s.tasks s.ioQueue p = 0 := by
      by_contra hne
      have := hb p (by rw [h0]; omega)
      rw [hfl] at this
      exact absurd this (by decide)
    refine launch_FlagSim h rfl rfl rfl rfl (fun j => scan_launch_flag s.procs s.tasks p y j rest)
      (fun j z hz => scan_launch_pending s.procs s.tasks p y j z rest hty hz) (fun q => ?_)
    show ownedIn s.tasks s.readyQueueA q + ownedIn s.tasks s.readyQueueB q +
      (if (getT s.tasks y).parent = q then 1 else 0) + ownedIn s.tasks s.ioQueue q ≤ 1
    have h1 := ha q
    rw [h0] at h1
    rw [hr, hrB] at h1 ⊢
    rw [hpy]
    have hn : ownedIn s.tasks [] q = 0 := rfl
    by_cases e1 : p = q
    · subst e1
      rw [hio, hn, if_pos rfl]
    · rw [if_neg e1]
      omega

theorem dispatchB_FlagSim (s : Sim) (h : FlagSim s) (hc : s.cpu = 0)
    (hrA : ∀ x ∈ s.readyQueueA, (getT s.tasks x).parent ∉ s.queueB) :
    FlagSim (dispatch false false s) := by
  have ha := h.1
  have hb := h.2.1
  have he := h.2.2.2
  have h0 : ∀ p, onCpu s p = 0 := fun p => onCpu_idle hc p
  rcases dispatchB_cases s with ⟨_, e⟩ | ⟨x, rest, hr, e⟩ | ⟨p, y, rest, hr, hp, hel, hty, e⟩
  · rw [e]; exact idle_FlagSim h hc
  · rw [e]
    refine launch_FlagSim h rfl rfl rfl rfl (fun j => ready_launch_flag s.procs s.tasks x j)
      (fun j z hz => by
        simp only at hz
        rw [markRunning_tasks, markRunning_tasks] at hz
        exact hz) (fun q => ?_)
    have h1 := ha q
    rw [h0, hr] at h1
    simp only [ownedIn, List.countP_cons] at h1 ⊢
    by_cases e1 : (getT s.tasks x).parent = q <;> simp [e1] at h1 ⊢ <;> omega
  · rw [e]
    have hpy : (getT s.tasks y).parent = p := he p y (by rw [hty]; exact List.mem_cons_self _ _)
    have hfl : (getP s.procs p).taskRunning = 0 := by
      simp only [eligible, Bool.and_eq_true, decide_eq_true_eq] at hel
      exact hel.1.2
    have hio : ownedIn s.tasks s.ioQueue p = 0 := by
      by_contra hne
      have := hb p (by rw [h0]; omega)
      rw [hfl] at this
      exact absurd this (by decide)
    have hA0 : ownedIn s.tasks s.readyQueueA p = 0 :=
      ownedIn_eq_zero (fun x hx e1 => hrA x hx (by rw [e1]; exact hp))
    refine launch_FlagSim h rfl rfl rfl rfl (fun j => scan_launch_flag s.procs s.tasks p y j rest)
      (fun j z hz => scan_launch_pending s.procs s.tasks p y j z rest hty hz) (fun q => ?_)
    show ownedIn s.tasks s.readyQueueA q + ownedIn s.tasks s.readyQueueB q +
      (if (getT s.tasks y).parent = q then 1 else 0) + ownedIn s.tasks s.ioQueue q ≤ 1
    have h1 := ha q
    rw [h0] at h1
    rw [hr] at h1 ⊢
    rw [hpy]
    have hn : ownedIn s.tasks [] q = 0 := rfl
    by_cases e1 : p = q
    · subst e1
      rw [hio, hA0, hn, if_pos rfl]
    · rw [if_neg e1]
      omega

theorem next_FlagInv (quantumA quantumB : Int) (m m1 : Machine) (hinv : FlagInv m)
    (hR : ReadyInv m) (hslot : m.sim.cpu ≠ 0 → ∃ t, m.sim.t = some t)
    (h : next false quantumA quantumB m = some m1) : FlagInv m1 := by
  obtain ⟨loc, s⟩ := m
  obtain ⟨hs, hc⟩ := hinv
  simp only at hs hc hslot
  cases loc with
  | outer =>
    simp only [next] at h
    split_ifs at h with h1 h2
    · cases h
      exact ⟨hs, fun h3 => by rcases h3 with h3 | h3 <;> cases h3⟩
    · cases h
      exact ⟨hs, fun h3 => by rcases h3 with h3 | h3 <;> cases h3⟩
    · cases h
      refine ⟨hs, fun _ x hx => ?_⟩
      have hA : s.readyQueueA = [] := by
        simp only [condA, isEmptyP, isEmptyT, Bool.or_eq_true, Bool.not_eq_true',
          not_or, Bool.not_eq_false] at h2
        simpa using h2.2
      simp only at hx
      rw [hA] at hx
      cases hx
  | inA =>
    simp only [next] at h
    split_ifs at h with h1
    · cases h
      exact ⟨ageTasks_FlagSim s hs, fun h3 => by rcases h3 with h3 | h3 <;> cases h3⟩
    · cases h
      exact ⟨hs, fun h3 => by rcases h3 with h3 | h3 <;> cases h3⟩
  | midA =>
    simp only [next] at h
    split_ifs at h with h1
    · cases h
      have hB : s.readyQueueB = [] := by
        rcases hR with h2 | ⟨_, _, h2⟩
        · exact h2
        · rcases h2 with h2 | h2 <;> cases h2
      exact ⟨dispatchA_FlagSim s hs h1 hB, fun h3 => by rcases h3 with h3 | h3 <;> cases h3⟩
    · obtain ⟨t, ht⟩ := hslot h1
      have hx : execA false quantumA s = some (switchA quantumA s t) := by
        simp [execA, ht]
      simp only [hx] at h
      cases h
      exact ⟨tailA_FlagSim _ (switchA_FlagSim quantumA s t hs h1 ht),
        fun h3 => by rcases h3 with h3 | h3 <;> cases h3⟩
  | inB =>
    simp only [next] at h
    split_ifs at h with h1
    · cases h
      refine ⟨ageTasks_FlagSim s hs, fun _ x hx => ?_⟩
      have hf := ageTasks_frame s
      simp only at hx ⊢
      rw [hf.2.1] at hx
      rw [ageTasks_parent, hf.2.2.2.2.2.1]
      exact hc (Or.inl rfl) x hx
    · cases h
      exact ⟨hs, fun h3 => by rcases h3 with h3 | h3 <;> cases h3⟩
  | midB =>
    simp only [next] at h
    split_ifs at h with h1
    · cases h
      exact ⟨dispatchB_FlagSim s hs h1 (hc (Or.inr rfl)),
        fun h3 => by rcases h3 with h3 | h3 <;> cases h3⟩
    · obtain ⟨t, ht⟩ := hslot h1
      have hx : execB false quantumA quantumB s = some (switchB quantumA quantumB s t) := by
        simp [execB, ht]
      simp only [hx] at h
      cases h
      refine ⟨tailB_FlagSim _ (switchB_FlagSim quantumA quantumB s t hs h1 ht),
        fun _ x hx => ?_⟩
      have hf := tailB_frame (switchB quantumA quantumB s t)
      simp only at hx ⊢
      rw [hf.2.1] at hx
      rw [hf.2.2.2.2.2.1, hf.2.2.2.2.2.2.2.1, switchB_parent]
      rcases switchB_readyQueueA_mem quantumA quantumB s t x hs.2.2.1 hx with h2 | ⟨h2, h3⟩
      · exact fun h4 => hc (Or.inr rfl) x h2 ((switchB_queueB quantumA quantumB s t).subset h4)
      · rw [h2]; exact h3
  | done =>
    simp only [next] at h
    cases h
    exact ⟨hs, fun h3 => by rcases h3 with h3 | h3 <;> cases h3⟩

theorem runFrom_FlagInv (quantumA quantumB : Int) (n : Nat) :
    ∀ m m1 : Machine, FlagInv m → ReadyInv m → (m.sim.cpu ≠ 0 → ∃ t, m.sim.t = some t) →
      runFrom false quantumA quantumB n m = some m1 → FlagInv m1 := by
  induction n with
  | zero =>
    intro m m1 hinv _ _ h
    simp only [runFrom] at h
    cases h
    exact hinv
  | succ n ih =>
    intro m m1 hinv hR hslot h
    obtain ⟨m2, h2, hslot2⟩ := next_slot false quantumA quantumB m hR hslot
    simp only [runFrom, h2] at h
    exact ih m2 m1 (next_FlagInv quantumA quantumB m m2 hinv hR hslot h2)
      (next_ReadyInv false quantumA quantumB m m2 hR h2) hslot2 h

/-- In the non-preemptive engine the running flag of the process that owns the task on the
CPU is set: in every state of a run from stores in which every pending task is owned by
the process on whose sequence it is, the tier-B queue holding no process twice, a set CPU
flag comes with a current task whose process has `taskRunning = 1`. -/
theorem running_flag_set (quantumA quantumB : Int) (procs : List Process)
    (tasks : List Task) (queueB : List Nat) (n : Nat) (m : Machine)
    (hr : runInput false quantumA quantumB procs tasks queueB n = some m)
    (hn : queueB.Nodup)
    (hown : ∀ p y, y ∈ (getP procs p).tasks → (getT tasks y).parent = p)
    (hcpu : m.sim.cpu ≠ 0) :
    ∃ t, m.sim.t = some t ∧ (getP m.sim.procs (getT m.sim.tasks t).parent).taskRunning = 1 := by
  unfold runInput at hr
  unfold start at hr
  cases hq : peekProcess queueB with
  | none => simp [hq] at hr
  | some p =>
    simp only [hq] at hr
    have h0 : FlagInv
        { loc := Loc.outer,
          sim := { procs := procs, tasks := tasks, queueA := [], queueB := queueB,
                   exitQueue := [], ioQueue := [], readyQueueA := [], readyQueueB := [],
                   stats := { initializeStats with runtime := (getP procs p).arrival,
                                                   startTime := (getP procs p).arrival },
                   t := none, cpu := 0 } } := by
      refine ⟨⟨fun q => ?_, fun q hq1 => ?_, hn, hown⟩,
        fun h3 => by rcases h3 with h3 | h3 <;> cases h3⟩
      · simp [onCpu, ownedIn]
      · simp [onCpu, ownedIn] at hq1
    have hR0 : ReadyInv
        { loc := Loc.outer,
          sim := { procs := procs, tasks := tasks, queueA := [], queueB := queueB,
                   exitQueue := [], ioQueue := [], readyQueueA := [], readyQueueB := [],
                   stats := { initializeStats with runtime := (getP procs p).arrival,
                                                   startTime := (getP procs p).arrival },
                   t := none, cpu := 0 } } := Or.inl rfl
    have hinv := runFrom_FlagInv quantumA quantumB n _ m h0 hR0 (fun h => absurd rfl h) hr
    obtain ⟨m1, h1, hslot⟩ := runFrom_slot false quantumA quantumB n _ hR0
      (fun h => absurd rfl h)
    rw [hr] at h1
    cases h1
    obtain ⟨t, ht⟩ := hslot hcpu
    refine ⟨t, ht, hinv.1.2.1 _ ?_⟩
    rw [onCpu_of_slot ht]
    simp [hcpu]

/-- The step on a compute task that keeps the CPU, in the non-preemptive engine: in every
state of a run from stores in which every pending task is owned by the process on whose
sequence it is, the tier-B queue holding no process twice, with a compute task `t` of
remaining time above 0 at the execution point of a tier loop and quantum above 0 for its
process, the step is defined and is `ContinuedStep`, the task stays on the CPU, and the
running flag of its process is set; the same holds at the end of the iteration. -/
theorem compute_continues_flag_set (quantumA quantumB : Int)
    (procs : List Process) (tasks : List Task) (queueB : List Nat) (n : Nat) (m : Machine)
    (t : Nat) (hr : runInput false quantumA quantumB procs tasks queueB n = some m)
    (hn : queueB.Nodup)
    (hown : ∀ p y, y ∈ (getP procs p).tasks → (getT tasks y).parent = p)
    (hcpu : m.sim.cpu ≠ 0) (ht : m.sim.t = some t)
    (he : (getT m.sim.tasks t).type = 'e') (htime : 0 < (getT m.sim.tasks t).time)
    (hq : 0 < (getP m.sim.procs (getT m.sim.tasks t).parent).quantum) :
    (m.loc = Loc.midA →
      ∃ s1, execA false quantumA m.sim = some s1 ∧
        next false quantumA quantumB m = some { loc := Loc.inA, sim := tailA s1 } ∧
        ∀ s2, s2 = s1 ∨ s2 = tailA s1 →
          ContinuedStep m.sim s2 t ∧ s2.cpu ≠ 0 ∧ s2.t = some t ∧
          (getP s2.procs (getT m.sim.tasks t).parent).taskRunning = 1) ∧
    (m.loc = Loc.midB →
      ∃ s1, execB false quantumA quantumB m.sim = some s1 ∧
        next false quantumA quantumB m = some { loc := Loc.inB, sim := tailB s1 } ∧
        ∀ s2, s2 = s1 ∨ s2 = tailB s1 →
          ContinuedStep m.sim s2 t ∧ s2.cpu ≠ 0 ∧ s2.t = some t ∧
          (getP s2.procs (getT m.sim.tasks t).parent).taskRunning = 1) := by
  obtain ⟨t1, ht1, hflag⟩ := running_flag_set quantumA quantumB procs tasks queueB n m hr hn
    hown hcpu
  rw [ht] at ht1
  cases ht1
  obtain ⟨_, hA, hB⟩ := compute_continues false quantumA quantumB procs tasks queueB m t
    (runInput_Reachable hr) hcpu ht he htime hq
  refine ⟨fun hloc => ?_, fun hloc => ?_⟩
  · obtain ⟨s1, h1, h2, _, h4⟩ := hA hloc
    refine ⟨s1, h1, h2, fun s2 hs2 => ?_⟩
    obtain ⟨a, b, c, d⟩ := h4 s2 hs2
    exact ⟨a, b, c, by rw [d]; exact hflag⟩
  · obtain ⟨s1, h1, h2, _, h4⟩ := hB hloc
    refine ⟨s1, h1, h2, fun s2 hs2 => ?_⟩
    obtain ⟨a, b, c, d⟩ := h4 s2 hs2
    exact ⟨a, b, c, by rw [d]; exact hflag⟩

theorem flagProcs_owned :
    ∀ p y, y ∈ (getP flagProcs p).tasks → (getT flagTasks y).parent = p := by
  intro p y hy
  rcases p with _ | _ | p
  · simp [flagProcs, getP, parsedProcess] at hy
    rcases hy with rfl | rfl <;> rfl
  · simp [flagProcs, getP, parsedProcess] at hy
    rcases hy with rfl | rfl | rfl <;> rfl
  · simp [flagProcs, getP, default_process] at hy

/-- C32 (the claim in the non-preemptive engine, and the code at the failing input):
(a) in every state of a non-preemptive run from stores in which every pending task is
owned by the process on whose sequence it is, the tier-B queue holding no process twice,
with a compute task of remaining time above 0 at the execution point of a tier loop and
quantum above 0 for its process, the step takes exactly one unit from the time of the task
and from the quantum of its process, keeps the task on the CPU with the running flag of
its process set, and changes no queue and no counter of completions, interrupts or
instructions.  (b) In the preemptive run on `P1:5` (`exe:10`, `t`) and `P2:1` (`exe:10`,
`io:1`, `t`) with quantumA = 2 and quantumB = 3 the tier-A dispatch of the 46th state
finds the ready queue `[0, 2]`, drops the front task 0 and takes the I/O task 3 from the
process queue, although the compute task 2 of the same process is still in the ready
queue; task 3 is issued, task 2 is dispatched from the ready queue, and the I/O ageing of
the 53rd move completes task 3, which clears the running flag of the process while task 2
holds the CPU.  At the 54th state, an execution point of the tier-A loop, the compute task
2 is on the CPU with 1 unit of time and quantum 1, and the running flag of its process is
0; the step takes one unit from both and leaves the task on the CPU, the running flag
still being 0, not set.  The non-preemptive run on the same input ends after 113 moves,
the flag being 1 in each of its states in which a task is on the CPU. -/
theorem C32_running_flag :
    (∀ (quantumA quantumB : Int) (procs : List Process) (tasks : List Task)
        (queueB : List Nat) (n : Nat) (m : Machine) (t : Nat),
      runInput false quantumA quantumB procs tasks queueB n = some m →
      queueB.Nodup →
      (∀ p y, y ∈ (getP procs p).tasks → (getT tasks y).parent = p) →
      m.sim.cpu ≠ 0 → m.sim.t = some t →
      (getT m.sim.tasks t).type = 'e' → 0 < (getT m.sim.tasks t).time →
      0 < (getP m.sim.procs (getT m.sim.tasks t).parent).quantum →
      (m.loc = Loc.midA →
        ∃ s1, execA false quantumA m.sim = some s1 ∧
          next false quantumA quantumB m = some { loc := Loc.inA, sim := tailA s1 } ∧
          ∀ s2, s2 = s1 ∨ s2 = tailA s1 →
            ContinuedStep m.sim s2 t ∧ s2.cpu ≠ 0 ∧ s2.t = some t ∧
            (getP s2.procs (getT m.sim.tasks t).parent).taskRunning = 1) ∧
      (m.loc = Loc.midB →
        ∃ s1, execB false quantumA quantumB m.sim = some s1 ∧
          next false quantumA quantumB m = some { loc := Loc.inB, sim := tailB s1 } ∧
          ∀ s2, s2 = s1 ∨ s2 = tailB s1 →
            ContinuedStep m.sim s2 t ∧ s2.cpu ≠ 0 ∧ s2.t = some t ∧
            (getP s2.procs (getT m.sim.tasks t).parent).taskRunning = 1)) ∧

    runInput true 2 3 flagProcs flagTasks [0, 1] 46 =
      some (stateAt true 2 3 flagProcs flagTasks [0, 1] 46) ∧
    (stateAt true 2 3 flagProcs flagTasks [0, 1] 46).loc = Loc.midA ∧
    (stateAt true 2 3 flagProcs flagTasks [0, 1] 46).sim.cpu = 0 ∧
    (stateAt true 2 3 flagProcs flagTasks [0, 1] 46).sim.readyQueueA = [0, 2] ∧
    (getT flagTasks 2).parent = 1 ∧ (getT flagTasks 3).parent = 1 ∧
    (stateAt true 2 3 flagProcs flagTasks [0, 1] 47).sim.t = some 3 ∧
    (stateAt true 2 3 flagProcs flagTasks [0, 1] 47).sim.readyQueueA = [2] ∧
    (stateAt true 2 3 flagProcs flagTasks [0, 1] 53).sim.t = some 2 ∧
    (stateAt true 2 3 flagProcs flagTasks [0, 1] 53).sim.ioQueue = [3] ∧
    (getP (stateAt true 2 3 flagProcs flagTasks [0, 1] 53).sim.procs 1).taskRunning = 1 ∧
    runInput true 2 3 flagProcs flagTasks [0, 1] 54 =
      some (stateAt true 2 3 flagProcs flagTasks [0, 1] 54) ∧
    (stateAt true 2 3 flagProcs flagTasks [0, 1] 54).loc = Loc.midA ∧
    (stateAt true 2 3 flagProcs flagTasks [0, 1] 54).sim.cpu = 1 ∧
    (stateAt true 2 3 flagProcs flagTasks [0, 1] 54).sim.t = some 2 ∧
    (stateAt true 2 3 flagProcs flagTasks [0, 1] 54).sim.ioQueue = [] ∧
    (getT (stateAt true 2 3 flagProcs flagTasks [0, 1] 54).sim.tasks 2).type = 'e' ∧
    (getT (stateAt true 2 3 flagProcs flagTasks [0, 1] 54).sim.tasks 2).time = 1 ∧
    (getP (stateAt true 2 3 flagProcs flagTasks [0, 1] 54).sim.procs 1).quantum = 1 ∧
    (getP (stateAt true 2 3 flagProcs flagTasks [0, 1] 54).sim.procs 1).taskRunning = 0 ∧
    preemptionCheck (stateAt true 2 3 flagProcs flagTasks [0, 1] 54).sim.procs
      (stateAt true 2 3 flagProcs flagTasks [0, 1] 54).sim.tasks
      (stateAt true 2 3 flagProcs flagTasks [0, 1] 54).sim.readyQueueB 2
      (stateAt true 2 3 flagProcs flagTasks [0, 1] 54).sim.stats.runtime
      (stateAt true 2 3 flagProcs flagTasks [0, 1] 54).sim.queueB = false ∧
    next true 2 3 (stateAt true 2 3 flagProcs flagTasks [0, 1] 54) =
      some (stateAt true 2 3 flagProcs flagTasks [0, 1] 55) ∧
    (stateAt true 2 3 flagProcs flagTasks [0, 1] 55).sim.cpu = 1 ∧
    (stateAt true 2 3 flagProcs flagTasks [0, 1] 55).sim.t = some 2 ∧
    (getT (stateAt true 2 3 flagProcs flagTasks [0, 1] 55).sim.tasks 2).time = 0 ∧
    (getP (stateAt true 2 3 flagProcs flagTasks [0, 1] 55).sim.procs 1).quantum = 0 ∧
    (getP (stateAt true 2 3 flagProcs flagTasks [0, 1] 55).sim.procs 1).taskRunning = 0 ∧
    (stateAt false 2 3 flagProcs flagTasks [0, 1] 113).loc = Loc.done ∧
    (∀ k, k ≤ 113 →
      (stateAt false 2 3 flagProcs flagTasks [0, 1] k).sim.cpu ≠ 0 →
      ∃ t, (stateAt false 2 3 flagProcs flagTasks [0, 1] k).sim.t = some t ∧
        (getP (stateAt false 2 3 flagProcs flagTasks [0, 1] k).sim.procs
          (getT flagTasks t).parent).taskRunning = 1) :=
  ⟨fun quantumA quantumB procs tasks queueB n m t hr hn hown hcpu ht he htime hq =>
    compute_continues_flag_set quantumA quantumB procs tasks queueB n m t hr hn hown hcpu ht
      he htime hq,
   by decide⟩

/-- Instance of part (a) of C32: the 7th state of the non-preemptive run on `flagProcs`
with quantumA = 2 and quantumB = 3 is the execution point of the tier-B loop with the
compute task 0 on the CPU, 9 units of time left and quantum 2; the step leaves 8 units and
quantum 1, the task on the CPU and the running flag of its process set. -/
theorem C32_running_flag_witness :
    runInput false 2 3 flagProcs flagTasks [0, 1] 7 =
      some (stateAt false 2 3 flagProcs flagTasks [0, 1] 7) ∧
    (stateAt false 2 3 flagProcs flagTasks [0, 1] 7).loc = Loc.midB ∧
    (getT (stateAt false 2 3 flagProcs flagTasks [0, 1] 7).sim.tasks 0).time = 9 ∧
    (getP (stateAt false 2 3 flagProcs flagTasks [0, 1] 7).sim.procs 0).quantum = 2 ∧
    ∃ s1, execB false 2 3 (stateAt false 2 3 flagProcs flagTasks [0, 1] 7).sim = some s1 ∧
      ContinuedStep (stateAt false 2 3 flagProcs flagTasks [0, 1] 7).sim s1 0 ∧
      s1.cpu ≠ 0 ∧ s1.t = some 0 ∧
      (getT s1.tasks 0).time = 8 ∧
      (getP s1.procs 0).taskRunning = 1 :=
  ⟨by decide, by decide, by decide, by decide,
    match (C32_running_flag.1 2 3 flagProcs flagTasks [0, 1] 7
      (stateAt false 2 3 flagProcs flagTasks [0, 1] 7) 0 (by decide) (by decide)
      flagProcs_owned (by decide) (by decide) (by decide) (by decide) (by decide)).2
      (by decide) with
    | ⟨s1, h1, _, h3⟩ =>
      ⟨s1, h1, (h3 s1 (Or.inl rfl)).1, (h3 s1 (Or.inl rfl)).2.1, (h3 s1 (Or.inl rfl)).2.2.1,
        by rw [(h3 s1 (Or.inl rfl)).1.2.2.1]; decide, (h3 s1 (Or.inl rfl)).2.2.2⟩⟩

end Sched
